import Mathlib

/-!
# SeisSol: the dependency scheduler of clustered local time stepping

A shallow embedding of `seissol::time_stepping::TimeManager`
(`src/Solver/time_stepping/TimeManager.{h,cpp}`).

Conventions of the embedding.

* Times (`double` in the source) are rationals; `std::abs` is `|·|`,
  `std::min` is `min`, and `std::numeric_limits<double>::max()` is the rational
  `DBL_MAX`.  The scheduler is embedded twice.  The definitions of the
  namespace `Ieee` (section "The scheduler in double arithmetic") round every
  sum, difference and product to the nearest double, as the source does; the
  statements about the times of the clusters and about the run of
  `advanceInTime` are made on them.  The definitions of the same names outside
  `Ieee` compute the same expressions without rounding; they are the
  scheduler in exact arithmetic, on which the statements about flags, queues
  and counters are made and with which the run in double arithmetic is
  compared (section "Simulation on the grid").
* `m_clusters` (a vector of cluster pointers) is a function from the local
  cluster id to the cluster record; a queue stores local cluster ids in place
  of pointers.  The arrays of `TimeStepping` are functions of the index.
* The build without `USE_MPI` is followed: the two copy-layer lists are part
  of the state, nothing is pushed on them, and the `#ifdef USE_MPI` blocks are
  absent.
* Cluster counts are natural numbers and every theorem takes at least one
  cluster, where `numberOfLocalClusters-1` of the source does not wrap.
* The counters `m_numberOfFullUpdates` and `m_logUpdates` (`unsigned int`) are
  natural numbers that do not wrap; no guard of `updateClusterDependencies`
  reads them.
* A failed `assert` is the result `none`.
-/

namespace SeisSol

/-- The value of `std::numeric_limits<double>::max()`. -/
def DBL_MAX : ℚ := 2 ^ 1024 - 2 ^ 971

/-- The four in-flight flags `m_updatable` of a time cluster. -/
structure Updatable where
  localCopy : Bool
  localInterior : Bool
  neighboringCopy : Bool
  neighboringInterior : Bool
  deriving DecidableEq, Repr

/-- The scalar state of a `TimeCluster` that the time manager reads and writes. -/
structure TimeCluster where
  m_clusterId : Nat
  m_globalClusterId : Nat
  m_updatable : Updatable
  m_predictionTime : ℚ
  m_fullUpdateTime : ℚ
  m_receiverTime : ℚ
  m_subTimeStart : ℚ
  m_timeStepWidth : ℚ
  m_numberOfFullUpdates : Nat
  m_resetLtsBuffers : Bool
  m_sendLtsBuffers : Bool
  deriving DecidableEq, Repr

/-- The fields of `struct TimeStepping` used by the time manager. -/
structure TimeStepping where
  globalTimeStepRates : Nat → Nat
  globalCflTimeStepWidths : Nat → ℚ
  synchronizationTime : ℚ
  numberOfLocalClusters : Nat
  clusterIds : Nat → Nat

/-- The state of `TimeManager`: the time stepping, the clusters, the two
copy-layer lists, the two interior priority queues and the log counter. -/
structure TimeManager where
  m_logUpdates : Nat
  m_timeStepping : TimeStepping
  m_clusters : Nat → TimeCluster
  m_localCopyQueue : List Nat
  m_localInteriorQueue : List Nat
  m_neighboringCopyQueue : List Nat
  m_neighboringInteriorQueue : List Nat

/-- Top of a `std::priority_queue` under `clusterCompare`
(`first->m_globalClusterId > second->m_globalClusterId`): with that comparator
as the queue's "less", the top is a queued cluster of least global id.  Among
equal global ids the one queued first is taken. -/
def pqTop (gid : Nat → Nat) : List Nat → Option Nat
  | [] => none
  | x :: xs =>
    match pqTop gid xs with
    | none => some x
    | some y => if gid y < gid x then some y else some x

/-- The queue after `pop()`: the top element is removed. -/
def pqPop (gid : Nat → Nat) (q : List Nat) : List Nat :=
  match pqTop gid q with
  | none => q
  | some t => q.erase t

/-- Source `TimeManager::getTimeTolerance` in exact arithmetic: the product
is not rounded and `1E-5` is the rational `1/100000`.  The value in double
arithmetic is `Ieee.getTimeTolerance`. -/
def getTimeTolerance (s : TimeManager) : ℚ :=
  (1 / 100000) * s.m_timeStepping.globalCflTimeStepWidths 0

/-- The guard of the first `if` in the loop body of
`updateClusterDependencies` (requirements 1 to 5 for a full update) for
cluster `l_cluster`, in exact arithmetic: the differences are not rounded.
The guard in double arithmetic is `Ieee.fullUpdateCondition`. -/
def fullUpdateCondition (s : TimeManager) (l_cluster : Nat) : Bool :=
  let l_timeTolerance := getTimeTolerance s
  let l_previousPredictionTime :=
    if l_cluster > 0 then (s.m_clusters (l_cluster - 1)).m_predictionTime else DBL_MAX
  let l_predictionTime := (s.m_clusters l_cluster).m_predictionTime
  let l_fullUpdateTime := (s.m_clusters l_cluster).m_fullUpdateTime
  let l_nextPredictionTime :=
    if l_cluster < s.m_timeStepping.numberOfLocalClusters - 1
    then (s.m_clusters (l_cluster + 1)).m_predictionTime else DBL_MAX
  (!(s.m_clusters l_cluster).m_updatable.neighboringCopy
    && !(s.m_clusters l_cluster).m_updatable.neighboringInterior)
  && decide (|l_fullUpdateTime - s.m_timeStepping.synchronizationTime| > l_timeTolerance)
  && decide (l_previousPredictionTime > l_predictionTime - l_timeTolerance)
  && decide (|l_predictionTime - l_fullUpdateTime| > l_timeTolerance)
  && decide (l_nextPredictionTime > l_predictionTime - l_timeTolerance)

/-- The guard of the second `if` in the loop body of
`updateClusterDependencies` (requirements 1 to 5 for a prediction) for
cluster `l_cluster`, in exact arithmetic: the sums and differences are not
rounded.  The guard in double arithmetic is `Ieee.predictionCondition`. -/
def predictionCondition (s : TimeManager) (l_cluster : Nat) : Bool :=
  let l_timeTolerance := getTimeTolerance s
  let l_previousFullUpdateTime :=
    if l_cluster > 0 then (s.m_clusters (l_cluster - 1)).m_fullUpdateTime else DBL_MAX
  let l_predictionTime := (s.m_clusters l_cluster).m_predictionTime
  let l_fullUpdateTime := (s.m_clusters l_cluster).m_fullUpdateTime
  let l_nextUpcomingFullUpdateTime :=
    if l_cluster < s.m_timeStepping.numberOfLocalClusters - 1
    then (s.m_clusters (l_cluster + 1)).m_fullUpdateTime
           + (s.m_clusters (l_cluster + 1)).m_timeStepWidth
    else DBL_MAX
  (!(s.m_clusters l_cluster).m_updatable.localCopy
    && !(s.m_clusters l_cluster).m_updatable.localInterior)
  && decide (|l_fullUpdateTime - s.m_timeStepping.synchronizationTime| > l_timeTolerance)
  && decide (l_previousFullUpdateTime > l_predictionTime - l_timeTolerance)
  && decide (|l_fullUpdateTime - l_predictionTime| < l_timeTolerance)
  && decide (l_nextUpcomingFullUpdateTime > l_predictionTime + l_timeTolerance)

/-- The record of a cluster after `m_updatable.neighboringInterior = true`. -/
def markFullUpdate (c : TimeCluster) : TimeCluster :=
  { c with m_updatable := { c.m_updatable with neighboringInterior := true } }

/-- The body of the first `if`: the cluster is flagged and pushed on the
neighboring interior queue. -/
def enqueueFullUpdate (s : TimeManager) (l_cluster : Nat) : TimeManager :=
  { s with
    m_clusters := Function.update s.m_clusters l_cluster (markFullUpdate (s.m_clusters l_cluster))
    m_neighboringInteriorQueue := s.m_neighboringInteriorQueue ++ [l_cluster] }

/-- The record of a cluster after the body of the second `if`: flagged for a
prediction, with the next time step width, `m_resetLtsBuffers`,
`m_subTimeStart` and `m_sendLtsBuffers` derived, in exact arithmetic: the
difference that clips the time step width and the sum compared with the
synchronization time are not rounded.  The record in double arithmetic is
`Ieee.predictionSetup`. -/
def predictionSetup (ts : TimeStepping) (l_timeTolerance : ℚ) (l_cluster : Nat)
    (c : TimeCluster) : TimeCluster :=
  let l_globalClusterId := ts.clusterIds l_cluster
  let c1 := { c with m_updatable := { c.m_updatable with localInterior := true } }
  let c2 := { c1 with m_timeStepWidth := ts.globalCflTimeStepWidths l_globalClusterId }
  let c3 := { c2 with
    m_timeStepWidth := min c2.m_timeStepWidth (ts.synchronizationTime - c2.m_fullUpdateTime) }
  let c4 :=
    if c3.m_numberOfFullUpdates % ts.globalTimeStepRates l_globalClusterId = 0
    then { c3 with m_resetLtsBuffers := true, m_subTimeStart := 0 }
    else { c3 with m_resetLtsBuffers := false }
  let c5 :=
    if (c4.m_numberOfFullUpdates + 1) % ts.globalTimeStepRates l_globalClusterId = 0
    then { c4 with m_sendLtsBuffers := true }
    else { c4 with m_sendLtsBuffers := false }
  if |ts.synchronizationTime - (c5.m_fullUpdateTime + c5.m_timeStepWidth)| < l_timeTolerance
  then { c5 with m_sendLtsBuffers := true }
  else c5

/-- The body of the second `if`: the cluster is set up for its prediction
and pushed on the local interior queue. -/
def enqueuePrediction (s : TimeManager) (l_cluster : Nat) : TimeManager :=
  { s with
    m_clusters := Function.update s.m_clusters l_cluster
      (predictionSetup s.m_timeStepping (getTimeTolerance s) l_cluster (s.m_clusters l_cluster))
    m_localInteriorQueue := s.m_localInteriorQueue ++ [l_cluster] }

/-- One pass of the loop body of `updateClusterDependencies` for cluster
`l_cluster`.  The source reads the times of the cluster and of its neighbours
once, before the first `if`; the first `if` changes none of them, so the
second guard is evaluated on the state it leaves. -/
def evaluateCluster (l_cluster : Nat) (s : TimeManager) : TimeManager :=
  let s1 := if fullUpdateCondition s l_cluster then enqueueFullUpdate s l_cluster else s
  if predictionCondition s1 l_cluster then enqueuePrediction s1 l_cluster else s1

/-- The record of cluster `l_cluster` after its pass of the loop body. -/
def evaluatedCluster (s : TimeManager) (l_cluster : Nat) : TimeCluster :=
  let c1 := if fullUpdateCondition s l_cluster then markFullUpdate (s.m_clusters l_cluster)
            else s.m_clusters l_cluster
  if predictionCondition s l_cluster
  then predictionSetup s.m_timeStepping (getTimeTolerance s) l_cluster c1 else c1

/-- Source `TimeManager::updateClusterDependencies`: the clusters from
`l_lowerCluster` to `l_upperCluster` are evaluated in ascending order. -/
def updateClusterDependencies (i_localClusterId : Nat) (s : TimeManager) : TimeManager :=
  let l_lowerCluster := if i_localClusterId ≠ 0 then i_localClusterId - 1 else i_localClusterId
  let l_upperCluster :=
    if i_localClusterId < s.m_timeStepping.numberOfLocalClusters - 1
    then i_localClusterId + 1 else i_localClusterId
  (List.range' l_lowerCluster (l_upperCluster + 1 - l_lowerCluster)).foldl
    (fun t l_cluster => evaluateCluster l_cluster t) s

/-- Modelled from the spec: `TimeCluster::computeLocalInterior`, whose source
is not part of the repository files.  A completed prediction step advances
`predictionTime` by `timeStepWidth` and clears the local flag.  The sum is
exact here and rounded in `Ieee.computeLocalInterior`. -/
def computeLocalInterior (c : TimeCluster) : TimeCluster :=
  { c with
    m_predictionTime := c.m_predictionTime + c.m_timeStepWidth
    m_updatable := { c.m_updatable with localInterior := false } }

/-- Modelled from the spec: `TimeCluster::computeNeighboringInterior`, whose
source is not part of the repository files.  A completed correction step
advances `fullUpdateTime` by `timeStepWidth`, counts one more full update and
clears the neighboring flag.  The sum is exact here and rounded in
`Ieee.computeNeighboringInterior`. -/
def computeNeighboringInterior (c : TimeCluster) : TimeCluster :=
  { c with
    m_fullUpdateTime := c.m_fullUpdateTime + c.m_timeStepWidth
    m_numberOfFullUpdates := c.m_numberOfFullUpdates + 1
    m_updatable := { c.m_updatable with neighboringInterior := false } }

/-- The key of the interior priority queues: the global id of a queued cluster. -/
def queueKey (s : TimeManager) (l : Nat) : Nat := (s.m_clusters l).m_globalClusterId

/-- The block "update a single interior region (if present) with local
updates" of `advanceInTime`. -/
def localInteriorStep (s : TimeManager) : TimeManager :=
  match pqTop (queueKey s) s.m_localInteriorQueue with
  | none => s
  | some l =>
    let s1 : TimeManager :=
      { s with
        m_clusters := Function.update s.m_clusters l (computeLocalInterior (s.m_clusters l))
        m_localInteriorQueue := pqPop (queueKey s) s.m_localInteriorQueue }
    updateClusterDependencies (s1.m_clusters l).m_clusterId s1

/-- The block "update a single interior region (if present) with neighboring
updates" of `advanceInTime`. -/
def neighboringInteriorStep (s : TimeManager) : TimeManager :=
  match pqTop (queueKey s) s.m_neighboringInteriorQueue with
  | none => s
  | some l =>
    let s1 : TimeManager :=
      { s with
        m_clusters := Function.update s.m_clusters l (computeNeighboringInterior (s.m_clusters l))
        m_neighboringInteriorQueue := pqPop (queueKey s) s.m_neighboringInteriorQueue }
    updateClusterDependencies (s1.m_clusters l).m_clusterId s1

/-- The block "print progress of largest time cluster" of `advanceInTime`;
of the log only the counter `m_logUpdates` is kept. -/
def logProgress (s : TimeManager) : TimeManager :=
  let last := s.m_clusters (s.m_timeStepping.numberOfLocalClusters - 1)
  if last.m_numberOfFullUpdates ≠ s.m_logUpdates ∧ last.m_numberOfFullUpdates % 100 = 0
  then { s with m_logUpdates := last.m_numberOfFullUpdates }
  else s

/-- One iteration of the `while` loop of `advanceInTime`. -/
def advanceInTimeIteration (s : TimeManager) : TimeManager :=
  logProgress (neighboringInteriorStep (localInteriorStep s))

/-- The negated guard of the `while` loop: all four queues are empty. -/
def allQueuesEmpty (s : TimeManager) : Bool :=
  s.m_localCopyQueue.isEmpty && s.m_localInteriorQueue.isEmpty
    && s.m_neighboringCopyQueue.isEmpty && s.m_neighboringInteriorQueue.isEmpty

/-- The default values that `advanceInTime` gives a cluster before the
queues are initialised. -/
def resetCluster (c : TimeCluster) : TimeCluster :=
  { c with
    m_updatable := { c.m_updatable with localInterior := false, neighboringInterior := false }
    m_resetLtsBuffers := true
    m_timeStepWidth := 0
    m_subTimeStart := 0
    m_numberOfFullUpdates := 0 }

/-- The state after the first loop of `advanceInTime`: the synchronization
time is stored and every cluster has its default values. -/
def resetState (i_synchronizationTime : ℚ) (s : TimeManager) : TimeManager :=
  { s with
    m_timeStepping := { s.m_timeStepping with synchronizationTime := i_synchronizationTime }
    m_clusters := fun l =>
      if l < s.m_timeStepping.numberOfLocalClusters then resetCluster (s.m_clusters l)
      else s.m_clusters l }

/-- The part of `advanceInTime` before the `while` loop: the synchronization
time is stored, every cluster gets its default values, and
`updateClusterDependencies` runs for the clusters in ascending order. -/
def advanceInTimeSetup (i_synchronizationTime : ℚ) (s : TimeManager) : TimeManager :=
  (List.range s.m_timeStepping.numberOfLocalClusters).foldl
    (fun t l_cluster => updateClusterDependencies l_cluster t)
    (resetState i_synchronizationTime s)

/-- The `while` loop of `advanceInTime` run for at most `fuel` iterations:
`some` of the state at loop exit, `none` when the queues are still not empty. -/
def advanceInTimeLoop : Nat → TimeManager → Option TimeManager
  | 0, s => if allQueuesEmpty s then some s else none
  | fuel + 1, s =>
    if allQueuesEmpty s then some s else advanceInTimeLoop fuel (advanceInTimeIteration s)

/-- Source `TimeManager::advanceInTime`, with the `while` loop bounded by
`fuel` iterations.  The result is `none` when the assertion
`synchronizationTime <= i_synchronizationTime` fails or the fuel runs out. -/
def advanceInTime (fuel : Nat) (i_synchronizationTime : ℚ) (s : TimeManager) :
    Option TimeManager :=
  if s.m_timeStepping.synchronizationTime ≤ i_synchronizationTime
  then advanceInTimeLoop fuel (advanceInTimeSetup i_synchronizationTime s)
  else none

/-- Source `TimeManager::setInitialTimes`; `none` when `assert( i_time >= 0 )`
fails. -/
def setInitialTimes (i_time : ℚ) (s : TimeManager) : Option TimeManager :=
  if 0 ≤ i_time then
    some { s with
      m_clusters := fun l =>
        if l < s.m_timeStepping.numberOfLocalClusters then
          { s.m_clusters l with
            m_predictionTime := i_time, m_fullUpdateTime := i_time, m_receiverTime := i_time }
        else s.m_clusters l }
  else none

/-! ## Concrete inputs -/

/-- A cluster record with local and global id `l`, prediction time `pred`,
full update time `fut`, time step width `tsw`, `n` full updates, all flags cleared. -/
def clusterAt (l : Nat) (pred fut tsw : ℚ) (n : Nat) : TimeCluster :=
  { m_clusterId := l, m_globalClusterId := l,
    m_updatable := ⟨false, false, false, false⟩,
    m_predictionTime := pred, m_fullUpdateTime := fut, m_receiverTime := 0,
    m_subTimeStart := 0, m_timeStepWidth := tsw, m_numberOfFullUpdates := n,
    m_resetLtsBuffers := false, m_sendLtsBuffers := false }

/-- A time manager with `n` local clusters whose global ids are their local
ids, the given rates, CFL widths and synchronization time, and empty queues. -/
def managerOf (n : Nat) (rates : List Nat) (cfl : List ℚ) (sync : ℚ)
    (clusters : Nat → TimeCluster) : TimeManager :=
  { m_logUpdates := 4294967295
    m_timeStepping :=
      { globalTimeStepRates := fun g => rates.getD g 1
        globalCflTimeStepWidths := fun g => cfl.getD g 1
        synchronizationTime := sync
        numberOfLocalClusters := n
        clusterIds := fun l => l }
    m_clusters := clusters
    m_localCopyQueue := [], m_localInteriorQueue := []
    m_neighboringCopyQueue := [], m_neighboringInteriorQueue := [] }

/-- Two clusters of widths 1 and 2 (tolerance 1/100000) on the way to the
synchronization time `1 + 1/200000`: cluster 0 has reached time 1 and is
within the tolerance of the synchronization time, cluster 1 has predicted up
to the synchronization time and awaits its correction. -/
def toleranceState : TimeManager :=
  managerOf 2 [2, 1] [1, 2] (200001 / 200000)
    (fun l => if l = 0 then clusterAt 0 1 1 1 1
              else clusterAt l (200001 / 200000) 0 (200001 / 200000) 0)

/-- Two clusters of widths 1 and 2 at the common time 0 with synchronization
time 1 and no work queued: the state in which `advanceInTime` starts to
initialise its queues. -/
def startState : TimeManager :=
  managerOf 2 [2, 1] [1, 2] 1 (fun l => clusterAt l 0 0 0 0)

/-- One cluster of width 1 and rate 2, after one full update, with three
quarters of a time step left to the synchronization time 7/4. -/
def clippedState : TimeManager :=
  managerOf 1 [2] [1] (7 / 4) (fun l => clusterAt l 1 1 1 1)

/-- One cluster of width 1 and rate 1, synchronization time 0, as built by
`addClusters`. -/
def singleCluster : TimeManager :=
  managerOf 1 [1] [1] 0 (fun l => clusterAt l 0 0 0 0)

/-- Two clusters of widths 1 and 2 (rates 2 and 1) at the common time 0,
synchronization time 0, as built by `addClusters`. -/
def twoClusters : TimeManager :=
  managerOf 2 [2, 1] [1, 2] 0 (fun l => clusterAt l 0 0 0 0)

/-- Three clusters with rates 1, 2, 4 and widths 1/4, 1/2, 1 at the common
time 0, synchronization time 0, as built by `addClusters`. -/
def threeClusters : TimeManager :=
  managerOf 3 [1, 2, 4] [1 / 4, 1 / 2, 1] 0 (fun l => clusterAt l 0 0 0 0)

/-! ## Notions used to state the properties of a run -/

/-- The manager is consistent with the way `addClusters` builds it and the
scheduler without `USE_MPI` maintains it: cluster `l` carries the local id
`l`, the copy-layer flags are clear and the copy-layer lists empty, and each
interior queue holds, once each, exactly the clusters whose flag is set. -/
structure WellFormed (s : TimeManager) : Prop where
  ids : ∀ l, l < s.m_timeStepping.numberOfLocalClusters → (s.m_clusters l).m_clusterId = l
  localCopy : ∀ l, l < s.m_timeStepping.numberOfLocalClusters →
    (s.m_clusters l).m_updatable.localCopy = false
  neighboringCopy : ∀ l, l < s.m_timeStepping.numberOfLocalClusters →
    (s.m_clusters l).m_updatable.neighboringCopy = false
  localCopyQueue : s.m_localCopyQueue = []
  neighboringCopyQueue : s.m_neighboringCopyQueue = []
  localBound : ∀ l, l ∈ s.m_localInteriorQueue → l < s.m_timeStepping.numberOfLocalClusters
  localFlag : ∀ l, l < s.m_timeStepping.numberOfLocalClusters →
    (l ∈ s.m_localInteriorQueue ↔ (s.m_clusters l).m_updatable.localInterior = true)
  localNodup : s.m_localInteriorQueue.Nodup
  neighboringBound : ∀ l, l ∈ s.m_neighboringInteriorQueue →
    l < s.m_timeStepping.numberOfLocalClusters
  neighboringFlag : ∀ l, l < s.m_timeStepping.numberOfLocalClusters →
    (l ∈ s.m_neighboringInteriorQueue
      ↔ (s.m_clusters l).m_updatable.neighboringInterior = true)
  neighboringNodup : s.m_neighboringInteriorQueue.Nodup

/-- A manager between two calls of `advanceInTime`: built as by
`addClusters`, with all four queues empty. -/
structure Idle (s : TimeManager) : Prop where
  ids : ∀ l, l < s.m_timeStepping.numberOfLocalClusters → (s.m_clusters l).m_clusterId = l
  localCopy : ∀ l, l < s.m_timeStepping.numberOfLocalClusters →
    (s.m_clusters l).m_updatable.localCopy = false
  neighboringCopy : ∀ l, l < s.m_timeStepping.numberOfLocalClusters →
    (s.m_clusters l).m_updatable.neighboringCopy = false
  localCopyQueue : s.m_localCopyQueue = []
  localInteriorQueue : s.m_localInteriorQueue = []
  neighboringCopyQueue : s.m_neighboringCopyQueue = []
  neighboringInteriorQueue : s.m_neighboringInteriorQueue = []

/-- The moves of one cluster record during a call of `advanceInTime` with
time stepping `ts` and tolerance `e`: it is flagged for a full update or set
up for a prediction under the parts of the two guards that concern the
cluster alone, and it completes a prediction or a correction when the
respective flag is set. -/
inductive LocalStep (ts : TimeStepping) (e : ℚ) (l : Nat) : TimeCluster → TimeCluster → Prop
  | markFull (c : TimeCluster) :
      c.m_updatable.neighboringInterior = false →
      |c.m_fullUpdateTime - ts.synchronizationTime| > e →
      |c.m_predictionTime - c.m_fullUpdateTime| > e →
      LocalStep ts e l c (markFullUpdate c)
  | setupPrediction (c : TimeCluster) :
      c.m_updatable.localInterior = false →
      |c.m_fullUpdateTime - ts.synchronizationTime| > e →
      |c.m_fullUpdateTime - c.m_predictionTime| < e →
      LocalStep ts e l c (predictionSetup ts e l c)
  | predict (c : TimeCluster) :
      c.m_updatable.localInterior = true →
      LocalStep ts e l c (computeLocalInterior c)
  | correct (c : TimeCluster) :
      c.m_updatable.neighboringInterior = true →
      LocalStep ts e l c (computeNeighboringInterior c)

/-- The state after `computeLocalInterior` of the queued cluster `l` and the
`pop()` that removes it from the local interior queue. -/
def afterPrediction (s : TimeManager) (l : Nat) : TimeManager :=
  { s with
    m_clusters := Function.update s.m_clusters l (computeLocalInterior (s.m_clusters l))
    m_localInteriorQueue := s.m_localInteriorQueue.erase l }

/-- The state after `computeNeighboringInterior` of the queued cluster `l`
and the `pop()` that removes it from the neighboring interior queue. -/
def afterCorrection (s : TimeManager) (l : Nat) : TimeManager :=
  { s with
    m_clusters := Function.update s.m_clusters l (computeNeighboringInterior (s.m_clusters l))
    m_neighboringInteriorQueue := s.m_neighboringInteriorQueue.erase l }

/-- From `s` to `t` the time stepping is unchanged and every cluster record
has made a sequence of the moves of `LocalStep`. -/
def Evolves (s t : TimeManager) : Prop :=
  t.m_timeStepping = s.m_timeStepping
    ∧ ∀ l, Relation.ReflTransGen (LocalStep s.m_timeStepping (getTimeTolerance s) l)
        (s.m_clusters l) (t.m_clusters l)

/-- The states of one call `advanceInTime(T)` entered in state `s0`: the
state after the initialisation of the queues, and every state that one of
the three blocks of the loop body leaves (the local interior update, the
neighboring interior update, the progress log), so also the states between
the blocks of one iteration. -/
inductive Reached (T : ℚ) (s0 : TimeManager) : TimeManager → Prop
  | setup : Reached T s0 (advanceInTimeSetup T s0)
  | localInterior {s : TimeManager} :
      Reached T s0 s → Reached T s0 (localInteriorStep s)
  | neighboringInterior {s : TimeManager} :
      Reached T s0 s → Reached T s0 (neighboringInteriorStep s)
  | log {s : TimeManager} : Reached T s0 s → Reached T s0 (logProgress s)

/-- The facts about one cluster record that bound its full update time by
the synchronization time `T` (tolerance `e`): a cluster flagged for a
prediction has consumed its last prediction and its next step stays below
`T`; an unflagged cluster has consumed its last prediction, or has predicted
one step that stays below `T`, or has a step of width 0; a cluster flagged
for a full update has a prediction pending. -/
def SyncBounded (T e : ℚ) (c : TimeCluster) : Prop :=
  c.m_fullUpdateTime ≤ T
    ∧ (c.m_updatable.localInterior = true →
        |c.m_predictionTime - c.m_fullUpdateTime| < e
          ∧ c.m_fullUpdateTime + c.m_timeStepWidth ≤ T)
    ∧ (c.m_updatable.localInterior = false →
        |c.m_predictionTime - c.m_fullUpdateTime| < e
          ∨ (|c.m_predictionTime - c.m_fullUpdateTime - c.m_timeStepWidth| < e
              ∧ c.m_fullUpdateTime + c.m_timeStepWidth ≤ T)
          ∨ c.m_timeStepWidth = 0)
    ∧ (c.m_updatable.neighboringInterior = true →
        |c.m_predictionTime - c.m_fullUpdateTime| > e)

/-- The facts about one cluster record that order its times: the step width
is not negative, `fullUpdateTime ≤ T`, and the prediction time is ahead of the
full update time by less than `e` (prediction consumed), or by the step width
and less than `e` more (prediction pending), or the step width is 0. -/
def Ordered (T e : ℚ) (c : TimeCluster) : Prop :=
  0 ≤ c.m_timeStepWidth
    ∧ c.m_fullUpdateTime ≤ T
    ∧ (c.m_updatable.localInterior = true →
        0 ≤ c.m_predictionTime - c.m_fullUpdateTime
          ∧ c.m_predictionTime - c.m_fullUpdateTime < e
          ∧ c.m_fullUpdateTime + c.m_timeStepWidth ≤ T)
    ∧ (c.m_updatable.localInterior = false →
        (0 ≤ c.m_predictionTime - c.m_fullUpdateTime
            ∧ c.m_predictionTime - c.m_fullUpdateTime < e)
          ∨ (0 ≤ c.m_predictionTime - c.m_fullUpdateTime - c.m_timeStepWidth
              ∧ c.m_predictionTime - c.m_fullUpdateTime - c.m_timeStepWidth < e
              ∧ c.m_fullUpdateTime + c.m_timeStepWidth ≤ T)
          ∨ (c.m_timeStepWidth = 0 ∧ 0 ≤ c.m_predictionTime - c.m_fullUpdateTime))
    ∧ (c.m_updatable.neighboringInterior = true →
        |c.m_predictionTime - c.m_fullUpdateTime| > e)

/-- The facts about one cluster record behind the progress of a call: as
`Ordered`, without the case of a step of width 0, and every step that is set
up or pending has width at least `d`. -/
def Progressing (T e d : ℚ) (c : TimeCluster) : Prop :=
  0 ≤ c.m_timeStepWidth
    ∧ c.m_fullUpdateTime ≤ T
    ∧ (c.m_updatable.localInterior = true →
        0 ≤ c.m_predictionTime - c.m_fullUpdateTime
          ∧ c.m_predictionTime - c.m_fullUpdateTime < e
          ∧ c.m_fullUpdateTime + c.m_timeStepWidth ≤ T
          ∧ d ≤ c.m_timeStepWidth)
    ∧ (c.m_updatable.localInterior = false →
        (0 ≤ c.m_predictionTime - c.m_fullUpdateTime
            ∧ c.m_predictionTime - c.m_fullUpdateTime < e)
          ∨ (0 ≤ c.m_predictionTime - c.m_fullUpdateTime - c.m_timeStepWidth
              ∧ c.m_predictionTime - c.m_fullUpdateTime - c.m_timeStepWidth < e
              ∧ c.m_fullUpdateTime + c.m_timeStepWidth ≤ T
              ∧ d ≤ c.m_timeStepWidth))
    ∧ (c.m_updatable.neighboringInterior = true →
        |c.m_predictionTime - c.m_fullUpdateTime| > e)

/-- The states reachable from the manager `s0` by `setInitialTimes` followed
by calls of `advanceInTime`; the flag tells whether a call is running.  A call
is entered between two calls when its precondition holds and no cluster has a
full update time beyond its synchronization time; it runs through the states
of `Reached` and is left when all queues are empty. -/
inductive Reachable (s0 : TimeManager) : Bool → TimeManager → Prop
  | initial (i_time : ℚ) (s : TimeManager) :
      setInitialTimes i_time s0 = some s → Reachable s0 false s
  | enter (T : ℚ) {s : TimeManager} :
      Reachable s0 false s →
      s.m_timeStepping.synchronizationTime ≤ T →
      (∀ l, l < s.m_timeStepping.numberOfLocalClusters →
        (s.m_clusters l).m_fullUpdateTime ≤ T) →
      Reachable s0 true (advanceInTimeSetup T s)
  | localInterior {s : TimeManager} :
      Reachable s0 true s → Reachable s0 true (localInteriorStep s)
  | neighboringInterior {s : TimeManager} :
      Reachable s0 true s → Reachable s0 true (neighboringInteriorStep s)
  | log {s : TimeManager} : Reachable s0 true s → Reachable s0 true (logProgress s)
  | leave {s : TimeManager} :
      Reachable s0 true s → allQueuesEmpty s = true → Reachable s0 false s

/-- Every cluster flagged for a full update has both neighbours' prediction
times above its own prediction time minus the tolerance. -/
def CorrectionReady (s : TimeManager) : Prop :=
  ∀ l, l < s.m_timeStepping.numberOfLocalClusters →
    (s.m_clusters l).m_updatable.neighboringInterior = true →
    (0 < l → (s.m_clusters (l - 1)).m_predictionTime
        > (s.m_clusters l).m_predictionTime - getTimeTolerance s)
    ∧ (l + 1 < s.m_timeStepping.numberOfLocalClusters →
        (s.m_clusters (l + 1)).m_predictionTime
          > (s.m_clusters l).m_predictionTime - getTimeTolerance s)

/-- The time that the clusters of `s` have left to the synchronization time,
summed over their prediction times and their full update times. -/
def remainingTime (s : TimeManager) : ℚ :=
  ∑ l in Finset.range s.m_timeStepping.numberOfLocalClusters,
    ((s.m_timeStepping.synchronizationTime - (s.m_clusters l).m_predictionTime)
      + (s.m_timeStepping.synchronizationTime - (s.m_clusters l).m_fullUpdateTime))

/-- The invariant of the scheduling loop behind its termination: the manager
is well formed, the synchronization time is `T`, every cluster record is
`Progressing` with steps of width at least `d`, and `d` is positive and
bounded by the tolerance and by the CFL width of every cluster. -/
structure InProgress (T d : ℚ) (s : TimeManager) : Prop where
  wellFormed : WellFormed s
  sync : s.m_timeStepping.synchronizationTime = T
  progressing : ∀ l, l < s.m_timeStepping.numberOfLocalClusters →
    Progressing T (getTimeTolerance s) d (s.m_clusters l)
  widths : ∀ l, l < s.m_timeStepping.numberOfLocalClusters →
    d ≤ s.m_timeStepping.globalCflTimeStepWidths (s.m_timeStepping.clusterIds l)
  positive : 0 < d
  tolerance : d ≤ getTimeTolerance s

/-- The CFL width of the local cluster `l`. -/
def clusterWidth (ts : TimeStepping) (l : Nat) : ℚ :=
  ts.globalCflTimeStepWidths (ts.clusterIds l)

/-- The exact position of one cluster record on its time grid, for a call
that starts at time `t0`, runs to `T` and gives the cluster the width `w`:
the full update time is a grid point `t0 + j w` clipped at `T`; a cluster
flagged for a prediction has consumed its last prediction and its next step
is set up; an unflagged cluster has consumed its last prediction or has
predicted its one next step; a cluster flagged for a full update has a
prediction pending. -/
def OnGrid (t0 T w : ℚ) (c : TimeCluster) : Prop :=
  0 ≤ c.m_timeStepWidth
    ∧ (∃ j : Nat, c.m_fullUpdateTime = min (t0 + j * w) T)
    ∧ (c.m_updatable.localInterior = true →
        c.m_predictionTime = c.m_fullUpdateTime ∧ c.m_fullUpdateTime < T
          ∧ c.m_timeStepWidth = min w (T - c.m_fullUpdateTime))
    ∧ (c.m_updatable.localInterior = false →
        c.m_predictionTime = c.m_fullUpdateTime
          ∨ (c.m_predictionTime = c.m_fullUpdateTime + c.m_timeStepWidth
              ∧ c.m_timeStepWidth = min w (T - c.m_fullUpdateTime)
              ∧ c.m_fullUpdateTime < T))
    ∧ (c.m_updatable.neighboringInterior = true →
        c.m_predictionTime ≠ c.m_fullUpdateTime)

/-- Cluster `l` has been evaluated since its eligibility last changed: it
does not pass the full update guard, and if it passes the prediction guard,
then only because cluster `l + 1` has been set up for a prediction and waits
in the local interior queue. -/
def Settled (s : TimeManager) (l : Nat) : Prop :=
  fullUpdateCondition s l = false
    ∧ (predictionCondition s l = true →
        l + 1 < s.m_timeStepping.numberOfLocalClusters
          ∧ (s.m_clusters (l + 1)).m_updatable.localInterior = true)

/-- Two clusters ordered coarsest first, widths 2 and 1 (the rate multiples 2
and 1 of the finest width), at the common time 0, as built by `addClusters`. -/
def coarseFirst : TimeManager :=
  managerOf 2 [2, 1] [2, 1] 0 (fun l => clusterAt l 0 0 0 0)

/-- Two clusters ordered finest first, widths 1 and 2 (the rate multiples 1
and 2 of the finest width), at the common time 0, as built by `addClusters`. -/
def fineFirst : TimeManager :=
  managerOf 2 [1, 2] [1, 2] 0 (fun l => clusterAt l 0 0 0 0)

/-- The configuration for which the scheduler is built, for a call that
starts at time `t0` and runs to `T`: the tolerance is positive and below the
width of cluster 0; the widths are ordered finest first, each an integer
multiple of the width of the preceding cluster; no point `t0 + j w` of the
time grid of cluster 0 lies before `T` by the tolerance or less; and `T` plus
the tolerance is below the largest double. -/
structure FinestFirst (ts : TimeStepping) (t0 T : ℚ) : Prop where
  tolerance_pos : 0 < (1 / 100000) * ts.globalCflTimeStepWidths 0
  tolerance_lt : (1 / 100000) * ts.globalCflTimeStepWidths 0 < clusterWidth ts 0
  nested : ∀ l, l + 1 < ts.numberOfLocalClusters →
    ∃ r : Nat, 1 ≤ r ∧ clusterWidth ts (l + 1) = r * clusterWidth ts l
  separated : ∀ j : Nat, t0 + j * clusterWidth ts 0 < T →
    t0 + j * clusterWidth ts 0 + (1 / 100000) * ts.globalCflTimeStepWidths 0 < T
  representable : T + (1 / 100000) * ts.globalCflTimeStepWidths 0 < DBL_MAX

/-- A state of a call from `t0` to `T` in the finest-first configuration in
which no cluster is flagged: every cluster is on its grid and settled. -/
structure AtRest (t0 T : ℚ) (s : TimeManager) : Prop where
  config : FinestFirst s.m_timeStepping t0 T
  sync : s.m_timeStepping.synchronizationTime = T
  wellFormed : WellFormed s
  grid : ∀ l, l < s.m_timeStepping.numberOfLocalClusters →
    OnGrid t0 T (clusterWidth s.m_timeStepping l) (s.m_clusters l)
  settled : ∀ l, l < s.m_timeStepping.numberOfLocalClusters → Settled s l
  noLocal : ∀ l, l < s.m_timeStepping.numberOfLocalClusters →
    (s.m_clusters l).m_updatable.localInterior = false
  noNeighboring : ∀ l, l < s.m_timeStepping.numberOfLocalClusters →
    (s.m_clusters l).m_updatable.neighboringInterior = false

/-- The count of full updates of a cluster record on its time grid, for a
call that starts at time `t0`, runs to `T` and gives the cluster the width
`w`: the full update time is the grid point `t0 + n w` of the count `n`,
clipped at `T`, and every earlier grid point lies before `T`. -/
def Counted (t0 T w : ℚ) (c : TimeCluster) : Prop :=
  OnGrid t0 T w c
    ∧ c.m_fullUpdateTime = min (t0 + c.m_numberOfFullUpdates * w) T
    ∧ ∀ j : Nat, j < c.m_numberOfFullUpdates → t0 + j * w < T

/-- The cluster that the next iteration takes from the local interior queue,
with its count of full updates and its `m_sendLtsBuffers` at that moment:
the prediction with which update number `count + 1` of the cluster starts. -/
def localInteriorTaken (s : TimeManager) : Option (Nat × Nat × Bool) :=
  (pqTop (queueKey s) s.m_localInteriorQueue).map fun l =>
    (l, (s.m_clusters l).m_numberOfFullUpdates, (s.m_clusters l).m_sendLtsBuffers)

/-- The predictions that the `while` loop of `advanceInTime` computes in its
first `fuel` iterations, in order. -/
def predictionLog : Nat → TimeManager → List (Nat × Nat × Bool)
  | 0, _ => []
  | fuel + 1, s =>
    if allQueuesEmpty s then []
    else (localInteriorTaken s).toList ++ predictionLog fuel (advanceInTimeIteration s)

/-! ## The memory manager

The embedding of `seissol::initializers::MemoryManager`
(`src/Initializer/MemoryManager.{h,cpp}`).  For the memory manager the build
with `USE_MPI` is followed: the ghost and copy layers exist only there.

* The array `io_cellLocalInformation` is a function of the cell index, and a
  pointer into it (`m_ghostCellInformation[l_cluster]`, ...) is the index of
  the cell it points to.
* Cell counts and cell indices (`unsigned int`) are natural numbers: the
  cell array holds `m_totalNumberOfCells` cells, fewer than `2^32`.
* The sizes of the layers in reals (`unsigned int`) are computed modulo
  `2^32`; pointers of type `real*` are offsets, in reals, from the start of
  their layer.
* A failed `assert` and a call of `logError()` are the result `none`.
-/

/-- Modelled from the spec: the face types of a cell (`enum faceType` of
`typedefs.hpp`, which is not among the repository files); `other` stands for
every value that `initializeFaceNeighbors` does not handle. -/
inductive FaceType where
  | regular
  | freeSurface
  | outflow
  | dynamicRupture
  | periodic
  | other
  deriving DecidableEq, Repr

/-- The fields of `struct CellLocalInformation` that the memory manager
reads and writes. -/
structure CellLocalInformation where
  faceTypes : Nat → FaceType
  faceNeighborIds : Nat → Nat
  ltsSetup : Nat

/-- The fields of `struct MeshStructure` that the memory manager reads. -/
structure MeshStructure where
  numberOfRegions : Nat
  numberOfGhostRegionCells : Nat → Nat
  numberOfGhostRegionDerivatives : Nat → Nat
  numberOfCopyRegionCells : Nat → Nat
  numberOfGhostCells : Nat
  numberOfCopyCells : Nat
  numberOfInteriorCells : Nat

/-- A loop `for( l = 0; l < n; l++ ) body` whose body may fail. -/
def forLoop {σ : Type} (body : Nat → σ → Option σ) : Nat → σ → Option σ
  | 0, s => some s
  | n + 1, s => (forLoop body n s).bind (body n)

/-- A loop `for( l = 0; l < n; l++ ) body` whose body does not fail. -/
def iterLoop {σ : Type} (body : Nat → σ → σ) : Nat → σ → σ
  | 0, s => s
  | n + 1, s => body n (iterLoop body n s)

/-- The test `(ltsSetup >> k) % 2` of bit `k`. -/
def ltsBit (ltsSetup k : Nat) : Bool := (ltsSetup >>> k) % 2 ≠ 0

/-- The right-hand side of `ltsSetup &= ( ~(1 << k) )`: bit `k` is cleared
and every other bit is kept. -/
def clearBit (ltsSetup k : Nat) : Nat := ltsSetup ^^^ (ltsSetup &&& (1 <<< k))

/-- The cell record with another `ltsSetup`. -/
def CellLocalInformation.withLtsSetup (c : CellLocalInformation) (v : Nat) :
    CellLocalInformation :=
  { c with ltsSetup := v }

/-- The body of the innermost loop of `correctGhostRegionSetups` for the
ghost cell `l_cell` of region `l_region`, the region starting at
`l_offset`. -/
def correctGhostCell (ms : MeshStructure) (l_region l_offset l_cell : Nat)
    (cells : Nat → CellLocalInformation) : Option (Nat → CellLocalInformation) :=
  if l_cell < ms.numberOfGhostRegionDerivatives l_region then
    if ltsBit (cells (l_offset + l_cell)).ltsSetup 9 then
      some (Function.update cells (l_offset + l_cell)
        ((cells (l_offset + l_cell)).withLtsSetup
          (clearBit (clearBit (cells (l_offset + l_cell)).ltsSetup 8) 10)))
    else none
  else
    if ltsBit (cells (l_offset + l_cell)).ltsSetup 8 then
      some (Function.update cells (l_offset + l_cell)
        ((cells (l_offset + l_cell)).withLtsSetup
          (clearBit (cells (l_offset + l_cell)).ltsSetup 9)))
    else none

/-- The body of the loop over the ghost regions in
`correctGhostRegionSetups`; the state is `l_offset` and the cell array. -/
def correctGhostRegion (ms : MeshStructure) (l_region : Nat)
    (st : Nat × (Nat → CellLocalInformation)) : Option (Nat × (Nat → CellLocalInformation)) :=
  (forLoop (fun l_cell cells => correctGhostCell ms l_region st.1 l_cell cells)
      (ms.numberOfGhostRegionCells l_region) st.2).map
    fun cells => (st.1 + ms.numberOfGhostRegionCells l_region, cells)

/-- The body of the loop over the time clusters in
`correctGhostRegionSetups`. -/
def correctGhostCluster (ms : MeshStructure)
    (st : Nat × (Nat → CellLocalInformation)) : Option (Nat × (Nat → CellLocalInformation)) :=
  (forLoop (correctGhostRegion ms) ms.numberOfRegions st).map
    fun st1 => (st1.1 + ms.numberOfCopyCells + ms.numberOfInteriorCells, st1.2)

/-- Source `MemoryManager::correctGhostRegionSetups`: the corrected cell
array, or `none` when an assertion fails. -/
def correctGhostRegionSetups (m_numberOfClusters : Nat) (m_meshStructure : Nat → MeshStructure)
    (io_cellLocalInformation : Nat → CellLocalInformation) :
    Option (Nat → CellLocalInformation) :=
  (forLoop (fun l_cluster st => correctGhostCluster (m_meshStructure l_cluster) st)
      m_numberOfClusters (0, io_cellLocalInformation)).map Prod.snd

/-- The sum `f 0 + ... + f (n - 1)`. -/
def prefixSum (f : Nat → Nat) : Nat → Nat
  | 0 => 0
  | n + 1 => prefixSum f n + f n

/-- The number of ghost cells of a cluster as `correctGhostRegionSetups`
jumps over them: the sum of the sizes of its ghost regions. -/
def ghostRegionCells (ms : MeshStructure) : Nat :=
  prefixSum ms.numberOfGhostRegionCells ms.numberOfRegions

/-- The index in the cell array of the ghost cell `l_cell` of region
`l_region` of cluster `l_cluster`, in the order ghost, copy, interior of each
cluster, with the ghost regions in ascending order. -/
def ghostCellIndex (m_meshStructure : Nat → MeshStructure) (l_cluster l_region l_cell : Nat) :
    Nat :=
  prefixSum (fun c => ghostRegionCells (m_meshStructure c)
      + (m_meshStructure c).numberOfCopyCells + (m_meshStructure c).numberOfInteriorCells)
    l_cluster
  + prefixSum (m_meshStructure l_cluster).numberOfGhostRegionCells l_region + l_cell

/-- The assertion of `correctGhostRegionSetups` on the ghost cell `l_cell` of
region `l_region`: a cell among the first `numberOfGhostRegionDerivatives`
provides derivatives (bit 9), every other cell provides a buffer (bit 8). -/
def ghostCellValid (ms : MeshStructure) (l_region l_cell : Nat) (c : CellLocalInformation) :
    Bool :=
  if l_cell < ms.numberOfGhostRegionDerivatives l_region then ltsBit c.ltsSetup 9
  else ltsBit c.ltsSetup 8

/-- The record of the ghost cell `l_cell` of region `l_region` after its
correction: bits 8 and 10 are cleared for a cell among the first
`numberOfGhostRegionDerivatives`, bit 9 for every other cell. -/
def ghostCellCorrected (ms : MeshStructure) (l_region l_cell : Nat)
    (c : CellLocalInformation) : CellLocalInformation :=
  if l_cell < ms.numberOfGhostRegionDerivatives l_region
  then c.withLtsSetup (clearBit (clearBit c.ltsSetup 8) 10)
  else c.withLtsSetup (clearBit c.ltsSetup 9)

/-- A cell record with the given `ltsSetup`, four regular faces and face
neighbor 0 on every face. -/
def cellWith (ltsSetup : Nat) : CellLocalInformation :=
  { faceTypes := fun _ => FaceType.regular, faceNeighborIds := fun _ => 0, ltsSetup := ltsSetup }

/-- A mesh structure with one ghost region of 3 cells, the first of which
provides derivatives, one copy region of 2 cells and 2 interior cells. -/
def smallMesh : MeshStructure :=
  { numberOfRegions := 1
    numberOfGhostRegionCells := fun _ => 3
    numberOfGhostRegionDerivatives := fun _ => 1
    numberOfCopyRegionCells := fun _ => 2
    numberOfGhostCells := 3
    numberOfCopyCells := 2
    numberOfInteriorCells := 2 }

/-- The cell array of one cluster with the layout of `smallMesh`: three ghost
cells with both storage bits (768), with both bits and with the buffer bit
(256); two copy cells with both bits and with the derivative bit (512); two
interior cells with the buffer bit and with neither bit. -/
def smallCells : Nat → CellLocalInformation :=
  fun j => cellWith (([768, 768, 256, 768, 512, 256, 0] : List Nat).getD j 0)

/-- The counts `m_numberOf...` that `deriveLayerLayouts` derives for one
cluster. -/
structure LayerLayout where
  m_numberOfGhostBuffers : Nat
  m_numberOfGhostRegionBuffers : Nat → Nat
  m_numberOfGhostDerivatives : Nat
  m_numberOfGhostRegionDerivatives : Nat → Nat
  m_numberOfCopyBuffers : Nat
  m_numberOfCopyRegionBuffers : Nat → Nat
  m_numberOfCopyDerivatives : Nat
  m_numberOfCopyRegionDerivatives : Nat → Nat
  m_numberOfInteriorBuffers : Nat
  m_numberOfInteriorDerivatives : Nat

/-- The pointers `m_ghostCellInformation[l_cluster]`,
`m_copyCellInformation[l_cluster]` and `m_interiorCellInformation[l_cluster]`
of one cluster, as indices into the cell array. -/
structure LayerPointers where
  m_ghostCellInformation : Nat
  m_copyCellInformation : Nat
  m_interiorCellInformation : Nat
  deriving DecidableEq, Repr

/-- The second loop of `setUpLayers`: the state is `l_offset` and the
pointers set so far. -/
def setUpLayersCluster (m_meshStructure : Nat → MeshStructure) (l_cluster : Nat)
    (st : Nat × (Nat → LayerPointers)) : Nat × (Nat → LayerPointers) :=
  let l_ghost := st.1
  let l_copy := l_ghost + (m_meshStructure l_cluster).numberOfGhostCells
  let l_interior := l_copy + (m_meshStructure l_cluster).numberOfCopyCells
  (l_interior + (m_meshStructure l_cluster).numberOfInteriorCells,
    Function.update st.2 l_cluster ⟨l_ghost, l_copy, l_interior⟩)

/-- Source `MemoryManager::setUpLayers`: the cell information pointers of the
clusters. -/
def setUpLayers (m_numberOfClusters : Nat) (m_meshStructure : Nat → MeshStructure) :
    Nat → LayerPointers :=
  (iterLoop (setUpLayersCluster m_meshStructure) m_numberOfClusters
    (0, fun _ => ⟨0, 0, 0⟩)).2

/-- The body of the loop over the ghost cells of a region in
`deriveLayerLayouts`; the state is the pair of counters
`m_numberOfGhostRegionBuffers[l_cluster][l_region]`,
`m_numberOfGhostRegionDerivatives[l_cluster][l_region]`.  `logError()` ends
the run. -/
def countGhostCell (cell : CellLocalInformation) (st : Nat × Nat) : Option (Nat × Nat) :=
  let l_buffer := ltsBit cell.ltsSetup 8
  let l_derivatives := ltsBit cell.ltsSetup 9
  if (l_buffer && l_derivatives || (l_buffer || l_derivatives) == false) = true then none
  else
    some (if (cell.ltsSetup >>> 8) % 2 = 1 then st.1 + 1 else st.1,
      if (cell.ltsSetup >>> 9) % 2 = 1 then st.2 + 1 else st.2)

/-- The body of the loop over the copy cells of a region in
`deriveLayerLayouts`; the state is the pair of counters of the region. -/
def countCopyCell (cell : CellLocalInformation) (st : Nat × Nat) : Option (Nat × Nat) :=
  if ((ltsBit cell.ltsSetup 8 || ltsBit cell.ltsSetup 9) == true) = true then
    some (if (cell.ltsSetup >>> 8) % 2 = 1 then st.1 + 1 else st.1,
      if (cell.ltsSetup >>> 9) % 2 = 1 then st.2 + 1 else st.2)
  else none

/-- The body of the loop over the interior cells of a cluster in
`deriveLayerLayouts`; the state is the pair of counters
`m_numberOfInteriorBuffers[l_cluster]`,
`m_numberOfInteriorDerivatives[l_cluster]`. -/
def countInteriorCell (cell : CellLocalInformation) (st : Nat × Nat) : Option (Nat × Nat) :=
  some (if (cell.ltsSetup >>> 8) % 2 = 1 then st.1 + 1 else st.1,
    if (cell.ltsSetup >>> 9) % 2 = 1 then st.2 + 1 else st.2)

/-- The end of the loop body for region `l_region` in `deriveLayerLayouts`:
the counts `g` of the ghost region and `c` of the copy region stand in the
region arrays and are added to the totals of the ghost and the copy layer. -/
def withRegionCounts (L : LayerLayout) (l_region : Nat) (g c : Nat × Nat) : LayerLayout :=
  { L with
    m_numberOfGhostRegionBuffers := Function.update L.m_numberOfGhostRegionBuffers l_region g.1
    m_numberOfGhostRegionDerivatives :=
      Function.update L.m_numberOfGhostRegionDerivatives l_region g.2
    m_numberOfCopyRegionBuffers := Function.update L.m_numberOfCopyRegionBuffers l_region c.1
    m_numberOfCopyRegionDerivatives :=
      Function.update L.m_numberOfCopyRegionDerivatives l_region c.2
    m_numberOfGhostBuffers := L.m_numberOfGhostBuffers + g.1
    m_numberOfGhostDerivatives := L.m_numberOfGhostDerivatives + g.2
    m_numberOfCopyBuffers := L.m_numberOfCopyBuffers + c.1
    m_numberOfCopyDerivatives := L.m_numberOfCopyDerivatives + c.2 }

/-- The body of the loop over the regions of a cluster in
`deriveLayerLayouts`; the state is `l_ghostOffset`, `l_copyOffset` and the
counts of the cluster. -/
def deriveRegionLayout (ms : MeshStructure) (ghost copy : Nat → CellLocalInformation)
    (l_region : Nat) (st : Nat × Nat × LayerLayout) : Option (Nat × Nat × LayerLayout) :=
  (forLoop (fun l_cell c => countGhostCell (ghost (l_cell + st.1)) c)
      (ms.numberOfGhostRegionCells l_region) (0, 0)).bind fun g =>
  (forLoop (fun l_cell c => countCopyCell (copy (l_cell + st.2.1)) c)
      (ms.numberOfCopyRegionCells l_region) (0, 0)).map fun c =>
  (st.1 + ms.numberOfGhostRegionCells l_region,
    st.2.1 + ms.numberOfCopyRegionCells l_region,
    withRegionCounts st.2.2 l_region g c)

/-- The counts of a cluster before its regions and cells are visited. -/
def emptyLayout : LayerLayout :=
  ⟨0, fun _ => 0, 0, fun _ => 0, 0, fun _ => 0, 0, fun _ => 0, 0, 0⟩

/-- The body of the loop over the clusters in `deriveLayerLayouts`, for a
cluster with the cell information `ghost`, `copy` and `interior`. -/
def deriveClusterLayout (ms : MeshStructure) (ghost copy interior : Nat → CellLocalInformation) :
    Option LayerLayout :=
  (forLoop (deriveRegionLayout ms ghost copy) ms.numberOfRegions (0, 0, emptyLayout)).bind
    fun st =>
  (forLoop (fun l_cell c => countInteriorCell (interior l_cell) c)
      ms.numberOfInteriorCells (0, 0)).map fun i =>
  { st.2.2 with m_numberOfInteriorBuffers := i.1, m_numberOfInteriorDerivatives := i.2 }

/-- Source `MemoryManager::deriveLayerLayouts`: the counts of every cluster,
or `none` when `logError()` is called or an assertion fails. -/
def deriveLayerLayouts (m_numberOfClusters : Nat) (m_meshStructure : Nat → MeshStructure)
    (cells : Nat → CellLocalInformation) (pointers : Nat → LayerPointers) :
    Option (Nat → LayerLayout) :=
  forLoop (fun l_cluster table =>
      (deriveClusterLayout (m_meshStructure l_cluster)
        (fun k => cells ((pointers l_cluster).m_ghostCellInformation + k))
        (fun k => cells ((pointers l_cluster).m_copyCellInformation + k))
        (fun k => cells ((pointers l_cluster).m_interiorCellInformation + k))).map
      fun L => Function.update table l_cluster L)
    m_numberOfClusters (fun _ => emptyLayout)

/-- The number of the cells `cells (off + 0)`, ..., `cells (off + n - 1)`
whose bit `k` of `ltsSetup` is set. -/
def cellsWithBit (k : Nat) (cells : Nat → CellLocalInformation) (off n : Nat) : Nat :=
  ((List.range n).filter fun i => ltsBit (cells (off + i)).ltsSetup k).length

/-- The checks of `deriveLayerLayouts` for one cluster with the cell
information `ghost` and `copy`: every ghost cell has exactly one of the
storage bits 8 and 9, every copy cell at least one. -/
def LayoutChecksPass (ms : MeshStructure) (ghost copy : Nat → CellLocalInformation) : Prop :=
  (∀ r, r < ms.numberOfRegions → ∀ i, i < ms.numberOfGhostRegionCells r →
      xor (ltsBit (ghost (prefixSum ms.numberOfGhostRegionCells r + i)).ltsSetup 8)
        (ltsBit (ghost (prefixSum ms.numberOfGhostRegionCells r + i)).ltsSetup 9) = true)
    ∧ ∀ r, r < ms.numberOfRegions → ∀ i, i < ms.numberOfCopyRegionCells r →
      (ltsBit (copy (prefixSum ms.numberOfCopyRegionCells r + i)).ltsSetup 8
        || ltsBit (copy (prefixSum ms.numberOfCopyRegionCells r + i)).ltsSetup 9) = true

/-- The cell array `smallCells` after `correctGhostRegionSetups`. -/
def smallCellsCorrected : Nat → CellLocalInformation :=
  fun j => cellWith (([512, 256, 256, 768, 512, 256, 0] : List Nat).getD j 0)

/-- The number of values of an `unsigned int`. -/
def UINT_RANGE : Nat := 2 ^ 32

/-- The sum `a + b` of two `unsigned int`. -/
def uadd (a b : Nat) : Nat := (a + b) % UINT_RANGE

/-- The product `a * b` of an `int` constant and an `unsigned int`. -/
def umul (a b : Nat) : Nat := (a * b) % UINT_RANGE

/-- The body of the loop over the regions in `allocateInternalState`; the
state is `l_ghostSize` and `l_copySize`.  `DOFS` and `DERS` are the macros
`NUMBER_OF_ALIGNED_DOFS` and `NUMBER_OF_ALIGNED_DERS` of the generated code,
which is not among the repository files. -/
def allocateRegionSizes (DOFS DERS : Nat) (L : LayerLayout) (l_region : Nat)
    (st : Nat × Nat) : Nat × Nat :=
  (uadd (uadd st.1 (umul DOFS (L.m_numberOfGhostRegionBuffers l_region)))
      (umul DERS (L.m_numberOfGhostRegionDerivatives l_region)),
    uadd (uadd st.2 (umul DOFS (L.m_numberOfCopyRegionBuffers l_region)))
      (umul DERS (L.m_numberOfCopyRegionDerivatives l_region)))

/-- The body of the loop over the clusters in `allocateInternalState`; the
state is `l_ghostSize`, `l_copySize` and `l_interiorSize`. -/
def allocateClusterSizes (DOFS DERS : Nat) (m_meshStructure : Nat → MeshStructure)
    (layouts : Nat → LayerLayout) (l_cluster : Nat) (st : Nat × Nat × Nat) : Nat × Nat × Nat :=
  let gc := iterLoop (allocateRegionSizes DOFS DERS (layouts l_cluster))
    (m_meshStructure l_cluster).numberOfRegions (st.1, st.2.1)
  (gc.1, gc.2,
    uadd (uadd st.2.2 (umul DOFS (layouts l_cluster).m_numberOfInteriorBuffers))
      (umul DERS (layouts l_cluster).m_numberOfInteriorDerivatives))

/-- Source `MemoryManager::allocateInternalState`: the sizes in reals
`l_ghostSize`, `l_copySize` and `l_interiorSize` of the three allocations. -/
def allocateInternalState (DOFS DERS : Nat) (m_numberOfClusters : Nat)
    (m_meshStructure : Nat → MeshStructure) (layouts : Nat → LayerLayout) : Nat × Nat × Nat :=
  iterLoop (allocateClusterSizes DOFS DERS m_meshStructure layouts) m_numberOfClusters (0, 0, 0)

/-- The arguments with which `initializeInternalState` calls
`setUpLayerPointers` and `setUpInteriorPointers` for one cluster: the start of
the cluster in each layer (an offset in reals from the start of the layer)
and the offset `l_offset` in cells of each layer in the arrays `buffers` and
`derivatives`. -/
structure ClusterState where
  l_ghostPointer : Nat
  ghostOffset : Nat
  l_copyPointer : Nat
  copyOffset : Nat
  l_interiorPointer : Nat
  interiorOffset : Nat
  deriving DecidableEq, Repr

/-- The loop variables `l_offset`, `l_ghostPointer`, `l_copyPointer` and
`l_interiorPointer` of `initializeInternalState`. -/
structure InternalCursor where
  l_offset : Nat
  l_ghostPointer : Nat
  l_copyPointer : Nat
  l_interiorPointer : Nat
  deriving DecidableEq, Repr

/-- The body of the loop over the clusters in `initializeInternalState`: the
arguments of the three calls are recorded and the loop variables advanced. -/
def initializeInternalStateCluster (DOFS DERS : Nat) (m_meshStructure : Nat → MeshStructure)
    (layouts : Nat → LayerLayout) (l_cluster : Nat)
    (st : InternalCursor × (Nat → ClusterState)) : InternalCursor × (Nat → ClusterState) :=
  let l_offset1 := st.1.l_offset + (m_meshStructure l_cluster).numberOfGhostCells
  let l_offset2 := l_offset1 + (m_meshStructure l_cluster).numberOfCopyCells
  ({ l_offset := l_offset2 + (m_meshStructure l_cluster).numberOfInteriorCells
     l_ghostPointer := st.1.l_ghostPointer
       + umul DOFS (layouts l_cluster).m_numberOfGhostBuffers
       + umul DERS (layouts l_cluster).m_numberOfGhostDerivatives
     l_copyPointer := st.1.l_copyPointer
       + umul DOFS (layouts l_cluster).m_numberOfCopyBuffers
       + umul DERS (layouts l_cluster).m_numberOfCopyDerivatives
     l_interiorPointer := st.1.l_interiorPointer
       + umul DOFS (layouts l_cluster).m_numberOfInteriorBuffers
       + umul DERS (layouts l_cluster).m_numberOfInteriorDerivatives },
   Function.update st.2 l_cluster
     { l_ghostPointer := st.1.l_ghostPointer, ghostOffset := st.1.l_offset
       l_copyPointer := st.1.l_copyPointer, copyOffset := l_offset1
       l_interiorPointer := st.1.l_interiorPointer, interiorOffset := l_offset2 })

/-- Source `MemoryManager::initializeInternalState`, its loop over the
clusters: the loop variables at the end of the loop and the arguments of the
calls for every cluster.  The helpers `setUpLayerPointers` and
`setUpInteriorPointers` (of `InternalState.h`, not among the repository
files) do not change the loop variables. -/
def initializeInternalState (DOFS DERS : Nat) (m_numberOfClusters : Nat)
    (m_meshStructure : Nat → MeshStructure) (layouts : Nat → LayerLayout) :
    InternalCursor × (Nat → ClusterState) :=
  iterLoop (initializeInternalStateCluster DOFS DERS m_meshStructure layouts)
    m_numberOfClusters (⟨0, 0, 0, 0⟩, fun _ => ⟨0, 0, 0, 0, 0, 0⟩)

/-- The size in reals of the part of a cluster in the ghost layer: a slot of
`DOFS` reals for every buffer and of `DERS` reals for every derivative. -/
def ghostSize (DOFS DERS : Nat) (L : LayerLayout) : Nat :=
  DOFS * L.m_numberOfGhostBuffers + DERS * L.m_numberOfGhostDerivatives

/-- The size in reals of the part of a cluster in the copy layer. -/
def copySize (DOFS DERS : Nat) (L : LayerLayout) : Nat :=
  DOFS * L.m_numberOfCopyBuffers + DERS * L.m_numberOfCopyDerivatives

/-- The size in reals of the part of a cluster in the interior. -/
def interiorSize (DOFS DERS : Nat) (L : LayerLayout) : Nat :=
  DOFS * L.m_numberOfInteriorBuffers + DERS * L.m_numberOfInteriorDerivatives

/-- The totals of the ghost and of the copy layer of a cluster are the sums
of the counts of its regions, as `deriveLayerLayouts` leaves them. -/
def LayoutTotals (ms : MeshStructure) (L : LayerLayout) : Prop :=
  L.m_numberOfGhostBuffers = prefixSum L.m_numberOfGhostRegionBuffers ms.numberOfRegions
    ∧ L.m_numberOfGhostDerivatives
      = prefixSum L.m_numberOfGhostRegionDerivatives ms.numberOfRegions
    ∧ L.m_numberOfCopyBuffers = prefixSum L.m_numberOfCopyRegionBuffers ms.numberOfRegions
    ∧ L.m_numberOfCopyDerivatives
      = prefixSum L.m_numberOfCopyRegionDerivatives ms.numberOfRegions

/-- A mesh structure without ghost and copy cells. -/
def interiorMesh (numberOfInteriorCells : Nat) : MeshStructure :=
  { numberOfRegions := 0
    numberOfGhostRegionCells := fun _ => 0
    numberOfGhostRegionDerivatives := fun _ => 0
    numberOfCopyRegionCells := fun _ => 0
    numberOfGhostCells := 0
    numberOfCopyCells := 0
    numberOfInteriorCells := numberOfInteriorCells }

/-- The counts of a cluster of `n` interior cells that all provide a buffer
and no derivatives. -/
def interiorLayout (n : Nat) : LayerLayout :=
  { emptyLayout with m_numberOfInteriorBuffers := n }

/-- The state of `initializeFaceNeighbors`: the loop variables `l_cell` and
`l_ghostOffset` and the array `m_internalState.faceNeighbors`.  A pointer is
the address it holds, `none` when it is `NULL`. -/
structure FaceNeighborState where
  l_cell : Nat
  l_ghostOffset : Nat
  faceNeighbors : Nat → Nat → Option Nat

/-- The assignment `m_internalState.faceNeighbors[l_cell][l_face] = p`. -/
def setFaceNeighbor (faceNeighbors : Nat → Nat → Option Nat) (l_cell l_face : Nat)
    (p : Option Nat) : Nat → Nat → Option Nat :=
  Function.update faceNeighbors l_cell (Function.update (faceNeighbors l_cell) l_face p)

/-- The body of the loop over the faces in `initializeFaceNeighbors`, with
the pointer arrays `m_internalState.buffers` and
`m_internalState.derivatives`. -/
def initializeFace (buffers derivatives : Nat → Option Nat)
    (l_cellInformation : CellLocalInformation) (l_cell l_ghostOffset l_face : Nat)
    (faceNeighbors : Nat → Nat → Option Nat) : Option (Nat → Nat → Option Nat) :=
  if l_cellInformation.faceTypes l_face = FaceType.regular
      ∨ l_cellInformation.faceTypes l_face = FaceType.periodic
      ∨ l_cellInformation.faceTypes l_face = FaceType.dynamicRupture then
    let p := if (l_cellInformation.ltsSetup >>> l_face) % 2 ≠ 0
      then derivatives (l_cellInformation.faceNeighborIds l_face)
      else buffers (l_cellInformation.faceNeighborIds l_face)
    if p ≠ none then some (setFaceNeighbor faceNeighbors l_cell l_face p) else none
  else if l_cellInformation.faceTypes l_face = FaceType.freeSurface then
    let p := if (l_cellInformation.ltsSetup >>> l_face) % 2 = 0
      then buffers (l_cell + l_ghostOffset)
      else derivatives (l_cell + l_ghostOffset)
    if p ≠ none then some (setFaceNeighbor faceNeighbors l_cell l_face p) else none
  else if l_cellInformation.faceTypes l_face = FaceType.outflow then
    some (setFaceNeighbor faceNeighbors l_cell l_face none)
  else none

/-- The cell information `l_cellInformation` of cell `l_clusterCell` of the
copy layer and interior of a cluster in `initializeFaceNeighbors`. -/
def faceCellInformation (ms : MeshStructure) (pointers : LayerPointers)
    (cells : Nat → CellLocalInformation) (l_clusterCell : Nat) : CellLocalInformation :=
  if l_clusterCell < ms.numberOfCopyCells
  then cells (pointers.m_copyCellInformation + l_clusterCell)
  else cells (pointers.m_interiorCellInformation + l_clusterCell - ms.numberOfCopyCells)

/-- The body of the loop over the cells of the copy layer and interior of a
cluster in `initializeFaceNeighbors`. -/
def initializeCellFaces (buffers derivatives : Nat → Option Nat) (ms : MeshStructure)
    (pointers : LayerPointers) (cells : Nat → CellLocalInformation) (l_clusterCell : Nat)
    (st : FaceNeighborState) : Option FaceNeighborState :=
  (forLoop (initializeFace buffers derivatives
      (faceCellInformation ms pointers cells l_clusterCell) st.l_cell st.l_ghostOffset)
    4 st.faceNeighbors).map
  fun faceNeighbors =>
    { l_cell := st.l_cell + 1, l_ghostOffset := st.l_ghostOffset, faceNeighbors := faceNeighbors }

/-- The body of the loop over the clusters in `initializeFaceNeighbors`. -/
def initializeClusterFaces (buffers derivatives : Nat → Option Nat)
    (m_meshStructure : Nat → MeshStructure) (pointers : Nat → LayerPointers)
    (cells : Nat → CellLocalInformation) (l_cluster : Nat) (st : FaceNeighborState) :
    Option FaceNeighborState :=
  forLoop (initializeCellFaces buffers derivatives (m_meshStructure l_cluster)
      (pointers l_cluster) cells)
    ((m_meshStructure l_cluster).numberOfCopyCells
      + (m_meshStructure l_cluster).numberOfInteriorCells)
    { l_cell := st.l_cell
      l_ghostOffset := st.l_ghostOffset + (m_meshStructure l_cluster).numberOfGhostCells
      faceNeighbors := st.faceNeighbors }

/-- Source `MemoryManager::initializeFaceNeighbors`; `faceNeighbors` is the
content of the array `m_internalState.faceNeighbors` before the call. -/
def initializeFaceNeighbors (m_numberOfClusters : Nat)
    (m_meshStructure : Nat → MeshStructure) (pointers : Nat → LayerPointers)
    (cells : Nat → CellLocalInformation) (buffers derivatives : Nat → Option Nat)
    (faceNeighbors : Nat → Nat → Option Nat) : Option FaceNeighborState :=
  forLoop (initializeClusterFaces buffers derivatives m_meshStructure pointers cells)
    m_numberOfClusters { l_cell := 0, l_ghostOffset := 0, faceNeighbors := faceNeighbors }

/-- The pointer that belongs to a face of a cell with the cell information
`c` and the position `own` in the pointer arrays: of the neighbor
`faceNeighborIds[face]` over a regular, periodic or dynamic rupture face, of
the cell itself over a free surface face, derivatives when bit `face` of
`ltsSetup` is set and a buffer when it is not; `NULL` for every other
face. -/
def facePointer (buffers derivatives : Nat → Option Nat) (c : CellLocalInformation)
    (own face : Nat) : Option Nat :=
  if c.faceTypes face = FaceType.regular ∨ c.faceTypes face = FaceType.periodic
      ∨ c.faceTypes face = FaceType.dynamicRupture then
    if ltsBit c.ltsSetup face then derivatives (c.faceNeighborIds face)
    else buffers (c.faceNeighborIds face)
  else if c.faceTypes face = FaceType.freeSurface then
    if ltsBit c.ltsSetup face then derivatives own else buffers own
  else none

/-- The asserts of `initializeFaceNeighbors` for a face: the face type is
one of the five types handled, and the pointer of a face that is not an
outflow face is not `NULL`. -/
def FaceAssert (buffers derivatives : Nat → Option Nat) (c : CellLocalInformation)
    (own face : Nat) : Prop :=
  c.faceTypes face = FaceType.outflow ∨ facePointer buffers derivatives c own face ≠ none

/-- The number of cells of the copy layer and interior of the clusters
before `l_cluster`: the value of `l_cell` at the first cell of
`l_cluster`. -/
def firstFaceCell (m_meshStructure : Nat → MeshStructure) (l_cluster : Nat) : Nat :=
  prefixSum (fun c => (m_meshStructure c).numberOfCopyCells
    + (m_meshStructure c).numberOfInteriorCells) l_cluster

/-- The number of ghost cells of the clusters up to and including
`l_cluster`: the value of `l_ghostOffset` in the cells of `l_cluster`. -/
def ghostOffsetOf (m_meshStructure : Nat → MeshStructure) (l_cluster : Nat) : Nat :=
  prefixSum (fun c => (m_meshStructure c).numberOfGhostCells) (l_cluster + 1)

/-- The asserts of `initializeFaceNeighbors` hold for the four faces of
every cell of the copy layer and interior of every cluster. -/
def FaceAssertsHold (m_numberOfClusters : Nat) (m_meshStructure : Nat → MeshStructure)
    (pointers : Nat → LayerPointers) (cells : Nat → CellLocalInformation)
    (buffers derivatives : Nat → Option Nat) : Prop :=
  ∀ c, c < m_numberOfClusters →
    ∀ k, k < (m_meshStructure c).numberOfCopyCells + (m_meshStructure c).numberOfInteriorCells →
      ∀ face, face < 4 →
        FaceAssert buffers derivatives
          (faceCellInformation (m_meshStructure c) (pointers c) cells k)
          (firstFaceCell m_meshStructure c + k + ghostOffsetOf m_meshStructure c) face

/-- The position of cell `l_clusterCell` of the copy layer and interior of a
cluster in the pointer arrays `m_internalState.buffers` and
`m_internalState.derivatives`, from the offsets `offsets` that
`initializeInternalState` passes for the cluster: the copy cells follow the
ghost cells of the cluster and the interior cells follow its copy cells. -/
def ownPosition (ms : MeshStructure) (offsets : ClusterState) (l_clusterCell : Nat) : Nat :=
  if l_clusterCell < ms.numberOfCopyCells then offsets.copyOffset + l_clusterCell
  else offsets.interiorOffset + (l_clusterCell - ms.numberOfCopyCells)

/-- A cell array for two clusters with the layout of `smallMesh`: the faces
of every cell are a regular, a free surface, an outflow and a periodic face,
the neighbor over face `f` of cell `j` is cell `j + f`, and `ltsSetup` of
cell `j` is `j`. -/
def faceCells : Nat → CellLocalInformation :=
  fun j =>
    { faceTypes := fun f =>
        ([FaceType.regular, FaceType.freeSurface, FaceType.outflow,
          FaceType.periodic] : List FaceType).getD f FaceType.other
      faceNeighborIds := fun f => j + f
      ltsSetup := j }

/-- Pointer arrays without a null pointer: the buffer of cell `i` is at
address `2 * i`. -/
def slotBuffers : Nat → Option Nat := fun i => some (2 * i)

/-- Pointer arrays without a null pointer: the derivatives of cell `i` are
at address `2 * i + 1`. -/
def slotDerivatives : Nat → Option Nat := fun i => some (2 * i + 1)

/-! ## Smaller parts of the program

`TimeManager::enableDynamicRupture`, the wave field output of
`ResultWriter/WaveFieldWriterC.cpp` and the global matrices of the memory
manager.
-/

/-- The ways in which a call ends without a result: a fatal error reported
by `logError()`, and an access to an element that a vector does not have
(undefined behaviour). -/
inductive Failure where
  | logError
  | outOfBounds
  deriving DecidableEq, Repr

/-- Source `TimeManager::enableDynamicRupture`.  `m_clusters.size()` is
`m_timeStepping.numberOfLocalClusters`: `addClusters` adds one cluster for
each local cluster.  `dynamicRupture` tells for each cluster whether dynamic
rupture is enabled on it.  Modelled from the spec:
`TimeCluster::enableDynamicRupture` (of `TimeCluster.cpp`, which is not among
the repository files) enables dynamic rupture on the cluster it is called
for. -/
def enableDynamicRupture (s : TimeManager) (dynamicRupture : Nat → Bool) :
    Except Failure (Nat → Bool) :=
  if s.m_timeStepping.numberOfLocalClusters > 1 then Except.error Failure.logError
  else if 0 < s.m_timeStepping.numberOfLocalClusters
  then Except.ok (Function.update dynamicRupture 0 true)
  else Except.error Failure.outOfBounds

/-- The state of the wave field output: the variable `lastTimeStep` of
`WaveFieldWriterC.cpp` and the times passed to `WaveFieldWriter::write`, in
the order of the calls.  Times (`double`) are rationals. -/
structure WaveFieldOutput where
  lastTimeStep : ℚ
  written : List ℚ
  deriving DecidableEq, Repr

/-- The wave field output at program start: `lastTimeStep = -1.0` and
nothing written. -/
def initialWaveFieldOutput : WaveFieldOutput :=
  { lastTimeStep := -1, written := [] }

/-- Source `wavefield_hdf_write_step`. -/
def wavefield_hdf_write_step (time : ℚ) (st : WaveFieldOutput) : WaveFieldOutput :=
  if time ≤ st.lastTimeStep then st
  else { lastTimeStep := time, written := st.written ++ [time] }

/-- The calls `wavefield_hdf_write_step(t1)`, ..., `wavefield_hdf_write_step(tn)`
in this order. -/
def writeSteps (times : List ℚ) (st : WaveFieldOutput) : WaveFieldOutput :=
  times.foldl (fun t time => wavefield_hdf_write_step time t) st

/-- The pointers of `struct GlobalData` (of `typedefs.hpp`, which is not
among the repository files) that the constructor of the memory manager
passes to its setters; a pointer is the address it holds, `none` when it is
`NULL`. -/
structure GlobalData where
  fluxMatrices : Nat → Option Nat
  stiffnessMatrices : Nat → Option Nat
  stiffnessMatricesTransposed : Nat → Option Nat
  inverseMassMatrix : Option Nat

/-- The members of the memory manager that point to the global matrices. -/
structure MatrixPointers where
  m_fluxMatrixPointers : Nat → Option Nat
  m_stiffnessMatrixPointers : Nat → Option Nat
  m_inverseMassMatrixPointer : Option Nat

/-- Source `MemoryManager::setFluxMatrices`: the parameter is an array of 52
pointers of the caller, which the loop overwrites. -/
def setFluxMatrices (mm : MatrixPointers) (o_fluxMatrices : Nat → Option Nat) :
    Nat → Option Nat :=
  iterLoop (fun l_matrix o => Function.update o l_matrix (mm.m_fluxMatrixPointers l_matrix))
    52 o_fluxMatrices

/-- Source `MemoryManager::setStiffnessMatrices`: the parameter is an array
of 3 pointers of the caller. -/
def setStiffnessMatrices (mm : MatrixPointers) (o_stiffnessMatrices : Nat → Option Nat) :
    Nat → Option Nat :=
  Function.update
    (Function.update
      (Function.update o_stiffnessMatrices 0 (mm.m_stiffnessMatrixPointers 3))
      1 (mm.m_stiffnessMatrixPointers 4))
    2 (mm.m_stiffnessMatrixPointers 5)

/-- Source `MemoryManager::setStiffnessMatricesTransposed`: the parameter is
an array of 3 pointers of the caller. -/
def setStiffnessMatricesTransposed (mm : MatrixPointers)
    (o_stiffnessMatricesTransposed : Nat → Option Nat) : Nat → Option Nat :=
  Function.update
    (Function.update
      (Function.update o_stiffnessMatricesTransposed 0 (mm.m_stiffnessMatrixPointers 0))
      1 (mm.m_stiffnessMatrixPointers 1))
    2 (mm.m_stiffnessMatrixPointers 2)

/-- Source `MemoryManager::setInverseMassMatrix`: the parameter
`o_inverseMassMatrix` is a `real*` passed by value, a variable of the
function; the result is the value of that variable when the function
returns. -/
def setInverseMassMatrix (mm : MatrixPointers) (o_inverseMassMatrix : Option Nat) :
    Option Nat :=
  let o_inverseMassMatrix := mm.m_inverseMassMatrixPointer
  o_inverseMassMatrix

/-- The four calls at the end of the constructor `MemoryManager::MemoryManager`
on `m_globalData`, after `initializeGlobalMatrices` has set the pointers
`mm`.  The three arrays are written through the pointer passed; the variable
of `setInverseMassMatrix` is gone when the call returns, and the field
`m_globalData.inverseMassMatrix` that was copied into it is not written. -/
def setGlobalData (mm : MatrixPointers) (m_globalData : GlobalData) : GlobalData :=
  let g1 := { m_globalData with fluxMatrices := setFluxMatrices mm m_globalData.fluxMatrices }
  let g2 := { g1 with stiffnessMatrices := setStiffnessMatrices mm g1.stiffnessMatrices }
  let g3 := { g2 with
    stiffnessMatricesTransposed :=
      setStiffnessMatricesTransposed mm g2.stiffnessMatricesTransposed }
  let _ := setInverseMassMatrix mm g3.inverseMassMatrix
  g3

/-- The pointers after `initializeGlobalMatrices` for matrices of 100 reals
each: transposed stiffness, stiffness, flux, inverse mass. -/
def samplePointers : MatrixPointers :=
  { m_fluxMatrixPointers := fun l => some (100 * (l + 6))
    m_stiffnessMatrixPointers := fun l => some (100 * l)
    m_inverseMassMatrixPointer := some 5800 }

/-- Global data in which no pointer is set. -/
def nullGlobalData : GlobalData :=
  { fluxMatrices := fun _ => none
    stiffnessMatrices := fun _ => none
    stiffnessMatricesTransposed := fun _ => none
    inverseMassMatrix := none }

/-- The index in the cell array of cell `k` of the copy layer and interior
of cluster `l_cluster`, as `correctGhostRegionSetups` jumps over them: after
the ghost regions of the cluster. -/
def copyInteriorCellIndex (m_meshStructure : Nat → MeshStructure) (l_cluster k : Nat) : Nat :=
  prefixSum (fun c => ghostRegionCells (m_meshStructure c)
      + (m_meshStructure c).numberOfCopyCells + (m_meshStructure c).numberOfInteriorCells)
    l_cluster
  + ghostRegionCells (m_meshStructure l_cluster) + k

/-- The record `b` differs from `a` at most in the bits 8, 9 and 10 of
`ltsSetup`. -/
def SetupFrame (a b : CellLocalInformation) : Prop :=
  b.faceTypes = a.faceTypes ∧ b.faceNeighborIds = a.faceNeighborIds
    ∧ ∀ k, k ≠ 8 → k ≠ 9 → k ≠ 10 → ltsBit b.ltsSetup k = ltsBit a.ltsSetup k

/-- The difference `a - b` of two `unsigned int`. -/
def usub (a b : Nat) : Nat := (a + UINT_RANGE - b % UINT_RANGE) % UINT_RANGE

/-- The body of the loop over the nonzeros of a dense matrix in
`initializeGlobalMatrix`; a failed `assert` ends the run. -/
def setNonzero (i_leadingDimension i_numberOfColumns : Nat) (i_rows i_columns : List Nat)
    (i_values : List ℚ) (l_entry : Nat) (o_matrix : Nat → ℚ) : Option (Nat → ℚ) :=
  let l_row := usub (i_rows.getD l_entry 0) 1
  let l_column := usub (i_columns.getD l_entry 0) 1
  if l_row < i_leadingDimension then
    if l_column < i_numberOfColumns then
      let l_position := umul l_column i_leadingDimension
      let l_position := uadd l_position l_row
      some (Function.update o_matrix l_position (i_values.getD l_entry 0))
    else none
  else none

/-- Source `MemoryManager::initializeGlobalMatrix`.  The array `o_matrix` is
a function of the position; values (`double`, `real`) are rationals; the
sizes of the three vectors are below `2^32`.  A failed `assert` is the result
`none`. -/
def initializeGlobalMatrix (i_sparse : Int) (i_leadingDimension i_numberOfColumns : Nat)
    (i_rows i_columns : List Nat) (i_values : List ℚ) (o_matrix : Nat → ℚ) :
    Option (Nat → ℚ) :=
  if i_rows.length = i_columns.length then
    if i_columns.length = i_values.length then
      if i_sparse ≠ -1 then
        if (i_values.length : Int) = i_sparse then
          some (iterLoop (fun l_entry o => Function.update o l_entry (i_values.getD l_entry 0))
            i_values.length o_matrix)
        else none
      else
        forLoop (setNonzero i_leadingDimension i_numberOfColumns i_rows i_columns i_values)
          i_values.length
          (fun p => if p < umul i_leadingDimension i_numberOfColumns then 0 else o_matrix p)
    else none
  else none

/-- The value of the last of the first `n` entries of a matrix in coordinate
format that is given for row `r` and column `c`, if there is one. -/
def lastEntry (i_rows i_columns : List Nat) (i_values : List ℚ) (r c : Nat) : Nat → Option ℚ
  | 0 => none
  | n + 1 =>
    if i_rows.getD n 0 = r ∧ i_columns.getD n 0 = c then some (i_values.getD n 0)
    else lastEntry i_rows i_columns i_values r c n

/-! ## The communication structure -/

/-- The size in reals of the ghost region `l_region` as
`initializeCommunicationStructure` computes it from the mesh structure, in
`unsigned int`: a slot of `DOFS` reals for every cell that is not among the
`numberOfGhostRegionDerivatives` and a slot of `DERS` reals for each of
those. -/
def ghostRegionSize (DOFS DERS : Nat) (ms : MeshStructure) (l_region : Nat) : Nat :=
  let l_numberOfDerivatives := ms.numberOfGhostRegionDerivatives l_region
  let l_numberOfBuffers := usub (ms.numberOfGhostRegionCells l_region) l_numberOfDerivatives
  uadd (umul DOFS l_numberOfBuffers) (umul DERS l_numberOfDerivatives)

/-- The fields `ghostRegions` (a pointer into the ghost layer, as an offset
in reals from its start) and `ghostRegionSizes` of the mesh structures, by
cluster and region. -/
structure GhostRegions where
  ghostRegions : Nat → Nat → Nat
  ghostRegionSizes : Nat → Nat → Nat

/-- The body of the loop over the regions in the ghost layer part of
`initializeCommunicationStructure`; the state is `l_ghostStart` and the
fields set so far. -/
def initializeGhostRegion (DOFS DERS : Nat) (m_meshStructure : Nat → MeshStructure)
    (l_cluster l_region : Nat) (st : Nat × GhostRegions) : Nat × GhostRegions :=
  (st.1 + ghostRegionSize DOFS DERS (m_meshStructure l_cluster) l_region,
    { ghostRegions := Function.update st.2.ghostRegions l_cluster
        (Function.update (st.2.ghostRegions l_cluster) l_region st.1)
      ghostRegionSizes := Function.update st.2.ghostRegionSizes l_cluster
        (Function.update (st.2.ghostRegionSizes l_cluster) l_region
          (ghostRegionSize DOFS DERS (m_meshStructure l_cluster) l_region)) })

/-- Source `MemoryManager::initializeCommunicationStructure`, the part for
the ghost layer: the value of `l_ghostStart` at the end and the fields set.
`DOFS` and `DERS` are the macros `NUMBER_OF_ALIGNED_DOFS` and
`NUMBER_OF_ALIGNED_DERS`. -/
def initializeCommunicationStructure (DOFS DERS : Nat) (m_numberOfClusters : Nat)
    (m_meshStructure : Nat → MeshStructure) : Nat × GhostRegions :=
  iterLoop (fun l_cluster st =>
      iterLoop (initializeGhostRegion DOFS DERS m_meshStructure l_cluster)
        (m_meshStructure l_cluster).numberOfRegions st)
    m_numberOfClusters (0, { ghostRegions := fun _ _ => 0, ghostRegionSizes := fun _ _ => 0 })

/-- A mesh structure with one ghost region of `n` cells, none of which
provides derivatives, and no copy and interior cells. -/
def ghostMesh (n : Nat) : MeshStructure :=
  { numberOfRegions := 1
    numberOfGhostRegionCells := fun _ => n
    numberOfGhostRegionDerivatives := fun _ => 0
    numberOfCopyRegionCells := fun _ => 0
    numberOfGhostCells := n
    numberOfCopyCells := 0
    numberOfInteriorCells := 0 }

/-! ## The cube mesh generator -/

/-- The command line arguments of the cube generator
(`preprocessing/meshing/cube_c/src/main.cpp`): the numbers of cubes `x`,
`y`, `z`, the numbers of partitions `px`, `py`, `pz`, all `unsigned int`,
and the boundary condition. -/
structure CubeArguments where
  x : Nat
  y : Nat
  z : Nat
  px : Nat
  py : Nat
  pz : Nat
  boundary : Nat

/-- The array `numCubes` of `main`: the arguments and, in `numCubes[3]`,
their product in `unsigned int`. -/
def numCubes (args : CubeArguments) : Nat → Nat
  | 0 => args.x
  | 1 => args.y
  | 2 => args.z
  | _ => umul (umul args.x args.y) args.z

/-- The array `numPartitions` of `main`. -/
def numPartitions (args : CubeArguments) : Nat → Nat
  | 0 => args.px
  | 1 => args.py
  | 2 => args.pz
  | _ => umul (umul args.px args.py) args.pz

/-- The checks of the arguments in `main`, each of which ends the run with
`logError()` when it fails: at least two cubes in every dimension, which
can be distributed to the partitions, an even number to each. -/
def ArgumentsAccepted (args : CubeArguments) : Prop :=
  ∀ i, i < 3 → ¬ numCubes args i < 2 ∧ numCubes args i % numPartitions args i = 0
    ∧ (numCubes args i / numPartitions args i) % 2 = 0

instance (args : CubeArguments) : Decidable (ArgumentsAccepted args) := by
  unfold ArgumentsAccepted
  infer_instance

/-- The variable `boundary` of `main` after `if (boundary > 100) boundary -= 100`. -/
def boundary (args : CubeArguments) : Nat :=
  if args.boundary > 100 then args.boundary - 100 else args.boundary

/-- The array `numCubesPerPart` of `main`. -/
def numCubesPerPart (args : CubeArguments) (i : Nat) : Nat :=
  numCubes args i / numPartitions args i

/-- The array `numElemPerPart` of `main`; the product is one of
`unsigned int`. -/
def numElemPerPart (args : CubeArguments) (i : Nat) : Nat :=
  umul (numCubesPerPart args i) 5

/-- Source `TET_SIDE_NEIGHBORS`. -/
def TET_SIDE_NEIGHBORS (odd : Nat) : List Int :=
  if odd = 0 then [3, 3, 3, 0, 1, 3, 0, 2, 2, 2, 2, 1, 0, 1, 3, 1, 3, 0, 0, 2]
  else [2, 3, 0, 1, 1, 3, 3, 2, 2, 1, 1, 0, 0, 3, 2, 1, 2, 0, 0, 1]

/-- The table `TET_NEIGHBORS` of `main`: for the tetrahedra of an even and of
an odd cube, the neighbours at their four sides relative to the first
tetrahedron of the cube.  The entries are `int`, taken as integers. -/
def TET_NEIGHBORS (args : CubeArguments) (odd : Nat) : List Int :=
  let n0 : Int := numCubesPerPart args 0
  let n1 : Int := numCubesPerPart args 1
  if odd = 0 then
    [-n1 * n0 * 5 + 2, -n0 * 5, -4, 4,
      4, -n1 * n0 * 5 + 3, 5, n0 * 5 + 1,
      4, 7, -n0 * 5 + 3, n1 * n0 * 5 + 1,
      -2, n0 * 5 + 2, 4, n1 * n0 * 5,
      0, 1, 2, 3]
  else
    [-4, -n1 * n0 * 5 + 3, 4, n0 * 5,
      4, -n1 * n0 * 5 + 2, -n0 * 5 + 1, 5,
      4, -n0 * 5 + 3, -3, n1 * n0 * 5,
      8, 4, n0 * 5 + 2, n1 * n0 * 5 + 1,
      0, 1, 2, 3]

/-- A call `memcpy(&dst[pos], src, sizeof(int)*n)` on an array of `int`. -/
def memcpy (dst : Nat → Int) (pos : Nat) (src : List Int) (n : Nat) : Nat → Int :=
  fun p => if pos ≤ p ∧ p < pos + n then src.getD (p - pos) 0 else dst p

/-- The index `c` of the first entry of the cube `(zz, yy, xx)`, an
`unsigned int`. -/
def cubeStart (args : CubeArguments) (zz yy xx : Nat) : Nat :=
  umul (uadd (umul (uadd (umul zz (numCubesPerPart args 1)) yy) (numCubesPerPart args 0)) xx) 20

/-- The value `offset` of the cube `(zz, yy, xx)`: the number of its first
tetrahedron. -/
def cubeOffset (args : CubeArguments) (zz yy xx : Nat) : Nat :=
  umul (uadd (umul (uadd (umul zz (numCubesPerPart args 1)) yy) (numCubesPerPart args 0)) xx) 5

/-- The value `odd` of the cube `(zz, yy, xx)`. -/
def cubeOdd (zz yy xx : Nat) : Nat := uadd (uadd zz yy) xx % 2

/-- The treatment of the two sides of a cube at a face of the partition:
with `periodic` the neighbours are those at the other end of the
partition, `delta` entries further, otherwise the entries become
`numElemPerPart[3]`. -/
def setBoundarySides (periodic : Bool) (elemNeighbors : Nat → Int) (i j : Nat)
    (delta numElem : Int) : Nat → Int :=
  if periodic then
    let e := Function.update elemNeighbors i (elemNeighbors i + delta)
    Function.update e j (e j + delta)
  else
    Function.update (Function.update elemNeighbors i numElem) j numElem

/-- The part of the body of the loops over the cubes for the faces
`xx == 0` and `xx == numCubesPerPart[0]-1` of the partition. -/
def setSidesX (args : CubeArguments) (zz yy xx : Nat) (elemNeighbors : Nat → Int) :
    Nat → Int :=
  let c := cubeStart args zz yy xx
  let odd := cubeOdd zz yy xx
  let periodic : Bool := boundary args = 6 ∧ numPartitions args 0 = 1
  let delta : Int := umul (numCubesPerPart args 0) 5
  let numElem : Int := numElemPerPart args 3
  if xx = 0 then
    if odd ≠ 0 then setBoundarySides periodic elemNeighbors c (uadd c 10) delta numElem
    else setBoundarySides periodic elemNeighbors (uadd c 2) (uadd c 12) delta numElem
  else if xx = usub (numCubesPerPart args 0) 1 then
    if odd ≠ 0 then setBoundarySides periodic elemNeighbors (uadd c 7) (uadd c 12) (-delta) numElem
    else setBoundarySides periodic elemNeighbors (uadd c 6) (uadd c 9) (-delta) numElem
  else elemNeighbors

/-- The part of the body of the loops over the cubes for the faces
`yy == 0` and `yy == numCubesPerPart[1]-1` of the partition. -/
def setSidesY (args : CubeArguments) (zz yy xx : Nat) (elemNeighbors : Nat → Int) :
    Nat → Int :=
  let c := cubeStart args zz yy xx
  let odd := cubeOdd zz yy xx
  let periodic : Bool := boundary args = 6 ∧ numPartitions args 1 = 1
  let delta : Int := umul (umul (numCubesPerPart args 0) (numCubesPerPart args 1)) 5
  let numElem : Int := numElemPerPart args 3
  if yy = 0 then
    if odd ≠ 0 then setBoundarySides periodic elemNeighbors (uadd c 6) (uadd c 9) delta numElem
    else setBoundarySides periodic elemNeighbors (uadd c 1) (uadd c 10) delta numElem
  else if yy = usub (numCubesPerPart args 1) 1 then
    if odd ≠ 0 then setBoundarySides periodic elemNeighbors (uadd c 3) (uadd c 14) (-delta) numElem
    else setBoundarySides periodic elemNeighbors (uadd c 7) (uadd c 13) (-delta) numElem
  else elemNeighbors

/-- The part of the body of the loops over the cubes for the faces
`zz == 0` and `zz == numCubesPerPart[2]-1` of the partition. -/
def setSidesZ (args : CubeArguments) (zz yy xx : Nat) (elemNeighbors : Nat → Int) :
    Nat → Int :=
  let c := cubeStart args zz yy xx
  let odd := cubeOdd zz yy xx
  let periodic : Bool := boundary args = 6 ∧ numPartitions args 2 = 1
  let delta : Int :=
    umul (umul (umul (numCubesPerPart args 0) (numCubesPerPart args 1))
      (numCubesPerPart args 2)) 5
  let numElem : Int := numElemPerPart args 3
  if zz = 0 then
    if odd ≠ 0 then setBoundarySides periodic elemNeighbors (uadd c 1) (uadd c 5) delta numElem
    else setBoundarySides periodic elemNeighbors c (uadd c 5) delta numElem
  else if zz = usub (numCubesPerPart args 2) 1 then
    if odd ≠ 0 then setBoundarySides periodic elemNeighbors (uadd c 11) (uadd c 15) (-delta) numElem
    else setBoundarySides periodic elemNeighbors (uadd c 11) (uadd c 15) (-delta) numElem
  else elemNeighbors

/-- The loop `for (int i = 0; i < 20; i++) elemNeighbors[c+i] += offset` of
the body of the loops over the cubes. -/
def addOffset (c : Nat) (offset : Int) (elemNeighbors : Nat → Int) : Nat → Int :=
  iterLoop (fun i e => Function.update e (uadd c i) (e (uadd c i) + offset)) 20 elemNeighbors

/-- The body of the loops over the cubes that fill `elemNeighbors` in
`main`: the table of the cube, the number of its first tetrahedron added,
and the sides at the faces of the partition. -/
def setCubeNeighbors (args : CubeArguments) (zz yy xx : Nat) (elemNeighbors : Nat → Int) :
    Nat → Int :=
  let c := cubeStart args zz yy xx
  let odd := cubeOdd zz yy xx
  setSidesZ args zz yy xx (setSidesY args zz yy xx (setSidesX args zz yy xx
    (addOffset c (cubeOffset args zz yy xx) (memcpy elemNeighbors c (TET_NEIGHBORS args odd) 20))))

/-- The loops over the cubes of a partition in `main`, with the body
`body zz yy xx`, in the order of the sequential program.  The outer loop is
an OpenMP loop; its iterations write different entries as long as the index
`c` does not wrap. -/
def cubeLoops (args : CubeArguments) (body : Nat → Nat → Nat → (Nat → Int) → (Nat → Int))
    (array : Nat → Int) : Nat → Int :=
  iterLoop (fun zz e =>
      iterLoop (fun yy e =>
          iterLoop (fun xx e => body zz yy xx e) (numCubesPerPart args 0) e)
        (numCubesPerPart args 1) e)
    (numCubesPerPart args 2) array

/-- The array `elemNeighbors` that `main` writes for every partition;
`uninitialized` is the content of the array after `new int[...]`.  The
entries are `int` and are taken as integers, the index is an `unsigned int`. -/
def elemNeighbors (args : CubeArguments) (uninitialized : Nat → Int) : Nat → Int :=
  cubeLoops args (setCubeNeighbors args) uninitialized

/-- The array `elemNeighborSidesDef` of `main`, which holds
`TET_SIDE_NEIGHBORS` for every cube. -/
def elemNeighborSidesDef (args : CubeArguments) (uninitialized : Nat → Int) : Nat → Int :=
  cubeLoops args (fun zz yy xx e =>
      memcpy e (cubeStart args zz yy xx) (TET_SIDE_NEIGHBORS (cubeOdd zz yy xx)) 20)
    uninitialized

/-- The arguments `-x 2 -y 2 -z 2 --px 1 --py 1 --pz 1 -b 6`: a partition of
two cubes in every dimension with periodic boundaries. -/
def periodicCube : CubeArguments :=
  { x := 2, y := 2, z := 2, px := 1, py := 1, pz := 1, boundary := 6 }

/-- The loop `for (unsigned int i = 0; i < vertices.size(); i++)` of `main`,
which precedes the loops that fill `elemNeighbors`, ends: the counter `i` is
an `unsigned int` and `vertices.size()` is `numElemPerPart[3]*4`, a product
of `unsigned long`. -/
def VertexLoopEnds (args : CubeArguments) : Prop :=
  4 * numElemPerPart args 3 < UINT_RANGE

/-- The array `elemNeighbors`, allocated by `new int[numElemPerPart[3]*4]`,
holds the twenty entries from `c` on that the body of the loops writes for
every cube of the partition. -/
def WritesInBounds (args : CubeArguments) : Prop :=
  ∀ zz, zz < numCubesPerPart args 2 → ∀ yy, yy < numCubesPerPart args 1 →
    ∀ xx, xx < numCubesPerPart args 0 →
      cubeStart args zz yy xx + 20 ≤ 4 * numElemPerPart args 3

/-- The counters of a partition do not wrap: `numCubesPerPart[3]` is the
number of cubes of the partition, and the number of entries of
`elemNeighbors`, four for each of the five tetrahedra of a cube, is below
`2^32`. -/
def NoOverflow (args : CubeArguments) : Prop :=
  numCubesPerPart args 3
      = numCubesPerPart args 0 * numCubesPerPart args 1 * numCubesPerPart args 2
    ∧ 20 * (numCubesPerPart args 0 * numCubesPerPart args 1 * numCubesPerPart args 2)
      < UINT_RANGE

/-- The array `u` is the array `e` outside the twenty entries from `c` on,
and the array `v` at these entries. -/
def AgreeOnBlock (c : Nat) (e u v : Nat → Int) : Prop :=
  (∀ p, ¬ (c ≤ p ∧ p < c + 20) → u p = e p) ∧ (∀ p, c ≤ p → p < c + 20 → u p = v p)

/-- The step in x direction from a cube to the cube of the neighbour at the
entry `r` of `TET_NEIGHBORS[odd]`. -/
def stepX (odd r : Nat) : Int :=
  if odd = 0 then [0, 0, -1, 0, 0, 0, 1, 0, 0, 1, 0, 0, -1, 0, 0, 0, 0, 0, 0, 0].getD r 0
  else [-1, 0, 0, 0, 0, 0, 0, 1, 0, 0, -1, 0, 1, 0, 0, 0, 0, 0, 0, 0].getD r 0

/-- The step in y direction from a cube to the cube of the neighbour at the
entry `r` of `TET_NEIGHBORS[odd]`. -/
def stepY (odd r : Nat) : Int :=
  if odd = 0 then [0, -1, 0, 0, 0, 0, 0, 1, 0, 0, -1, 0, 0, 1, 0, 0, 0, 0, 0, 0].getD r 0
  else [0, 0, 0, 1, 0, 0, -1, 0, 0, -1, 0, 0, 0, 0, 1, 0, 0, 0, 0, 0].getD r 0

/-- The step in z direction from a cube to the cube of the neighbour at the
entry `r` of `TET_NEIGHBORS[odd]`. -/
def stepZ (odd r : Nat) : Int :=
  if odd = 0 then [-1, 0, 0, 0, 0, -1, 0, 0, 0, 0, 0, 1, 0, 0, 0, 1, 0, 0, 0, 0].getD r 0
  else [0, -1, 0, 0, 0, -1, 0, 0, 0, 0, 0, 1, 0, 0, 0, 1, 0, 0, 0, 0].getD r 0

/-- The number, among the five tetrahedra of its cube, of the neighbour at the
entry `r` of `TET_NEIGHBORS[odd]`. -/
def targetTet (odd r : Nat) : Nat :=
  if odd = 0 then [2, 0, 1, 4, 4, 3, 0, 1, 4, 2, 3, 1, 3, 2, 4, 0, 0, 1, 2, 3].getD r 0
  else [1, 3, 4, 0, 4, 2, 1, 0, 4, 3, 2, 0, 3, 4, 2, 1, 0, 1, 2, 3].getD r 0

/-- The value of an entry with the step `step` in one direction after the
treatment of the two faces of the partition in that direction: `first` and
`last` say whether the cube is the first and the last one in the direction,
`v` is the value before. -/
def sideValue (first last : Prop) [Decidable first] [Decidable last] (step : Int)
    (periodic : Bool) (delta numElem v : Int) : Int :=
  if first then
    if step = -1 then (if periodic then v + delta else numElem) else v
  else if last then
    if step = 1 then (if periodic then v + -delta else numElem) else v
  else v

/-- The two entries `i` and `j` of `elemNeighborSides` set to 0. -/
def zeroSides (elemNeighborSides : Nat → Int) (i j : Nat) : Nat → Int :=
  Function.update (Function.update elemNeighborSides i 0) j 0

/-- The two loops over the cubes at a face of the partition in `main`, with
the body `body a b`. -/
def faceLoops (na nb : Nat) (body : Nat → Nat → (Nat → Int) → (Nat → Int))
    (array : Nat → Int) : Nat → Int :=
  iterLoop (fun a e => iterLoop (fun b e => body a b e) nb e) na array

/-- The loops of `main` that set the sides at the face `x == 0` of the
domain to 0 in `elemNeighborSides`.  The indices are `unsigned int`. -/
def faceX0 (args : CubeArguments) (elemNeighborSides : Nat → Int) : Nat → Int :=
  faceLoops (numCubesPerPart args 2) (numCubesPerPart args 1) (fun zz yy e =>
    let c := umul (umul (uadd (umul zz (numCubesPerPart args 1)) yy) (numCubesPerPart args 0)) 20
    if uadd zz yy % 2 ≠ 0 then zeroSides e c (uadd c 10)
    else zeroSides e (uadd c 2) (uadd c 12)) elemNeighborSides

/-- The loops of `main` that set the sides at the face
`x == numPartitions[0]-1` of the domain to 0 in `elemNeighborSides`. -/
def faceX1 (args : CubeArguments) (elemNeighborSides : Nat → Int) : Nat → Int :=
  faceLoops (numCubesPerPart args 2) (numCubesPerPart args 1) (fun zz yy e =>
    let c := umul (usub (uadd (umul (uadd (umul zz (numCubesPerPart args 1)) yy)
      (numCubesPerPart args 0)) (numCubesPerPart args 0)) 1) 20
    if uadd (uadd zz yy) 1 % 2 ≠ 0 then zeroSides e (uadd c 7) (uadd c 12)
    else zeroSides e (uadd c 6) (uadd c 9)) elemNeighborSides

/-- The loops of `main` that set the sides at the face `y == 0` of the
domain to 0 in `elemNeighborSides`. -/
def faceY0 (args : CubeArguments) (elemNeighborSides : Nat → Int) : Nat → Int :=
  faceLoops (numCubesPerPart args 2) (numCubesPerPart args 0) (fun zz xx e =>
    let c := umul (uadd (umul (umul zz (numCubesPerPart args 1)) (numCubesPerPart args 0)) xx) 20
    if uadd zz xx % 2 ≠ 0 then zeroSides e (uadd c 6) (uadd c 9)
    else zeroSides e (uadd c 1) (uadd c 10)) elemNeighborSides

/-- The loops of `main` that set the sides at the face
`y == numPartitions[1]-1` of the domain to 0 in `elemNeighborSides`. -/
def faceY1 (args : CubeArguments) (elemNeighborSides : Nat → Int) : Nat → Int :=
  faceLoops (numCubesPerPart args 2) (numCubesPerPart args 0) (fun zz xx e =>
    let c := umul (uadd (umul (usub (uadd (umul zz (numCubesPerPart args 1))
      (numCubesPerPart args 1)) 1) (numCubesPerPart args 0)) xx) 20
    if uadd (uadd zz xx) 1 % 2 ≠ 0 then zeroSides e (uadd c 3) (uadd c 14)
    else zeroSides e (uadd c 7) (uadd c 13)) elemNeighborSides

/-- The loops of `main` that set the sides at the face `z == 0` of the
domain to 0 in `elemNeighborSides`. -/
def faceZ0 (args : CubeArguments) (elemNeighborSides : Nat → Int) : Nat → Int :=
  faceLoops (numCubesPerPart args 1) (numCubesPerPart args 0) (fun yy xx e =>
    let c := umul (uadd (umul yy (numCubesPerPart args 0)) xx) 20
    if uadd yy xx % 2 ≠ 0 then zeroSides e (uadd c 1) (uadd c 5)
    else zeroSides e c (uadd c 5)) elemNeighborSides

/-- The loops of `main` that set the sides at the face
`z == numPartitions[2]-1` of the domain to 0 in `elemNeighborSides`. -/
def faceZ1 (args : CubeArguments) (elemNeighborSides : Nat → Int) : Nat → Int :=
  faceLoops (numCubesPerPart args 1) (numCubesPerPart args 0) (fun yy xx e =>
    let c := umul (uadd (umul (uadd (umul (usub (numCubesPerPart args 2) 1)
      (numCubesPerPart args 1)) yy) (numCubesPerPart args 0)) xx) 20
    zeroSides e (uadd c 11) (uadd c 15)) elemNeighborSides

/-- The array `elemNeighborSides` that `main` writes for the partition
`(x, y, z)`: the first `numElemPerPart[3]*4` entries of
`elemNeighborSidesDef`, with 0 for the sides at the faces of the domain unless
the boundary condition is 6. -/
def elemNeighborSides (args : CubeArguments) (x y z : Nat)
    (elemNeighborSidesDef uninitialized : Nat → Int) : Nat → Int :=
  let e0 : Nat → Int := fun p =>
    if p < numElemPerPart args 3 * 4 then elemNeighborSidesDef p else uninitialized p
  let e1 := if boundary args ≠ 6 ∧ x = 0 then faceX0 args e0 else e0
  let e2 := if boundary args ≠ 6 ∧ x = usub (numPartitions args 0) 1 then faceX1 args e1 else e1
  let e3 := if boundary args ≠ 6 ∧ y = 0 then faceY0 args e2 else e2
  let e4 := if boundary args ≠ 6 ∧ y = usub (numPartitions args 1) 1 then faceY1 args e3 else e3
  let e5 := if boundary args ≠ 6 ∧ z = 0 then faceZ0 args e4 else e4
  if boundary args ≠ 6 ∧ z = usub (numPartitions args 2) 1 then faceZ1 args e5 else e5



/-! ## The scheduler in double arithmetic

The times of the scheduler are of type `double`.  In this section every
sum, difference and product of the scheduler is rounded as IEEE 754 binary64
does with round to nearest, ties to even, one rounding for each operation.
The values are still rationals: a state of the scheduler holds finite
doubles, and a rounded result of magnitude `2^1024` or more stands for the
infinity of its sign, which compares with every finite double as that
infinity does.  The definitions of this section bear the names of the source
in the namespace `Ieee`; what has no arithmetic (the flags, the queues, the
defaults of `advanceInTime`) is shared with the definitions above. -/

/-- The power `2^e` of an integer exponent. -/
def pow2 (e : Int) : ℚ :=
  if 0 ≤ e then ((2 ^ e.toNat : Nat) : ℚ) else 1 / ((2 ^ (-e).toNat : Nat) : ℚ)

/-- The number of halvings that take `n` below 2, with at most `fuel`
halvings. -/
def log2Aux : Nat → Nat → Nat
  | 0, _ => 0
  | fuel + 1, n => if 2 ≤ n then log2Aux fuel (n / 2) + 1 else 0

/-- The binary exponent of a rational `x` other than 0: the integer `e` with
`2^e ≤ |x| < 2^(e+1)`. -/
def ilog2 (x : ℚ) : Int :=
  let e0 : Int := (log2Aux x.num.natAbs x.num.natAbs : Int) - (log2Aux x.den x.den : Int)
  if pow2 e0 ≤ |x| then e0 else e0 - 1

/-- The integer nearest to `y`, the even one of the two when `y` lies half
way between them. -/
def roundEven (y : ℚ) : Int :=
  let f := ⌊y⌋
  let r := y - f
  if r < 1 / 2 then f else if 1 / 2 < r then f + 1 else if f % 2 = 0 then f else f + 1

/-- The spacing of the doubles at `x`, as an exponent of 2: 52 below the
binary exponent of `x`, and `-1074` for the subnormal numbers. -/
def quantum (x : ℚ) : Int := max (ilog2 x - 52) (-1074)

/-- The double nearest to the rational `x` (round to nearest, ties to even):
the result of an arithmetic operation of type `double` whose exact value is
`x`.  Magnitudes from `2^1024` on are not cut off. -/
def fl (x : ℚ) : ℚ :=
  if x = 0 then 0 else (roundEven (x / pow2 (quantum x)) : ℚ) * pow2 (quantum x)

/-- The rational `x` is a finite double: an integer of magnitude below `2^53`
times a power of 2 that is at least `2^-1074`, of magnitude at most
`DBL_MAX`. -/
def Representable (x : ℚ) : Prop :=
  (∃ m p : Int, -1074 ≤ p ∧ |m| < 2 ^ 53 ∧ x = (m : ℚ) * pow2 p) ∧ |x| ≤ DBL_MAX

namespace Ieee

/-- Source `TimeManager::getTimeTolerance`: the product of the literal `1E-5`,
which is the double nearest to `1/100000`, and the first CFL time step
width. -/
def getTimeTolerance (s : TimeManager) : ℚ :=
  fl (fl (1 / 100000) * s.m_timeStepping.globalCflTimeStepWidths 0)

/-- The guard of the first `if` in the loop body of
`updateClusterDependencies` (requirements 1 to 5 for a full update) for
cluster `l_cluster`. -/
def fullUpdateCondition (s : TimeManager) (l_cluster : Nat) : Bool :=
  let l_timeTolerance := getTimeTolerance s
  let l_previousPredictionTime :=
    if l_cluster > 0 then (s.m_clusters (l_cluster - 1)).m_predictionTime else DBL_MAX
  let l_predictionTime := (s.m_clusters l_cluster).m_predictionTime
  let l_fullUpdateTime := (s.m_clusters l_cluster).m_fullUpdateTime
  let l_nextPredictionTime :=
    if l_cluster < s.m_timeStepping.numberOfLocalClusters - 1
    then (s.m_clusters (l_cluster + 1)).m_predictionTime else DBL_MAX
  (!(s.m_clusters l_cluster).m_updatable.neighboringCopy
    && !(s.m_clusters l_cluster).m_updatable.neighboringInterior)
  && decide (|fl (l_fullUpdateTime - s.m_timeStepping.synchronizationTime)| > l_timeTolerance)
  && decide (l_previousPredictionTime > fl (l_predictionTime - l_timeTolerance))
  && decide (|fl (l_predictionTime - l_fullUpdateTime)| > l_timeTolerance)
  && decide (l_nextPredictionTime > fl (l_predictionTime - l_timeTolerance))

/-- The guard of the second `if` in the loop body of
`updateClusterDependencies` (requirements 1 to 5 for a prediction) for
cluster `l_cluster`. -/
def predictionCondition (s : TimeManager) (l_cluster : Nat) : Bool :=
  let l_timeTolerance := getTimeTolerance s
  let l_previousFullUpdateTime :=
    if l_cluster > 0 then (s.m_clusters (l_cluster - 1)).m_fullUpdateTime else DBL_MAX
  let l_predictionTime := (s.m_clusters l_cluster).m_predictionTime
  let l_fullUpdateTime := (s.m_clusters l_cluster).m_fullUpdateTime
  let l_nextUpcomingFullUpdateTime :=
    if l_cluster < s.m_timeStepping.numberOfLocalClusters - 1
    then fl ((s.m_clusters (l_cluster + 1)).m_fullUpdateTime
           + (s.m_clusters (l_cluster + 1)).m_timeStepWidth)
    else DBL_MAX
  (!(s.m_clusters l_cluster).m_updatable.localCopy
    && !(s.m_clusters l_cluster).m_updatable.localInterior)
  && decide (|fl (l_fullUpdateTime - s.m_timeStepping.synchronizationTime)| > l_timeTolerance)
  && decide (l_previousFullUpdateTime > fl (l_predictionTime - l_timeTolerance))
  && decide (|fl (l_fullUpdateTime - l_predictionTime)| < l_timeTolerance)
  && decide (l_nextUpcomingFullUpdateTime > fl (l_predictionTime + l_timeTolerance))

/-- The record of a cluster after the body of the second `if`: flagged for a
prediction, with the next time step width, `m_resetLtsBuffers`,
`m_subTimeStart` and `m_sendLtsBuffers` derived. -/
def predictionSetup (ts : TimeStepping) (l_timeTolerance : ℚ) (l_cluster : Nat)
    (c : TimeCluster) : TimeCluster :=
  let l_globalClusterId := ts.clusterIds l_cluster
  let c1 := { c with m_updatable := { c.m_updatable with localInterior := true } }
  let c2 := { c1 with m_timeStepWidth := ts.globalCflTimeStepWidths l_globalClusterId }
  let c3 := { c2 with
    m_timeStepWidth :=
      min c2.m_timeStepWidth (fl (ts.synchronizationTime - c2.m_fullUpdateTime)) }
  let c4 :=
    if c3.m_numberOfFullUpdates % ts.globalTimeStepRates l_globalClusterId = 0
    then { c3 with m_resetLtsBuffers := true, m_subTimeStart := 0 }
    else { c3 with m_resetLtsBuffers := false }
  let c5 :=
    if (c4.m_numberOfFullUpdates + 1) % ts.globalTimeStepRates l_globalClusterId = 0
    then { c4 with m_sendLtsBuffers := true }
    else { c4 with m_sendLtsBuffers := false }
  if |fl (ts.synchronizationTime - fl (c5.m_fullUpdateTime + c5.m_timeStepWidth))|
      < l_timeTolerance
  then { c5 with m_sendLtsBuffers := true }
  else c5

/-- The body of the second `if`: the cluster is set up for its prediction
and pushed on the local interior queue. -/
def enqueuePrediction (s : TimeManager) (l_cluster : Nat) : TimeManager :=
  { s with
    m_clusters := Function.update s.m_clusters l_cluster
      (predictionSetup s.m_timeStepping (getTimeTolerance s) l_cluster (s.m_clusters l_cluster))
    m_localInteriorQueue := s.m_localInteriorQueue ++ [l_cluster] }

/-- One pass of the loop body of `updateClusterDependencies` for cluster
`l_cluster`.  The source reads the times of the cluster and of its neighbours
once, before the first `if`; the first `if` changes none of them, so the
second guard is evaluated on the state it leaves. -/
def evaluateCluster (l_cluster : Nat) (s : TimeManager) : TimeManager :=
  let s1 := if fullUpdateCondition s l_cluster then enqueueFullUpdate s l_cluster else s
  if predictionCondition s1 l_cluster then enqueuePrediction s1 l_cluster else s1

/-- The record of cluster `l_cluster` after its pass of the loop body. -/
def evaluatedCluster (s : TimeManager) (l_cluster : Nat) : TimeCluster :=
  let c1 := if fullUpdateCondition s l_cluster then markFullUpdate (s.m_clusters l_cluster)
            else s.m_clusters l_cluster
  if predictionCondition s l_cluster
  then predictionSetup s.m_timeStepping (getTimeTolerance s) l_cluster c1 else c1

/-- Source `TimeManager::updateClusterDependencies`: the clusters from
`l_lowerCluster` to `l_upperCluster` are evaluated in ascending order. -/
def updateClusterDependencies (i_localClusterId : Nat) (s : TimeManager) : TimeManager :=
  let l_lowerCluster := if i_localClusterId ≠ 0 then i_localClusterId - 1 else i_localClusterId
  let l_upperCluster :=
    if i_localClusterId < s.m_timeStepping.numberOfLocalClusters - 1
    then i_localClusterId + 1 else i_localClusterId
  (List.range' l_lowerCluster (l_upperCluster + 1 - l_lowerCluster)).foldl
    (fun t l_cluster => evaluateCluster l_cluster t) s

/-- Modelled from the spec: `TimeCluster::computeLocalInterior`, whose source
is not part of the repository files.  A completed prediction step advances
`predictionTime` by `timeStepWidth`, a sum of doubles, and clears the local
flag. -/
def computeLocalInterior (c : TimeCluster) : TimeCluster :=
  { c with
    m_predictionTime := fl (c.m_predictionTime + c.m_timeStepWidth)
    m_updatable := { c.m_updatable with localInterior := false } }

/-- Modelled from the spec: `TimeCluster::computeNeighboringInterior`, whose
source is not part of the repository files.  A completed correction step
advances `fullUpdateTime` by `timeStepWidth`, a sum of doubles, counts one
more full update and clears the neighboring flag. -/
def computeNeighboringInterior (c : TimeCluster) : TimeCluster :=
  { c with
    m_fullUpdateTime := fl (c.m_fullUpdateTime + c.m_timeStepWidth)
    m_numberOfFullUpdates := c.m_numberOfFullUpdates + 1
    m_updatable := { c.m_updatable with neighboringInterior := false } }

/-- The block "update a single interior region (if present) with local
updates" of `advanceInTime`. -/
def localInteriorStep (s : TimeManager) : TimeManager :=
  match pqTop (queueKey s) s.m_localInteriorQueue with
  | none => s
  | some l =>
    let s1 : TimeManager :=
      { s with
        m_clusters := Function.update s.m_clusters l (computeLocalInterior (s.m_clusters l))
        m_localInteriorQueue := pqPop (queueKey s) s.m_localInteriorQueue }
    updateClusterDependencies (s1.m_clusters l).m_clusterId s1

/-- The block "update a single interior region (if present) with neighboring
updates" of `advanceInTime`. -/
def neighboringInteriorStep (s : TimeManager) : TimeManager :=
  match pqTop (queueKey s) s.m_neighboringInteriorQueue with
  | none => s
  | some l =>
    let s1 : TimeManager :=
      { s with
        m_clusters := Function.update s.m_clusters l (computeNeighboringInterior (s.m_clusters l))
        m_neighboringInteriorQueue := pqPop (queueKey s) s.m_neighboringInteriorQueue }
    updateClusterDependencies (s1.m_clusters l).m_clusterId s1

/-- One iteration of the `while` loop of `advanceInTime`. -/
def advanceInTimeIteration (s : TimeManager) : TimeManager :=
  logProgress (neighboringInteriorStep (localInteriorStep s))

/-- The part of `advanceInTime` before the `while` loop: the synchronization
time is stored, every cluster gets its default values, and
`updateClusterDependencies` runs for the clusters in ascending order. -/
def advanceInTimeSetup (i_synchronizationTime : ℚ) (s : TimeManager) : TimeManager :=
  (List.range s.m_timeStepping.numberOfLocalClusters).foldl
    (fun t l_cluster => updateClusterDependencies l_cluster t)
    (resetState i_synchronizationTime s)

/-- The `while` loop of `advanceInTime` run for at most `fuel` iterations:
`some` of the state at loop exit, `none` when the queues are still not empty. -/
def advanceInTimeLoop : Nat → TimeManager → Option TimeManager
  | 0, s => if allQueuesEmpty s then some s else none
  | fuel + 1, s =>
    if allQueuesEmpty s then some s else advanceInTimeLoop fuel (advanceInTimeIteration s)

/-- Source `TimeManager::advanceInTime`, with the `while` loop bounded by
`fuel` iterations.  The result is `none` when the assertion
`synchronizationTime <= i_synchronizationTime` fails or the fuel runs out. -/
def advanceInTime (fuel : Nat) (i_synchronizationTime : ℚ) (s : TimeManager) :
    Option TimeManager :=
  if s.m_timeStepping.synchronizationTime ≤ i_synchronizationTime
  then advanceInTimeLoop fuel (advanceInTimeSetup i_synchronizationTime s)
  else none

/-- A state of the initialisation of the queues in which all clusters are at
the common time `t0` and exactly the clusters from `q` on are set up for a
prediction: they are flagged, have a time step width that carries the sum of
doubles `t0 + timeStepWidth` beyond `t0 + ε`, and wait in the local interior
queue, last cluster first; the clusters before `q` are not flagged and have
the time step width 0; no cluster is flagged for a full update.  The
tolerance `ε` is positive and is not absorbed at `t0`, the double difference
of `t0` and the synchronization time is above the tolerance in magnitude,
and the CFL width of every cluster, clipped at the synchronization time,
carries `t0` beyond `t0 + ε`. -/
structure PredictionsQueued (t0 : ℚ) (q : Nat) (t : TimeManager) : Prop where
  tolerance : 0 < getTimeTolerance t
  sync : |fl (t0 - t.m_timeStepping.synchronizationTime)| > getTimeTolerance t
  below : fl (t0 - getTimeTolerance t) < t0
  above : fl (t0 + getTimeTolerance t) < DBL_MAX
  top : t0 ≤ DBL_MAX
  widths : ∀ l, l < t.m_timeStepping.numberOfLocalClusters →
    fl (t0 + min (clusterWidth t.m_timeStepping l)
        (fl (t.m_timeStepping.synchronizationTime - t0)))
      > fl (t0 + getTimeTolerance t)
  le : q ≤ t.m_timeStepping.numberOfLocalClusters
  predictionTime : ∀ l, l < t.m_timeStepping.numberOfLocalClusters →
    (t.m_clusters l).m_predictionTime = t0
  fullUpdateTime : ∀ l, l < t.m_timeStepping.numberOfLocalClusters →
    (t.m_clusters l).m_fullUpdateTime = t0
  localCopy : ∀ l, l < t.m_timeStepping.numberOfLocalClusters →
    (t.m_clusters l).m_updatable.localCopy = false
  neighboringInterior : ∀ l, l < t.m_timeStepping.numberOfLocalClusters →
    (t.m_clusters l).m_updatable.neighboringInterior = false
  localInterior : ∀ l, l < t.m_timeStepping.numberOfLocalClusters →
    ((t.m_clusters l).m_updatable.localInterior = true ↔ q ≤ l)
  widthZero : ∀ l, l < q → (t.m_clusters l).m_timeStepWidth = 0
  widthSet : ∀ l, q ≤ l → l < t.m_timeStepping.numberOfLocalClusters →
    fl (t0 + (t.m_clusters l).m_timeStepWidth) > fl (t0 + getTimeTolerance t)
  localInteriorQueue : t.m_localInteriorQueue
    = (List.range' q (t.m_timeStepping.numberOfLocalClusters - q)).reverse
  neighboringInteriorQueue : t.m_neighboringInteriorQueue = []

end Ieee

/-! ### The dyadic grid -/

/-- The rational `x` is an integer multiple of `2^p`. -/
def Dyadic (p : Int) (x : ℚ) : Prop := ∃ n : Int, x = (n : ℚ) * pow2 p

/-- The conditions on the grid unit `2^p`, the fine unit `2^p'`, the bound
`B` of the times and the two tolerances under which the guards of the
scheduler decide alike in double and in exact arithmetic: multiples of
`2^p'` up to `2 B + 2^p` in magnitude are doubles, the double tolerance
`tolF` lies between `2^p'` and half the grid unit, and the exact tolerance
`tolE` is positive and below the grid unit. -/
structure ExactWindow (p' p : Int) (B tolF tolE : ℚ) : Prop where
  fine : -1074 ≤ p'
  coarse : p' < p
  bound : 2 * B + pow2 p < 2 ^ 53 * pow2 p'
  top : 2 ^ 53 * pow2 p' ≤ DBL_MAX
  tolLow : pow2 p' ≤ tolF
  tolHigh : tolF ≤ pow2 (p - 1)
  exactPos : 0 < tolE
  exactHigh : tolE < pow2 p

/-- The times of a cluster record are on the grid of `2^p`: the prediction
time, the full update time and the time step width are multiples of `2^p`,
the two times are at most `B` in magnitude, and the time step width lies
between 0 and `B`. -/
def GridRecord (p : Int) (B : ℚ) (c : TimeCluster) : Prop :=
  Dyadic p c.m_predictionTime ∧ Dyadic p c.m_fullUpdateTime ∧ Dyadic p c.m_timeStepWidth
    ∧ |c.m_predictionTime| ≤ B ∧ |c.m_fullUpdateTime| ≤ B
    ∧ 0 ≤ c.m_timeStepWidth ∧ c.m_timeStepWidth ≤ B

/-- A state of a call in which the double arithmetic of the scheduler is
exact: the synchronization time, the CFL widths of the local clusters and
the times of every cluster are on the grid of `2^p` and bounded by `B`, the
tolerances meet `ExactWindow`, and every cluster record is `SyncBounded`. -/
structure GridState (p' p : Int) (B : ℚ) (s : TimeManager) : Prop where
  window : ExactWindow p' p B (Ieee.getTimeTolerance s) (getTimeTolerance s)
  sync : Dyadic p s.m_timeStepping.synchronizationTime
  syncBound : |s.m_timeStepping.synchronizationTime| ≤ B
  widths : ∀ l, l < s.m_timeStepping.numberOfLocalClusters →
    Dyadic p (clusterWidth s.m_timeStepping l) ∧ 0 ≤ clusterWidth s.m_timeStepping l
      ∧ clusterWidth s.m_timeStepping l ≤ B
  records : ∀ l, l < s.m_timeStepping.numberOfLocalClusters → GridRecord p B (s.m_clusters l)
  bounded : ∀ l, l < s.m_timeStepping.numberOfLocalClusters →
    SyncBounded s.m_timeStepping.synchronizationTime (getTimeTolerance s) (s.m_clusters l)

/-- The configuration of a manager fits the grid: the cluster widths are
multiples of `2^p` within the bound `B`, and the double tolerance lies between
the fine unit `2^p'` and half the grid unit. -/
structure GridConfig (p' p : Int) (B : ℚ) (s : TimeManager) : Prop where
  fine : -1074 ≤ p'
  coarse : p' < p
  bound : 2 * B + pow2 p < 2 ^ 53 * pow2 p'
  top : 2 ^ 53 * pow2 p' ≤ DBL_MAX
  tolLow : pow2 p' ≤ Ieee.getTimeTolerance s
  tolHigh : Ieee.getTimeTolerance s ≤ pow2 (p - 1)
  widths : ∀ l, l < s.m_timeStepping.numberOfLocalClusters →
    Dyadic p (clusterWidth s.m_timeStepping l) ∧ 0 ≤ clusterWidth s.m_timeStepping l
      ∧ clusterWidth s.m_timeStepping l ≤ B

/-- The entry state of a call `advanceInTime(T)` on the grid: configuration,
synchronization time and cluster times are multiples of `2^p` within `B`, and
no cluster is ahead of `T`. -/
structure GridEntry (p' p : Int) (B T : ℚ) (s : TimeManager) : Prop where
  config : GridConfig p' p B s
  sync : Dyadic p T
  syncBound : |T| ≤ B
  times : ∀ l, l < s.m_timeStepping.numberOfLocalClusters →
    Dyadic p (s.m_clusters l).m_predictionTime ∧ Dyadic p (s.m_clusters l).m_fullUpdateTime
      ∧ |(s.m_clusters l).m_predictionTime| ≤ B ∧ |(s.m_clusters l).m_fullUpdateTime| ≤ B
  entry : ∀ l, l < s.m_timeStepping.numberOfLocalClusters → (s.m_clusters l).m_fullUpdateTime ≤ T

namespace Ieee

/-- States of one call `advanceInTime(T)` from `s0` in double arithmetic: the
state after the set-up and every state after a further loop-body block. -/
inductive Reached (T : ℚ) (s0 : TimeManager) : TimeManager → Prop
  | setup : Reached T s0 (advanceInTimeSetup T s0)
  | localInterior {s : TimeManager} :
      Reached T s0 s → Reached T s0 (localInteriorStep s)
  | neighboringInterior {s : TimeManager} :
      Reached T s0 s → Reached T s0 (neighboringInteriorStep s)
  | log {s : TimeManager} : Reached T s0 s → Reached T s0 (logProgress s)

/-- States reachable in double arithmetic by `setInitialTimes` followed by
calls of `advanceInTime` whose arguments are multiples of `2^p` within `B` and
not behind any cluster; the flag tells whether a call is in progress. -/
inductive Reachable (p : Int) (B : ℚ) (s0 : TimeManager) : Bool → TimeManager → Prop
  | initial (i_time : ℚ) (s : TimeManager) :
      setInitialTimes i_time s0 = some s → Dyadic p i_time → |i_time| ≤ B →
      Reachable p B s0 false s
  | enter (T : ℚ) {s : TimeManager} :
      Reachable p B s0 false s →
      s.m_timeStepping.synchronizationTime ≤ T →
      (∀ l, l < s.m_timeStepping.numberOfLocalClusters →
        (s.m_clusters l).m_fullUpdateTime ≤ T) →
      Dyadic p T → |T| ≤ B →
      Reachable p B s0 true (advanceInTimeSetup T s)
  | localInterior {s : TimeManager} :
      Reachable p B s0 true s → Reachable p B s0 true (localInteriorStep s)
  | neighboringInterior {s : TimeManager} :
      Reachable p B s0 true s → Reachable p B s0 true (neighboringInteriorStep s)
  | log {s : TimeManager} : Reachable p B s0 true s → Reachable p B s0 true (logProgress s)
  | leave {s : TimeManager} :
      Reachable p B s0 true s → allQueuesEmpty s = true → Reachable p B s0 false s

end Ieee

/-! ### Concrete inputs in double arithmetic -/

/-- Two clusters of widths 1 and 2 on the way to the synchronization time
`1 + 2^-18`: cluster 0 has reached time 1, cluster 1 has predicted up to the
synchronization time and awaits its correction.  All times are doubles. -/
def nearSyncState : TimeManager :=
  managerOf 2 [2, 1] [1, 2] (1 + 1 / 262144)
    (fun l => if l = 0 then clusterAt 0 1 1 1 1
              else clusterAt l (1 + 1 / 262144) 0 (1 + 1 / 262144) 0)

/-- Two clusters of widths 100000 and 200000, for which the tolerance is the
double 1, and synchronization time 1000000: cluster 0 has predicted up to
time 2 and awaits its correction, cluster 1 has predicted up to time 1. -/
def levelState : TimeManager :=
  managerOf 2 [2, 1] [100000, 200000] 1000000
    (fun l => if l = 0 then clusterAt 0 2 0 2 0 else clusterAt l 1 0 1 0)

/-- Two clusters of widths 100000 and 200000, for which the tolerance is the
double 1, at the common time 0 with synchronization time 1000000; the next
full update of cluster 1 is due at time 1/2. -/
def halfStepState : TimeManager :=
  managerOf 2 [2, 1] [100000, 200000] 1000000
    (fun l => if l = 0 then clusterAt 0 0 0 0 0 else clusterAt l 0 0 (1 / 2) 0)

/-- One cluster of width 10 at the double `0.3`, with the double `0.9` as
synchronization time. -/
def roundedClipState : TimeManager :=
  managerOf 1 [1] [10] (fl (9 / 10)) (fun l => clusterAt l (fl (3 / 10)) (fl (3 / 10)) 0 0)

/-- One cluster of rate 2 and width `2^-8 - 2^-20` at time `2^44`, where the
doubles are `2^-8` apart, with synchronization time `2^44 + 2^-8`. -/
def absorbedStepState : TimeManager :=
  managerOf 1 [2] [1 / 256 - 1 / 1048576] (17592186044416 + 1 / 256)
    (fun l => clusterAt l 17592186044416 17592186044416 0 0)

/-- Three clusters of width `2^-9` at the common time `2^44`, where the
doubles are `2^-8` apart, as left by `setInitialTimes`. -/
def absorbedClusters : TimeManager :=
  managerOf 3 [1, 1, 1] [1 / 512, 1 / 512, 1 / 512] 0
    (fun l => clusterAt l 17592186044416 17592186044416 0 0)

/-- One cluster of rate 1 whose CFL width is the double `0.001`, as built by
`addClusters`. -/
def thinCluster : TimeManager :=
  managerOf 1 [1] [fl (1 / 1000)] 0 (fun l => clusterAt l 0 0 0 0)

/-- The record of the cluster of `thinCluster` at time `2^44`, set up for a
prediction with the time step width `0.001`. -/
def stalledRecord : TimeCluster :=
  { m_clusterId := 0, m_globalClusterId := 0,
    m_updatable := ⟨false, true, false, false⟩,
    m_predictionTime := 17592186044416, m_fullUpdateTime := 17592186044416,
    m_receiverTime := 17592186044416,
    m_subTimeStart := 0, m_timeStepWidth := fl (1 / 1000), m_numberOfFullUpdates := 0,
    m_resetLtsBuffers := true, m_sendLtsBuffers := true }

/-- The record `stalledRecord` after its prediction step: the flag is
cleared and the prediction time is still `2^44`. -/
def stalledIdle : TimeCluster :=
  { stalledRecord with m_updatable := ⟨false, false, false, false⟩ }

/-- A state of the call `advanceInTime(2^44 + 1)` for the one cluster of
width `0.001` at time `2^44`: the cluster is set up for a prediction and
waits in the local interior queue. -/
structure Stalled (s : TimeManager) : Prop where
  clusters : s.m_timeStepping.numberOfLocalClusters = 1
  width : s.m_timeStepping.globalCflTimeStepWidths 0 = fl (1 / 1000)
  clusterIds : s.m_timeStepping.clusterIds 0 = 0
  rate : s.m_timeStepping.globalTimeStepRates 0 = 1
  sync : s.m_timeStepping.synchronizationTime = 17592186044417
  record : s.m_clusters 0 = stalledRecord
  localQueue : s.m_localInteriorQueue = [0]
  neighboringQueue : s.m_neighboringInteriorQueue = []

/-- One cluster of rate 1 and CFL width 10 at time 0, as built by
`addClusters`. -/
def wideCluster : TimeManager :=
  managerOf 1 [1] [10] 0 (fun l => clusterAt l 0 0 0 0)

/-- One local cluster whose global id is 1: the global cluster 0 has the CFL
width `1e-12`, which sets the tolerance to about `1e-17`, and the local
cluster has the CFL width 10.  Time 0, queues empty. -/
def coarseLocalCluster : TimeManager :=
  { m_logUpdates := 4294967295
    m_timeStepping :=
      { globalTimeStepRates := fun g => [1, 1].getD g 1
        globalCflTimeStepWidths := fun g => [fl (1 / 1000000000000), 10].getD g 1
        synchronizationTime := 0
        numberOfLocalClusters := 1
        clusterIds := fun _ => 1 }
    m_clusters := fun l => { clusterAt l 0 0 0 0 with m_globalClusterId := 1 }
    m_localCopyQueue := [], m_localInteriorQueue := []
    m_neighboringCopyQueue := [], m_neighboringInteriorQueue := [] }

/-! ## The guards of `updateClusterDependencies` -/

theorem predictionCondition_enqueueFullUpdate (s : TimeManager) (l : Nat) :
    predictionCondition (enqueueFullUpdate s l) l = predictionCondition s l := by
  unfold predictionCondition getTimeTolerance
  by_cases h0 : l > 0 <;> by_cases h1 : l < s.m_timeStepping.numberOfLocalClusters - 1
  all_goals
    have e1 : l > 0 → l - 1 ≠ l := by omega
    simp [enqueueFullUpdate, markFullUpdate, Function.update_same, Function.update_noteq,
      h0, h1, e1]

theorem predictionCondition_afterFullUpdate (s : TimeManager) (l : Nat) :
    predictionCondition (if fullUpdateCondition s l then enqueueFullUpdate s l else s) l
      = predictionCondition s l := by
  split
  · exact predictionCondition_enqueueFullUpdate s l
  · rfl

theorem fullUpdateCondition_iff (s : TimeManager) (l : Nat)
    (hmax : (s.m_clusters l).m_predictionTime - getTimeTolerance s < DBL_MAX) :
    fullUpdateCondition s l = true ↔
      ((s.m_clusters l).m_updatable.neighboringCopy = false
        ∧ (s.m_clusters l).m_updatable.neighboringInterior = false
        ∧ |(s.m_clusters l).m_fullUpdateTime - s.m_timeStepping.synchronizationTime|
            > getTimeTolerance s
        ∧ (0 < l → (s.m_clusters (l - 1)).m_predictionTime
            > (s.m_clusters l).m_predictionTime - getTimeTolerance s)
        ∧ |(s.m_clusters l).m_predictionTime - (s.m_clusters l).m_fullUpdateTime|
            > getTimeTolerance s
        ∧ (l + 1 < s.m_timeStepping.numberOfLocalClusters →
            (s.m_clusters (l + 1)).m_predictionTime
              > (s.m_clusters l).m_predictionTime - getTimeTolerance s)) := by
  unfold fullUpdateCondition
  by_cases h0 : l > 0 <;> by_cases h1 : l < s.m_timeStepping.numberOfLocalClusters - 1
  all_goals
    have h1' : (l + 1 < s.m_timeStepping.numberOfLocalClusters) ↔
        l < s.m_timeStepping.numberOfLocalClusters - 1 := by omega
    simp only [h1', h0, h1, if_true, if_false, Bool.and_eq_true, Bool.not_eq_true',
      decide_eq_true_eq, gt_iff_lt, true_implies, false_implies, and_true, hmax]
    tauto

theorem predictionCondition_iff (s : TimeManager) (l : Nat)
    (hlo : (s.m_clusters l).m_predictionTime - getTimeTolerance s < DBL_MAX)
    (hhi : (s.m_clusters l).m_predictionTime + getTimeTolerance s < DBL_MAX) :
    predictionCondition s l = true ↔
      ((s.m_clusters l).m_updatable.localCopy = false
        ∧ (s.m_clusters l).m_updatable.localInterior = false
        ∧ |(s.m_clusters l).m_fullUpdateTime - s.m_timeStepping.synchronizationTime|
            > getTimeTolerance s
        ∧ (0 < l → (s.m_clusters (l - 1)).m_fullUpdateTime
            > (s.m_clusters l).m_predictionTime - getTimeTolerance s)
        ∧ |(s.m_clusters l).m_fullUpdateTime - (s.m_clusters l).m_predictionTime|
            < getTimeTolerance s
        ∧ (l + 1 < s.m_timeStepping.numberOfLocalClusters →
            (s.m_clusters (l + 1)).m_fullUpdateTime + (s.m_clusters (l + 1)).m_timeStepWidth
              > (s.m_clusters l).m_predictionTime + getTimeTolerance s)) := by
  unfold predictionCondition
  by_cases h0 : l > 0 <;> by_cases h1 : l < s.m_timeStepping.numberOfLocalClusters - 1
  all_goals
    have h1' : (l + 1 < s.m_timeStepping.numberOfLocalClusters) ↔
        l < s.m_timeStepping.numberOfLocalClusters - 1 := by omega
    simp only [h1', h0, h1, if_true, if_false, Bool.and_eq_true, Bool.not_eq_true',
      decide_eq_true_eq, gt_iff_lt, true_implies, false_implies, and_true, hlo, hhi]
    tauto

/-- The four outcomes of one pass of the loop body. -/
theorem evaluateCluster_eq (s : TimeManager) (l : Nat) :
    evaluateCluster l s =
      if fullUpdateCondition s l then
        (if predictionCondition s l then enqueuePrediction (enqueueFullUpdate s l) l
         else enqueueFullUpdate s l)
      else (if predictionCondition s l then enqueuePrediction s l else s) := by
  unfold evaluateCluster
  by_cases h : fullUpdateCondition s l = true <;>
  by_cases h2 : predictionCondition s l = true <;>
  simp [h, h2, predictionCondition_enqueueFullUpdate]

/-- The neighboring interior queue after one pass of the loop body. -/
theorem evaluateCluster_neighboringInteriorQueue (s : TimeManager) (l : Nat) :
    (evaluateCluster l s).m_neighboringInteriorQueue
      = if fullUpdateCondition s l then s.m_neighboringInteriorQueue ++ [l]
        else s.m_neighboringInteriorQueue := by
  rw [evaluateCluster_eq]
  split_ifs <;> rfl

/-- The local interior queue after one pass of the loop body. -/
theorem evaluateCluster_localInteriorQueue (s : TimeManager) (l : Nat) :
    (evaluateCluster l s).m_localInteriorQueue
      = if predictionCondition s l then s.m_localInteriorQueue ++ [l]
        else s.m_localInteriorQueue := by
  rw [evaluateCluster_eq]
  split_ifs <;> rfl

theorem evaluateCluster_timeStepping (s : TimeManager) (l : Nat) :
    (evaluateCluster l s).m_timeStepping = s.m_timeStepping := by
  rw [evaluateCluster_eq]
  split_ifs <;> rfl

theorem evaluateCluster_logUpdates (s : TimeManager) (l : Nat) :
    (evaluateCluster l s).m_logUpdates = s.m_logUpdates := by
  rw [evaluateCluster_eq]
  split_ifs <;> rfl

theorem evaluateCluster_localCopyQueue (s : TimeManager) (l : Nat) :
    (evaluateCluster l s).m_localCopyQueue = s.m_localCopyQueue := by
  rw [evaluateCluster_eq]
  split_ifs <;> rfl

theorem evaluateCluster_neighboringCopyQueue (s : TimeManager) (l : Nat) :
    (evaluateCluster l s).m_neighboringCopyQueue = s.m_neighboringCopyQueue := by
  rw [evaluateCluster_eq]
  split_ifs <;> rfl

theorem getTimeTolerance_evaluateCluster (s : TimeManager) (l : Nat) :
    getTimeTolerance (evaluateCluster l s) = getTimeTolerance s := by
  unfold getTimeTolerance
  rw [evaluateCluster_timeStepping]

/-- One pass of the loop body rewrites the record of the evaluated cluster
and no other. -/
theorem evaluateCluster_clusters (s : TimeManager) (l : Nat) :
    (evaluateCluster l s).m_clusters
      = Function.update s.m_clusters l (evaluatedCluster s l) := by
  rw [evaluateCluster_eq]
  unfold evaluatedCluster
  by_cases h : fullUpdateCondition s l = true <;>
  by_cases h2 : predictionCondition s l = true
  · simp [h, h2, enqueuePrediction, enqueueFullUpdate, getTimeTolerance]
  · simp [h, h2, enqueueFullUpdate]
  · simp [h, h2, enqueuePrediction]
  · simp [h, h2]

theorem evaluateCluster_clusters_same (s : TimeManager) (l : Nat) :
    (evaluateCluster l s).m_clusters l = evaluatedCluster s l := by
  rw [evaluateCluster_clusters, Function.update_same]

theorem evaluateCluster_clusters_ne (s : TimeManager) (l j : Nat) (h : j ≠ l) :
    (evaluateCluster l s).m_clusters j = s.m_clusters j := by
  rw [evaluateCluster_clusters, Function.update_noteq h]

/-! ## The record set up for a prediction -/

theorem markFullUpdate_predictionTime (c : TimeCluster) :
    (markFullUpdate c).m_predictionTime = c.m_predictionTime := rfl

theorem markFullUpdate_fullUpdateTime (c : TimeCluster) :
    (markFullUpdate c).m_fullUpdateTime = c.m_fullUpdateTime := rfl

theorem markFullUpdate_timeStepWidth (c : TimeCluster) :
    (markFullUpdate c).m_timeStepWidth = c.m_timeStepWidth := rfl

theorem markFullUpdate_numberOfFullUpdates (c : TimeCluster) :
    (markFullUpdate c).m_numberOfFullUpdates = c.m_numberOfFullUpdates := rfl

theorem markFullUpdate_subTimeStart (c : TimeCluster) :
    (markFullUpdate c).m_subTimeStart = c.m_subTimeStart := rfl

theorem predictionSetup_timeStepWidth (ts : TimeStepping) (e : ℚ) (l : Nat) (c : TimeCluster) :
    (predictionSetup ts e l c).m_timeStepWidth
      = min (ts.globalCflTimeStepWidths (ts.clusterIds l))
          (ts.synchronizationTime - c.m_fullUpdateTime) := by
  unfold predictionSetup
  simp only []
  split_ifs <;> rfl

theorem predictionSetup_fullUpdateTime (ts : TimeStepping) (e : ℚ) (l : Nat) (c : TimeCluster) :
    (predictionSetup ts e l c).m_fullUpdateTime = c.m_fullUpdateTime := by
  unfold predictionSetup
  simp only []
  split_ifs <;> rfl

theorem predictionSetup_predictionTime (ts : TimeStepping) (e : ℚ) (l : Nat) (c : TimeCluster) :
    (predictionSetup ts e l c).m_predictionTime = c.m_predictionTime := by
  unfold predictionSetup
  simp only []
  split_ifs <;> rfl

theorem predictionSetup_numberOfFullUpdates (ts : TimeStepping) (e : ℚ) (l : Nat)
    (c : TimeCluster) :
    (predictionSetup ts e l c).m_numberOfFullUpdates = c.m_numberOfFullUpdates := by
  unfold predictionSetup
  simp only []
  split_ifs <;> rfl

theorem predictionSetup_clusterId (ts : TimeStepping) (e : ℚ) (l : Nat) (c : TimeCluster) :
    (predictionSetup ts e l c).m_clusterId = c.m_clusterId := by
  unfold predictionSetup
  simp only []
  split_ifs <;> rfl

theorem predictionSetup_globalClusterId (ts : TimeStepping) (e : ℚ) (l : Nat)
    (c : TimeCluster) :
    (predictionSetup ts e l c).m_globalClusterId = c.m_globalClusterId := by
  unfold predictionSetup
  simp only []
  split_ifs <;> rfl

theorem predictionSetup_updatable (ts : TimeStepping) (e : ℚ) (l : Nat) (c : TimeCluster) :
    (predictionSetup ts e l c).m_updatable = { c.m_updatable with localInterior := true } := by
  unfold predictionSetup
  simp only []
  split_ifs <;> rfl

theorem predictionSetup_resetLtsBuffers (ts : TimeStepping) (e : ℚ) (l : Nat)
    (c : TimeCluster) :
    (predictionSetup ts e l c).m_resetLtsBuffers
      = decide (c.m_numberOfFullUpdates % ts.globalTimeStepRates (ts.clusterIds l) = 0) := by
  unfold predictionSetup
  simp only []
  split_ifs <;> simp_all

theorem predictionSetup_subTimeStart (ts : TimeStepping) (e : ℚ) (l : Nat) (c : TimeCluster) :
    (predictionSetup ts e l c).m_subTimeStart
      = if c.m_numberOfFullUpdates % ts.globalTimeStepRates (ts.clusterIds l) = 0 then 0
        else c.m_subTimeStart := by
  unfold predictionSetup
  simp only []
  split_ifs <;> simp_all

theorem predictionSetup_sendLtsBuffers (ts : TimeStepping) (e : ℚ) (l : Nat) (c : TimeCluster) :
    (predictionSetup ts e l c).m_sendLtsBuffers
      = (decide ((c.m_numberOfFullUpdates + 1) % ts.globalTimeStepRates (ts.clusterIds l) = 0)
         || decide (|ts.synchronizationTime - (c.m_fullUpdateTime
              + min (ts.globalCflTimeStepWidths (ts.clusterIds l))
                  (ts.synchronizationTime - c.m_fullUpdateTime))| < e)) := by
  unfold predictionSetup
  simp only []
  split_ifs <;> simp_all

/-- The record of a cluster that passes the prediction guard. -/
theorem evaluatedCluster_of_prediction (s : TimeManager) (l : Nat)
    (h : predictionCondition s l = true) :
    evaluatedCluster s l
      = predictionSetup s.m_timeStepping (getTimeTolerance s) l
          (if fullUpdateCondition s l then markFullUpdate (s.m_clusters l)
           else s.m_clusters l) := by
  unfold evaluatedCluster
  simp [h]

theorem evaluatedCluster_fullUpdateTime (s : TimeManager) (l : Nat) :
    (evaluatedCluster s l).m_fullUpdateTime = (s.m_clusters l).m_fullUpdateTime := by
  unfold evaluatedCluster
  split_ifs <;> simp [predictionSetup_fullUpdateTime, markFullUpdate_fullUpdateTime]

theorem evaluatedCluster_predictionTime (s : TimeManager) (l : Nat) :
    (evaluatedCluster s l).m_predictionTime = (s.m_clusters l).m_predictionTime := by
  unfold evaluatedCluster
  split_ifs <;> simp [predictionSetup_predictionTime, markFullUpdate_predictionTime]

theorem evaluatedCluster_numberOfFullUpdates (s : TimeManager) (l : Nat) :
    (evaluatedCluster s l).m_numberOfFullUpdates = (s.m_clusters l).m_numberOfFullUpdates := by
  unfold evaluatedCluster
  split_ifs <;> simp [predictionSetup_numberOfFullUpdates, markFullUpdate_numberOfFullUpdates]

theorem evaluatedCluster_clusterId (s : TimeManager) (l : Nat) :
    (evaluatedCluster s l).m_clusterId = (s.m_clusters l).m_clusterId := by
  unfold evaluatedCluster
  split_ifs <;> simp [predictionSetup_clusterId, markFullUpdate]

theorem evaluatedCluster_globalClusterId (s : TimeManager) (l : Nat) :
    (evaluatedCluster s l).m_globalClusterId = (s.m_clusters l).m_globalClusterId := by
  unfold evaluatedCluster
  split_ifs <;> simp [predictionSetup_globalClusterId, markFullUpdate]

theorem evaluatedCluster_timeStepWidth (s : TimeManager) (l : Nat) :
    (evaluatedCluster s l).m_timeStepWidth
      = if predictionCondition s l then
          min (s.m_timeStepping.globalCflTimeStepWidths (s.m_timeStepping.clusterIds l))
            (s.m_timeStepping.synchronizationTime - (s.m_clusters l).m_fullUpdateTime)
        else (s.m_clusters l).m_timeStepWidth := by
  unfold evaluatedCluster
  split_ifs <;> simp [predictionSetup_timeStepWidth, markFullUpdate_timeStepWidth,
    markFullUpdate_fullUpdateTime]

theorem evaluatedCluster_localInterior (s : TimeManager) (l : Nat) :
    (evaluatedCluster s l).m_updatable.localInterior
      = (predictionCondition s l || (s.m_clusters l).m_updatable.localInterior) := by
  unfold evaluatedCluster
  split_ifs with h1 h2 h2 <;> simp [predictionSetup_updatable, markFullUpdate, h2]

theorem evaluatedCluster_neighboringInterior (s : TimeManager) (l : Nat) :
    (evaluatedCluster s l).m_updatable.neighboringInterior
      = (fullUpdateCondition s l || (s.m_clusters l).m_updatable.neighboringInterior) := by
  unfold evaluatedCluster
  split_ifs with h1 h2 h2 <;> simp [predictionSetup_updatable, markFullUpdate, h1]

theorem evaluatedCluster_localCopy (s : TimeManager) (l : Nat) :
    (evaluatedCluster s l).m_updatable.localCopy = (s.m_clusters l).m_updatable.localCopy := by
  unfold evaluatedCluster
  split_ifs <;> simp [predictionSetup_updatable, markFullUpdate]

theorem evaluatedCluster_neighboringCopy (s : TimeManager) (l : Nat) :
    (evaluatedCluster s l).m_updatable.neighboringCopy
      = (s.m_clusters l).m_updatable.neighboringCopy := by
  unfold evaluatedCluster
  split_ifs <;> simp [predictionSetup_updatable, markFullUpdate]

/-! ## Claims on one evaluation of a cluster -/

/-- C8.  Whenever a pass of the loop body of `updateClusterDependencies` finds
cluster `l` eligible for a prediction and the rate of `l` is at least 1,
`resetLtsBuffers` becomes true exactly when `numberOfFullUpdates` is a
multiple of the rate, in which case `subTimeStart` becomes 0; otherwise
`resetLtsBuffers` becomes false and `subTimeStart` keeps its value. -/
theorem prediction_resetLtsBuffers (s : TimeManager) (l : Nat)
    (h : predictionCondition s l = true)
    (hrate : 1 ≤ s.m_timeStepping.globalTimeStepRates (s.m_timeStepping.clusterIds l)) :
    (((evaluateCluster l s).m_clusters l).m_resetLtsBuffers = true
        ↔ s.m_timeStepping.globalTimeStepRates (s.m_timeStepping.clusterIds l)
            ∣ (s.m_clusters l).m_numberOfFullUpdates)
      ∧ (s.m_timeStepping.globalTimeStepRates (s.m_timeStepping.clusterIds l)
            ∣ (s.m_clusters l).m_numberOfFullUpdates
          → ((evaluateCluster l s).m_clusters l).m_subTimeStart = 0)
      ∧ (¬ s.m_timeStepping.globalTimeStepRates (s.m_timeStepping.clusterIds l)
            ∣ (s.m_clusters l).m_numberOfFullUpdates
          → ((evaluateCluster l s).m_clusters l).m_resetLtsBuffers = false
            ∧ ((evaluateCluster l s).m_clusters l).m_subTimeStart
                = (s.m_clusters l).m_subTimeStart) := by
  have hr := hrate
  rw [evaluateCluster_clusters_same, evaluatedCluster_of_prediction s l h,
    predictionSetup_resetLtsBuffers, predictionSetup_subTimeStart]
  have e1 : (if fullUpdateCondition s l then markFullUpdate (s.m_clusters l)
      else s.m_clusters l).m_numberOfFullUpdates = (s.m_clusters l).m_numberOfFullUpdates := by
    split_ifs <;> rfl
  have e2 : (if fullUpdateCondition s l then markFullUpdate (s.m_clusters l)
      else s.m_clusters l).m_subTimeStart = (s.m_clusters l).m_subTimeStart := by
    split_ifs <;> rfl
  rw [e1, e2]
  simp only [decide_eq_true_eq, Nat.dvd_iff_mod_eq_zero, decide_eq_false_iff_not]
  refine ⟨trivial, ?_, ?_⟩
  · intro hd
    simp [hd]
  · intro hd
    simp [hd]

/-- C8 (witness): the cluster of `clippedState` has rate 2 and one full
update, so its buffers are not reset. -/
theorem prediction_resetLtsBuffers_witness :
    (predictionCondition clippedState 0 = true
      ∧ 1 ≤ clippedState.m_timeStepping.globalTimeStepRates
              (clippedState.m_timeStepping.clusterIds 0))
      ∧ ((evaluateCluster 0 clippedState).m_clusters 0).m_resetLtsBuffers = false :=
  ⟨by decide!, ((prediction_resetLtsBuffers clippedState 0 (by decide!) (by decide!)).2.2
    (by decide!)).1⟩

/-! ## The priority queue -/

theorem pqTop_eq_none_iff (gid : Nat → Nat) (q : List Nat) :
    pqTop gid q = none ↔ q = [] := by
  cases q with
  | nil => simp [pqTop]
  | cons x xs =>
    simp only [pqTop, reduceCtorEq, iff_false]
    cases pqTop gid xs with
    | none => simp
    | some y =>
      simp only
      split_ifs <;> simp

theorem pqTop_mem (gid : Nat → Nat) (q : List Nat) (t : Nat) (h : pqTop gid q = some t) :
    t ∈ q := by
  induction q generalizing t with
  | nil => simp [pqTop] at h
  | cons x xs ih =>
    simp only [pqTop] at h
    cases hx : pqTop gid xs with
    | none =>
      rw [hx] at h
      simp only [Option.some.injEq] at h
      simp [h]
    | some y =>
      rw [hx] at h
      simp only at h
      split_ifs at h
      · simp only [Option.some.injEq] at h
        subst h
        exact List.mem_cons_of_mem _ (ih y hx)
      · simp only [Option.some.injEq] at h
        simp [h]

theorem pqPop_of_top (gid : Nat → Nat) (q : List Nat) (t : Nat) (h : pqTop gid q = some t) :
    pqPop gid q = q.erase t := by
  simp [pqPop, h]

/-! ## The loop of `updateClusterDependencies` -/

theorem foldl_evaluateCluster_induction (P : TimeManager → Prop) (ts : TimeStepping)
    (ls : List Nat) (s : TimeManager) (hts : s.m_timeStepping = ts)
    (hstep : ∀ t j, t.m_timeStepping = ts → j ∈ ls → P t → P (evaluateCluster j t))
    (h0 : P s) :
    P (ls.foldl (fun t l => evaluateCluster l t) s)
      ∧ (ls.foldl (fun t l => evaluateCluster l t) s).m_timeStepping = ts := by
  induction ls generalizing s with
  | nil => exact ⟨h0, hts⟩
  | cons x xs ih =>
    simp only [List.foldl_cons]
    apply ih
    · rw [evaluateCluster_timeStepping, hts]
    · intro t j ht hj hp
      exact hstep t j ht (List.mem_cons_of_mem _ hj) hp
    · exact hstep s x hts (List.mem_cons_self _ _) h0

/-- A property that every pass of the loop body keeps is kept by
`updateClusterDependencies`; the passes are for clusters next to
`i_localClusterId` and below the number of clusters. -/
theorem updateClusterDependencies_induction (P : TimeManager → Prop) (s : TimeManager)
    (k : Nat) (hk : k < s.m_timeStepping.numberOfLocalClusters)
    (hstep : ∀ t j, t.m_timeStepping = s.m_timeStepping →
      j < s.m_timeStepping.numberOfLocalClusters → k ≤ j + 1 → j ≤ k + 1 →
      P t → P (evaluateCluster j t))
    (h0 : P s) :
    P (updateClusterDependencies k s) := by
  unfold updateClusterDependencies
  refine (foldl_evaluateCluster_induction P s.m_timeStepping _ s rfl ?_ h0).1
  intro t j ht hj hp
  rw [List.mem_range'_1] at hj
  apply hstep t j ht _ _ _ hp
  · split_ifs at hj <;> omega
  · split_ifs at hj <;> omega
  · split_ifs at hj <;> omega

theorem updateClusterDependencies_timeStepping (s : TimeManager) (k : Nat) :
    (updateClusterDependencies k s).m_timeStepping = s.m_timeStepping := by
  unfold updateClusterDependencies
  exact (foldl_evaluateCluster_induction (fun _ => True) s.m_timeStepping _ s rfl
    (fun _ _ _ _ _ => trivial) trivial).2

/-! ## Well-formed managers -/

/-- The part of the full update guard that concerns the cluster alone. -/
theorem fullUpdateCondition_local (s : TimeManager) (l : Nat)
    (h : fullUpdateCondition s l = true) :
    (s.m_clusters l).m_updatable.neighboringInterior = false
      ∧ |(s.m_clusters l).m_fullUpdateTime - s.m_timeStepping.synchronizationTime|
          > getTimeTolerance s
      ∧ |(s.m_clusters l).m_predictionTime - (s.m_clusters l).m_fullUpdateTime|
          > getTimeTolerance s := by
  unfold fullUpdateCondition at h
  simp only [Bool.and_eq_true, Bool.not_eq_true', decide_eq_true_eq] at h
  exact ⟨h.1.1.1.1.2, h.1.1.1.2, h.1.2⟩

/-- The part of the prediction guard that concerns the cluster alone. -/
theorem predictionCondition_local (s : TimeManager) (l : Nat)
    (h : predictionCondition s l = true) :
    (s.m_clusters l).m_updatable.localInterior = false
      ∧ |(s.m_clusters l).m_fullUpdateTime - s.m_timeStepping.synchronizationTime|
          > getTimeTolerance s
      ∧ |(s.m_clusters l).m_fullUpdateTime - (s.m_clusters l).m_predictionTime|
          < getTimeTolerance s := by
  unfold predictionCondition at h
  simp only [Bool.and_eq_true, Bool.not_eq_true', decide_eq_true_eq] at h
  exact ⟨h.1.1.1.1.2, h.1.1.1.2, h.1.2⟩

theorem evaluateCluster_wellFormed (s : TimeManager) (l : Nat) (hw : WellFormed s)
    (hl : l < s.m_timeStepping.numberOfLocalClusters) : WellFormed (evaluateCluster l s) := by
  have hc : ∀ j, (evaluateCluster l s).m_clusters j
      = if j = l then evaluatedCluster s l else s.m_clusters j := by
    intro j
    rw [evaluateCluster_clusters]
    simp [Function.update_apply]
  constructor
  · intro j hj
    rw [evaluateCluster_timeStepping] at hj
    rw [hc]
    split_ifs with h
    · rw [evaluatedCluster_clusterId, ← h]
      exact hw.ids j hj
    · exact hw.ids j hj
  · intro j hj
    rw [evaluateCluster_timeStepping] at hj
    rw [hc]
    split_ifs with h
    · rw [evaluatedCluster_localCopy, ← h]
      exact hw.localCopy j hj
    · exact hw.localCopy j hj
  · intro j hj
    rw [evaluateCluster_timeStepping] at hj
    rw [hc]
    split_ifs with h
    · rw [evaluatedCluster_neighboringCopy, ← h]
      exact hw.neighboringCopy j hj
    · exact hw.neighboringCopy j hj
  · rw [evaluateCluster_localCopyQueue]
    exact hw.localCopyQueue
  · rw [evaluateCluster_neighboringCopyQueue]
    exact hw.neighboringCopyQueue
  · intro j hj
    rw [evaluateCluster_timeStepping]
    rw [evaluateCluster_localInteriorQueue] at hj
    split_ifs at hj
    · rcases List.mem_append.1 hj with h | h
      · exact hw.localBound j h
      · simp only [List.mem_singleton] at h
        rw [h]
        exact hl
    · exact hw.localBound j hj
  · intro j hj
    rw [evaluateCluster_timeStepping] at hj
    rw [evaluateCluster_localInteriorQueue, hc]
    by_cases hp : predictionCondition s l = true
    · simp only [hp, if_true, List.mem_append, List.mem_singleton]
      by_cases h : j = l
      · simp [h, evaluatedCluster_localInterior, hp]
      · simp only [h, or_false, if_false]
        exact hw.localFlag j hj
    · simp only [hp]
      by_cases h : j = l
      · simp only [h, if_true, evaluatedCluster_localInterior]
        simp only [Bool.not_eq_true] at hp
        simp only [hp, Bool.false_or]
        exact hw.localFlag l hl
      · simp only [h, if_false]
        exact hw.localFlag j hj
  · rw [evaluateCluster_localInteriorQueue]
    split_ifs with hp
    · rw [List.nodup_append]
      refine ⟨hw.localNodup, List.nodup_singleton l, ?_⟩
      intro a ha hb
      simp only [List.mem_singleton] at hb
      subst hb
      have := (hw.localFlag a hl).1 ha
      rw [(predictionCondition_local s a hp).1] at this
      exact Bool.false_ne_true this
    · exact hw.localNodup
  · intro j hj
    rw [evaluateCluster_timeStepping]
    rw [evaluateCluster_neighboringInteriorQueue] at hj
    split_ifs at hj
    · rcases List.mem_append.1 hj with h | h
      · exact hw.neighboringBound j h
      · simp only [List.mem_singleton] at h
        rw [h]
        exact hl
    · exact hw.neighboringBound j hj
  · intro j hj
    rw [evaluateCluster_timeStepping] at hj
    rw [evaluateCluster_neighboringInteriorQueue, hc]
    by_cases hp : fullUpdateCondition s l = true
    · simp only [hp, if_true, List.mem_append, List.mem_singleton]
      by_cases h : j = l
      · simp [h, evaluatedCluster_neighboringInterior, hp]
      · simp only [h, or_false, if_false]
        exact hw.neighboringFlag j hj
    · simp only [hp]
      by_cases h : j = l
      · simp only [h, if_true, evaluatedCluster_neighboringInterior]
        simp only [Bool.not_eq_true] at hp
        simp only [hp, Bool.false_or]
        exact hw.neighboringFlag l hl
      · simp only [h, if_false]
        exact hw.neighboringFlag j hj
  · rw [evaluateCluster_neighboringInteriorQueue]
    split_ifs with hp
    · rw [List.nodup_append]
      refine ⟨hw.neighboringNodup, List.nodup_singleton l, ?_⟩
      intro a ha hb
      simp only [List.mem_singleton] at hb
      subst hb
      have := (hw.neighboringFlag a hl).1 ha
      rw [(fullUpdateCondition_local s a hp).1] at this
      exact Bool.false_ne_true this
    · exact hw.neighboringNodup

theorem updateClusterDependencies_wellFormed (s : TimeManager) (k : Nat) (hw : WellFormed s)
    (hk : k < s.m_timeStepping.numberOfLocalClusters) :
    WellFormed (updateClusterDependencies k s) := by
  refine updateClusterDependencies_induction WellFormed s k hk ?_ hw
  intro t j ht hj _ _ hp
  exact evaluateCluster_wellFormed t j hp (by rw [ht]; exact hj)

/-! ## The blocks of the loop body -/

theorem localInteriorStep_of_empty (s : TimeManager) (h : s.m_localInteriorQueue = []) :
    localInteriorStep s = s := by
  unfold localInteriorStep
  rw [(pqTop_eq_none_iff _ _).2 h]

theorem neighboringInteriorStep_of_empty (s : TimeManager)
    (h : s.m_neighboringInteriorQueue = []) :
    neighboringInteriorStep s = s := by
  unfold neighboringInteriorStep
  rw [(pqTop_eq_none_iff _ _).2 h]

theorem localInteriorStep_of_top (s : TimeManager) (l : Nat) (hw : WellFormed s)
    (h : pqTop (queueKey s) s.m_localInteriorQueue = some l) :
    localInteriorStep s = updateClusterDependencies l (afterPrediction s l) := by
  have hl := hw.localBound l (pqTop_mem _ _ _ h)
  unfold localInteriorStep
  rw [h]
  simp only [pqPop_of_top _ _ _ h, Function.update_same]
  have : (computeLocalInterior (s.m_clusters l)).m_clusterId = l := hw.ids l hl
  rw [this]
  rfl

theorem neighboringInteriorStep_of_top (s : TimeManager) (l : Nat) (hw : WellFormed s)
    (h : pqTop (queueKey s) s.m_neighboringInteriorQueue = some l) :
    neighboringInteriorStep s = updateClusterDependencies l (afterCorrection s l) := by
  have hl := hw.neighboringBound l (pqTop_mem _ _ _ h)
  unfold neighboringInteriorStep
  rw [h]
  simp only [pqPop_of_top _ _ _ h, Function.update_same]
  have : (computeNeighboringInterior (s.m_clusters l)).m_clusterId = l := hw.ids l hl
  rw [this]
  rfl

/-- A block of the loop body with a non-empty queue takes the top of the
queue, a queued cluster. -/
theorem localInteriorStep_cases (s : TimeManager) (hw : WellFormed s) :
    (s.m_localInteriorQueue = [] ∧ localInteriorStep s = s)
      ∨ ∃ l, l ∈ s.m_localInteriorQueue
          ∧ pqTop (queueKey s) s.m_localInteriorQueue = some l
          ∧ localInteriorStep s = updateClusterDependencies l (afterPrediction s l) := by
  cases h : pqTop (queueKey s) s.m_localInteriorQueue with
  | none =>
    left
    have := (pqTop_eq_none_iff _ _).1 h
    exact ⟨this, localInteriorStep_of_empty s this⟩
  | some l =>
    right
    exact ⟨l, pqTop_mem _ _ _ h, rfl, localInteriorStep_of_top s l hw h⟩

theorem neighboringInteriorStep_cases (s : TimeManager) (hw : WellFormed s) :
    (s.m_neighboringInteriorQueue = [] ∧ neighboringInteriorStep s = s)
      ∨ ∃ l, l ∈ s.m_neighboringInteriorQueue
          ∧ pqTop (queueKey s) s.m_neighboringInteriorQueue = some l
          ∧ neighboringInteriorStep s
              = updateClusterDependencies l (afterCorrection s l) := by
  cases h : pqTop (queueKey s) s.m_neighboringInteriorQueue with
  | none =>
    left
    have := (pqTop_eq_none_iff _ _).1 h
    exact ⟨this, neighboringInteriorStep_of_empty s this⟩
  | some l =>
    right
    exact ⟨l, pqTop_mem _ _ _ h, rfl, neighboringInteriorStep_of_top s l hw h⟩

theorem afterPrediction_wellFormed (s : TimeManager) (l : Nat) (hw : WellFormed s)
    (hl : l ∈ s.m_localInteriorQueue) : WellFormed (afterPrediction s l) := by
  have hc : ∀ j, (afterPrediction s l).m_clusters j
      = if j = l then computeLocalInterior (s.m_clusters l) else s.m_clusters j := by
    intro j
    simp [afterPrediction, Function.update_apply]
  have hts : (afterPrediction s l).m_timeStepping = s.m_timeStepping := rfl
  have hq : (afterPrediction s l).m_localInteriorQueue = s.m_localInteriorQueue.erase l := rfl
  have hq2 : (afterPrediction s l).m_neighboringInteriorQueue
      = s.m_neighboringInteriorQueue := rfl
  constructor
  · intro j hj
    rw [hc]
    split_ifs with h
    · rw [← h]; exact hw.ids j hj
    · exact hw.ids j hj
  · intro j hj
    rw [hc]
    split_ifs with h
    · rw [← h]; exact hw.localCopy j hj
    · exact hw.localCopy j hj
  · intro j hj
    rw [hc]
    split_ifs with h
    · rw [← h]; exact hw.neighboringCopy j hj
    · exact hw.neighboringCopy j hj
  · exact hw.localCopyQueue
  · exact hw.neighboringCopyQueue
  · intro j hj
    rw [hq] at hj
    exact hw.localBound j (List.mem_of_mem_erase hj)
  · intro j hj
    rw [hq, hc, hw.localNodup.mem_erase_iff]
    by_cases h : j = l
    · simp [h, computeLocalInterior]
    · simp only [h, ne_eq, not_false_eq_true, true_and, if_false]
      exact hw.localFlag j hj
  · rw [hq]
    exact hw.localNodup.erase l
  · intro j hj
    rw [hq2] at hj
    exact hw.neighboringBound j hj
  · intro j hj
    rw [hq2, hc]
    by_cases h : j = l
    · simp only [h, if_true]
      exact hw.neighboringFlag l (hw.localBound l hl)
    · simp only [h, if_false]
      exact hw.neighboringFlag j hj
  · exact hw.neighboringNodup

theorem afterCorrection_wellFormed (s : TimeManager) (l : Nat) (hw : WellFormed s)
    (hl : l ∈ s.m_neighboringInteriorQueue) : WellFormed (afterCorrection s l) := by
  have hc : ∀ j, (afterCorrection s l).m_clusters j
      = if j = l then computeNeighboringInterior (s.m_clusters l) else s.m_clusters j := by
    intro j
    simp [afterCorrection, Function.update_apply]
  have hq : (afterCorrection s l).m_neighboringInteriorQueue
      = s.m_neighboringInteriorQueue.erase l := rfl
  have hq2 : (afterCorrection s l).m_localInteriorQueue = s.m_localInteriorQueue := rfl
  constructor
  · intro j hj
    rw [hc]
    split_ifs with h
    · rw [← h]; exact hw.ids j hj
    · exact hw.ids j hj
  · intro j hj
    rw [hc]
    split_ifs with h
    · rw [← h]; exact hw.localCopy j hj
    · exact hw.localCopy j hj
  · intro j hj
    rw [hc]
    split_ifs with h
    · rw [← h]; exact hw.neighboringCopy j hj
    · exact hw.neighboringCopy j hj
  · exact hw.localCopyQueue
  · exact hw.neighboringCopyQueue
  · intro j hj
    rw [hq2] at hj
    exact hw.localBound j hj
  · intro j hj
    rw [hq2, hc]
    by_cases h : j = l
    · simp only [h, if_true]
      exact hw.localFlag l (hw.neighboringBound l hl)
    · simp only [h, if_false]
      exact hw.localFlag j hj
  · exact hw.localNodup
  · intro j hj
    rw [hq] at hj
    exact hw.neighboringBound j (List.mem_of_mem_erase hj)
  · intro j hj
    rw [hq, hc, hw.neighboringNodup.mem_erase_iff]
    by_cases h : j = l
    · simp [h, computeNeighboringInterior]
    · simp only [h, ne_eq, not_false_eq_true, true_and, if_false]
      exact hw.neighboringFlag j hj
  · rw [hq]
    exact hw.neighboringNodup.erase l

theorem localInteriorStep_wellFormed (s : TimeManager) (hw : WellFormed s) :
    WellFormed (localInteriorStep s) := by
  rcases localInteriorStep_cases s hw with ⟨_, h⟩ | ⟨l, hl, _, h⟩
  · rw [h]; exact hw
  · rw [h]
    exact updateClusterDependencies_wellFormed _ l (afterPrediction_wellFormed s l hw hl)
      (hw.localBound l hl)

theorem neighboringInteriorStep_wellFormed (s : TimeManager) (hw : WellFormed s) :
    WellFormed (neighboringInteriorStep s) := by
  rcases neighboringInteriorStep_cases s hw with ⟨_, h⟩ | ⟨l, hl, _, h⟩
  · rw [h]; exact hw
  · rw [h]
    exact updateClusterDependencies_wellFormed _ l (afterCorrection_wellFormed s l hw hl)
      (hw.neighboringBound l hl)

theorem logProgress_wellFormed (s : TimeManager) (hw : WellFormed s) :
    WellFormed (logProgress s) := by
  unfold logProgress
  simp only []
  split_ifs
  · exact ⟨hw.ids, hw.localCopy, hw.neighboringCopy, hw.localCopyQueue,
      hw.neighboringCopyQueue, hw.localBound, hw.localFlag, hw.localNodup,
      hw.neighboringBound, hw.neighboringFlag, hw.neighboringNodup⟩
  · exact hw

/-! ## The initialisation of the queues -/

theorem foldl_updateClusterDependencies_induction (P : TimeManager → Prop)
    (ts : TimeStepping) (ls : List Nat) (s : TimeManager) (hts : s.m_timeStepping = ts)
    (hstep : ∀ t k, t.m_timeStepping = ts → k ∈ ls → P t → P (updateClusterDependencies k t))
    (h0 : P s) :
    P (ls.foldl (fun t l => updateClusterDependencies l t) s)
      ∧ (ls.foldl (fun t l => updateClusterDependencies l t) s).m_timeStepping = ts := by
  induction ls generalizing s with
  | nil => exact ⟨h0, hts⟩
  | cons x xs ih =>
    simp only [List.foldl_cons]
    apply ih
    · rw [updateClusterDependencies_timeStepping, hts]
    · intro t j ht hj hp
      exact hstep t j ht (List.mem_cons_of_mem _ hj) hp
    · exact hstep s x hts (List.mem_cons_self _ _) h0

/-- A property of the state with the default values that every call of
`updateClusterDependencies` keeps holds when the queues are initialised. -/
theorem advanceInTimeSetup_induction (P : TimeManager → Prop) (T : ℚ) (s : TimeManager)
    (hstep : ∀ t k, t.m_timeStepping = (resetState T s).m_timeStepping →
      k < s.m_timeStepping.numberOfLocalClusters → P t → P (updateClusterDependencies k t))
    (h0 : P (resetState T s)) :
    P (advanceInTimeSetup T s) := by
  unfold advanceInTimeSetup
  refine (foldl_updateClusterDependencies_induction P (resetState T s).m_timeStepping _ _ rfl
    ?_ h0).1
  intro t k ht hk hp
  exact hstep t k ht (List.mem_range.1 hk) hp

theorem advanceInTimeSetup_timeStepping (T : ℚ) (s : TimeManager) :
    (advanceInTimeSetup T s).m_timeStepping = (resetState T s).m_timeStepping := by
  unfold advanceInTimeSetup
  exact (foldl_updateClusterDependencies_induction (fun _ => True)
    (resetState T s).m_timeStepping _ _ rfl (fun _ _ _ _ _ => trivial) trivial).2

theorem resetState_wellFormed (T : ℚ) (s : TimeManager) (hi : Idle s) :
    WellFormed (resetState T s) := by
  have hc : ∀ j, j < s.m_timeStepping.numberOfLocalClusters →
      (resetState T s).m_clusters j = resetCluster (s.m_clusters j) := by
    intro j hj
    simp [resetState, hj]
  have hn : (resetState T s).m_timeStepping.numberOfLocalClusters
      = s.m_timeStepping.numberOfLocalClusters := rfl
  have hq1 : (resetState T s).m_localInteriorQueue = [] := hi.localInteriorQueue
  have hq2 : (resetState T s).m_neighboringInteriorQueue = [] := hi.neighboringInteriorQueue
  constructor
  · intro j hj
    rw [hn] at hj
    rw [hc j hj]
    exact hi.ids j hj
  · intro j hj
    rw [hn] at hj
    rw [hc j hj]
    exact hi.localCopy j hj
  · intro j hj
    rw [hn] at hj
    rw [hc j hj]
    exact hi.neighboringCopy j hj
  · exact hi.localCopyQueue
  · exact hi.neighboringCopyQueue
  · intro j hj
    rw [hq1] at hj
    simp at hj
  · intro j hj
    rw [hn] at hj
    rw [hq1, hc j hj]
    simp [resetCluster]
  · rw [hq1]
    exact List.nodup_nil
  · intro j hj
    rw [hq2] at hj
    simp at hj
  · intro j hj
    rw [hn] at hj
    rw [hq2, hc j hj]
    simp [resetCluster]
  · rw [hq2]
    exact List.nodup_nil

theorem advanceInTimeSetup_wellFormed (T : ℚ) (s : TimeManager) (hi : Idle s) :
    WellFormed (advanceInTimeSetup T s) := by
  refine advanceInTimeSetup_induction WellFormed T s ?_ (resetState_wellFormed T s hi)
  intro t k ht hk hp
  exact updateClusterDependencies_wellFormed t k hp (by rw [ht]; exact hk)

/-- Every state of a call entered between two calls is well formed. -/
theorem reached_wellFormed (T : ℚ) (s0 s : TimeManager) (hi : Idle s0)
    (hr : Reached T s0 s) : WellFormed s := by
  induction hr with
  | setup => exact advanceInTimeSetup_wellFormed T s0 hi
  | localInterior _ ih => exact localInteriorStep_wellFormed _ ih
  | neighboringInterior _ ih => exact neighboringInteriorStep_wellFormed _ ih
  | log _ ih => exact logProgress_wellFormed _ ih

/-! ## The moves of the cluster records -/

theorem Evolves.refl (s : TimeManager) : Evolves s s :=
  ⟨rfl, fun _ => Relation.ReflTransGen.refl⟩

theorem Evolves.trans {s t u : TimeManager} (h1 : Evolves s t) (h2 : Evolves t u) :
    Evolves s u := by
  refine ⟨h2.1.trans h1.1, fun l => ?_⟩
  have h := h2.2 l
  have e : getTimeTolerance t = getTimeTolerance s := by
    unfold getTimeTolerance
    rw [h1.1]
  rw [h1.1, e] at h
  exact (h1.2 l).trans h

theorem evaluateCluster_evolves (s : TimeManager) (l : Nat) :
    Evolves s (evaluateCluster l s) := by
  refine ⟨evaluateCluster_timeStepping s l, fun j => ?_⟩
  rw [evaluateCluster_clusters]
  by_cases hj : j = l
  · subst hj
    rw [Function.update_same]
    unfold evaluatedCluster
    have step1 : Relation.ReflTransGen (LocalStep s.m_timeStepping (getTimeTolerance s) j)
        (s.m_clusters j)
        (if fullUpdateCondition s j then markFullUpdate (s.m_clusters j)
         else s.m_clusters j) := by
      split_ifs with h
      · obtain ⟨h1, h2, h3⟩ := fullUpdateCondition_local s j h
        exact Relation.ReflTransGen.single (LocalStep.markFull _ h1 h2 h3)
      · exact Relation.ReflTransGen.refl
    simp only []
    by_cases hp : predictionCondition s j = true
    · simp only [hp, if_true]
      refine step1.tail ?_
      obtain ⟨h1, h2, h3⟩ := predictionCondition_local s j hp
      apply LocalStep.setupPrediction
      · split_ifs <;> simpa [markFullUpdate] using h1
      · split_ifs <;> simpa [markFullUpdate] using h2
      · split_ifs <;> simpa [markFullUpdate] using h3
    · simp only [hp]
      exact step1
  · rw [Function.update_noteq hj]

theorem updateClusterDependencies_evolves (s : TimeManager) (k : Nat)
    (hk : k < s.m_timeStepping.numberOfLocalClusters) :
    Evolves s (updateClusterDependencies k s) := by
  refine updateClusterDependencies_induction (fun t => Evolves s t) s k hk ?_ (Evolves.refl s)
  intro t j _ _ _ _ hp
  exact hp.trans (evaluateCluster_evolves t j)

theorem afterPrediction_evolves (s : TimeManager) (l : Nat)
    (hf : (s.m_clusters l).m_updatable.localInterior = true) :
    Evolves s (afterPrediction s l) := by
  refine ⟨rfl, fun j => ?_⟩
  by_cases hj : j = l
  · subst hj
    simp only [afterPrediction, Function.update_same]
    exact Relation.ReflTransGen.single (LocalStep.predict _ hf)
  · simp only [afterPrediction, Function.update_noteq hj]
    exact Relation.ReflTransGen.refl

theorem afterCorrection_evolves (s : TimeManager) (l : Nat)
    (hf : (s.m_clusters l).m_updatable.neighboringInterior = true) :
    Evolves s (afterCorrection s l) := by
  refine ⟨rfl, fun j => ?_⟩
  by_cases hj : j = l
  · subst hj
    simp only [afterCorrection, Function.update_same]
    exact Relation.ReflTransGen.single (LocalStep.correct _ hf)
  · simp only [afterCorrection, Function.update_noteq hj]
    exact Relation.ReflTransGen.refl

theorem localInteriorStep_evolves (s : TimeManager) (hw : WellFormed s) :
    Evolves s (localInteriorStep s) := by
  rcases localInteriorStep_cases s hw with ⟨_, h⟩ | ⟨l, hl, _, h⟩
  · rw [h]; exact Evolves.refl s
  · rw [h]
    have hb := hw.localBound l hl
    exact (afterPrediction_evolves s l ((hw.localFlag l hb).1 hl)).trans
      (updateClusterDependencies_evolves _ l hb)

theorem neighboringInteriorStep_evolves (s : TimeManager) (hw : WellFormed s) :
    Evolves s (neighboringInteriorStep s) := by
  rcases neighboringInteriorStep_cases s hw with ⟨_, h⟩ | ⟨l, hl, _, h⟩
  · rw [h]; exact Evolves.refl s
  · rw [h]
    have hb := hw.neighboringBound l hl
    exact (afterCorrection_evolves s l ((hw.neighboringFlag l hb).1 hl)).trans
      (updateClusterDependencies_evolves _ l hb)

theorem logProgress_evolves (s : TimeManager) : Evolves s (logProgress s) := by
  unfold logProgress
  simp only []
  split_ifs
  · exact ⟨rfl, fun _ => Relation.ReflTransGen.refl⟩
  · exact Evolves.refl s

theorem advanceInTimeSetup_evolves (T : ℚ) (s : TimeManager) :
    Evolves (resetState T s) (advanceInTimeSetup T s) := by
  refine advanceInTimeSetup_induction (fun t => Evolves (resetState T s) t) T s ?_
    (Evolves.refl _)
  intro t k ht hk hp
  exact hp.trans (updateClusterDependencies_evolves t k (by rw [ht]; exact hk))

/-- During a call every cluster record moves by the steps of `LocalStep`
from its default values. -/
theorem reached_evolves (T : ℚ) (s0 s : TimeManager) (hi : Idle s0)
    (hr : Reached T s0 s) : Evolves (resetState T s0) s := by
  induction hr with
  | setup => exact advanceInTimeSetup_evolves T s0
  | @localInterior t ht ih =>
    exact ih.trans (localInteriorStep_evolves t (reached_wellFormed T s0 t hi ht))
  | @neighboringInterior t ht ih =>
    exact ih.trans (neighboringInteriorStep_evolves t (reached_wellFormed T s0 t hi ht))
  | @log t _ ih => exact ih.trans (logProgress_evolves t)

/-- A property of cluster records that the moves of `LocalStep` keep is
kept from `s` to `t`. -/
theorem Evolves.preserves {s t : TimeManager} (h : Evolves s t)
    (R : Nat → TimeCluster → Prop)
    (hR : ∀ l c c', LocalStep s.m_timeStepping (getTimeTolerance s) l c c' → R l c → R l c')
    (l : Nat) (h0 : R l (s.m_clusters l)) : R l (t.m_clusters l) := by
  have key : ∀ c', Relation.ReflTransGen
      (LocalStep s.m_timeStepping (getTimeTolerance s) l) (s.m_clusters l) c' → R l c' := by
    intro c' hc
    induction hc with
    | refl => exact h0
    | tail _ hstep ih => exact hR l _ _ hstep ih
  exact key _ (h.2 l)

/-! ## Invariants of one cluster record -/

theorem syncBounded_step (ts : TimeStepping) (e : ℚ) (l : Nat) (c c' : TimeCluster)
    (hs : LocalStep ts e l c c') (h : SyncBounded ts.synchronizationTime e c) :
    SyncBounded ts.synchronizationTime e c' := by
  obtain ⟨h1, h2, h3, h4⟩ := h
  cases hs with
  | markFull hq hsync hd =>
    exact ⟨h1, h2, h3, fun _ => hd⟩
  | setupPrediction hp hsync hd =>
    refine ⟨?_, ?_, ?_, ?_⟩
    · rw [predictionSetup_fullUpdateTime]; exact h1
    · intro _
      rw [predictionSetup_fullUpdateTime, predictionSetup_predictionTime,
        predictionSetup_timeStepWidth]
      refine ⟨by rw [abs_sub_comm]; exact hd, ?_⟩
      have := min_le_right (ts.globalCflTimeStepWidths (ts.clusterIds l))
        (ts.synchronizationTime - c.m_fullUpdateTime)
      linarith
    · intro hf
      rw [predictionSetup_updatable] at hf
      simp at hf
    · intro hf
      rw [predictionSetup_updatable] at hf
      rw [predictionSetup_fullUpdateTime, predictionSetup_predictionTime]
      exact h4 hf
  | predict hp =>
    obtain ⟨ha, hb⟩ := h2 hp
    refine ⟨h1, ?_, ?_, ?_⟩
    · intro hf
      simp [computeLocalInterior] at hf
    · intro _
      right; left
      refine ⟨?_, hb⟩
      simp only [computeLocalInterior]
      have : c.m_predictionTime + c.m_timeStepWidth - c.m_fullUpdateTime - c.m_timeStepWidth
          = c.m_predictionTime - c.m_fullUpdateTime := by ring
      rw [this]
      exact ha
    · intro hf
      have hq : c.m_updatable.neighboringInterior = true := hf
      have := h4 hq
      exact absurd ha (not_lt.2 this.le)
  | correct hq =>
    have hd := h4 hq
    have hp : c.m_updatable.localInterior = false := by
      by_contra hne
      have hp' : c.m_updatable.localInterior = true := by
        cases hx : c.m_updatable.localInterior
        · exact absurd hx hne
        · rfl
      exact absurd (h2 hp').1 (not_lt.2 hd.le)
    rcases h3 hp with ha | ⟨ha, hb⟩ | ha
    · exact absurd ha (not_lt.2 hd.le)
    · refine ⟨hb, ?_, ?_, ?_⟩
      · intro hf
        have : c.m_updatable.localInterior = true := hf
        rw [hp] at this
        exact absurd this Bool.false_ne_true
      · intro _
        left
        simp only [computeNeighboringInterior]
        have : c.m_predictionTime - (c.m_fullUpdateTime + c.m_timeStepWidth)
            = c.m_predictionTime - c.m_fullUpdateTime - c.m_timeStepWidth := by ring
        rw [this]
        exact ha
      · intro hf
        simp [computeNeighboringInterior] at hf
    · refine ⟨?_, ?_, ?_, ?_⟩
      · simp only [computeNeighboringInterior, ha, add_zero]
        exact h1
      · intro hf
        have : c.m_updatable.localInterior = true := hf
        rw [hp] at this
        exact absurd this Bool.false_ne_true
      · intro _
        right; right
        exact ha
      · intro hf
        simp [computeNeighboringInterior] at hf

theorem syncBounded_reset (T e : ℚ) (c : TimeCluster) (h : c.m_fullUpdateTime ≤ T) :
    SyncBounded T e (resetCluster c) := by
  refine ⟨h, ?_, ?_, ?_⟩
  · intro hf
    simp [resetCluster] at hf
  · intro _
    right; right
    rfl
  · intro hf
    simp [resetCluster] at hf

theorem ordered_step (ts : TimeStepping) (e : ℚ) (l : Nat) (c c' : TimeCluster)
    (hw : 0 ≤ ts.globalCflTimeStepWidths (ts.clusterIds l))
    (hs : LocalStep ts e l c c') (h : Ordered ts.synchronizationTime e c) :
    Ordered ts.synchronizationTime e c'
      ∧ c.m_predictionTime ≤ c'.m_predictionTime
      ∧ c.m_fullUpdateTime ≤ c'.m_fullUpdateTime := by
  obtain ⟨h0, h1, h2, h3, h4⟩ := h
  cases hs with
  | markFull hq hsync hd =>
    exact ⟨⟨h0, h1, h2, h3, fun _ => hd⟩, le_refl _, le_refl _⟩
  | setupPrediction hp hsync hd =>
    refine ⟨⟨?_, ?_, ?_, ?_, ?_⟩, ?_, ?_⟩
    · rw [predictionSetup_timeStepWidth]
      exact le_min hw (by linarith)
    · rw [predictionSetup_fullUpdateTime]; exact h1
    · intro _
      rw [predictionSetup_fullUpdateTime, predictionSetup_predictionTime,
        predictionSetup_timeStepWidth]
      have hm := min_le_right (ts.globalCflTimeStepWidths (ts.clusterIds l))
        (ts.synchronizationTime - c.m_fullUpdateTime)
      rw [abs_sub_comm, abs_lt] at hd
      refine ⟨?_, hd.2, by linarith⟩
      rcases h3 hp with ha | ha | ha
      · exact ha.1
      · linarith [ha.1]
      · exact ha.2
    · intro hf
      rw [predictionSetup_updatable] at hf
      simp at hf
    · intro hf
      rw [predictionSetup_updatable] at hf
      rw [predictionSetup_fullUpdateTime, predictionSetup_predictionTime]
      exact h4 hf
    · rw [predictionSetup_predictionTime]
    · rw [predictionSetup_fullUpdateTime]
  | predict hp =>
    obtain ⟨ha, hb, hc⟩ := h2 hp
    refine ⟨⟨h0, h1, ?_, ?_, ?_⟩, ?_, le_refl _⟩
    · intro hf
      simp [computeLocalInterior] at hf
    · intro _
      right; left
      simp only [computeLocalInterior]
      refine ⟨by linarith, by linarith, hc⟩
    · intro hf
      have hq : c.m_updatable.neighboringInterior = true := hf
      have := h4 hq
      rw [gt_iff_lt, lt_abs] at this
      rcases this with h' | h' <;> linarith
    · simp only [computeLocalInterior]
      linarith
  | correct hq =>
    have hd := h4 hq
    rw [gt_iff_lt, lt_abs] at hd
    have hp : c.m_updatable.localInterior = false := by
      cases hx : c.m_updatable.localInterior
      · rfl
      · obtain ⟨ha, hb, _⟩ := h2 hx
        rcases hd with h' | h' <;> linarith
    have hp' : (computeNeighboringInterior c).m_updatable.localInterior = false := hp
    rcases h3 hp with ha | ⟨ha, hb, hc⟩ | ha
    · rcases hd with h' | h' <;> linarith [ha.1, ha.2]
    · refine ⟨⟨h0, hc, ?_, ?_, ?_⟩, le_refl _, ?_⟩
      · intro hf
        rw [hp'] at hf
        exact absurd hf Bool.false_ne_true
      · intro _
        left
        simp only [computeNeighboringInterior]
        exact ⟨by linarith, by linarith⟩
      · intro hf
        simp [computeNeighboringInterior] at hf
      · simp only [computeNeighboringInterior]
        linarith
    · refine ⟨⟨h0, ?_, ?_, ?_, ?_⟩, le_refl _, ?_⟩
      · simp only [computeNeighboringInterior, ha.1, add_zero]
        exact h1
      · intro hf
        rw [hp'] at hf
        exact absurd hf Bool.false_ne_true
      · intro _
        right; right
        simp only [computeNeighboringInterior, ha.1, add_zero]
        exact ⟨trivial, ha.2⟩
      · intro hf
        simp [computeNeighboringInterior] at hf
      · simp only [computeNeighboringInterior, ha.1, add_zero]
        exact le_refl _

theorem ordered_reset (T e : ℚ) (c : TimeCluster) (h : c.m_fullUpdateTime ≤ T)
    (hp : c.m_fullUpdateTime ≤ c.m_predictionTime) :
    Ordered T e (resetCluster c) := by
  refine ⟨le_refl _, h, ?_, ?_, ?_⟩
  · intro hf
    simp [resetCluster] at hf
  · intro _
    right; right
    refine ⟨rfl, ?_⟩
    simp only [resetCluster]
    linarith
  · intro hf
    simp [resetCluster] at hf

theorem ordered_fullUpdateTime_le (T e : ℚ) (c : TimeCluster) (h : Ordered T e c) :
    c.m_fullUpdateTime ≤ c.m_predictionTime := by
  obtain ⟨h0, _, h2, h3, _⟩ := h
  cases hx : c.m_updatable.localInterior
  · rcases h3 hx with ha | ha | ha
    · linarith [ha.1]
    · linarith [ha.1]
    · linarith [ha.2]
  · linarith [(h2 hx).1]

/-! ## The states of a call -/

theorem advanceInTimeIteration_reached (T : ℚ) (s0 s : TimeManager) (h : Reached T s0 s) :
    Reached T s0 (advanceInTimeIteration s) :=
  Reached.log (Reached.neighboringInterior (Reached.localInterior h))

theorem advanceInTimeLoop_reached (T : ℚ) (s0 : TimeManager) (fuel : Nat) (s t : TimeManager)
    (h : Reached T s0 s) (hl : advanceInTimeLoop fuel s = some t) :
    Reached T s0 t ∧ allQueuesEmpty t = true := by
  induction fuel generalizing s with
  | zero =>
    simp only [advanceInTimeLoop] at hl
    split_ifs at hl with hq
    simp only [Option.some.injEq] at hl
    subst hl
    exact ⟨h, hq⟩
  | succ n ih =>
    simp only [advanceInTimeLoop] at hl
    split_ifs at hl with hq
    · simp only [Option.some.injEq] at hl
      subst hl
      exact ⟨h, hq⟩
    · exact ih _ (advanceInTimeIteration_reached T s0 s h) hl

/-- The state that `advanceInTime` returns is a state of the call, and its
queues are empty. -/
theorem advanceInTime_reached (T : ℚ) (s0 : TimeManager) (fuel : Nat) (t : TimeManager)
    (h : advanceInTime fuel T s0 = some t) :
    Reached T s0 t ∧ allQueuesEmpty t = true := by
  unfold advanceInTime at h
  split_ifs at h
  exact advanceInTimeLoop_reached T s0 fuel _ t Reached.setup h

theorem resetState_clusters (T : ℚ) (s : TimeManager) (l : Nat)
    (hl : l < s.m_timeStepping.numberOfLocalClusters) :
    (resetState T s).m_clusters l = resetCluster (s.m_clusters l) := by
  simp [resetState, hl]

theorem getTimeTolerance_of_timeStepping (s t : TimeManager)
    (h : t.m_timeStepping = s.m_timeStepping) : getTimeTolerance t = getTimeTolerance s := by
  unfold getTimeTolerance
  rw [h]

/-! ## The order of the times of a cluster -/

/-- From `s` to `t` an ordered cluster record stays ordered and neither of
its two times decreases. -/
theorem Evolves.ordered {s t : TimeManager} (h : Evolves s t) (l : Nat)
    (hw : 0 ≤ s.m_timeStepping.globalCflTimeStepWidths (s.m_timeStepping.clusterIds l))
    (h0 : Ordered s.m_timeStepping.synchronizationTime (getTimeTolerance s) (s.m_clusters l)) :
    Ordered s.m_timeStepping.synchronizationTime (getTimeTolerance s) (t.m_clusters l)
      ∧ (s.m_clusters l).m_predictionTime ≤ (t.m_clusters l).m_predictionTime
      ∧ (s.m_clusters l).m_fullUpdateTime ≤ (t.m_clusters l).m_fullUpdateTime := by
  refine h.preserves (fun j c =>
    0 ≤ s.m_timeStepping.globalCflTimeStepWidths (s.m_timeStepping.clusterIds j) →
      Ordered s.m_timeStepping.synchronizationTime (getTimeTolerance s) c
      ∧ (s.m_clusters j).m_predictionTime ≤ c.m_predictionTime
      ∧ (s.m_clusters j).m_fullUpdateTime ≤ c.m_fullUpdateTime) ?_ l ?_ hw
  · intro j c c' hs hc hwj
    obtain ⟨h1, h2, h3⟩ := hc hwj
    obtain ⟨g1, g2, g3⟩ := ordered_step _ _ j c c' hwj hs h1
    exact ⟨g1, h2.trans g2, h3.trans g3⟩
  · intro _
    exact ⟨h0, le_refl _, le_refl _⟩

/-- The configuration of `s` is that of `s0`: the number of clusters, the
CFL widths and the global ids. -/
theorem setInitialTimes_idle (i_time : ℚ) (s0 s : TimeManager) (hi : Idle s0)
    (h : setInitialTimes i_time s0 = some s) :
    Idle s ∧ s.m_timeStepping = s0.m_timeStepping
      ∧ ∀ l, l < s0.m_timeStepping.numberOfLocalClusters →
          (s.m_clusters l).m_predictionTime = i_time
            ∧ (s.m_clusters l).m_fullUpdateTime = i_time := by
  unfold setInitialTimes at h
  split_ifs at h
  simp only [Option.some.injEq] at h
  subst h
  refine ⟨⟨?_, ?_, ?_, hi.localCopyQueue, hi.localInteriorQueue, hi.neighboringCopyQueue,
    hi.neighboringInteriorQueue⟩, rfl, ?_⟩
  · intro l hl
    have hl' : l < s0.m_timeStepping.numberOfLocalClusters := hl
    simp only [hl', if_true]
    exact hi.ids l hl'
  · intro l hl
    have hl' : l < s0.m_timeStepping.numberOfLocalClusters := hl
    simp only [hl', if_true]
    exact hi.localCopy l hl'
  · intro l hl
    have hl' : l < s0.m_timeStepping.numberOfLocalClusters := hl
    simp only [hl', if_true]
    exact hi.neighboringCopy l hl'
  · intro l hl
    simp only [hl, if_true, and_self]

theorem idle_of_wellFormed (s : TimeManager) (hw : WellFormed s)
    (hq : allQueuesEmpty s = true) : Idle s := by
  unfold allQueuesEmpty at hq
  simp only [Bool.and_eq_true, List.isEmpty_iff] at hq
  exact ⟨hw.ids, hw.localCopy, hw.neighboringCopy, hq.1.1.1, hq.1.1.2, hq.1.2, hq.2⟩

/-- The invariant of the states reachable over several calls. -/
theorem reachable_invariant (s0 : TimeManager) (hi : Idle s0)
    (hw : ∀ l, l < s0.m_timeStepping.numberOfLocalClusters →
      0 ≤ s0.m_timeStepping.globalCflTimeStepWidths (s0.m_timeStepping.clusterIds l))
    (b : Bool) (s : TimeManager) (hr : Reachable s0 b s) :
    (s.m_timeStepping.numberOfLocalClusters = s0.m_timeStepping.numberOfLocalClusters
      ∧ s.m_timeStepping.globalCflTimeStepWidths = s0.m_timeStepping.globalCflTimeStepWidths
      ∧ s.m_timeStepping.clusterIds = s0.m_timeStepping.clusterIds)
    ∧ (b = false → Idle s ∧ ∀ l, l < s.m_timeStepping.numberOfLocalClusters →
        (s.m_clusters l).m_fullUpdateTime ≤ (s.m_clusters l).m_predictionTime)
    ∧ (b = true → WellFormed s ∧ ∀ l, l < s.m_timeStepping.numberOfLocalClusters →
        Ordered s.m_timeStepping.synchronizationTime (getTimeTolerance s) (s.m_clusters l)) := by
  induction hr with
  | initial t0 s h =>
    obtain ⟨h1, h2, h3⟩ := setInitialTimes_idle t0 s0 s hi h
    refine ⟨by rw [h2]; exact ⟨rfl, rfl, rfl⟩, fun _ => ⟨h1, ?_⟩, fun hb => by simp at hb⟩
    intro l hl
    rw [h2] at hl
    rw [(h3 l hl).1, (h3 l hl).2]
  | @enter T s _ hpre hent ih =>
    obtain ⟨⟨c1, c2, c3⟩, ih1, _⟩ := ih
    obtain ⟨hidle, hord⟩ := ih1 rfl
    have hts := advanceInTimeSetup_timeStepping T s
    have hev := advanceInTimeSetup_evolves T s
    have hcfg : (resetState T s).m_timeStepping.numberOfLocalClusters
          = s.m_timeStepping.numberOfLocalClusters
        ∧ (resetState T s).m_timeStepping.globalCflTimeStepWidths
          = s.m_timeStepping.globalCflTimeStepWidths
        ∧ (resetState T s).m_timeStepping.clusterIds = s.m_timeStepping.clusterIds :=
      ⟨rfl, rfl, rfl⟩
    refine ⟨by rw [hts, hcfg.1, hcfg.2.1, hcfg.2.2]; exact ⟨c1, c2, c3⟩,
      fun hb => by simp at hb, fun _ => ⟨advanceInTimeSetup_wellFormed T s hidle, ?_⟩⟩
    intro l hl
    rw [hts, hcfg.1] at hl
    rw [hts, getTimeTolerance_of_timeStepping _ _ hts]
    refine (hev.ordered l ?_ ?_).1
    · rw [hcfg.2.1, hcfg.2.2, c2, c3]
      exact hw l (by rw [← c1]; exact hl)
    · rw [resetState_clusters T s l hl]
      exact ordered_reset _ _ _ (hent l hl) (hord l hl)
  | @localInterior s _ ih =>
    obtain ⟨⟨c1, c2, c3⟩, _, ih2⟩ := ih
    obtain ⟨hwf, hord⟩ := ih2 rfl
    have hev := localInteriorStep_evolves s hwf
    refine ⟨by rw [hev.1]; exact ⟨c1, c2, c3⟩, fun hb => by simp at hb,
      fun _ => ⟨localInteriorStep_wellFormed s hwf, ?_⟩⟩
    intro l hl
    rw [hev.1] at hl
    rw [hev.1, getTimeTolerance_of_timeStepping _ _ hev.1]
    exact (hev.ordered l (by rw [c2, c3]; exact hw l (by rw [← c1]; exact hl))
      (hord l hl)).1
  | @neighboringInterior s _ ih =>
    obtain ⟨⟨c1, c2, c3⟩, _, ih2⟩ := ih
    obtain ⟨hwf, hord⟩ := ih2 rfl
    have hev := neighboringInteriorStep_evolves s hwf
    refine ⟨by rw [hev.1]; exact ⟨c1, c2, c3⟩, fun hb => by simp at hb,
      fun _ => ⟨neighboringInteriorStep_wellFormed s hwf, ?_⟩⟩
    intro l hl
    rw [hev.1] at hl
    rw [hev.1, getTimeTolerance_of_timeStepping _ _ hev.1]
    exact (hev.ordered l (by rw [c2, c3]; exact hw l (by rw [← c1]; exact hl))
      (hord l hl)).1
  | @log s _ ih =>
    obtain ⟨⟨c1, c2, c3⟩, _, ih2⟩ := ih
    obtain ⟨hwf, hord⟩ := ih2 rfl
    have hev := logProgress_evolves s
    refine ⟨by rw [hev.1]; exact ⟨c1, c2, c3⟩, fun hb => by simp at hb,
      fun _ => ⟨logProgress_wellFormed s hwf, ?_⟩⟩
    intro l hl
    rw [hev.1] at hl
    rw [hev.1, getTimeTolerance_of_timeStepping _ _ hev.1]
    exact (hev.ordered l (by rw [c2, c3]; exact hw l (by rw [← c1]; exact hl))
      (hord l hl)).1
  | @leave s _ hq ih =>
    obtain ⟨hc, _, ih2⟩ := ih
    obtain ⟨hwf, hord⟩ := ih2 rfl
    refine ⟨hc, fun _ => ⟨idle_of_wellFormed s hwf hq, ?_⟩, fun hb => by simp at hb⟩
    intro l hl
    exact ordered_fullUpdateTime_le _ _ _ (hord l hl)

/-- `updateClusterDependencies` keeps every property that each pass of its
loop body keeps. -/
theorem updateClusterDependencies_fold (P : TimeManager → Prop) (s : TimeManager) (k : Nat)
    (hstep : ∀ t j, P t → P (evaluateCluster j t)) (h0 : P s) :
    P (updateClusterDependencies k s) := by
  unfold updateClusterDependencies
  exact (foldl_evaluateCluster_induction P s.m_timeStepping _ s rfl
    (fun t j _ _ hp => hstep t j hp) h0).1

/-- `updateClusterDependencies` changes neither time of any cluster. -/
theorem updateClusterDependencies_times (s : TimeManager) (k l : Nat) :
    ((updateClusterDependencies k s).m_clusters l).m_predictionTime
        = (s.m_clusters l).m_predictionTime
      ∧ ((updateClusterDependencies k s).m_clusters l).m_fullUpdateTime
        = (s.m_clusters l).m_fullUpdateTime := by
  refine updateClusterDependencies_fold
    (fun t => (t.m_clusters l).m_predictionTime = (s.m_clusters l).m_predictionTime
      ∧ (t.m_clusters l).m_fullUpdateTime = (s.m_clusters l).m_fullUpdateTime) s k ?_
    ⟨rfl, rfl⟩
  intro t j hp
  rw [evaluateCluster_clusters]
  by_cases h : l = j
  · subst h
    rw [Function.update_same, evaluatedCluster_predictionTime, evaluatedCluster_fullUpdateTime]
    exact hp
  · rw [Function.update_noteq h]
    exact hp

/-- The initialisation of the queues changes neither time of any cluster. -/
theorem advanceInTimeSetup_times (T : ℚ) (s : TimeManager) (l : Nat) :
    ((advanceInTimeSetup T s).m_clusters l).m_predictionTime
        = (s.m_clusters l).m_predictionTime
      ∧ ((advanceInTimeSetup T s).m_clusters l).m_fullUpdateTime
        = (s.m_clusters l).m_fullUpdateTime := by
  have h0 : ((resetState T s).m_clusters l).m_predictionTime
        = (s.m_clusters l).m_predictionTime
      ∧ ((resetState T s).m_clusters l).m_fullUpdateTime
        = (s.m_clusters l).m_fullUpdateTime := by
    simp only [resetState]
    split_ifs <;> exact ⟨rfl, rfl⟩
  unfold advanceInTimeSetup
  refine (foldl_updateClusterDependencies_induction
    (fun t => (t.m_clusters l).m_predictionTime = (s.m_clusters l).m_predictionTime
      ∧ (t.m_clusters l).m_fullUpdateTime = (s.m_clusters l).m_fullUpdateTime)
    (resetState T s).m_timeStepping _ _ rfl ?_ h0).1
  intro t k _ _ hp
  rw [(updateClusterDependencies_times t k l).1, (updateClusterDependencies_times t k l).2]
  exact hp

theorem logProgress_clusters (s : TimeManager) : (logProgress s).m_clusters = s.m_clusters := by
  unfold logProgress
  simp only []
  split_ifs <;> rfl

/-! ## Corrections wait for the neighbours' predictions -/

/-- The part of the full update guard that concerns the neighbours. -/
theorem fullUpdateCondition_neighbours (s : TimeManager) (l : Nat)
    (h : fullUpdateCondition s l = true) :
    (0 < l → (s.m_clusters (l - 1)).m_predictionTime
        > (s.m_clusters l).m_predictionTime - getTimeTolerance s)
    ∧ (l + 1 < s.m_timeStepping.numberOfLocalClusters →
        (s.m_clusters (l + 1)).m_predictionTime
          > (s.m_clusters l).m_predictionTime - getTimeTolerance s) := by
  unfold fullUpdateCondition at h
  simp only [Bool.and_eq_true, Bool.not_eq_true', decide_eq_true_eq] at h
  refine ⟨fun h0 => ?_, fun h1 => ?_⟩
  · have := h.1.1.2
    rw [if_pos h0] at this
    exact this
  · have := h.2
    rw [if_pos (by omega)] at this
    exact this

theorem evaluateCluster_correctionReady (s : TimeManager) (j : Nat)
    (h : CorrectionReady s) : CorrectionReady (evaluateCluster j s) := by
  intro l hl hq
  rw [evaluateCluster_timeStepping] at hl
  have hp : ∀ i, ((evaluateCluster j s).m_clusters i).m_predictionTime
      = (s.m_clusters i).m_predictionTime := by
    intro i
    rw [evaluateCluster_clusters]
    by_cases hi : i = j
    · subst hi
      rw [Function.update_same, evaluatedCluster_predictionTime]
    · rw [Function.update_noteq hi]
  rw [evaluateCluster_timeStepping, getTimeTolerance_evaluateCluster, hp, hp, hp]
  by_cases hlj : l = j
  · subst hlj
    rw [evaluateCluster_clusters_same, evaluatedCluster_neighboringInterior] at hq
    by_cases hc : fullUpdateCondition s l = true
    · exact fullUpdateCondition_neighbours s l hc
    · simp only [Bool.not_eq_true] at hc
      rw [hc, Bool.false_or] at hq
      exact h l hl hq
  · rw [evaluateCluster_clusters_ne s j l hlj] at hq
    exact h l hl hq

theorem updateClusterDependencies_correctionReady (s : TimeManager) (k : Nat)
    (h : CorrectionReady s) : CorrectionReady (updateClusterDependencies k s) :=
  updateClusterDependencies_fold CorrectionReady s k
    (fun t j hp => evaluateCluster_correctionReady t j hp) h

/-- A cluster flagged for a prediction is not flagged for a full update. -/
theorem ordered_flags_exclusive (T e : ℚ) (c : TimeCluster) (h : Ordered T e c)
    (hp : c.m_updatable.localInterior = true) :
    c.m_updatable.neighboringInterior = false := by
  obtain ⟨_, _, h2, _, h4⟩ := h
  cases hq : c.m_updatable.neighboringInterior
  · rfl
  · have := h4 hq
    rw [gt_iff_lt, lt_abs] at this
    obtain ⟨ha, hb, _⟩ := h2 hp
    rcases this with h' | h' <;> linarith

theorem afterPrediction_correctionReady (s : TimeManager) (l : Nat) (hw : WellFormed s)
    (hl : l ∈ s.m_localInteriorQueue)
    (hord : ∀ j, j < s.m_timeStepping.numberOfLocalClusters →
      Ordered s.m_timeStepping.synchronizationTime (getTimeTolerance s) (s.m_clusters j))
    (h : CorrectionReady s) : CorrectionReady (afterPrediction s l) := by
  have hb := hw.localBound l hl
  have hflag := (hw.localFlag l hb).1 hl
  have hnq := ordered_flags_exclusive _ _ _ (hord l hb) hflag
  have hstep : 0 ≤ (s.m_clusters l).m_timeStepWidth := (hord l hb).1
  have hp : ∀ i, (s.m_clusters i).m_predictionTime
      ≤ ((afterPrediction s l).m_clusters i).m_predictionTime := by
    intro i
    simp only [afterPrediction, Function.update_apply]
    split_ifs with hi
    · subst hi
      simp only [computeLocalInterior]
      linarith
    · exact le_refl _
  have hpne : ∀ i, i ≠ l → ((afterPrediction s l).m_clusters i) = s.m_clusters i := by
    intro i hi
    simp only [afterPrediction, Function.update_noteq hi]
  have htol : getTimeTolerance (afterPrediction s l) = getTimeTolerance s := rfl
  intro j hj hq
  have hj' : j < s.m_timeStepping.numberOfLocalClusters := hj
  have hjl : j ≠ l := by
    intro hjl
    subst hjl
    simp only [afterPrediction, Function.update_same, computeLocalInterior] at hq
    rw [hnq] at hq
    exact absurd hq Bool.false_ne_true
  rw [hpne j hjl] at hq
  obtain ⟨h1, h2⟩ := h j hj' hq
  rw [htol, hpne j hjl]
  refine ⟨fun h0 => ?_, fun h0 => ?_⟩
  · exact lt_of_lt_of_le (h1 h0) (hp _)
  · exact lt_of_lt_of_le (h2 h0) (hp _)

theorem afterCorrection_correctionReady (s : TimeManager) (l : Nat)
    (h : CorrectionReady s) : CorrectionReady (afterCorrection s l) := by
  have hp : ∀ i, ((afterCorrection s l).m_clusters i).m_predictionTime
      = (s.m_clusters i).m_predictionTime := by
    intro i
    simp only [afterCorrection, Function.update_apply]
    split_ifs with hi
    · subst hi
      rfl
    · rfl
  have htol : getTimeTolerance (afterCorrection s l) = getTimeTolerance s := rfl
  intro j hj hq
  have hj' : j < s.m_timeStepping.numberOfLocalClusters := hj
  rw [htol, hp, hp, hp]
  have hq' : (s.m_clusters j).m_updatable.neighboringInterior = true := by
    by_cases hjl : j = l
    · subst hjl
      simp [afterCorrection, computeNeighboringInterior] at hq
    · simpa [afterCorrection, Function.update_noteq hjl] using hq
  exact h j hj' hq'

theorem logProgress_correctionReady (s : TimeManager) (h : CorrectionReady s) :
    CorrectionReady (logProgress s) := by
  have h1 : (logProgress s).m_timeStepping = s.m_timeStepping := by
    unfold logProgress
    simp only []
    split_ifs <;> rfl
  intro j hj hq
  rw [h1] at hj
  rw [getTimeTolerance_of_timeStepping _ _ h1, h1]
  rw [logProgress_clusters] at hq ⊢
  exact h j hj hq

theorem resetState_correctionReady (T : ℚ) (s : TimeManager) :
    CorrectionReady (resetState T s) := by
  intro j hj hq
  have hj' : j < s.m_timeStepping.numberOfLocalClusters := hj
  rw [resetState_clusters T s j hj'] at hq
  simp [resetCluster] at hq

/-- The invariant of a call entered with ordered times. -/
theorem reached_correctionReady (T : ℚ) (s0 : TimeManager) (hi : Idle s0)
    (hw : ∀ l, l < s0.m_timeStepping.numberOfLocalClusters →
      0 ≤ s0.m_timeStepping.globalCflTimeStepWidths (s0.m_timeStepping.clusterIds l))
    (hentry : ∀ l, l < s0.m_timeStepping.numberOfLocalClusters →
      (s0.m_clusters l).m_fullUpdateTime ≤ T
        ∧ (s0.m_clusters l).m_fullUpdateTime ≤ (s0.m_clusters l).m_predictionTime)
    (s : TimeManager) (hr : Reached T s0 s) :
    (∀ l, l < s.m_timeStepping.numberOfLocalClusters →
        Ordered T (getTimeTolerance s) (s.m_clusters l))
      ∧ CorrectionReady s := by
  have hT : (resetState T s0).m_timeStepping.synchronizationTime = T := rfl
  have hord : ∀ t, Reached T s0 t → ∀ l, l < t.m_timeStepping.numberOfLocalClusters →
      Ordered t.m_timeStepping.synchronizationTime (getTimeTolerance t) (t.m_clusters l) := by
    intro t ht l hl
    have hev := reached_evolves T s0 t hi ht
    rw [hev.1] at hl
    rw [hev.1, getTimeTolerance_of_timeStepping _ _ hev.1]
    have hl0 : l < s0.m_timeStepping.numberOfLocalClusters := hl
    refine (hev.ordered l (hw l hl0) ?_).1
    rw [resetState_clusters T s0 l hl0]
    exact ordered_reset _ _ _ (hentry l hl0).1 (hentry l hl0).2
  refine ⟨?_, ?_⟩
  · intro l hl
    have := hord s hr l hl
    rw [(reached_evolves T s0 s hi hr).1, hT] at this
    exact this
  · induction hr with
    | setup =>
      exact advanceInTimeSetup_induction CorrectionReady T s0
        (fun t k _ _ hp => updateClusterDependencies_correctionReady t k hp)
        (resetState_correctionReady T s0)
    | @localInterior t ht ih =>
      have hwf := reached_wellFormed T s0 t hi ht
      rcases localInteriorStep_cases t hwf with ⟨_, h⟩ | ⟨l, hl, _, h⟩
      · rw [h]; exact ih
      · rw [h]
        exact updateClusterDependencies_correctionReady _ l
          (afterPrediction_correctionReady t l hwf hl (hord t ht) ih)
    | @neighboringInterior t ht ih =>
      have hwf := reached_wellFormed T s0 t hi ht
      rcases neighboringInteriorStep_cases t hwf with ⟨_, h⟩ | ⟨l, hl, _, h⟩
      · rw [h]; exact ih
      · rw [h]
        exact updateClusterDependencies_correctionReady _ l
          (afterCorrection_correctionReady t l ih)
    | @log t _ ih => exact logProgress_correctionReady t ih

theorem twoClusters_idle : Idle twoClusters :=
  ⟨fun _ _ => rfl, fun _ _ => rfl, fun _ _ => rfl, rfl, rfl, rfl, rfl⟩

theorem twoClusters_widths (l : Nat) (hl : l < 2) :
    (0 : ℚ) < twoClusters.m_timeStepping.globalCflTimeStepWidths
      (twoClusters.m_timeStepping.clusterIds l) := by
  interval_cases l
  · show (0 : ℚ) < 1
    norm_num
  · show (0 : ℚ) < 2
    norm_num

/-! ## Termination of the scheduling loop -/

theorem progressing_step (ts : TimeStepping) (e d : ℚ) (l : Nat) (c c' : TimeCluster)
    (hd0 : 0 ≤ d) (hde : d ≤ e)
    (hw : d ≤ ts.globalCflTimeStepWidths (ts.clusterIds l))
    (hs : LocalStep ts e l c c') (h : Progressing ts.synchronizationTime e d c) :
    Progressing ts.synchronizationTime e d c' := by
  obtain ⟨h0, h1, h2, h3, h4⟩ := h
  cases hs with
  | markFull hq hsync hd =>
    exact ⟨h0, h1, h2, h3, fun _ => hd⟩
  | setupPrediction hp hsync hd =>
    have hm := min_le_right (ts.globalCflTimeStepWidths (ts.clusterIds l))
      (ts.synchronizationTime - c.m_fullUpdateTime)
    have hgap : e < ts.synchronizationTime - c.m_fullUpdateTime := by
      rw [gt_iff_lt, lt_abs] at hsync
      rcases hsync with h' | h'
      · linarith
      · linarith
    have hdm : d ≤ min (ts.globalCflTimeStepWidths (ts.clusterIds l))
        (ts.synchronizationTime - c.m_fullUpdateTime) := le_min hw (by linarith)
    refine ⟨?_, ?_, ?_, ?_, ?_⟩
    · rw [predictionSetup_timeStepWidth]
      linarith
    · rw [predictionSetup_fullUpdateTime]; exact h1
    · intro _
      rw [predictionSetup_fullUpdateTime, predictionSetup_predictionTime,
        predictionSetup_timeStepWidth]
      rw [abs_sub_comm, abs_lt] at hd
      refine ⟨?_, hd.2, by linarith, hdm⟩
      rcases h3 hp with ha | ha
      · exact ha.1
      · linarith [ha.1]
    · intro hf
      rw [predictionSetup_updatable] at hf
      simp at hf
    · intro hf
      rw [predictionSetup_updatable] at hf
      rw [predictionSetup_fullUpdateTime, predictionSetup_predictionTime]
      exact h4 hf
  | predict hp =>
    obtain ⟨ha, hb, hc, hdd⟩ := h2 hp
    refine ⟨h0, h1, ?_, ?_, ?_⟩
    · intro hf
      simp [computeLocalInterior] at hf
    · intro _
      right
      simp only [computeLocalInterior]
      refine ⟨by linarith, by linarith, hc, hdd⟩
    · intro hf
      have hq : c.m_updatable.neighboringInterior = true := hf
      have := h4 hq
      rw [gt_iff_lt, lt_abs] at this
      rcases this with h' | h' <;> linarith
  | correct hq =>
    have hd := h4 hq
    rw [gt_iff_lt, lt_abs] at hd
    have hp : c.m_updatable.localInterior = false := by
      cases hx : c.m_updatable.localInterior
      · rfl
      · obtain ⟨ha, hb, _⟩ := h2 hx
        rcases hd with h' | h' <;> linarith
    have hp' : (computeNeighboringInterior c).m_updatable.localInterior = false := hp
    rcases h3 hp with ha | ⟨ha, hb, hc, _⟩
    · rcases hd with h' | h' <;> linarith [ha.1, ha.2]
    · refine ⟨h0, hc, ?_, ?_, ?_⟩
      · intro hf
        rw [hp'] at hf
        exact absurd hf Bool.false_ne_true
      · intro _
        left
        simp only [computeNeighboringInterior]
        exact ⟨by linarith, by linarith⟩
      · intro hf
        simp [computeNeighboringInterior] at hf

theorem progressing_reset (T e d : ℚ) (c : TimeCluster) (he : 0 < e)
    (h : c.m_fullUpdateTime ≤ T) (hp : c.m_predictionTime = c.m_fullUpdateTime) :
    Progressing T e d (resetCluster c) := by
  refine ⟨le_refl _, h, ?_, ?_, ?_⟩
  · intro hf
    simp [resetCluster] at hf
  · intro _
    left
    simp only [resetCluster, hp, sub_self]
    exact ⟨le_refl _, he⟩
  · intro hf
    simp [resetCluster] at hf

/-- The width of the step that a flagged cluster is about to complete. -/
theorem progressing_width (T e d : ℚ) (c : TimeCluster) (h : Progressing T e d c)
    (hf : c.m_updatable.localInterior = true ∨ c.m_updatable.neighboringInterior = true) :
    d ≤ c.m_timeStepWidth := by
  obtain ⟨_, _, h2, h3, h4⟩ := h
  cases hx : c.m_updatable.localInterior
  · rcases hf with hf | hf
    · rw [hx] at hf
      exact absurd hf Bool.false_ne_true
    · have hd := h4 hf
      rw [gt_iff_lt, lt_abs] at hd
      rcases h3 hx with ha | ha
      · rcases hd with h' | h' <;> linarith [ha.1, ha.2]
      · exact ha.2.2.2
  · exact (h2 hx).2.2.2

/-- The times of a cluster in progress leave no more than the tolerance
below zero. -/
theorem progressing_remaining (T e d : ℚ) (c : TimeCluster) (h : Progressing T e d c) :
    -e ≤ (T - c.m_predictionTime) + (T - c.m_fullUpdateTime) := by
  obtain ⟨_, h1, h2, h3, _⟩ := h
  cases hx : c.m_updatable.localInterior
  · rcases h3 hx with ha | ha
    · linarith [ha.1, ha.2]
    · linarith [ha.1, ha.2.1, ha.2.2.1]
  · linarith [(h2 hx).1, (h2 hx).2.1]

theorem sum_range_update (n l : Nat) (hl : l < n) (f : Nat → TimeCluster) (v : TimeCluster)
    (g : TimeCluster → ℚ) :
    ∑ i in Finset.range n, g (Function.update f l v i)
      = ∑ i in Finset.range n, g (f i) - g (f l) + g v := by
  have hm : l ∈ Finset.range n := Finset.mem_range.2 hl
  rw [← Finset.add_sum_erase _ _ hm, ← Finset.add_sum_erase _ (fun i => g (f i)) hm]
  have : ∑ x in (Finset.range n).erase l, g (Function.update f l v x)
      = ∑ x in (Finset.range n).erase l, g (f x) := by
    apply Finset.sum_congr rfl
    intro x hx
    rw [Function.update_noteq (Finset.ne_of_mem_erase hx)]
  rw [this, Function.update_same]
  ring

theorem remainingTime_updateClusterDependencies (s : TimeManager) (k : Nat) :
    remainingTime (updateClusterDependencies k s) = remainingTime s := by
  unfold remainingTime
  rw [updateClusterDependencies_timeStepping]
  apply Finset.sum_congr rfl
  intro l _
  rw [(updateClusterDependencies_times s k l).1, (updateClusterDependencies_times s k l).2]

theorem remainingTime_afterPrediction (s : TimeManager) (l : Nat)
    (hl : l < s.m_timeStepping.numberOfLocalClusters) :
    remainingTime (afterPrediction s l) = remainingTime s - (s.m_clusters l).m_timeStepWidth := by
  unfold remainingTime
  simp only [afterPrediction]
  rw [sum_range_update _ l hl s.m_clusters _ (fun c =>
    (s.m_timeStepping.synchronizationTime - c.m_predictionTime)
      + (s.m_timeStepping.synchronizationTime - c.m_fullUpdateTime))]
  simp only [computeLocalInterior]
  ring

theorem remainingTime_afterCorrection (s : TimeManager) (l : Nat)
    (hl : l < s.m_timeStepping.numberOfLocalClusters) :
    remainingTime (afterCorrection s l) = remainingTime s - (s.m_clusters l).m_timeStepWidth := by
  unfold remainingTime
  simp only [afterCorrection]
  rw [sum_range_update _ l hl s.m_clusters _ (fun c =>
    (s.m_timeStepping.synchronizationTime - c.m_predictionTime)
      + (s.m_timeStepping.synchronizationTime - c.m_fullUpdateTime))]
  simp only [computeNeighboringInterior]
  ring

theorem remainingTime_logProgress (s : TimeManager) :
    remainingTime (logProgress s) = remainingTime s := by
  unfold logProgress
  simp only []
  split_ifs <;> rfl

theorem Evolves.progressing {s t : TimeManager} (h : Evolves s t) (d : ℚ) (l : Nat)
    (hd0 : 0 ≤ d) (hde : d ≤ getTimeTolerance s)
    (hw : d ≤ s.m_timeStepping.globalCflTimeStepWidths (s.m_timeStepping.clusterIds l))
    (h0 : Progressing s.m_timeStepping.synchronizationTime (getTimeTolerance s) d
      (s.m_clusters l)) :
    Progressing s.m_timeStepping.synchronizationTime (getTimeTolerance s) d
      (t.m_clusters l) := by
  refine h.preserves (fun j c =>
    d ≤ s.m_timeStepping.globalCflTimeStepWidths (s.m_timeStepping.clusterIds j) →
      Progressing s.m_timeStepping.synchronizationTime (getTimeTolerance s) d c) ?_ l ?_ hw
  · intro j c c' hs hc hwj
    exact progressing_step _ _ d j c c' hd0 hde hwj hs (hc hwj)
  · intro _
    exact h0

/-- The invariant passes from `s` to a well-formed state that `s` evolves to. -/
theorem InProgress.of_evolves {T d : ℚ} {s t : TimeManager} (h : InProgress T d s)
    (hev : Evolves s t) (hwf : WellFormed t) : InProgress T d t := by
  have htol := getTimeTolerance_of_timeStepping _ _ hev.1
  refine ⟨hwf, by rw [hev.1]; exact h.sync, ?_, ?_, h.positive, by rw [htol]; exact h.tolerance⟩
  · intro l hl
    rw [hev.1] at hl
    rw [htol]
    have := hev.progressing d l h.positive.le h.tolerance (h.widths l hl)
      (by rw [h.sync]; exact h.progressing l hl)
    rw [h.sync] at this
    exact this
  · intro l hl
    rw [hev.1] at hl ⊢
    exact h.widths l hl

theorem InProgress.localInteriorStep {T d : ℚ} {s : TimeManager} (h : InProgress T d s) :
    InProgress T d (localInteriorStep s)
      ∧ remainingTime (localInteriorStep s) ≤ remainingTime s
      ∧ (s.m_localInteriorQueue ≠ [] →
          remainingTime (localInteriorStep s) ≤ remainingTime s - d) := by
  refine ⟨h.of_evolves (localInteriorStep_evolves s h.wellFormed)
    (localInteriorStep_wellFormed s h.wellFormed), ?_⟩
  rcases localInteriorStep_cases s h.wellFormed with ⟨he, hs⟩ | ⟨l, hl, _, hs⟩
  · rw [hs]
    exact ⟨le_refl _, fun hne => absurd he hne⟩
  · have hb := h.wellFormed.localBound l hl
    have hwd := progressing_width _ _ _ _ (h.progressing l hb)
      (Or.inl ((h.wellFormed.localFlag l hb).1 hl))
    rw [hs, remainingTime_updateClusterDependencies, remainingTime_afterPrediction s l hb]
    have := h.positive
    exact ⟨by linarith, fun _ => by linarith⟩

theorem InProgress.neighboringInteriorStep {T d : ℚ} {s : TimeManager}
    (h : InProgress T d s) :
    InProgress T d (neighboringInteriorStep s)
      ∧ remainingTime (neighboringInteriorStep s) ≤ remainingTime s
      ∧ (s.m_neighboringInteriorQueue ≠ [] →
          remainingTime (neighboringInteriorStep s) ≤ remainingTime s - d) := by
  refine ⟨h.of_evolves (neighboringInteriorStep_evolves s h.wellFormed)
    (neighboringInteriorStep_wellFormed s h.wellFormed), ?_⟩
  rcases neighboringInteriorStep_cases s h.wellFormed with ⟨he, hs⟩ | ⟨l, hl, _, hs⟩
  · rw [hs]
    exact ⟨le_refl _, fun hne => absurd he hne⟩
  · have hb := h.wellFormed.neighboringBound l hl
    have hwd := progressing_width _ _ _ _ (h.progressing l hb)
      (Or.inr ((h.wellFormed.neighboringFlag l hb).1 hl))
    rw [hs, remainingTime_updateClusterDependencies, remainingTime_afterCorrection s l hb]
    have := h.positive
    exact ⟨by linarith, fun _ => by linarith⟩

theorem InProgress.logProgress {T d : ℚ} {s : TimeManager} (h : InProgress T d s) :
    InProgress T d (logProgress s) :=
  h.of_evolves (logProgress_evolves s) (logProgress_wellFormed s h.wellFormed)

/-- An iteration of the loop with a non-empty queue completes at least one
step: the remaining time drops by at least `d`. -/
theorem InProgress.iteration {T d : ℚ} {s : TimeManager} (h : InProgress T d s)
    (hq : allQueuesEmpty s = false) :
    InProgress T d (advanceInTimeIteration s)
      ∧ remainingTime (advanceInTimeIteration s) ≤ remainingTime s - d := by
  obtain ⟨h1, r1, p1⟩ := h.localInteriorStep
  obtain ⟨h2, r2, p2⟩ := h1.neighboringInteriorStep
  refine ⟨h2.logProgress, ?_⟩
  unfold advanceInTimeIteration
  rw [remainingTime_logProgress]
  by_cases hl : s.m_localInteriorQueue = []
  · have hs : SeisSol.localInteriorStep s = s := localInteriorStep_of_empty s hl
    have hn : s.m_neighboringInteriorQueue ≠ [] := by
      intro hn
      unfold allQueuesEmpty at hq
      rw [h.wellFormed.localCopyQueue, h.wellFormed.neighboringCopyQueue, hl, hn] at hq
      simp at hq
    rw [hs] at p2 ⊢
    exact p2 hn
  · have := p1 hl
    linarith

/-- In a state in progress the remaining time is at least minus the
tolerance for each cluster. -/
theorem InProgress.remainingTime_ge {T d : ℚ} {s : TimeManager} (h : InProgress T d s) :
    -(s.m_timeStepping.numberOfLocalClusters * getTimeTolerance s) ≤ remainingTime s := by
  unfold remainingTime
  have : ∑ _l in Finset.range s.m_timeStepping.numberOfLocalClusters, (-getTimeTolerance s)
      ≤ ∑ l in Finset.range s.m_timeStepping.numberOfLocalClusters,
        ((s.m_timeStepping.synchronizationTime - (s.m_clusters l).m_predictionTime)
          + (s.m_timeStepping.synchronizationTime - (s.m_clusters l).m_fullUpdateTime)) := by
    apply Finset.sum_le_sum
    intro l hl
    have := progressing_remaining _ _ _ _ (h.progressing l (Finset.mem_range.1 hl))
    rw [h.sync]
    exact this
  simp only [Finset.sum_const, Finset.card_range, nsmul_eq_mul, mul_neg] at this
  exact this

/-- The loop leaves a state in progress within as many iterations as steps of
width `d` fit into the remaining time. -/
theorem InProgress.terminates {T d : ℚ} (k : Nat) (s : TimeManager) (h : InProgress T d s)
    (hk : remainingTime s + s.m_timeStepping.numberOfLocalClusters * getTimeTolerance s
      < k * d) :
    ∃ n t, n ≤ k ∧ advanceInTimeLoop n s = some t := by
  induction k generalizing s with
  | zero =>
    have := h.remainingTime_ge
    simp only [Nat.cast_zero, zero_mul] at hk
    linarith
  | succ k ih =>
    by_cases hq : allQueuesEmpty s = true
    · exact ⟨0, s, Nat.zero_le _, by simp [advanceInTimeLoop, hq]⟩
    · simp only [Bool.not_eq_true] at hq
      obtain ⟨h', hr⟩ := h.iteration hq
      have hts : (advanceInTimeIteration s).m_timeStepping = s.m_timeStepping := by
        unfold advanceInTimeIteration
        rw [(logProgress_evolves _).1,
          (neighboringInteriorStep_evolves _
            (localInteriorStep_wellFormed s h.wellFormed)).1,
          (localInteriorStep_evolves s h.wellFormed).1]
      obtain ⟨n, t, hn, ht⟩ := ih (advanceInTimeIteration s) h' (by
        rw [hts, getTimeTolerance_of_timeStepping _ _ hts]
        push_cast at hk
        linarith)
      refine ⟨n + 1, t, Nat.succ_le_succ hn, ?_⟩
      simp [advanceInTimeLoop, hq, ht]

/-- A positive width below the tolerance and below finitely many positive
widths. -/
theorem exists_step_bound (n : Nat) (w : Nat → ℚ) (e : ℚ) (he : 0 < e)
    (hw : ∀ l, l < n → 0 < w l) :
    ∃ d, 0 < d ∧ d ≤ e ∧ ∀ l, l < n → d ≤ w l := by
  induction n with
  | zero => exact ⟨e, he, le_refl _, fun l hl => absurd hl (Nat.not_lt_zero l)⟩
  | succ n ih =>
    obtain ⟨d, hd, hde, hdw⟩ := ih (fun l hl => hw l (Nat.lt_succ_of_lt hl))
    refine ⟨min d (w n), lt_min hd (hw n (Nat.lt_succ_self n)),
      (min_le_left _ _).trans hde, ?_⟩
    intro l hl
    rcases Nat.lt_succ_iff_lt_or_eq.1 hl with h | h
    · exact (min_le_left _ _).trans (hdw l h)
    · rw [h]
      exact min_le_right _ _

/-- The state that the initialisation of the queues leaves is in progress. -/
theorem advanceInTimeSetup_inProgress (T d : ℚ) (s0 : TimeManager) (hi : Idle s0)
    (hd : 0 < d) (hde : d ≤ getTimeTolerance s0)
    (hw : ∀ l, l < s0.m_timeStepping.numberOfLocalClusters →
      d ≤ s0.m_timeStepping.globalCflTimeStepWidths (s0.m_timeStepping.clusterIds l))
    (hentry : ∀ l, l < s0.m_timeStepping.numberOfLocalClusters →
      (s0.m_clusters l).m_predictionTime = (s0.m_clusters l).m_fullUpdateTime
        ∧ (s0.m_clusters l).m_fullUpdateTime ≤ T) :
    InProgress T d (advanceInTimeSetup T s0) := by
  have hreset : InProgress T d (resetState T s0) := by
    refine ⟨resetState_wellFormed T s0 hi, rfl, ?_, hw, hd, hde⟩
    intro l hl
    have hl0 : l < s0.m_timeStepping.numberOfLocalClusters := hl
    rw [resetState_clusters T s0 l hl0]
    exact progressing_reset T _ d _ (lt_of_lt_of_le hd hde) (hentry l hl0).2 (hentry l hl0).1
  exact hreset.of_evolves (advanceInTimeSetup_evolves T s0)
    (advanceInTimeSetup_wellFormed T s0 hi)


theorem advanceInTime_idle (T : ℚ) (s0 : TimeManager) (fuel : Nat) (t : TimeManager)
    (hi : Idle s0) (h : advanceInTime fuel T s0 = some t) : Idle t := by
  obtain ⟨hr, hq⟩ := advanceInTime_reached T s0 fuel t h
  exact idle_of_wellFormed t (reached_wellFormed T s0 t hi hr) hq

/-- In exact arithmetic the scheduling loop terminates.  For every manager
between two calls with at least one cluster, rates at least 1 and positive
CFL widths, and every call `advanceInTime(T)` that meets its precondition and
is entered with every cluster at `predictionTime = fullUpdateTime ≤ T`,
there is a number of loop iterations after which all four queues are
empty. -/
theorem advanceInTime_terminates_exact (T : ℚ) (s0 : TimeManager) (hi : Idle s0)
    (hn : 1 ≤ s0.m_timeStepping.numberOfLocalClusters)
    (hpre : s0.m_timeStepping.synchronizationTime ≤ T)
    (hrates : ∀ g, 1 ≤ s0.m_timeStepping.globalTimeStepRates g)
    (hpos : ∀ g, 0 < s0.m_timeStepping.globalCflTimeStepWidths g)
    (hentry : ∀ l, l < s0.m_timeStepping.numberOfLocalClusters →
      (s0.m_clusters l).m_predictionTime = (s0.m_clusters l).m_fullUpdateTime
        ∧ (s0.m_clusters l).m_fullUpdateTime ≤ T) :
    ∃ n t, advanceInTime n T s0 = some t ∧ allQueuesEmpty t = true := by
  have _ := hn
  have _ := hrates
  have he : 0 < getTimeTolerance s0 := by
    unfold getTimeTolerance
    have := hpos 0
    positivity
  obtain ⟨d, hd, hde, hdw⟩ := exists_step_bound s0.m_timeStepping.numberOfLocalClusters
    (fun l => s0.m_timeStepping.globalCflTimeStepWidths (s0.m_timeStepping.clusterIds l))
    (getTimeTolerance s0) he (fun l _ => hpos _)
  have hinv := advanceInTimeSetup_inProgress T d s0 hi hd hde hdw hentry
  obtain ⟨k, hk⟩ := exists_nat_gt
    ((remainingTime (advanceInTimeSetup T s0)
      + (advanceInTimeSetup T s0).m_timeStepping.numberOfLocalClusters
        * getTimeTolerance (advanceInTimeSetup T s0)) / d)
  obtain ⟨n, t, _, ht⟩ := hinv.terminates k _ (by
    rw [div_lt_iff₀ hd] at hk
    exact hk)
  refine ⟨n, t, ?_, ?_⟩
  · unfold advanceInTime
    rw [if_pos hpre]
    exact ht
  · exact (advanceInTimeLoop_reached T s0 n _ t Reached.setup ht).2

theorem threeClusters_idle : Idle threeClusters :=
  ⟨fun _ _ => rfl, fun _ _ => rfl, fun _ _ => rfl, rfl, rfl, rfl, rfl⟩

theorem threeClusters_rates (g : Nat) :
    1 ≤ threeClusters.m_timeStepping.globalTimeStepRates g := by
  show 1 ≤ ([1, 2, 4] : List Nat).getD g 1
  rcases g with _ | _ | _ | g <;> simp

theorem threeClusters_widths (g : Nat) :
    (0 : ℚ) < threeClusters.m_timeStepping.globalCflTimeStepWidths g := by
  show (0 : ℚ) < ([1 / 4, 1 / 2, 1] : List ℚ).getD g 1
  rcases g with _ | _ | _ | g <;> simp

/-! ## The time grid of a cluster -/

theorem onGrid_fullUpdateTime_le (t0 T w : ℚ) (c : TimeCluster) (h : OnGrid t0 T w c) :
    c.m_fullUpdateTime ≤ T := by
  obtain ⟨_, ⟨j, hj⟩, _⟩ := h
  rw [hj]
  exact min_le_right _ _

/-- A grid point below `T` is not clipped. -/
theorem onGrid_fullUpdateTime_eq (t0 T w : ℚ) (c : TimeCluster) (h : OnGrid t0 T w c)
    (hlt : c.m_fullUpdateTime < T) :
    ∃ j : Nat, c.m_fullUpdateTime = t0 + j * w := by
  obtain ⟨_, ⟨j, hj⟩, _⟩ := h
  refine ⟨j, ?_⟩
  rw [hj] at hlt ⊢
  rcases min_cases (t0 + j * w) T with ⟨h1, _⟩ | ⟨h1, _⟩
  · exact h1
  · rw [h1] at hlt
    exact absurd hlt (lt_irrefl _)

/-- The gap of a grid point below `T` to `T` exceeds the tolerance, and so
does the width of the step set up there. -/
theorem onGrid_step_gt (t0 T w e : ℚ) (c : TimeCluster) (h : OnGrid t0 T w c)
    (hew : e < w)
    (hsep : ∀ j : Nat, t0 + j * w < T → t0 + j * w + e < T)
    (hlt : c.m_fullUpdateTime < T) :
    e < T - c.m_fullUpdateTime ∧ e < min w (T - c.m_fullUpdateTime) := by
  obtain ⟨j, hj⟩ := onGrid_fullUpdateTime_eq t0 T w c h hlt
  have := hsep j (by rw [← hj]; exact hlt)
  rw [← hj] at this
  exact ⟨by linarith, lt_min hew (by linarith)⟩

theorem onGrid_step (ts : TimeStepping) (t0 e : ℚ) (l : Nat) (c c' : TimeCluster)
    (he : 0 ≤ e) (hew : e < clusterWidth ts l)
    (hsep : ∀ j : Nat, t0 + j * clusterWidth ts l < ts.synchronizationTime →
      t0 + j * clusterWidth ts l + e < ts.synchronizationTime)
    (hs : LocalStep ts e l c c')
    (h : OnGrid t0 ts.synchronizationTime (clusterWidth ts l) c) :
    OnGrid t0 ts.synchronizationTime (clusterWidth ts l) c' := by
  have hle := onGrid_fullUpdateTime_le _ _ _ _ h
  have hgt := onGrid_step_gt _ _ _ e c h hew hsep
  obtain ⟨h0, h1, h2, h3, h4⟩ := h
  cases hs with
  | markFull hq hsync hd =>
    refine ⟨h0, h1, h2, h3, fun _ => ?_⟩
    intro heq
    have heq' : c.m_predictionTime = c.m_fullUpdateTime := heq
    rw [heq', sub_self, abs_zero] at hd
    linarith
  | setupPrediction hp hsync hd =>
    have hlt : c.m_fullUpdateTime < ts.synchronizationTime := by
      rcases lt_or_eq_of_le hle with h' | h'
      · exact h'
      · rw [h', sub_self, abs_zero] at hsync
        linarith
    have heq : c.m_predictionTime = c.m_fullUpdateTime := by
      rcases h3 hp with h' | ⟨h', hw', _⟩
      · exact h'
      · exfalso
        have hg := (hgt hlt).2
        rw [← hw'] at hg
        rw [h', abs_lt] at hd
        linarith [hd.1]
    refine ⟨?_, ?_, ?_, ?_, ?_⟩
    · rw [predictionSetup_timeStepWidth]
      exact le_min (by unfold clusterWidth at hew; linarith) (by linarith)
    · rw [predictionSetup_fullUpdateTime]; exact h1
    · intro _
      rw [predictionSetup_fullUpdateTime, predictionSetup_predictionTime,
        predictionSetup_timeStepWidth]
      exact ⟨heq, hlt, rfl⟩
    · intro hf
      rw [predictionSetup_updatable] at hf
      simp at hf
    · intro hf
      rw [predictionSetup_updatable] at hf
      rw [predictionSetup_fullUpdateTime, predictionSetup_predictionTime]
      exact h4 hf
  | predict hp =>
    obtain ⟨ha, hb, hc⟩ := h2 hp
    refine ⟨h0, h1, ?_, ?_, ?_⟩
    · intro hf
      simp [computeLocalInterior] at hf
    · intro _
      right
      simp only [computeLocalInterior]
      exact ⟨by rw [ha], hc, hb⟩
    · intro _
      simp only [computeLocalInterior]
      have hg := (hgt hb).2
      rw [← hc] at hg
      rw [ha]
      intro heq
      linarith
  | correct hq =>
    have hne := h4 hq
    have hp : c.m_updatable.localInterior = false := by
      cases hx : c.m_updatable.localInterior
      · rfl
      · exact absurd (h2 hx).1 hne
    have hp' : (computeNeighboringInterior c).m_updatable.localInterior = false := hp
    rcases h3 hp with ha | ⟨ha, hb, hc⟩
    · exact absurd ha hne
    · obtain ⟨j, hj⟩ := onGrid_fullUpdateTime_eq _ _ _ c ⟨h0, h1, h2, h3, h4⟩ hc
      refine ⟨h0, ⟨j + 1, ?_⟩, ?_, ?_, ?_⟩
      · simp only [computeNeighboringInterior]
        rw [hb, hj, ← min_add_add_left]
        congr 1
        · push_cast
          ring
        · ring
      · intro hf
        rw [hp'] at hf
        exact absurd hf Bool.false_ne_true
      · intro _
        left
        simp only [computeNeighboringInterior]
        exact ha
      · intro hf
        simp [computeNeighboringInterior] at hf

theorem onGrid_reset (t0 T w : ℚ) (c : TimeCluster) (hT : t0 ≤ T)
    (hp : c.m_predictionTime = t0) (hf : c.m_fullUpdateTime = t0) :
    OnGrid t0 T w (resetCluster c) := by
  refine ⟨le_refl _, ⟨0, ?_⟩, ?_, ?_, ?_⟩
  · simp only [resetCluster, Nat.cast_zero, zero_mul, add_zero]
    rw [hf, min_eq_left hT]
  · intro hx
    simp [resetCluster] at hx
  · intro _
    left
    simp only [resetCluster]
    rw [hp, hf]
  · intro hx
    simp [resetCluster] at hx

/-! ## Clusters settled by their last evaluation -/

/-- The full update guard of cluster `l` reads the neighboring flags and the
two times of `l` and the prediction times of its neighbours. -/
theorem fullUpdateCondition_congr (s t : TimeManager) (l : Nat)
    (hts : t.m_timeStepping = s.m_timeStepping)
    (hc : (t.m_clusters l).m_updatable.neighboringCopy
      = (s.m_clusters l).m_updatable.neighboringCopy)
    (hi : (t.m_clusters l).m_updatable.neighboringInterior
      = (s.m_clusters l).m_updatable.neighboringInterior)
    (hf : (t.m_clusters l).m_fullUpdateTime = (s.m_clusters l).m_fullUpdateTime)
    (hp : (t.m_clusters l).m_predictionTime = (s.m_clusters l).m_predictionTime)
    (hpm : (t.m_clusters (l - 1)).m_predictionTime = (s.m_clusters (l - 1)).m_predictionTime)
    (hpp : (t.m_clusters (l + 1)).m_predictionTime
      = (s.m_clusters (l + 1)).m_predictionTime) :
    fullUpdateCondition t l = fullUpdateCondition s l := by
  unfold fullUpdateCondition getTimeTolerance
  rw [hts, hc, hi, hf, hp, hpm, hpp]

/-- The prediction guard of cluster `l` reads the local flags and the two
times of `l`, the full update time of cluster `l - 1`, and the full update
time and the time step width of cluster `l + 1`. -/
theorem predictionCondition_congr (s t : TimeManager) (l : Nat)
    (hts : t.m_timeStepping = s.m_timeStepping)
    (hc : (t.m_clusters l).m_updatable.localCopy = (s.m_clusters l).m_updatable.localCopy)
    (hi : (t.m_clusters l).m_updatable.localInterior
      = (s.m_clusters l).m_updatable.localInterior)
    (hf : (t.m_clusters l).m_fullUpdateTime = (s.m_clusters l).m_fullUpdateTime)
    (hp : (t.m_clusters l).m_predictionTime = (s.m_clusters l).m_predictionTime)
    (hfm : (t.m_clusters (l - 1)).m_fullUpdateTime = (s.m_clusters (l - 1)).m_fullUpdateTime)
    (hfp : (t.m_clusters (l + 1)).m_fullUpdateTime = (s.m_clusters (l + 1)).m_fullUpdateTime)
    (hsp : (t.m_clusters (l + 1)).m_timeStepWidth = (s.m_clusters (l + 1)).m_timeStepWidth) :
    predictionCondition t l = predictionCondition s l := by
  unfold predictionCondition getTimeTolerance
  rw [hts, hc, hi, hf, hp, hfm, hfp, hsp]

theorem evaluateCluster_fullUpdateTime (s : TimeManager) (j i : Nat) :
    ((evaluateCluster j s).m_clusters i).m_fullUpdateTime
      = (s.m_clusters i).m_fullUpdateTime := by
  rw [evaluateCluster_clusters]
  by_cases h : i = j
  · subst h
    rw [Function.update_same, evaluatedCluster_fullUpdateTime]
  · rw [Function.update_noteq h]

theorem evaluateCluster_predictionTime (s : TimeManager) (j i : Nat) :
    ((evaluateCluster j s).m_clusters i).m_predictionTime
      = (s.m_clusters i).m_predictionTime := by
  rw [evaluateCluster_clusters]
  by_cases h : i = j
  · subst h
    rw [Function.update_same, evaluatedCluster_predictionTime]
  · rw [Function.update_noteq h]

theorem fullUpdateCondition_of_flag (s : TimeManager) (l : Nat)
    (h : (s.m_clusters l).m_updatable.neighboringInterior = true) :
    fullUpdateCondition s l = false := by
  unfold fullUpdateCondition
  simp [h]

theorem predictionCondition_of_flag (s : TimeManager) (l : Nat)
    (h : (s.m_clusters l).m_updatable.localInterior = true) :
    predictionCondition s l = false := by
  unfold predictionCondition
  simp [h]

/-- After its pass of the loop body a cluster is settled. -/
theorem evaluateCluster_settled_same (s : TimeManager) (j : Nat) :
    Settled (evaluateCluster j s) j := by
  have hne : j + 1 ≠ j := Nat.succ_ne_self j
  have h1 : fullUpdateCondition (evaluateCluster j s) j = false := by
    by_cases hc : fullUpdateCondition s j = true
    · apply fullUpdateCondition_of_flag
      rw [evaluateCluster_clusters_same, evaluatedCluster_neighboringInterior, hc]
      rfl
    · simp only [Bool.not_eq_true] at hc
      rw [← hc]
      apply fullUpdateCondition_congr _ _ _ (evaluateCluster_timeStepping s j)
      · rw [evaluateCluster_clusters_same, evaluatedCluster_neighboringCopy]
      · rw [evaluateCluster_clusters_same, evaluatedCluster_neighboringInterior, hc]
        rfl
      · exact evaluateCluster_fullUpdateTime s j j
      · exact evaluateCluster_predictionTime s j j
      · exact evaluateCluster_predictionTime s j _
      · exact evaluateCluster_predictionTime s j _
  have h2 : predictionCondition (evaluateCluster j s) j = false := by
    by_cases hc : predictionCondition s j = true
    · apply predictionCondition_of_flag
      rw [evaluateCluster_clusters_same, evaluatedCluster_localInterior, hc]
      rfl
    · simp only [Bool.not_eq_true] at hc
      rw [← hc]
      apply predictionCondition_congr _ _ _ (evaluateCluster_timeStepping s j)
      · rw [evaluateCluster_clusters_same, evaluatedCluster_localCopy]
      · rw [evaluateCluster_clusters_same, evaluatedCluster_localInterior, hc]
        rfl
      · exact evaluateCluster_fullUpdateTime s j j
      · exact evaluateCluster_predictionTime s j j
      · exact evaluateCluster_fullUpdateTime s j _
      · exact evaluateCluster_fullUpdateTime s j _
      · rw [evaluateCluster_clusters_ne s j (j + 1) hne]
  refine ⟨h1, fun h => ?_⟩
  rw [h2] at h
  exact absurd h Bool.false_ne_true

/-- The pass of the loop body for another cluster leaves a cluster settled. -/
theorem evaluateCluster_settled_ne (s : TimeManager) (j l : Nat)
    (hj : j < s.m_timeStepping.numberOfLocalClusters) (hlj : l ≠ j) (h : Settled s l) :
    Settled (evaluateCluster j s) l := by
  obtain ⟨h1, h2⟩ := h
  have hcl : (evaluateCluster j s).m_clusters l = s.m_clusters l :=
    evaluateCluster_clusters_ne s j l hlj
  refine ⟨?_, ?_⟩
  · rw [← h1]
    apply fullUpdateCondition_congr _ _ _ (evaluateCluster_timeStepping s j)
    · rw [hcl]
    · rw [hcl]
    · rw [hcl]
    · rw [hcl]
    · exact evaluateCluster_predictionTime s j _
    · exact evaluateCluster_predictionTime s j _
  · intro hp
    rw [evaluateCluster_timeStepping]
    by_cases hc : l + 1 = j ∧ predictionCondition s j = true
    · obtain ⟨hc1, hc2⟩ := hc
      rw [hc1]
      refine ⟨hj, ?_⟩
      rw [evaluateCluster_clusters_same, evaluatedCluster_localInterior, hc2]
      rfl
    · have hsame : ((evaluateCluster j s).m_clusters (l + 1)).m_timeStepWidth
          = (s.m_clusters (l + 1)).m_timeStepWidth := by
        by_cases hlj1 : l + 1 = j
        · have hcf : predictionCondition s j = false := by
            cases hx : predictionCondition s j
            · rfl
            · exact absurd ⟨hlj1, hx⟩ hc
          rw [hlj1, evaluateCluster_clusters_same, evaluatedCluster_timeStepWidth, hcf]
          rfl
        · rw [evaluateCluster_clusters_ne s j (l + 1) hlj1]
      have heq : predictionCondition (evaluateCluster j s) l = predictionCondition s l := by
        apply predictionCondition_congr _ _ _ (evaluateCluster_timeStepping s j)
        · rw [hcl]
        · rw [hcl]
        · rw [hcl]
        · rw [hcl]
        · exact evaluateCluster_fullUpdateTime s j _
        · exact evaluateCluster_fullUpdateTime s j _
        · exact hsame
      rw [heq] at hp
      obtain ⟨g1, g2⟩ := h2 hp
      refine ⟨g1, ?_⟩
      by_cases hlj1 : l + 1 = j
      · rw [hlj1, evaluateCluster_clusters_same, evaluatedCluster_localInterior]
        rw [hlj1] at g2
        rw [g2]
        simp
      · rw [evaluateCluster_clusters_ne s j (l + 1) hlj1]
        exact g2

theorem foldl_evaluateCluster_settled (ls : List Nat) (t : TimeManager)
    (hls : ∀ j, j ∈ ls → j < t.m_timeStepping.numberOfLocalClusters) (l : Nat)
    (h : l ∈ ls ∨ Settled t l) :
    Settled (ls.foldl (fun u j => evaluateCluster j u) t) l := by
  induction ls generalizing t with
  | nil =>
    rcases h with h | h
    · simp at h
    · exact h
  | cons x xs ih =>
    simp only [List.foldl_cons]
    apply ih
    · intro j hj
      rw [evaluateCluster_timeStepping]
      exact hls j (List.mem_cons_of_mem _ hj)
    · by_cases hlx : l = x
      · right
        rw [hlx]
        exact evaluateCluster_settled_same t x
      · rcases h with h | h
        · left
          rcases List.mem_cons.1 h with h' | h'
          · exact absurd h' hlx
          · exact h'
        · right
          exact evaluateCluster_settled_ne t x l (hls x (List.mem_cons_self _ _)) hlx h

/-- After `updateClusterDependencies(k)` the clusters next to `k` are
settled, and so is every cluster that was settled before. -/
theorem updateClusterDependencies_settled (s : TimeManager) (k l : Nat)
    (hk : k < s.m_timeStepping.numberOfLocalClusters)
    (hl : l < s.m_timeStepping.numberOfLocalClusters)
    (h : (k ≤ l + 1 ∧ l ≤ k + 1) ∨ Settled s l) :
    Settled (updateClusterDependencies k s) l := by
  unfold updateClusterDependencies
  apply foldl_evaluateCluster_settled
  · intro j hj
    rw [List.mem_range'_1] at hj
    split_ifs at hj <;> omega
  · rcases h with h | h
    · left
      rw [List.mem_range'_1]
      split_ifs <;> omega
    · right
      exact h

/-- A change of the record of cluster `k` alone leaves a cluster that is not
next to `k` settled. -/
theorem settled_of_update (s : TimeManager) (k l : Nat) (c : TimeCluster) (t : TimeManager)
    (hts : t.m_timeStepping = s.m_timeStepping)
    (hcl : t.m_clusters = Function.update s.m_clusters k c)
    (hfar : l + 1 < k ∨ k + 1 < l) (h : Settled s l) : Settled t l := by
  have e0 : t.m_clusters l = s.m_clusters l := by
    rw [hcl, Function.update_noteq (by omega)]
  have em : t.m_clusters (l - 1) = s.m_clusters (l - 1) := by
    rw [hcl, Function.update_noteq (by omega)]
  have ep : t.m_clusters (l + 1) = s.m_clusters (l + 1) := by
    rw [hcl, Function.update_noteq (by omega)]
  obtain ⟨h1, h2⟩ := h
  refine ⟨?_, ?_⟩
  · rw [← h1]
    apply fullUpdateCondition_congr _ _ _ hts <;> simp only [e0, em, ep]
  · intro hp
    have heq : predictionCondition t l = predictionCondition s l := by
      apply predictionCondition_congr _ _ _ hts <;> simp only [e0, em, ep]
    rw [heq] at hp
    rw [hts, ep]
    exact h2 hp

theorem localInteriorStep_settled (s : TimeManager) (hw : WellFormed s)
    (h : ∀ l, l < s.m_timeStepping.numberOfLocalClusters → Settled s l) (l : Nat)
    (hl : l < (localInteriorStep s).m_timeStepping.numberOfLocalClusters) :
    Settled (localInteriorStep s) l := by
  rw [(localInteriorStep_evolves s hw).1] at hl
  rcases localInteriorStep_cases s hw with ⟨_, hs⟩ | ⟨k, hk, _, hs⟩
  · rw [hs]
    exact h l hl
  · rw [hs]
    have hb := hw.localBound k hk
    apply updateClusterDependencies_settled (afterPrediction s k) k l hb hl
    by_cases hnear : k ≤ l + 1 ∧ l ≤ k + 1
    · exact Or.inl hnear
    · right
      exact settled_of_update s k l _ (afterPrediction s k) rfl rfl (by omega) (h l hl)

theorem neighboringInteriorStep_settled (s : TimeManager) (hw : WellFormed s)
    (h : ∀ l, l < s.m_timeStepping.numberOfLocalClusters → Settled s l) (l : Nat)
    (hl : l < (neighboringInteriorStep s).m_timeStepping.numberOfLocalClusters) :
    Settled (neighboringInteriorStep s) l := by
  rw [(neighboringInteriorStep_evolves s hw).1] at hl
  rcases neighboringInteriorStep_cases s hw with ⟨_, hs⟩ | ⟨k, hk, _, hs⟩
  · rw [hs]
    exact h l hl
  · rw [hs]
    have hb := hw.neighboringBound k hk
    apply updateClusterDependencies_settled (afterCorrection s k) k l hb hl
    by_cases hnear : k ≤ l + 1 ∧ l ≤ k + 1
    · exact Or.inl hnear
    · right
      exact settled_of_update s k l _ (afterCorrection s k) rfl rfl (by omega) (h l hl)

theorem logProgress_settled (s : TimeManager) (l : Nat) (h : Settled s l) :
    Settled (logProgress s) l := by
  have hts : (logProgress s).m_timeStepping = s.m_timeStepping := (logProgress_evolves s).1
  have hcl := logProgress_clusters s
  obtain ⟨h1, h2⟩ := h
  refine ⟨?_, ?_⟩
  · rw [← h1]
    apply fullUpdateCondition_congr _ _ _ hts <;> rw [hcl]
  · intro hp
    have heq : predictionCondition (logProgress s) l = predictionCondition s l := by
      apply predictionCondition_congr _ _ _ hts <;> rw [hcl]
    rw [heq] at hp
    rw [hts, hcl]
    exact h2 hp

/-- After `updateClusterDependencies` has run for the clusters below `n`,
the clusters up to `n` are settled. -/
theorem foldl_updateClusterDependencies_settled (r : TimeManager) (n : Nat)
    (hn : n ≤ r.m_timeStepping.numberOfLocalClusters) :
    ((List.range n).foldl (fun t k => updateClusterDependencies k t) r).m_timeStepping
        = r.m_timeStepping
      ∧ ∀ l, l < r.m_timeStepping.numberOfLocalClusters → 1 ≤ n → l ≤ n →
          Settled ((List.range n).foldl (fun t k => updateClusterDependencies k t) r) l := by
  induction n with
  | zero =>
    refine ⟨rfl, ?_⟩
    intro l _ h1 _
    exact absurd h1 (by decide)
  | succ n ih =>
    obtain ⟨hts, hset⟩ := ih (Nat.le_of_succ_le hn)
    rw [List.range_succ, List.foldl_append]
    simp only [List.foldl_cons, List.foldl_nil]
    refine ⟨by rw [updateClusterDependencies_timeStepping, hts], ?_⟩
    intro l hl _ hln
    apply updateClusterDependencies_settled _ n l (by rw [hts]; omega) (by rw [hts]; exact hl)
    by_cases hnear : n ≤ l + 1 ∧ l ≤ n + 1
    · exact Or.inl hnear
    · right
      exact hset l hl (by omega) (by omega)

theorem advanceInTimeSetup_settled (T : ℚ) (s : TimeManager) (l : Nat)
    (hl : l < s.m_timeStepping.numberOfLocalClusters) :
    Settled (advanceInTimeSetup T s) l := by
  unfold advanceInTimeSetup
  exact (foldl_updateClusterDependencies_settled (resetState T s)
    s.m_timeStepping.numberOfLocalClusters (le_refl _)).2 l hl (by omega) (by omega)

/-- In every state of a call every cluster is settled. -/
theorem reached_settled (T : ℚ) (s0 s : TimeManager) (hi : Idle s0) (hr : Reached T s0 s) :
    ∀ l, l < s.m_timeStepping.numberOfLocalClusters → Settled s l := by
  induction hr with
  | setup =>
    intro l hl
    rw [advanceInTimeSetup_timeStepping] at hl
    exact advanceInTimeSetup_settled T s0 l hl
  | @localInterior t ht ih =>
    exact localInteriorStep_settled t (reached_wellFormed T s0 t hi ht) ih
  | @neighboringInterior t ht ih =>
    exact neighboringInteriorStep_settled t (reached_wellFormed T s0 t hi ht) ih
  | @log t _ ih =>
    intro l hl
    rw [(logProgress_evolves t).1] at hl
    exact logProgress_settled t l (ih l hl)

/-! ## The finest-first configuration -/

/-- Every width is a multiple of the width of cluster 0. -/
theorem FinestFirst.multiple {ts : TimeStepping} {t0 T : ℚ} (h : FinestFirst ts t0 T)
    (l : Nat) (hl : l < ts.numberOfLocalClusters) :
    ∃ m : Nat, 1 ≤ m ∧ clusterWidth ts l = m * clusterWidth ts 0 := by
  induction l with
  | zero => exact ⟨1, le_refl _, by simp⟩
  | succ l ih =>
    obtain ⟨m, hm, hml⟩ := ih (Nat.lt_of_succ_lt hl)
    obtain ⟨r, hr, hrl⟩ := h.nested l hl
    refine ⟨r * m, Nat.one_le_iff_ne_zero.2 (Nat.mul_ne_zero (by omega) (by omega)), ?_⟩
    rw [hrl, hml]
    push_cast
    ring

theorem FinestFirst.width0_pos {ts : TimeStepping} {t0 T : ℚ} (h : FinestFirst ts t0 T) :
    0 < clusterWidth ts 0 :=
  lt_trans h.tolerance_pos h.tolerance_lt

theorem FinestFirst.width_ge {ts : TimeStepping} {t0 T : ℚ} (h : FinestFirst ts t0 T)
    (l : Nat) (hl : l < ts.numberOfLocalClusters) :
    clusterWidth ts 0 ≤ clusterWidth ts l := by
  obtain ⟨m, hm, hml⟩ := h.multiple l hl
  rw [hml]
  have h1 : (1 : ℚ) ≤ m := by exact_mod_cast hm
  have := h.width0_pos
  nlinarith

theorem FinestFirst.tolerance_lt_width {ts : TimeStepping} {t0 T : ℚ}
    (h : FinestFirst ts t0 T) (l : Nat) (hl : l < ts.numberOfLocalClusters) :
    (1 / 100000) * ts.globalCflTimeStepWidths 0 < clusterWidth ts l :=
  lt_of_lt_of_le h.tolerance_lt (h.width_ge l hl)

/-- No grid point of any cluster lies before `T` by the tolerance or less. -/
theorem FinestFirst.separated_width {ts : TimeStepping} {t0 T : ℚ} (h : FinestFirst ts t0 T)
    (l : Nat) (hl : l < ts.numberOfLocalClusters) (j : Nat)
    (hj : t0 + j * clusterWidth ts l < T) :
    t0 + j * clusterWidth ts l + (1 / 100000) * ts.globalCflTimeStepWidths 0 < T := by
  obtain ⟨m, _, hml⟩ := h.multiple l hl
  have e : (j : ℚ) * clusterWidth ts l = ((j * m : Nat) : ℚ) * clusterWidth ts 0 := by
    rw [hml]
    push_cast
    ring
  rw [e] at hj ⊢
  exact h.separated (j * m) hj

/-- Two distinct points of the time grid of cluster 0, the later one not
after `T`, or a grid point before `T` and `T`, are apart by more than the
tolerance. -/
theorem FinestFirst.apart {ts : TimeStepping} {t0 T : ℚ} (h : FinestFirst ts t0 T)
    (x y : ℚ) (hx : x = T ∨ ∃ j : Nat, x = t0 + j * clusterWidth ts 0)
    (hy : y = T ∨ ∃ j : Nat, y = t0 + j * clusterWidth ts 0)
    (hyT : y ≤ T) (hxy : x < y) :
    x + (1 / 100000) * ts.globalCflTimeStepWidths 0 < y := by
  rcases hx with hx | ⟨a, ha⟩
  · rw [hx] at hxy
    exact absurd hxy (not_lt.2 hyT)
  · have hxT : x < T := lt_of_lt_of_le hxy hyT
    rcases hy with hy | ⟨b, hb⟩
    · rw [hy, ha]
      exact h.separated a (by rw [← ha]; exact hxT)
    · have hw := h.width0_pos
      have hab : a < b := by
        by_contra hcon
        have hba : (b : ℚ) ≤ a := by exact_mod_cast not_lt.1 hcon
        rw [ha, hb] at hxy
        nlinarith
      have hab' : (a : ℚ) + 1 ≤ b := by exact_mod_cast hab
      rw [ha, hb]
      have := h.tolerance_lt
      nlinarith

/-- A time of a cluster on its grid is a point of the grid of cluster 0 or `T`. -/
theorem FinestFirst.gridPoint {ts : TimeStepping} {t0 T : ℚ} (h : FinestFirst ts t0 T)
    (l : Nat) (hl : l < ts.numberOfLocalClusters) (j : Nat) :
    min (t0 + j * clusterWidth ts l) T = T
      ∨ ∃ i : Nat, min (t0 + j * clusterWidth ts l) T = t0 + i * clusterWidth ts 0 := by
  obtain ⟨m, _, hml⟩ := h.multiple l hl
  rcases min_cases (t0 + j * clusterWidth ts l) T with ⟨h1, _⟩ | ⟨h1, _⟩
  · right
    refine ⟨j * m, ?_⟩
    rw [h1, hml]
    push_cast
    ring
  · left
    exact h1

/-! ## A state without queued work -/

/-- The prediction time of an unflagged cluster is a point of its grid: the
full update time, or the grid point that follows it. -/
theorem onGrid_predictionTime (t0 T w : ℚ) (c : TimeCluster) (h : OnGrid t0 T w c)
    (hp : c.m_updatable.localInterior = false) :
    (c.m_predictionTime = c.m_fullUpdateTime
        ∨ (c.m_fullUpdateTime < T ∧ c.m_predictionTime = min (c.m_fullUpdateTime + w) T
            ∧ c.m_predictionTime = c.m_fullUpdateTime + c.m_timeStepWidth))
      ∧ ∃ j : Nat, c.m_predictionTime = min (t0 + j * w) T := by
  have h' := h
  obtain ⟨_, ⟨j, hj⟩, _, h3, _⟩ := h
  rcases h3 hp with ha | ⟨ha, hb, hc⟩
  · exact ⟨Or.inl ha, j, by rw [ha, hj]⟩
  · obtain ⟨i, hi⟩ := onGrid_fullUpdateTime_eq t0 T w c h' hc
    have e : c.m_predictionTime = min (c.m_fullUpdateTime + w) T := by
      rw [ha, hb, ← min_add_add_left]
      congr 1
      ring
    refine ⟨Or.inr ⟨hc, e, ha⟩, i + 1, ?_⟩
    rw [e, hi]
    congr 1
    push_cast
    ring

/-- A pending step of the finer cluster does not cross a grid point of the
coarser cluster. -/
theorem pending_step_le (t0 T w f : ℚ) (r i j : Nat) (hw : 0 < w) (hf : f = t0 + j * w)
    (hlt : f < min (t0 + i * (r * w)) T) :
    min (f + w) T ≤ min (t0 + i * (r * w)) T := by
  have h1 : f < t0 + i * (r * w) := lt_of_lt_of_le hlt (min_le_left _ _)
  have h2 : j < i * r := by
    by_contra hcon
    have : ((i * r : Nat) : ℚ) ≤ j := by exact_mod_cast not_lt.1 hcon
    push_cast at this
    rw [hf] at h1
    nlinarith
  have h3 : (j : ℚ) + 1 ≤ i * r := by exact_mod_cast h2
  apply min_le_min _ (le_refl T)
  rw [hf]
  nlinarith

theorem AtRest.tolerance {t0 T : ℚ} {s : TimeManager} (_h : AtRest t0 T s) :
    getTimeTolerance s = (1 / 100000) * s.m_timeStepping.globalCflTimeStepWidths 0 := rfl

theorem AtRest.fullUpdateTime_le {t0 T : ℚ} {s : TimeManager} (h : AtRest t0 T s) (l : Nat)
    (hl : l < s.m_timeStepping.numberOfLocalClusters) :
    (s.m_clusters l).m_fullUpdateTime ≤ T :=
  onGrid_fullUpdateTime_le _ _ _ _ (h.grid l hl)

theorem AtRest.predictionTime_le {t0 T : ℚ} {s : TimeManager} (h : AtRest t0 T s) (l : Nat)
    (hl : l < s.m_timeStepping.numberOfLocalClusters) :
    (s.m_clusters l).m_predictionTime ≤ T := by
  obtain ⟨_, j, hj⟩ := onGrid_predictionTime _ _ _ _ (h.grid l hl) (h.noLocal l hl)
  rw [hj]
  exact min_le_right _ _

theorem AtRest.fullUpdateTime_gridPoint {t0 T : ℚ} {s : TimeManager} (h : AtRest t0 T s)
    (l : Nat) (hl : l < s.m_timeStepping.numberOfLocalClusters) :
    (s.m_clusters l).m_fullUpdateTime = T
      ∨ ∃ i : Nat, (s.m_clusters l).m_fullUpdateTime
          = t0 + i * clusterWidth s.m_timeStepping 0 := by
  obtain ⟨_, ⟨j, hj⟩, _⟩ := h.grid l hl
  rw [hj]
  exact h.config.gridPoint l hl j

theorem AtRest.predictionTime_gridPoint {t0 T : ℚ} {s : TimeManager} (h : AtRest t0 T s)
    (l : Nat) (hl : l < s.m_timeStepping.numberOfLocalClusters) :
    (s.m_clusters l).m_predictionTime = T
      ∨ ∃ i : Nat, (s.m_clusters l).m_predictionTime
          = t0 + i * clusterWidth s.m_timeStepping 0 := by
  obtain ⟨_, j, hj⟩ := onGrid_predictionTime _ _ _ _ (h.grid l hl) (h.noLocal l hl)
  rw [hj]
  exact h.config.gridPoint l hl j

/-- At rest a cluster before `T` is more than the tolerance before `T`. -/
theorem AtRest.gap {t0 T : ℚ} {s : TimeManager} (h : AtRest t0 T s) (l : Nat)
    (hl : l < s.m_timeStepping.numberOfLocalClusters)
    (hlt : (s.m_clusters l).m_fullUpdateTime < T) :
    |(s.m_clusters l).m_fullUpdateTime - s.m_timeStepping.synchronizationTime|
      > getTimeTolerance s := by
  have := h.config.apart _ T (h.fullUpdateTime_gridPoint l hl) (Or.inl rfl) (le_refl _) hlt
  rw [h.sync, h.tolerance, gt_iff_lt, lt_abs]
  right
  linarith

/-- At rest no cluster with a pending prediction has the least prediction
time: it would pass the full update guard. -/
theorem AtRest.least_consumed {t0 T : ℚ} {s : TimeManager} (h : AtRest t0 T s) (l : Nat)
    (hl : l < s.m_timeStepping.numberOfLocalClusters)
    (hmin : ∀ i, i < s.m_timeStepping.numberOfLocalClusters →
      (s.m_clusters l).m_predictionTime ≤ (s.m_clusters i).m_predictionTime) :
    (s.m_clusters l).m_predictionTime = (s.m_clusters l).m_fullUpdateTime := by
  by_contra hne
  have he := h.config.tolerance_pos
  have hpT := h.predictionTime_le l hl
  have hrep := h.config.representable
  obtain ⟨hcase, _⟩ := onGrid_predictionTime _ _ _ _ (h.grid l hl) (h.noLocal l hl)
  rcases hcase with hc | ⟨hlt, hpm, hps⟩
  · exact hne hc
  · have hgap := onGrid_step_gt _ _ _ ((1 / 100000) * s.m_timeStepping.globalCflTimeStepWidths 0)
      _ (h.grid l hl) (h.config.tolerance_lt_width l hl)
      (h.config.separated_width l hl) hlt
    have hcond : fullUpdateCondition s l = true := by
      rw [fullUpdateCondition_iff s l (by rw [h.tolerance]; linarith)]
      refine ⟨h.wellFormed.neighboringCopy l hl, h.noNeighboring l hl, h.gap l hl hlt,
        ?_, ?_, ?_⟩
      · intro h0
        have := hmin (l - 1) (by omega)
        rw [h.tolerance]
        linarith
      · have hobt := (h.grid l hl).2.2.2.1 (h.noLocal l hl)
        rcases hobt with hc | ⟨_, hw', _⟩
        · exact absurd hc hne
        · rw [h.tolerance, gt_iff_lt, lt_abs]
          left
          rw [hps, hw']
          linarith [hgap.2]
      · intro h1
        have := hmin (l + 1) h1
        rw [h.tolerance]
        linarith
    rw [(h.settled l hl).1] at hcond
    exact absurd hcond Bool.false_ne_true

/-- At rest, the last of the clusters with the least prediction time passes
the prediction guard unless it has reached `T`. -/
theorem AtRest.least_predicts {t0 T : ℚ} {s : TimeManager} (h : AtRest t0 T s) (l : Nat)
    (hl : l < s.m_timeStepping.numberOfLocalClusters)
    (hmin : ∀ i, i < s.m_timeStepping.numberOfLocalClusters →
      (s.m_clusters l).m_predictionTime ≤ (s.m_clusters i).m_predictionTime)
    (hlast : ∀ i, i < s.m_timeStepping.numberOfLocalClusters → l < i →
      (s.m_clusters l).m_predictionTime < (s.m_clusters i).m_predictionTime)
    (hlt : (s.m_clusters l).m_fullUpdateTime < T) :
    predictionCondition s l = true := by
  have he := h.config.tolerance_pos
  have hpT := h.predictionTime_le l hl
  have hrep := h.config.representable
  have hidle := h.least_consumed l hl hmin
  rw [predictionCondition_iff s l (by rw [h.tolerance]; linarith)
    (by rw [h.tolerance]; linarith)]
  refine ⟨h.wellFormed.localCopy l hl, h.noLocal l hl, h.gap l hl hlt, ?_, ?_, ?_⟩
  · intro h0
    have ha : l - 1 < s.m_timeStepping.numberOfLocalClusters := by omega
    rw [h.tolerance, gt_iff_lt]
    have hma := hmin (l - 1) ha
    obtain ⟨hcase, _⟩ := onGrid_predictionTime _ _ _ _ (h.grid (l - 1) ha) (h.noLocal (l - 1) ha)
    rcases hcase with hc | ⟨hfa, hpa, _⟩
    · rw [← hc]
      linarith
    · by_contra hcon
      have hfl : (s.m_clusters (l - 1)).m_fullUpdateTime < (s.m_clusters l).m_fullUpdateTime := by
        by_contra h2
        rw [hidle] at hcon
        exact hcon (by linarith [not_lt.1 h2])
      obtain ⟨_, ⟨i, hi⟩, _⟩ := h.grid l hl
      obtain ⟨j, hj⟩ := onGrid_fullUpdateTime_eq _ _ _ _ (h.grid (l - 1) ha) hfa
      obtain ⟨r, _, hr⟩ := h.config.nested (l - 1) (by omega)
      have e : l - 1 + 1 = l := by omega
      rw [e] at hr
      have hwa : 0 < clusterWidth s.m_timeStepping (l - 1) :=
        lt_of_lt_of_le h.config.width0_pos (h.config.width_ge (l - 1) ha)
      rw [hi, hr] at hfl
      have hle := pending_step_le t0 T _ _ r i j hwa hj hfl
      rw [← hpa, ← hr, ← hi, ← hidle] at hle
      have heq : (s.m_clusters (l - 1)).m_predictionTime = (s.m_clusters l).m_predictionTime :=
        le_antisymm hle hma
      have hmin' : ∀ k, k < s.m_timeStepping.numberOfLocalClusters →
          (s.m_clusters (l - 1)).m_predictionTime ≤ (s.m_clusters k).m_predictionTime := by
        intro k hk
        rw [heq]
        exact hmin k hk
      have hidle' := h.least_consumed (l - 1) ha hmin'
      rw [← hidle', heq] at hcon
      exact hcon (by linarith)
  · rw [hidle, sub_self, abs_zero, h.tolerance]
    exact he
  · intro h1
    have hb := hlast (l + 1) h1 (Nat.lt_succ_self l)
    have hap := h.config.apart _ _ (h.predictionTime_gridPoint l hl)
      (h.predictionTime_gridPoint (l + 1) h1) (h.predictionTime_le (l + 1) h1) hb
    rw [h.tolerance, gt_iff_lt]
    have hw0 := (h.grid (l + 1) h1).1
    obtain ⟨hcase, _⟩ := onGrid_predictionTime _ _ _ _ (h.grid (l + 1) h1) (h.noLocal (l + 1) h1)
    rcases hcase with hc | ⟨_, _, hps⟩
    · rw [← hc]
      linarith
    · rw [← hps]
      exact hap

/-- At rest every cluster has reached `T`. -/
theorem AtRest.finished {t0 T : ℚ} {s : TimeManager} (h : AtRest t0 T s)
    (hn : 1 ≤ s.m_timeStepping.numberOfLocalClusters) (l : Nat)
    (hl : l < s.m_timeStepping.numberOfLocalClusters) :
    (s.m_clusters l).m_fullUpdateTime = T := by
  obtain ⟨l0, hl0, hmin0⟩ := Finset.exists_min_image
    (Finset.range s.m_timeStepping.numberOfLocalClusters)
    (fun i => (s.m_clusters i).m_predictionTime) ⟨0, Finset.mem_range.2 (by omega)⟩
  have hl0' := Finset.mem_range.1 hl0
  have hmin0' : ∀ i, i < s.m_timeStepping.numberOfLocalClusters →
      (s.m_clusters l0).m_predictionTime ≤ (s.m_clusters i).m_predictionTime :=
    fun i hi => hmin0 i (Finset.mem_range.2 hi)
  have hT : (s.m_clusters l0).m_predictionTime = T := by
    by_contra hne
    have hlt0 : (s.m_clusters l0).m_predictionTime < T :=
      lt_of_le_of_ne (h.predictionTime_le l0 hl0') hne
    obtain ⟨l1, hl1, hmax1⟩ := Finset.exists_max_image
      ((Finset.range s.m_timeStepping.numberOfLocalClusters).filter
        (fun i => (s.m_clusters i).m_predictionTime = (s.m_clusters l0).m_predictionTime))
      id ⟨l0, Finset.mem_filter.2 ⟨hl0, rfl⟩⟩
    obtain ⟨hl1r, hl1e⟩ := Finset.mem_filter.1 hl1
    have hl1' := Finset.mem_range.1 hl1r
    have hmin1 : ∀ i, i < s.m_timeStepping.numberOfLocalClusters →
        (s.m_clusters l1).m_predictionTime ≤ (s.m_clusters i).m_predictionTime := by
      intro i hi
      rw [hl1e]
      exact hmin0' i hi
    have hlast : ∀ i, i < s.m_timeStepping.numberOfLocalClusters → l1 < i →
        (s.m_clusters l1).m_predictionTime < (s.m_clusters i).m_predictionTime := by
      intro i hi hli
      refine lt_of_le_of_ne (hmin1 i hi) ?_
      intro heq
      have hmem : i ∈ (Finset.range s.m_timeStepping.numberOfLocalClusters).filter
          (fun i => (s.m_clusters i).m_predictionTime = (s.m_clusters l0).m_predictionTime) :=
        Finset.mem_filter.2 ⟨Finset.mem_range.2 hi, by rw [← heq, hl1e]⟩
      have := hmax1 i hmem
      simp only [id] at this
      omega
    have hidle := h.least_consumed l1 hl1' hmin1
    have hcond := h.least_predicts l1 hl1' hmin1 hlast (by rw [← hidle, hl1e]; exact hlt0)
    obtain ⟨hb, hflag⟩ := (h.settled l1 hl1').2 hcond
    rw [h.noLocal (l1 + 1) hb] at hflag
    exact absurd hflag Bool.false_ne_true
  have hp : (s.m_clusters l).m_predictionTime = T :=
    le_antisymm (h.predictionTime_le l hl) (by rw [← hT]; exact hmin0' l hl)
  have hminl : ∀ i, i < s.m_timeStepping.numberOfLocalClusters →
      (s.m_clusters l).m_predictionTime ≤ (s.m_clusters i).m_predictionTime := by
    intro i hi
    rw [hp, ← hT]
    exact hmin0' i hi
  rw [← h.least_consumed l hl hminl, hp]

/-! ## Exact arithmetic: every cluster reaches the synchronization time -/

theorem FinestFirst.width_pos {ts : TimeStepping} {t0 T : ℚ} (h : FinestFirst ts t0 T)
    (l : Nat) (hl : l < ts.numberOfLocalClusters) : 0 < clusterWidth ts l :=
  lt_of_lt_of_le h.width0_pos (h.width_ge l hl)

/-- In the finest-first configuration the loop of `advanceInTime(T)` returns
when the clusters start from a common time `t0 ≤ T`. -/
theorem advanceInTimeLoop_returns (t0 T : ℚ) (s0 : TimeManager) (hi : Idle s0)
    (hcfg : FinestFirst s0.m_timeStepping t0 T) (ht0 : t0 ≤ T)
    (hstart : ∀ l, l < s0.m_timeStepping.numberOfLocalClusters →
      (s0.m_clusters l).m_predictionTime = t0 ∧ (s0.m_clusters l).m_fullUpdateTime = t0) :
    ∃ n t, advanceInTimeLoop n (advanceInTimeSetup T s0) = some t := by
  obtain ⟨d, hd, hde, hdw⟩ := exists_step_bound s0.m_timeStepping.numberOfLocalClusters
    (fun l => clusterWidth s0.m_timeStepping l)
    (getTimeTolerance s0) hcfg.tolerance_pos (fun l hl => hcfg.width_pos l hl)
  have hinv := advanceInTimeSetup_inProgress T d s0 hi hd hde hdw
    (fun l hl => ⟨by rw [(hstart l hl).1, (hstart l hl).2], by rw [(hstart l hl).2]; exact ht0⟩)
  obtain ⟨k, hk⟩ := exists_nat_gt
    ((remainingTime (advanceInTimeSetup T s0)
      + (advanceInTimeSetup T s0).m_timeStepping.numberOfLocalClusters
        * getTimeTolerance (advanceInTimeSetup T s0)) / d)
  obtain ⟨n, t, _, ht⟩ := hinv.terminates k _ (by
    rw [div_lt_iff₀ hd] at hk
    exact hk)
  exact ⟨n, t, ht⟩

/-- A state of the call with all queues empty is at rest. -/
theorem reached_atRest (t0 T : ℚ) (s0 t : TimeManager) (hi : Idle s0)
    (hcfg : FinestFirst s0.m_timeStepping t0 T) (ht0 : t0 ≤ T)
    (hstart : ∀ l, l < s0.m_timeStepping.numberOfLocalClusters →
      (s0.m_clusters l).m_predictionTime = t0 ∧ (s0.m_clusters l).m_fullUpdateTime = t0)
    (hr : Reached T s0 t) (hq : allQueuesEmpty t = true) : AtRest t0 T t := by
  have hev := reached_evolves T s0 t hi hr
  have hts : t.m_timeStepping = (resetState T s0).m_timeStepping := hev.1
  have hcfgR : FinestFirst (resetState T s0).m_timeStepping t0 T :=
    ⟨hcfg.tolerance_pos, hcfg.tolerance_lt, hcfg.nested, hcfg.separated, hcfg.representable⟩
  have hwf := reached_wellFormed T s0 t hi hr
  simp only [allQueuesEmpty, Bool.and_eq_true, List.isEmpty_iff] at hq
  obtain ⟨⟨⟨_, hq1⟩, _⟩, hq2⟩ := hq
  refine ⟨by rw [hts]; exact hcfgR, by rw [hts]; rfl, hwf, ?_, reached_settled T s0 t hi hr,
    ?_, ?_⟩
  · intro l hl
    rw [hts] at hl ⊢
    have hl0 : l < s0.m_timeStepping.numberOfLocalClusters := hl
    refine hev.preserves
      (fun l c => l < s0.m_timeStepping.numberOfLocalClusters →
        OnGrid t0 T (clusterWidth (resetState T s0).m_timeStepping l) c) ?_ l ?_ hl0
    · intro k c c' hs h hk
      exact onGrid_step (resetState T s0).m_timeStepping t0 _ k c c'
        (le_of_lt hcfg.tolerance_pos) (hcfg.tolerance_lt_width k hk)
        (hcfg.separated_width k hk) hs (h hk)
    · intro hk
      rw [resetState_clusters T s0 l hk]
      exact onGrid_reset t0 T _ _ ht0 (hstart l hk).1 (hstart l hk).2
  · intro l hl
    have := (hwf.localFlag l hl).not
    rw [hq1] at this
    simpa using this
  · intro l hl
    have := (hwf.neighboringFlag l hl).not
    rw [hq2] at this
    simpa using this

theorem threeClusters_finestFirst : FinestFirst threeClusters.m_timeStepping 0 1 := by
  refine ⟨?_, ?_, ?_, ?_, ?_⟩
  · show (0 : ℚ) < (1 / 100000) * (1 / 4)
    norm_num
  · show (1 / 100000 : ℚ) * (1 / 4) < 1 / 4
    norm_num
  · intro l hl
    have hl' : l + 1 < 3 := hl
    rcases l with _ | _ | l
    · exact ⟨2, by decide, by
        show (1 / 2 : ℚ) = (2 : Nat) * (1 / 4)
        norm_num⟩
    · exact ⟨2, by decide, by
        show (1 : ℚ) = (2 : Nat) * (1 / 2)
        norm_num⟩
    · omega
  · intro j hj
    have hj' : (0 : ℚ) + j * (1 / 4) < 1 := hj
    show (0 : ℚ) + j * (1 / 4) + (1 / 100000) * (1 / 4) < 1
    have h4 : (j : ℚ) < 4 := by linarith
    have h4' : j < 4 := by exact_mod_cast h4
    have h3 : (j : ℚ) ≤ 3 := by exact_mod_cast Nat.lt_succ_iff.1 h4'
    linarith
  · show (1 : ℚ) + (1 / 100000) * (1 / 4) < 2 ^ 1024 - 2 ^ 971
    norm_num

/-! ## C11: the cluster taken from an interior queue -/

/-- The top of the priority queue has the least key of the queue. -/
theorem pqTop_le (gid : Nat → Nat) (q : List Nat) (t : Nat) (h : pqTop gid q = some t) :
    ∀ x, x ∈ q → gid t ≤ gid x := by
  induction q generalizing t with
  | nil => simp [pqTop] at h
  | cons y ys ih =>
    simp only [pqTop] at h
    cases hy : pqTop gid ys with
    | none =>
      rw [hy] at h
      simp only [Option.some.injEq] at h
      have hnil := (pqTop_eq_none_iff gid ys).1 hy
      intro x hx
      rw [hnil, List.mem_singleton] at hx
      rw [hx, h]
    | some z =>
      rw [hy] at h
      simp only at h
      have hz := ih z hy
      intro x hx
      rcases List.mem_cons.1 hx with hx | hx
      · split_ifs at h with hlt
        · simp only [Option.some.injEq] at h
          rw [← h, hx]
          exact le_of_lt hlt
        · simp only [Option.some.injEq] at h
          rw [← h, hx]
      · split_ifs at h with hlt
        · simp only [Option.some.injEq] at h
          rw [← h]
          exact hz x hx
        · simp only [Option.some.injEq] at h
          rw [← h]
          exact le_trans (not_lt.1 hlt) (hz x hx)

/-- A non-empty queue has a top. -/
theorem pqTop_of_ne_nil (gid : Nat → Nat) (q : List Nat) (h : q ≠ []) :
    ∃ t, pqTop gid q = some t := by
  cases ht : pqTop gid q with
  | none => exact absurd ((pqTop_eq_none_iff gid q).1 ht) h
  | some t => exact ⟨t, rfl⟩

/-- C11 (counterexample).  After the initialisation of the queues for three
clusters (global ids 0, 1, 2) on the way to time 1 the local interior queue
holds the clusters 2 and 1.  The scheduler takes cluster 1, of global id 1,
not the queued cluster of the highest global id: the prediction of cluster 1
completes and cluster 2 stays queued. -/
theorem interiorQueue_takes_lower_globalId :
    (advanceInTimeSetup 1 threeClusters).m_localInteriorQueue = [2, 1]
      ∧ pqTop (queueKey (advanceInTimeSetup 1 threeClusters))
          (advanceInTimeSetup 1 threeClusters).m_localInteriorQueue = some 1
      ∧ ((advanceInTimeSetup 1 threeClusters).m_clusters 1).m_globalClusterId = 1
      ∧ ((advanceInTimeSetup 1 threeClusters).m_clusters 2).m_globalClusterId = 2
      ∧ ((localInteriorStep (advanceInTimeSetup 1 threeClusters)).m_clusters 1).m_predictionTime
          = 1 / 2
      ∧ ((localInteriorStep (advanceInTimeSetup 1 threeClusters)).m_clusters 2).m_predictionTime
          = 0
      ∧ 2 ∈ (localInteriorStep (advanceInTimeSetup 1 threeClusters)).m_localInteriorQueue := by
  refine ⟨by decide!, by decide!, by decide!, by decide!, by decide!, by decide!, by decide!⟩

/-- C11 (amended).  In every well-formed scheduler state, the cluster taken
from a non-empty interior queue (prediction or correction) is a queued
cluster of the least global cluster id, and one iteration of the scheduler
processes at most one item per interior queue: the local block completes the
prediction of that one cluster (or does nothing when its queue is empty),
the neighboring block the correction of that one cluster, each followed by
`updateClusterDependencies` for it. -/
theorem interiorQueue_takes_least_globalId (s : TimeManager) (hw : WellFormed s) :
    (s.m_localInteriorQueue ≠ [] →
        ∃ l, l ∈ s.m_localInteriorQueue
          ∧ (∀ x, x ∈ s.m_localInteriorQueue →
              (s.m_clusters l).m_globalClusterId ≤ (s.m_clusters x).m_globalClusterId)
          ∧ localInteriorStep s = updateClusterDependencies l (afterPrediction s l))
      ∧ (s.m_localInteriorQueue = [] → localInteriorStep s = s)
      ∧ (s.m_neighboringInteriorQueue ≠ [] →
        ∃ l, l ∈ s.m_neighboringInteriorQueue
          ∧ (∀ x, x ∈ s.m_neighboringInteriorQueue →
              (s.m_clusters l).m_globalClusterId ≤ (s.m_clusters x).m_globalClusterId)
          ∧ neighboringInteriorStep s = updateClusterDependencies l (afterCorrection s l))
      ∧ (s.m_neighboringInteriorQueue = [] → neighboringInteriorStep s = s)
      ∧ advanceInTimeIteration s
          = logProgress (neighboringInteriorStep (localInteriorStep s)) := by
  refine ⟨?_, localInteriorStep_of_empty s, ?_, neighboringInteriorStep_of_empty s, rfl⟩
  · intro hne
    obtain ⟨l, hl⟩ := pqTop_of_ne_nil (queueKey s) _ hne
    exact ⟨l, pqTop_mem _ _ _ hl, pqTop_le (queueKey s) _ l hl, localInteriorStep_of_top s l hw hl⟩
  · intro hne
    obtain ⟨l, hl⟩ := pqTop_of_ne_nil (queueKey s) _ hne
    exact ⟨l, pqTop_mem _ _ _ hl, pqTop_le (queueKey s) _ l hl,
      neighboringInteriorStep_of_top s l hw hl⟩

/-- C11 (witness): in the state after the initialisation of the queues for
three clusters the scheduler takes a queued cluster of the least global id. -/
theorem interiorQueue_takes_least_globalId_witness :
    ∃ l, l ∈ (advanceInTimeSetup 1 threeClusters).m_localInteriorQueue
      ∧ (∀ x, x ∈ (advanceInTimeSetup 1 threeClusters).m_localInteriorQueue →
          ((advanceInTimeSetup 1 threeClusters).m_clusters l).m_globalClusterId
            ≤ ((advanceInTimeSetup 1 threeClusters).m_clusters x).m_globalClusterId)
      ∧ localInteriorStep (advanceInTimeSetup 1 threeClusters)
          = updateClusterDependencies l
              (afterPrediction (advanceInTimeSetup 1 threeClusters) l) :=
  (interiorQueue_takes_least_globalId (advanceInTimeSetup 1 threeClusters)
    (advanceInTimeSetup_wellFormed 1 threeClusters threeClusters_idle)).1 (by decide!)

/-! ## C12: the frame of `updateClusterDependencies` -/

theorem evaluatedCluster_frame (s : TimeManager) (k j : Nat) :
    ((evaluateCluster k s).m_clusters j).m_predictionTime = (s.m_clusters j).m_predictionTime
      ∧ ((evaluateCluster k s).m_clusters j).m_fullUpdateTime = (s.m_clusters j).m_fullUpdateTime
      ∧ ((evaluateCluster k s).m_clusters j).m_numberOfFullUpdates
          = (s.m_clusters j).m_numberOfFullUpdates := by
  rw [evaluateCluster_clusters]
  by_cases h : j = k
  · subst h
    rw [Function.update_same, evaluatedCluster_predictionTime, evaluatedCluster_fullUpdateTime,
      evaluatedCluster_numberOfFullUpdates]
    exact ⟨rfl, rfl, rfl⟩
  · rw [Function.update_noteq h]
    exact ⟨rfl, rfl, rfl⟩

/-- C12.  For every scheduler state and every cluster id `k` below the number
of clusters, `updateClusterDependencies(k)` leaves the record of every
cluster other than `k-1`, `k`, `k+1` unchanged; each interior queue is the
old queue followed by clusters among `k-1`, `k`, `k+1` that exist, and the
copy queues are unchanged; and for no cluster at all are `predictionTime`,
`fullUpdateTime` or `numberOfFullUpdates` changed. -/
theorem updateClusterDependencies_frame (s : TimeManager) (k : Nat)
    (hk : k < s.m_timeStepping.numberOfLocalClusters) :
    (∀ j, (j + 1 < k ∨ k + 1 < j) →
        (updateClusterDependencies k s).m_clusters j = s.m_clusters j)
      ∧ (∃ added, (updateClusterDependencies k s).m_localInteriorQueue
            = s.m_localInteriorQueue ++ added
          ∧ ∀ x, x ∈ added →
              x < s.m_timeStepping.numberOfLocalClusters ∧ k ≤ x + 1 ∧ x ≤ k + 1)
      ∧ (∃ added, (updateClusterDependencies k s).m_neighboringInteriorQueue
            = s.m_neighboringInteriorQueue ++ added
          ∧ ∀ x, x ∈ added →
              x < s.m_timeStepping.numberOfLocalClusters ∧ k ≤ x + 1 ∧ x ≤ k + 1)
      ∧ (updateClusterDependencies k s).m_localCopyQueue = s.m_localCopyQueue
      ∧ (updateClusterDependencies k s).m_neighboringCopyQueue = s.m_neighboringCopyQueue
      ∧ ∀ j, ((updateClusterDependencies k s).m_clusters j).m_predictionTime
            = (s.m_clusters j).m_predictionTime
          ∧ ((updateClusterDependencies k s).m_clusters j).m_fullUpdateTime
            = (s.m_clusters j).m_fullUpdateTime
          ∧ ((updateClusterDependencies k s).m_clusters j).m_numberOfFullUpdates
            = (s.m_clusters j).m_numberOfFullUpdates := by
  refine updateClusterDependencies_induction
    (fun t => (∀ j, (j + 1 < k ∨ k + 1 < j) → t.m_clusters j = s.m_clusters j)
      ∧ (∃ added, t.m_localInteriorQueue = s.m_localInteriorQueue ++ added
          ∧ ∀ x, x ∈ added →
              x < s.m_timeStepping.numberOfLocalClusters ∧ k ≤ x + 1 ∧ x ≤ k + 1)
      ∧ (∃ added, t.m_neighboringInteriorQueue = s.m_neighboringInteriorQueue ++ added
          ∧ ∀ x, x ∈ added →
              x < s.m_timeStepping.numberOfLocalClusters ∧ k ≤ x + 1 ∧ x ≤ k + 1)
      ∧ t.m_localCopyQueue = s.m_localCopyQueue
      ∧ t.m_neighboringCopyQueue = s.m_neighboringCopyQueue
      ∧ ∀ j, (t.m_clusters j).m_predictionTime = (s.m_clusters j).m_predictionTime
          ∧ (t.m_clusters j).m_fullUpdateTime = (s.m_clusters j).m_fullUpdateTime
          ∧ (t.m_clusters j).m_numberOfFullUpdates = (s.m_clusters j).m_numberOfFullUpdates)
    s k hk ?_ ⟨fun _ _ => rfl, ⟨[], by simp, by simp⟩, ⟨[], by simp, by simp⟩, rfl, rfl,
      fun _ => ⟨rfl, rfl, rfl⟩⟩
  intro t i _ hi h1 h2 ⟨c1, ⟨a, ha, hax⟩, ⟨b, hb, hbx⟩, c4, c5, c6⟩
  refine ⟨?_, ?_, ?_, ?_, ?_, ?_⟩
  · intro j hj
    rw [evaluateCluster_clusters_ne t i j (by omega)]
    exact c1 j hj
  · rw [evaluateCluster_localInteriorQueue]
    split_ifs
    · refine ⟨a ++ [i], by rw [ha, List.append_assoc], ?_⟩
      intro x hx
      rcases List.mem_append.1 hx with hx | hx
      · exact hax x hx
      · rw [List.mem_singleton] at hx
        rw [hx]
        exact ⟨hi, h1, h2⟩
    · exact ⟨a, ha, hax⟩
  · rw [evaluateCluster_neighboringInteriorQueue]
    split_ifs
    · refine ⟨b ++ [i], by rw [hb, List.append_assoc], ?_⟩
      intro x hx
      rcases List.mem_append.1 hx with hx | hx
      · exact hbx x hx
      · rw [List.mem_singleton] at hx
        rw [hx]
        exact ⟨hi, h1, h2⟩
    · exact ⟨b, hb, hbx⟩
  · rw [evaluateCluster_localCopyQueue]
    exact c4
  · rw [evaluateCluster_neighboringCopyQueue]
    exact c5
  · intro j
    obtain ⟨e1, e2, e3⟩ := evaluatedCluster_frame t i j
    rw [e1, e2, e3]
    exact c6 j

/-- C12 (witness): `updateClusterDependencies(0)` for three clusters at the
start of a run to time 1 leaves cluster 2 as it is. -/
theorem updateClusterDependencies_frame_witness :
    (updateClusterDependencies 0 (resetState 1 threeClusters)).m_clusters 2
      = (resetState 1 threeClusters).m_clusters 2 :=
  (updateClusterDependencies_frame (resetState 1 threeClusters) 0 (by decide)).1 2
    (Or.inr (by decide))

/-! ## Exact arithmetic: the number of full updates -/

theorem counted_step (ts : TimeStepping) (t0 e : ℚ) (l : Nat) (c c' : TimeCluster)
    (he : 0 ≤ e) (hew : e < clusterWidth ts l)
    (hsep : ∀ j : Nat, t0 + j * clusterWidth ts l < ts.synchronizationTime →
      t0 + j * clusterWidth ts l + e < ts.synchronizationTime)
    (hs : LocalStep ts e l c c')
    (h : Counted t0 ts.synchronizationTime (clusterWidth ts l) c) :
    Counted t0 ts.synchronizationTime (clusterWidth ts l) c' := by
  obtain ⟨hg, hf, hj⟩ := h
  refine ⟨onGrid_step ts t0 e l c c' he hew hsep hs hg, ?_⟩
  cases hs with
  | markFull _ _ _ => exact ⟨hf, hj⟩
  | setupPrediction _ _ _ =>
    rw [predictionSetup_fullUpdateTime, predictionSetup_numberOfFullUpdates]
    exact ⟨hf, hj⟩
  | predict _ => exact ⟨hf, hj⟩
  | correct hq =>
    obtain ⟨_, _, h2, h3, h4⟩ := hg
    have hne := h4 hq
    have hp : c.m_updatable.localInterior = false := by
      cases hx : c.m_updatable.localInterior
      · rfl
      · exact absurd (h2 hx).1 hne
    rcases h3 hp with ha | ⟨_, hb, hc⟩
    · exact absurd ha hne
    · have hfe : c.m_fullUpdateTime
          = t0 + c.m_numberOfFullUpdates * clusterWidth ts l := by
        rcases min_cases (t0 + c.m_numberOfFullUpdates * clusterWidth ts l)
          ts.synchronizationTime with ⟨h1, _⟩ | ⟨h1, _⟩
        · rw [hf, h1]
        · rw [hf, h1] at hc
          exact absurd hc (lt_irrefl _)
      constructor
      · simp only [computeNeighboringInterior]
        rw [hb, hfe, ← min_add_add_left]
        congr 1
        · push_cast
          ring
        · ring
      · intro j hlt
        have hlt' : j < c.m_numberOfFullUpdates + 1 := hlt
        rcases Nat.lt_succ_iff_lt_or_eq.1 hlt' with h' | h'
        · exact hj j h'
        · rw [h', ← hfe]
          exact hc

theorem counted_reset (t0 T w : ℚ) (c : TimeCluster) (hT : t0 ≤ T)
    (hp : c.m_predictionTime = t0) (hf : c.m_fullUpdateTime = t0) :
    Counted t0 T w (resetCluster c) := by
  refine ⟨onGrid_reset t0 T w c hT hp hf, ?_, ?_⟩
  · simp only [resetCluster, Nat.cast_zero, zero_mul, add_zero]
    rw [hf, min_eq_left hT]
  · intro j hj
    exact absurd hj (Nat.not_lt_zero j)

/-- A cluster that has reached `T = t0 + k w` has made `k` full updates. -/
theorem counted_finished (t0 T w : ℚ) (c : TimeCluster) (k : Nat) (hw : 0 < w)
    (h : Counted t0 T w c) (hf : c.m_fullUpdateTime = T) (hT : T = t0 + k * w) :
    c.m_numberOfFullUpdates = k := by
  obtain ⟨_, h1, h2⟩ := h
  rw [hf] at h1
  have hge : T ≤ t0 + c.m_numberOfFullUpdates * w := by
    rcases min_cases (t0 + c.m_numberOfFullUpdates * w) T with ⟨e1, e2⟩ | ⟨_, e2⟩
    · rw [e1] at h1
      exact le_of_eq h1
    · exact le_of_lt e2
  have hk : k ≤ c.m_numberOfFullUpdates := by
    have : (k : ℚ) ≤ c.m_numberOfFullUpdates := by
      rw [hT] at hge
      nlinarith
    exact_mod_cast this
  rcases Nat.lt_or_ge k c.m_numberOfFullUpdates with hlt | hge'
  · have := h2 k hlt
    rw [hT] at this
    exact absurd this (lt_irrefl _)
  · exact le_antisymm hge' hk

/-- Every state of a call in the finest-first configuration keeps the count
of full updates of every cluster on its grid. -/
theorem reached_counted (t0 T : ℚ) (s0 t : TimeManager) (hi : Idle s0)
    (hcfg : FinestFirst s0.m_timeStepping t0 T) (ht0 : t0 ≤ T)
    (hstart : ∀ l, l < s0.m_timeStepping.numberOfLocalClusters →
      (s0.m_clusters l).m_predictionTime = t0 ∧ (s0.m_clusters l).m_fullUpdateTime = t0)
    (hr : Reached T s0 t) (l : Nat) (hl : l < s0.m_timeStepping.numberOfLocalClusters) :
    Counted t0 T (clusterWidth s0.m_timeStepping l) (t.m_clusters l) := by
  have hev := reached_evolves T s0 t hi hr
  refine hev.preserves
    (fun l c => l < s0.m_timeStepping.numberOfLocalClusters →
      Counted t0 T (clusterWidth (resetState T s0).m_timeStepping l) c) ?_ l ?_ hl
  · intro k c c' hs h hk
    exact counted_step (resetState T s0).m_timeStepping t0 _ k c c'
      (le_of_lt hcfg.tolerance_pos) (hcfg.tolerance_lt_width k hk)
      (hcfg.separated_width k hk) hs (h hk)
  · intro hk
    rw [resetState_clusters T s0 l hk]
    exact counted_reset t0 T _ _ ht0 (hstart l hk).1 (hstart l hk).2

/-- In the finest-first configuration a call from the common time `t0 ≤ T`
returns in a state of the call in which every cluster has reached `T`. -/
theorem advanceInTime_run (t0 T : ℚ) (s0 : TimeManager) (hi : Idle s0)
    (hn : 1 ≤ s0.m_timeStepping.numberOfLocalClusters)
    (hpre : s0.m_timeStepping.synchronizationTime ≤ T)
    (hcfg : FinestFirst s0.m_timeStepping t0 T) (ht0 : t0 ≤ T)
    (hstart : ∀ l, l < s0.m_timeStepping.numberOfLocalClusters →
      (s0.m_clusters l).m_predictionTime = t0 ∧ (s0.m_clusters l).m_fullUpdateTime = t0) :
    ∃ n t, advanceInTime n T s0 = some t ∧ Reached T s0 t ∧ allQueuesEmpty t = true
      ∧ ∀ l, l < s0.m_timeStepping.numberOfLocalClusters →
          (t.m_clusters l).m_fullUpdateTime = T := by
  obtain ⟨n, t, ht⟩ := advanceInTimeLoop_returns t0 T s0 hi hcfg ht0 hstart
  obtain ⟨hr, hq⟩ := advanceInTimeLoop_reached T s0 n _ t Reached.setup ht
  have hrest := reached_atRest t0 T s0 t hi hcfg ht0 hstart hr hq
  have hts : t.m_timeStepping = (resetState T s0).m_timeStepping :=
    (reached_evolves T s0 t hi hr).1
  refine ⟨n, t, ?_, hr, hq, ?_⟩
  · unfold advanceInTime
    rw [if_pos hpre]
    exact ht
  · intro l hl
    exact hrest.finished (by rw [hts]; exact hn) l (by rw [hts]; exact hl)

/-! ## C14: the scenario of three clusters -/

/-- C14 (counterexample).  Three clusters A, B, C (local ids 0, 1, 2) with
rates 1, 2, 4 and width 1/4 for A (1/2 for B, 1 for C) start at time 0.  The
call `advanceInTime(1)` returns with 4 full updates of A, 2 of B and 1 of C,
not 1, 2 and 4. -/
theorem scenario_full_updates :
    (advanceInTime 9 1 threeClusters).map (fun s =>
        (List.range 3).map fun l => (s.m_clusters l).m_numberOfFullUpdates)
      = some [4, 2, 1] := by
  decide!

/-- C14 (amended).  Three clusters A, B, C (local ids 0, 1, 2) with rates 1,
2, 4 and widths 1/4, 1/2, 1 start at time 0.  The call `advanceInTime(1)`
returns after 9 iterations with no item in any queue and full update time 1
for all three; A has made 4 full updates, B 2 and C 1.  The log lists the
predictions in order as (cluster, full updates made before, sendLtsBuffers):
`m_sendLtsBuffers` is true for A on each of its four updates, for B on its
second update and not on its first, and for C on its only update. -/
theorem scenario_three_clusters :
    (advanceInTime 9 1 threeClusters).map (fun s =>
        (allQueuesEmpty s,
          (List.range 3).map (fun l => (s.m_clusters l).m_fullUpdateTime),
          (List.range 3).map (fun l => (s.m_clusters l).m_numberOfFullUpdates)))
      = some (true, [1, 1, 1], [4, 2, 1])
    ∧ predictionLog 9 (advanceInTimeSetup 1 threeClusters)
      = [(1, 0, false), (0, 0, true), (0, 1, true), (2, 0, true), (0, 2, true),
          (1, 1, true), (0, 3, true)] := by
  constructor <;> decide!

/-! ## Loops and bits -/

theorem forLoop_succ {σ : Type} (body : Nat → σ → Option σ) (n : Nat) (s : σ) :
    forLoop body (n + 1) s = (forLoop body n s).bind (body n) := rfl

theorem ltsBit_eq_testBit (x k : Nat) : ltsBit x k = x.testBit k := by
  unfold ltsBit
  rw [Nat.testBit_to_div_mod, Nat.shiftRight_eq_div_pow]
  rcases Nat.mod_two_eq_zero_or_one (x / 2 ^ k) with h | h <;> simp [h]

theorem testBit_clearBit (x k j : Nat) :
    (clearBit x k).testBit j = (x.testBit j && decide (j ≠ k)) := by
  unfold clearBit
  rw [Nat.testBit_xor, Nat.testBit_and, Nat.one_shiftLeft, Nat.testBit_two_pow]
  by_cases h : k = j
  · subst h
    simp
  · have h' : j ≠ k := fun e => h e.symm
    simp [h, h']

theorem ltsBit_clearBit (x k j : Nat) :
    ltsBit (clearBit x k) j = (ltsBit x j && decide (j ≠ k)) := by
  rw [ltsBit_eq_testBit, ltsBit_eq_testBit, testBit_clearBit]

theorem prefixSum_mono (f : Nat → Nat) {a b : Nat} (h : a ≤ b) :
    prefixSum f a ≤ prefixSum f b := by
  induction b with
  | zero =>
    rw [Nat.le_zero.1 h]
  | succ b ih =>
    rcases Nat.le_succ_iff.1 h with h' | h'
    · exact le_trans (ih h') (Nat.le_add_right _ _)
    · rw [h']

theorem prefixSum_succ_le (f : Nat → Nat) {a b : Nat} (h : a < b) :
    prefixSum f a + f a ≤ prefixSum f b :=
  prefixSum_mono f (Nat.succ_le_of_lt h)

/-! ## The loops of `correctGhostRegionSetups` -/

theorem correctGhostCell_eq (ms : MeshStructure) (r off i : Nat)
    (cells : Nat → CellLocalInformation) :
    correctGhostCell ms r off i cells
      = if ghostCellValid ms r i (cells (off + i))
        then some (Function.update cells (off + i)
          (ghostCellCorrected ms r i (cells (off + i))))
        else none := by
  unfold correctGhostCell ghostCellValid ghostCellCorrected
  by_cases h : i < ms.numberOfGhostRegionDerivatives r <;> simp [h]

/-- The loop over the cells of a ghost region whose cells are all valid. -/
theorem forLoop_correctGhostCell_some (ms : MeshStructure) (r off n : Nat)
    (cells : Nat → CellLocalInformation)
    (h : ∀ i, i < n → ghostCellValid ms r i (cells (off + i)) = true) :
    forLoop (fun l_cell g => correctGhostCell ms r off l_cell g) n cells
      = some (fun j => if off ≤ j ∧ j < off + n
          then ghostCellCorrected ms r (j - off) (cells j) else cells j) := by
  induction n with
  | zero =>
    show some cells = _
    congr 1
    funext j
    rw [if_neg (by omega)]
  | succ n ih =>
    rw [forLoop_succ, ih (fun i hi => h i (Nat.lt_succ_of_lt hi)), Option.some_bind,
      correctGhostCell_eq]
    have e : (if off ≤ off + n ∧ off + n < off + n
        then ghostCellCorrected ms r (off + n - off) (cells (off + n))
        else cells (off + n)) = cells (off + n) := if_neg (by omega)
    simp only [e]
    rw [if_pos (h n (Nat.lt_succ_self n))]
    congr 1
    funext j
    by_cases hj : j = off + n
    · subst hj
      rw [Function.update_same, if_pos (by omega)]
      congr 1
      omega
    · rw [Function.update_noteq hj]
      by_cases hc : off ≤ j ∧ j < off + n
      · rw [if_pos hc, if_pos (by omega)]
      · rw [if_neg hc, if_neg (by omega)]

/-- The loop over the cells of a ghost region with a cell that is not valid
fails. -/
theorem forLoop_correctGhostCell_none (ms : MeshStructure) (r off n : Nat)
    (cells : Nat → CellLocalInformation)
    (h : ∃ i, i < n ∧ ghostCellValid ms r i (cells (off + i)) = false) :
    forLoop (fun l_cell g => correctGhostCell ms r off l_cell g) n cells = none := by
  induction n with
  | zero =>
    obtain ⟨i, hi, _⟩ := h
    exact absurd hi (Nat.not_lt_zero i)
  | succ n ih =>
    rw [forLoop_succ]
    by_cases hall : ∀ i, i < n → ghostCellValid ms r i (cells (off + i)) = true
    · obtain ⟨i, hi, hv⟩ := h
      have hin : i = n := by
        rcases Nat.lt_succ_iff_lt_or_eq.1 hi with h' | h'
        · rw [hall i h'] at hv
          exact absurd hv (by decide)
        · exact h'
      subst hin
      rw [forLoop_correctGhostCell_some ms r off i cells hall, Option.some_bind,
        correctGhostCell_eq]
      have e : (if off ≤ off + i ∧ off + i < off + i
          then ghostCellCorrected ms r (off + i - off) (cells (off + i))
          else cells (off + i)) = cells (off + i) := if_neg (by omega)
      simp only [e]
      rw [hv]
      rfl
    · push_neg at hall
      obtain ⟨i, hi, hv⟩ := hall
      rw [ih ⟨i, hi, by simpa using hv⟩]
      rfl

/-- The loop over the ghost regions of a cluster whose ghost cells are all
valid: the offset is advanced by the sizes of the regions, the cells outside
the regions are unchanged and every ghost cell is corrected. -/
theorem forLoop_correctGhostRegion_some (ms : MeshStructure) (off0 R : Nat)
    (cells0 : Nat → CellLocalInformation)
    (h : ∀ r, r < R → ∀ i, i < ms.numberOfGhostRegionCells r →
      ghostCellValid ms r i
        (cells0 (off0 + prefixSum ms.numberOfGhostRegionCells r + i)) = true) :
    ∃ g, forLoop (correctGhostRegion ms) R (off0, cells0)
        = some (off0 + prefixSum ms.numberOfGhostRegionCells R, g)
      ∧ (∀ j, (j < off0 ∨ off0 + prefixSum ms.numberOfGhostRegionCells R ≤ j) →
          g j = cells0 j)
      ∧ ∀ r, r < R → ∀ i, i < ms.numberOfGhostRegionCells r →
          g (off0 + prefixSum ms.numberOfGhostRegionCells r + i)
            = ghostCellCorrected ms r i
                (cells0 (off0 + prefixSum ms.numberOfGhostRegionCells r + i)) := by
  induction R with
  | zero =>
    exact ⟨cells0, rfl, fun _ _ => rfl, fun r hr => absurd hr (Nat.not_lt_zero r)⟩
  | succ R ih =>
    obtain ⟨g, hg, hout, hin⟩ := ih (fun r hr => h r (Nat.lt_succ_of_lt hr))
    have hv : ∀ i, i < ms.numberOfGhostRegionCells R →
        ghostCellValid ms R i
          (g (off0 + prefixSum ms.numberOfGhostRegionCells R + i)) = true := by
      intro i hi
      rw [hout _ (Or.inr (Nat.le_add_right _ _))]
      exact h R (Nat.lt_succ_self R) i hi
    refine ⟨fun j => if off0 + prefixSum ms.numberOfGhostRegionCells R ≤ j
        ∧ j < off0 + prefixSum ms.numberOfGhostRegionCells R + ms.numberOfGhostRegionCells R
      then ghostCellCorrected ms R (j - (off0 + prefixSum ms.numberOfGhostRegionCells R)) (g j)
      else g j, ?_, ?_, ?_⟩
    · rw [forLoop_succ, hg, Option.some_bind]
      unfold correctGhostRegion
      simp only []
      rw [forLoop_correctGhostCell_some ms R _ _ g hv, Option.map_some']
      have e : prefixSum ms.numberOfGhostRegionCells (R + 1)
          = prefixSum ms.numberOfGhostRegionCells R + ms.numberOfGhostRegionCells R := rfl
      rw [e, Nat.add_assoc]
    · intro j hj
      have e : prefixSum ms.numberOfGhostRegionCells (R + 1)
          = prefixSum ms.numberOfGhostRegionCells R + ms.numberOfGhostRegionCells R := rfl
      rw [e] at hj
      simp only []
      rw [if_neg (by omega)]
      exact hout j (by omega)
    · intro r hr i hi
      simp only []
      rcases Nat.lt_succ_iff_lt_or_eq.1 hr with hlt | heq
      · have := prefixSum_succ_le ms.numberOfGhostRegionCells hlt
        rw [if_neg (by omega)]
        exact hin r hlt i hi
      · subst heq
        rw [if_pos (by omega), hout _ (Or.inr (Nat.le_add_right _ _))]
        congr 1
        omega

/-- The loop over the ghost regions of a cluster with a ghost cell that is
not valid fails. -/
theorem forLoop_correctGhostRegion_none (ms : MeshStructure) (off0 R : Nat)
    (cells0 : Nat → CellLocalInformation)
    (h : ∃ r, r < R ∧ ∃ i, i < ms.numberOfGhostRegionCells r ∧
      ghostCellValid ms r i
        (cells0 (off0 + prefixSum ms.numberOfGhostRegionCells r + i)) = false) :
    forLoop (correctGhostRegion ms) R (off0, cells0) = none := by
  induction R with
  | zero =>
    obtain ⟨r, hr, _⟩ := h
    exact absurd hr (Nat.not_lt_zero r)
  | succ R ih =>
    rw [forLoop_succ]
    by_cases hall : ∀ r, r < R → ∀ i, i < ms.numberOfGhostRegionCells r →
      ghostCellValid ms r i
        (cells0 (off0 + prefixSum ms.numberOfGhostRegionCells r + i)) = true
    · obtain ⟨r, hr, i, hi, hv⟩ := h
      have hrR : r = R := by
        rcases Nat.lt_succ_iff_lt_or_eq.1 hr with h' | h'
        · rw [hall r h' i hi] at hv
          exact absurd hv (by decide)
        · exact h'
      subst hrR
      obtain ⟨g, hg, hout, _⟩ := forLoop_correctGhostRegion_some ms off0 r cells0 hall
      rw [hg, Option.some_bind]
      unfold correctGhostRegion
      simp only []
      rw [forLoop_correctGhostCell_none ms r _ _ g
        ⟨i, hi, by rw [hout _ (Or.inr (Nat.le_add_right _ _))]; exact hv⟩]
      rfl
    · push_neg at hall
      obtain ⟨r, hr, i, hi, hv⟩ := hall
      rw [ih ⟨r, hr, i, hi, by simpa using hv⟩]
      rfl

theorem ghostCellIndex_lt (m : Nat → MeshStructure) (c r i C : Nat) (hc : c < C)
    (hr : r < (m c).numberOfRegions) (hi : i < (m c).numberOfGhostRegionCells r) :
    ghostCellIndex m c r i
      < prefixSum (fun c => ghostRegionCells (m c) + (m c).numberOfCopyCells
          + (m c).numberOfInteriorCells) C := by
  have h1 := prefixSum_succ_le (m c).numberOfGhostRegionCells hr
  have h2 := prefixSum_succ_le (fun c => ghostRegionCells (m c) + (m c).numberOfCopyCells
    + (m c).numberOfInteriorCells) hc
  simp only [] at h2
  unfold ghostCellIndex
  unfold ghostRegionCells at h2 ⊢
  omega

/-- The loop over the clusters in `correctGhostRegionSetups` when all ghost
cells are valid: every ghost cell is corrected. -/
theorem forLoop_correctGhostCluster_some (m : Nat → MeshStructure) (C : Nat)
    (cells0 : Nat → CellLocalInformation)
    (h : ∀ c, c < C → ∀ r, r < (m c).numberOfRegions →
      ∀ i, i < (m c).numberOfGhostRegionCells r →
        ghostCellValid (m c) r i (cells0 (ghostCellIndex m c r i)) = true) :
    ∃ g, forLoop (fun l_cluster st => correctGhostCluster (m l_cluster) st) C (0, cells0)
        = some (prefixSum (fun c => ghostRegionCells (m c) + (m c).numberOfCopyCells
            + (m c).numberOfInteriorCells) C, g)
      ∧ (∀ j, prefixSum (fun c => ghostRegionCells (m c) + (m c).numberOfCopyCells
            + (m c).numberOfInteriorCells) C ≤ j → g j = cells0 j)
      ∧ ∀ c, c < C → ∀ r, r < (m c).numberOfRegions →
          ∀ i, i < (m c).numberOfGhostRegionCells r →
            g (ghostCellIndex m c r i)
              = ghostCellCorrected (m c) r i (cells0 (ghostCellIndex m c r i)) := by
  induction C with
  | zero =>
    exact ⟨cells0, rfl, fun _ _ => rfl, fun c hc => absurd hc (Nat.not_lt_zero c)⟩
  | succ C ih =>
    obtain ⟨g, hg, hout, hin⟩ := ih (fun c hc => h c (Nat.lt_succ_of_lt hc))
    have hv : ∀ r, r < (m C).numberOfRegions → ∀ i, i < (m C).numberOfGhostRegionCells r →
        ghostCellValid (m C) r i
          (g (prefixSum (fun c => ghostRegionCells (m c) + (m c).numberOfCopyCells
              + (m c).numberOfInteriorCells) C
            + prefixSum (m C).numberOfGhostRegionCells r + i)) = true := by
      intro r hr i hi
      rw [hout _ (by omega)]
      exact h C (Nat.lt_succ_self C) r hr i hi
    obtain ⟨g', hg', hout', hin'⟩ := forLoop_correctGhostRegion_some (m C) _ _ g hv
    refine ⟨g', ?_, ?_, ?_⟩
    · rw [forLoop_succ, hg, Option.some_bind]
      unfold correctGhostCluster
      rw [hg', Option.map_some']
      have e : prefixSum (fun c => ghostRegionCells (m c) + (m c).numberOfCopyCells
            + (m c).numberOfInteriorCells) (C + 1)
          = prefixSum (fun c => ghostRegionCells (m c) + (m c).numberOfCopyCells
            + (m c).numberOfInteriorCells) C
            + (ghostRegionCells (m C) + (m C).numberOfCopyCells
              + (m C).numberOfInteriorCells) := rfl
      rw [e]
      unfold ghostRegionCells
      simp only [Nat.add_assoc]
    · intro j hj
      have e : prefixSum (fun c => ghostRegionCells (m c) + (m c).numberOfCopyCells
            + (m c).numberOfInteriorCells) (C + 1)
          = prefixSum (fun c => ghostRegionCells (m c) + (m c).numberOfCopyCells
            + (m c).numberOfInteriorCells) C
            + (ghostRegionCells (m C) + (m C).numberOfCopyCells
              + (m C).numberOfInteriorCells) := rfl
      have hgr : ghostRegionCells (m C)
          = prefixSum (m C).numberOfGhostRegionCells (m C).numberOfRegions := rfl
      rw [hout' j (Or.inr (by omega))]
      exact hout j (by omega)
    · intro c hc r hr i hi
      rcases Nat.lt_succ_iff_lt_or_eq.1 hc with hlt | heq
      · rw [hout' _ (Or.inl (ghostCellIndex_lt m c r i C hlt hr hi))]
        exact hin c hlt r hr i hi
      · subst heq
        have e := hin' r hr i hi
        rw [hout _ (by omega)] at e
        exact e

/-- The loop over the clusters in `correctGhostRegionSetups` fails when a
ghost cell is not valid. -/
theorem forLoop_correctGhostCluster_none (m : Nat → MeshStructure) (C : Nat)
    (cells0 : Nat → CellLocalInformation)
    (h : ∃ c, c < C ∧ ∃ r, r < (m c).numberOfRegions ∧
      ∃ i, i < (m c).numberOfGhostRegionCells r ∧
        ghostCellValid (m c) r i (cells0 (ghostCellIndex m c r i)) = false) :
    forLoop (fun l_cluster st => correctGhostCluster (m l_cluster) st) C (0, cells0)
      = none := by
  induction C with
  | zero =>
    obtain ⟨c, hc, _⟩ := h
    exact absurd hc (Nat.not_lt_zero c)
  | succ C ih =>
    rw [forLoop_succ]
    by_cases hall : ∀ c, c < C → ∀ r, r < (m c).numberOfRegions →
      ∀ i, i < (m c).numberOfGhostRegionCells r →
        ghostCellValid (m c) r i (cells0 (ghostCellIndex m c r i)) = true
    · obtain ⟨c, hc, r, hr, i, hi, hv⟩ := h
      have hcC : c = C := by
        rcases Nat.lt_succ_iff_lt_or_eq.1 hc with h' | h'
        · rw [hall c h' r hr i hi] at hv
          exact absurd hv (by decide)
        · exact h'
      subst hcC
      obtain ⟨g, hg, hout, _⟩ := forLoop_correctGhostCluster_some m c cells0 hall
      rw [hg, Option.some_bind]
      unfold correctGhostCluster
      rw [forLoop_correctGhostRegion_none (m c) _ _ g
        ⟨r, hr, i, hi, by rw [hout _ (by omega)]; exact hv⟩]
      rfl
    · push_neg at hall
      obtain ⟨c, hc, r, hr, i, hi, hv⟩ := hall
      rw [ih ⟨c, hc, r, hr, i, hi, by simpa using hv⟩]
      rfl

/-! ## C15: the storage bits of the ghost cells -/

theorem ghostCellCorrected_bits (ms : MeshStructure) (r i : Nat) (c : CellLocalInformation)
    (hv : ghostCellValid ms r i c = true) :
    (i < ms.numberOfGhostRegionDerivatives r →
        ltsBit (ghostCellCorrected ms r i c).ltsSetup 9 = true
          ∧ ltsBit (ghostCellCorrected ms r i c).ltsSetup 8 = false)
      ∧ (ms.numberOfGhostRegionDerivatives r ≤ i →
        ltsBit (ghostCellCorrected ms r i c).ltsSetup 8 = true
          ∧ ltsBit (ghostCellCorrected ms r i c).ltsSetup 9 = false) := by
  unfold ghostCellValid at hv
  unfold ghostCellCorrected
  constructor
  · intro h
    rw [if_pos h] at hv ⊢
    simp [CellLocalInformation.withLtsSetup, ltsBit_clearBit, hv]
  · intro h
    rw [if_neg (by omega)] at hv ⊢
    simp [CellLocalInformation.withLtsSetup, ltsBit_clearBit, hv]

/-- C15.  For all clusters, mesh structures and cell arrays: when in every
ghost region the first `numberOfGhostRegionDerivatives` cells carry the
derivative bit (bit 9 of `ltsSetup`) and the remaining cells carry the buffer
bit (bit 8), `correctGhostRegionSetups` returns a cell array in which every
ghost cell has exactly one of the two bits: each of the first
`numberOfGhostRegionDerivatives` cells of a region has bit 9 and not bit 8,
each remaining cell has bit 8 and not bit 9.  When some ghost cell lacks the
bit required for its position, the call fails. -/
theorem correctGhostRegionSetups_exclusive (m_numberOfClusters : Nat)
    (m_meshStructure : Nat → MeshStructure) (cells : Nat → CellLocalInformation) :
    ((∀ c, c < m_numberOfClusters → ∀ r, r < (m_meshStructure c).numberOfRegions →
        ∀ i, i < (m_meshStructure c).numberOfGhostRegionCells r →
          (i < (m_meshStructure c).numberOfGhostRegionDerivatives r →
            ltsBit (cells (ghostCellIndex m_meshStructure c r i)).ltsSetup 9 = true)
          ∧ ((m_meshStructure c).numberOfGhostRegionDerivatives r ≤ i →
            ltsBit (cells (ghostCellIndex m_meshStructure c r i)).ltsSetup 8 = true)) →
      ∃ g, correctGhostRegionSetups m_numberOfClusters m_meshStructure cells = some g
        ∧ ∀ c, c < m_numberOfClusters → ∀ r, r < (m_meshStructure c).numberOfRegions →
          ∀ i, i < (m_meshStructure c).numberOfGhostRegionCells r →
            (i < (m_meshStructure c).numberOfGhostRegionDerivatives r →
              ltsBit (g (ghostCellIndex m_meshStructure c r i)).ltsSetup 9 = true
                ∧ ltsBit (g (ghostCellIndex m_meshStructure c r i)).ltsSetup 8 = false)
            ∧ ((m_meshStructure c).numberOfGhostRegionDerivatives r ≤ i →
              ltsBit (g (ghostCellIndex m_meshStructure c r i)).ltsSetup 8 = true
                ∧ ltsBit (g (ghostCellIndex m_meshStructure c r i)).ltsSetup 9 = false))
    ∧ ((∃ c, c < m_numberOfClusters ∧ ∃ r, r < (m_meshStructure c).numberOfRegions ∧
        ∃ i, i < (m_meshStructure c).numberOfGhostRegionCells r ∧
          ((i < (m_meshStructure c).numberOfGhostRegionDerivatives r
              ∧ ltsBit (cells (ghostCellIndex m_meshStructure c r i)).ltsSetup 9 = false)
            ∨ ((m_meshStructure c).numberOfGhostRegionDerivatives r ≤ i
              ∧ ltsBit (cells (ghostCellIndex m_meshStructure c r i)).ltsSetup 8 = false))) →
      correctGhostRegionSetups m_numberOfClusters m_meshStructure cells = none) := by
  constructor
  · intro h
    have hv : ∀ c, c < m_numberOfClusters → ∀ r, r < (m_meshStructure c).numberOfRegions →
        ∀ i, i < (m_meshStructure c).numberOfGhostRegionCells r →
          ghostCellValid (m_meshStructure c) r i
            (cells (ghostCellIndex m_meshStructure c r i)) = true := by
      intro c hc r hr i hi
      unfold ghostCellValid
      split_ifs with hlt
      · exact (h c hc r hr i hi).1 hlt
      · exact (h c hc r hr i hi).2 (by omega)
    obtain ⟨g, hg, _, hin⟩ := forLoop_correctGhostCluster_some m_meshStructure
      m_numberOfClusters cells hv
    refine ⟨g, ?_, ?_⟩
    · unfold correctGhostRegionSetups
      rw [hg]
      rfl
    · intro c hc r hr i hi
      rw [hin c hc r hr i hi]
      exact ghostCellCorrected_bits _ r i _ (hv c hc r hr i hi)
  · rintro ⟨c, hc, r, hr, i, hi, hbad⟩
    unfold correctGhostRegionSetups
    rw [forLoop_correctGhostCluster_none m_meshStructure m_numberOfClusters cells
      ⟨c, hc, r, hr, i, hi, ?_⟩]
    · rfl
    · unfold ghostCellValid
      rcases hbad with ⟨hlt, hb⟩ | ⟨hge, hb⟩
      · rw [if_pos hlt]
        exact hb
      · rw [if_neg (by omega)]
        exact hb

/-- The corrected `ltsSetup` values of `smallCells`: 512, 256 and 256 for the
three ghost cells, of which the first provides derivatives; the copy and
interior cells are as before. -/
theorem correctGhostRegionSetups_smallCells :
    (correctGhostRegionSetups 1 (fun _ => smallMesh) smallCells).map
        (fun g => (List.range 7).map fun j => (g j).ltsSetup)
      = some [512, 256, 256, 768, 512, 256, 0] := by
  decide!

/-- C15 (witness): the ghost cells of `smallCells` carry the bits required
for their positions, and the call leaves each with exactly one of the bits. -/
theorem correctGhostRegionSetups_exclusive_witness :
    ∃ g, correctGhostRegionSetups 1 (fun _ => smallMesh) smallCells = some g
      ∧ ∀ c, c < 1 → ∀ r, r < smallMesh.numberOfRegions →
        ∀ i, i < smallMesh.numberOfGhostRegionCells r →
          (i < smallMesh.numberOfGhostRegionDerivatives r →
            ltsBit (g (ghostCellIndex (fun _ => smallMesh) c r i)).ltsSetup 9 = true
              ∧ ltsBit (g (ghostCellIndex (fun _ => smallMesh) c r i)).ltsSetup 8 = false)
          ∧ (smallMesh.numberOfGhostRegionDerivatives r ≤ i →
            ltsBit (g (ghostCellIndex (fun _ => smallMesh) c r i)).ltsSetup 8 = true
              ∧ ltsBit (g (ghostCellIndex (fun _ => smallMesh) c r i)).ltsSetup 9 = false) :=
  (correctGhostRegionSetups_exclusive 1 (fun _ => smallMesh) smallCells).1 (by decide!)

/-! ## The loops of `deriveLayerLayouts` -/

theorem shift_mod_two_eq_one (x k : Nat) : ((x >>> k) % 2 = 1) ↔ ltsBit x k = true := by
  unfold ltsBit
  rcases Nat.mod_two_eq_zero_or_one (x >>> k) with h | h <;> simp [h]

theorem cellsWithBit_zero (k : Nat) (cells : Nat → CellLocalInformation) (off : Nat) :
    cellsWithBit k cells off 0 = 0 := rfl

theorem cellsWithBit_succ (k : Nat) (cells : Nat → CellLocalInformation) (off n : Nat) :
    cellsWithBit k cells off (n + 1)
      = if ltsBit (cells (off + n)).ltsSetup k then cellsWithBit k cells off n + 1
        else cellsWithBit k cells off n := by
  unfold cellsWithBit
  rw [List.range_succ, List.filter_append, List.length_append]
  by_cases h : ltsBit (cells (off + n)).ltsSetup k = true
  · simp [h]
  · simp [h]

theorem cellsWithBit_le (k : Nat) (cells : Nat → CellLocalInformation) (off n : Nat) :
    cellsWithBit k cells off n ≤ n := by
  unfold cellsWithBit
  calc ((List.range n).filter _).length ≤ (List.range n).length := List.length_filter_le _ _
    _ = n := List.length_range n

/-- The counters after one more cell. -/
theorem count_step (cell : CellLocalInformation) (b d : Nat) :
    ((if (cell.ltsSetup >>> 8) % 2 = 1 then b + 1 else b,
        if (cell.ltsSetup >>> 9) % 2 = 1 then d + 1 else d) : Nat × Nat)
      = (if ltsBit cell.ltsSetup 8 then b + 1 else b,
          if ltsBit cell.ltsSetup 9 then d + 1 else d) := by
  simp only [shift_mod_two_eq_one]

theorem countGhostCell_eq (cell : CellLocalInformation) (st : Nat × Nat) :
    countGhostCell cell st
      = if xor (ltsBit cell.ltsSetup 8) (ltsBit cell.ltsSetup 9)
        then some (if ltsBit cell.ltsSetup 8 then st.1 + 1 else st.1,
          if ltsBit cell.ltsSetup 9 then st.2 + 1 else st.2)
        else none := by
  unfold countGhostCell
  simp only [count_step]
  cases ltsBit cell.ltsSetup 8 <;> cases ltsBit cell.ltsSetup 9 <;> simp

theorem countCopyCell_eq (cell : CellLocalInformation) (st : Nat × Nat) :
    countCopyCell cell st
      = if (ltsBit cell.ltsSetup 8 || ltsBit cell.ltsSetup 9)
        then some (if ltsBit cell.ltsSetup 8 then st.1 + 1 else st.1,
          if ltsBit cell.ltsSetup 9 then st.2 + 1 else st.2)
        else none := by
  unfold countCopyCell
  simp only [count_step]
  cases ltsBit cell.ltsSetup 8 <;> cases ltsBit cell.ltsSetup 9 <;> simp

theorem countInteriorCell_eq (cell : CellLocalInformation) (st : Nat × Nat) :
    countInteriorCell cell st
      = some (if ltsBit cell.ltsSetup 8 then st.1 + 1 else st.1,
          if ltsBit cell.ltsSetup 9 then st.2 + 1 else st.2) := by
  unfold countInteriorCell
  simp only [count_step]

/-- A counting loop all of whose cells pass the check of its body counts the
cells with bit 8 and the cells with bit 9. -/
theorem forLoop_count_some (body : CellLocalInformation → Nat × Nat → Option (Nat × Nat))
    (ok : CellLocalInformation → Bool)
    (hbody : ∀ cell st, body cell st
      = if ok cell then some (if ltsBit cell.ltsSetup 8 then st.1 + 1 else st.1,
          if ltsBit cell.ltsSetup 9 then st.2 + 1 else st.2) else none)
    (cells : Nat → CellLocalInformation) (off n : Nat)
    (h : ∀ i, i < n → ok (cells (off + i)) = true) :
    forLoop (fun l_cell c => body (cells (l_cell + off)) c) n (0, 0)
      = some (cellsWithBit 8 cells off n, cellsWithBit 9 cells off n) := by
  induction n with
  | zero => rfl
  | succ n ih =>
    rw [forLoop_succ, ih (fun i hi => h i (Nat.lt_succ_of_lt hi)), Option.some_bind,
      Nat.add_comm n off, hbody, if_pos (h n (Nat.lt_succ_self n)), cellsWithBit_succ,
      cellsWithBit_succ]

/-- A counting loop with a cell that does not pass the check fails. -/
theorem forLoop_count_none (body : CellLocalInformation → Nat × Nat → Option (Nat × Nat))
    (ok : CellLocalInformation → Bool)
    (hbody : ∀ cell st, body cell st
      = if ok cell then some (if ltsBit cell.ltsSetup 8 then st.1 + 1 else st.1,
          if ltsBit cell.ltsSetup 9 then st.2 + 1 else st.2) else none)
    (cells : Nat → CellLocalInformation) (off n : Nat)
    (h : ∃ i, i < n ∧ ok (cells (off + i)) = false) :
    forLoop (fun l_cell c => body (cells (l_cell + off)) c) n (0, 0) = none := by
  induction n with
  | zero =>
    obtain ⟨i, hi, _⟩ := h
    exact absurd hi (Nat.not_lt_zero i)
  | succ n ih =>
    rw [forLoop_succ]
    by_cases hall : ∀ i, i < n → ok (cells (off + i)) = true
    · obtain ⟨i, hi, hv⟩ := h
      have hin : i = n := by
        rcases Nat.lt_succ_iff_lt_or_eq.1 hi with h' | h'
        · rw [hall i h'] at hv
          exact absurd hv (by decide)
        · exact h'
      subst hin
      rw [forLoop_count_some body ok hbody cells off i hall, Option.some_bind,
        Nat.add_comm i off, hbody, hv]
      rfl
    · push_neg at hall
      obtain ⟨i, hi, hv⟩ := hall
      rw [ih ⟨i, hi, by simpa using hv⟩]
      rfl

theorem prefixSum_congr (f g : Nat → Nat) (n : Nat) (h : ∀ i, i < n → f i = g i) :
    prefixSum f n = prefixSum g n := by
  induction n with
  | zero => rfl
  | succ n ih =>
    show prefixSum f n + f n = prefixSum g n + g n
    rw [ih (fun i hi => h i (Nat.lt_succ_of_lt hi)), h n (Nat.lt_succ_self n)]

/-- The pass of `deriveLayerLayouts` for a region whose ghost and copy cells
pass the checks. -/
theorem deriveRegionLayout_some (ms : MeshStructure) (ghost copy : Nat → CellLocalInformation)
    (r a b : Nat) (L : LayerLayout)
    (hG : ∀ i, i < ms.numberOfGhostRegionCells r →
      xor (ltsBit (ghost (a + i)).ltsSetup 8) (ltsBit (ghost (a + i)).ltsSetup 9) = true)
    (hC : ∀ i, i < ms.numberOfCopyRegionCells r →
      (ltsBit (copy (b + i)).ltsSetup 8 || ltsBit (copy (b + i)).ltsSetup 9) = true) :
    deriveRegionLayout ms ghost copy r (a, b, L)
      = some (a + ms.numberOfGhostRegionCells r, b + ms.numberOfCopyRegionCells r,
          withRegionCounts L r
            (cellsWithBit 8 ghost a (ms.numberOfGhostRegionCells r),
              cellsWithBit 9 ghost a (ms.numberOfGhostRegionCells r))
            (cellsWithBit 8 copy b (ms.numberOfCopyRegionCells r),
              cellsWithBit 9 copy b (ms.numberOfCopyRegionCells r))) := by
  unfold deriveRegionLayout
  simp only []
  rw [forLoop_count_some countGhostCell _ countGhostCell_eq ghost a _ hG, Option.some_bind,
    forLoop_count_some countCopyCell _ countCopyCell_eq copy b _ hC, Option.map_some']

/-- The pass of `deriveLayerLayouts` for a region fails when one of its
ghost cells has both storage bits or neither, or one of its copy cells has
neither. -/
theorem deriveRegionLayout_none (ms : MeshStructure) (ghost copy : Nat → CellLocalInformation)
    (r a b : Nat) (L : LayerLayout)
    (h : (∃ i, i < ms.numberOfGhostRegionCells r ∧
        xor (ltsBit (ghost (a + i)).ltsSetup 8) (ltsBit (ghost (a + i)).ltsSetup 9) = false)
      ∨ (∃ i, i < ms.numberOfCopyRegionCells r ∧
        (ltsBit (copy (b + i)).ltsSetup 8 || ltsBit (copy (b + i)).ltsSetup 9) = false)) :
    deriveRegionLayout ms ghost copy r (a, b, L) = none := by
  unfold deriveRegionLayout
  simp only []
  rcases h with h | h
  · rw [forLoop_count_none countGhostCell _ countGhostCell_eq ghost a _ h]
    rfl
  · rw [forLoop_count_none countCopyCell _ countCopyCell_eq copy b _ h]
    cases forLoop (fun l_cell c => countGhostCell (ghost (l_cell + a)) c)
      (ms.numberOfGhostRegionCells r) (0, 0) <;> rfl

/-- The loop over the regions of a cluster in `deriveLayerLayouts` when all
ghost and copy cells pass the checks: the counts of every region and the
totals of the two layers. -/
theorem forLoop_deriveRegionLayout_some (ms : MeshStructure)
    (ghost copy : Nat → CellLocalInformation) (R : Nat)
    (hG : ∀ r, r < R → ∀ i, i < ms.numberOfGhostRegionCells r →
      xor (ltsBit (ghost (prefixSum ms.numberOfGhostRegionCells r + i)).ltsSetup 8)
        (ltsBit (ghost (prefixSum ms.numberOfGhostRegionCells r + i)).ltsSetup 9) = true)
    (hC : ∀ r, r < R → ∀ i, i < ms.numberOfCopyRegionCells r →
      (ltsBit (copy (prefixSum ms.numberOfCopyRegionCells r + i)).ltsSetup 8
        || ltsBit (copy (prefixSum ms.numberOfCopyRegionCells r + i)).ltsSetup 9) = true) :
    ∃ L, forLoop (deriveRegionLayout ms ghost copy) R (0, 0, emptyLayout)
        = some (prefixSum ms.numberOfGhostRegionCells R,
            prefixSum ms.numberOfCopyRegionCells R, L)
      ∧ (∀ r, r < R →
          L.m_numberOfGhostRegionBuffers r
            = cellsWithBit 8 ghost (prefixSum ms.numberOfGhostRegionCells r)
                (ms.numberOfGhostRegionCells r)
          ∧ L.m_numberOfGhostRegionDerivatives r
            = cellsWithBit 9 ghost (prefixSum ms.numberOfGhostRegionCells r)
                (ms.numberOfGhostRegionCells r)
          ∧ L.m_numberOfCopyRegionBuffers r
            = cellsWithBit 8 copy (prefixSum ms.numberOfCopyRegionCells r)
                (ms.numberOfCopyRegionCells r)
          ∧ L.m_numberOfCopyRegionDerivatives r
            = cellsWithBit 9 copy (prefixSum ms.numberOfCopyRegionCells r)
                (ms.numberOfCopyRegionCells r))
      ∧ L.m_numberOfGhostBuffers = prefixSum L.m_numberOfGhostRegionBuffers R
      ∧ L.m_numberOfGhostDerivatives = prefixSum L.m_numberOfGhostRegionDerivatives R
      ∧ L.m_numberOfCopyBuffers = prefixSum L.m_numberOfCopyRegionBuffers R
      ∧ L.m_numberOfCopyDerivatives = prefixSum L.m_numberOfCopyRegionDerivatives R := by
  induction R with
  | zero => exact ⟨emptyLayout, rfl, fun r hr => absurd hr (Nat.not_lt_zero r), rfl, rfl, rfl, rfl⟩
  | succ R ih =>
    obtain ⟨L, hL, hreg, h1, h2, h3, h4⟩ := ih (fun r hr => hG r (Nat.lt_succ_of_lt hr))
      (fun r hr => hC r (Nat.lt_succ_of_lt hr))
    have hne : ∀ r, r < R → r ≠ R := fun r hr => Nat.ne_of_lt hr
    refine ⟨withRegionCounts L R
        (cellsWithBit 8 ghost (prefixSum ms.numberOfGhostRegionCells R)
            (ms.numberOfGhostRegionCells R),
          cellsWithBit 9 ghost (prefixSum ms.numberOfGhostRegionCells R)
            (ms.numberOfGhostRegionCells R))
        (cellsWithBit 8 copy (prefixSum ms.numberOfCopyRegionCells R)
            (ms.numberOfCopyRegionCells R),
          cellsWithBit 9 copy (prefixSum ms.numberOfCopyRegionCells R)
            (ms.numberOfCopyRegionCells R)), ?_, ?_, ?_, ?_, ?_, ?_⟩
    · rw [forLoop_succ, hL, Option.some_bind,
        deriveRegionLayout_some ms ghost copy R _ _ L (hG R (Nat.lt_succ_self R))
          (hC R (Nat.lt_succ_self R))]
      rfl
    · intro r hr
      rcases Nat.lt_succ_iff_lt_or_eq.1 hr with hlt | heq
      · simp only [withRegionCounts, Function.update_noteq (hne r hlt)]
        exact hreg r hlt
      · subst heq
        simp [withRegionCounts, Function.update_same]
    · show _ = prefixSum _ R + _
      simp only [withRegionCounts, Function.update_same]
      rw [h1]
      congr 1
      exact prefixSum_congr _ _ R (fun i hi => by
        simp only [withRegionCounts, Function.update_noteq (hne i hi)])
    · show _ = prefixSum _ R + _
      simp only [withRegionCounts, Function.update_same]
      rw [h2]
      congr 1
      exact prefixSum_congr _ _ R (fun i hi => by
        simp only [withRegionCounts, Function.update_noteq (hne i hi)])
    · show _ = prefixSum _ R + _
      simp only [withRegionCounts, Function.update_same]
      rw [h3]
      congr 1
      exact prefixSum_congr _ _ R (fun i hi => by
        simp only [withRegionCounts, Function.update_noteq (hne i hi)])
    · show _ = prefixSum _ R + _
      simp only [withRegionCounts, Function.update_same]
      rw [h4]
      congr 1
      exact prefixSum_congr _ _ R (fun i hi => by
        simp only [withRegionCounts, Function.update_noteq (hne i hi)])

/-- The loop over the regions of a cluster in `deriveLayerLayouts` fails when
a ghost cell has both storage bits or neither, or a copy cell has neither. -/
theorem forLoop_deriveRegionLayout_none (ms : MeshStructure)
    (ghost copy : Nat → CellLocalInformation) (R : Nat)
    (h : ∃ r, r < R ∧
      ((∃ i, i < ms.numberOfGhostRegionCells r ∧
          xor (ltsBit (ghost (prefixSum ms.numberOfGhostRegionCells r + i)).ltsSetup 8)
            (ltsBit (ghost (prefixSum ms.numberOfGhostRegionCells r + i)).ltsSetup 9) = false)
        ∨ (∃ i, i < ms.numberOfCopyRegionCells r ∧
          (ltsBit (copy (prefixSum ms.numberOfCopyRegionCells r + i)).ltsSetup 8
            || ltsBit (copy (prefixSum ms.numberOfCopyRegionCells r + i)).ltsSetup 9)
              = false))) :
    forLoop (deriveRegionLayout ms ghost copy) R (0, 0, emptyLayout) = none := by
  induction R with
  | zero =>
    obtain ⟨r, hr, _⟩ := h
    exact absurd hr (Nat.not_lt_zero r)
  | succ R ih =>
    rw [forLoop_succ]
    by_cases hall : ∃ r, r < R ∧
      ((∃ i, i < ms.numberOfGhostRegionCells r ∧
          xor (ltsBit (ghost (prefixSum ms.numberOfGhostRegionCells r + i)).ltsSetup 8)
            (ltsBit (ghost (prefixSum ms.numberOfGhostRegionCells r + i)).ltsSetup 9) = false)
        ∨ (∃ i, i < ms.numberOfCopyRegionCells r ∧
          (ltsBit (copy (prefixSum ms.numberOfCopyRegionCells r + i)).ltsSetup 8
            || ltsBit (copy (prefixSum ms.numberOfCopyRegionCells r + i)).ltsSetup 9)
              = false))
    · rw [ih hall]
      rfl
    · have hG : ∀ r, r < R → ∀ i, i < ms.numberOfGhostRegionCells r →
          xor (ltsBit (ghost (prefixSum ms.numberOfGhostRegionCells r + i)).ltsSetup 8)
            (ltsBit (ghost (prefixSum ms.numberOfGhostRegionCells r + i)).ltsSetup 9)
              = true := by
        intro r hr i hi
        by_contra hcon
        exact hall ⟨r, hr, Or.inl ⟨i, hi, by simpa using hcon⟩⟩
      have hC : ∀ r, r < R → ∀ i, i < ms.numberOfCopyRegionCells r →
          (ltsBit (copy (prefixSum ms.numberOfCopyRegionCells r + i)).ltsSetup 8
            || ltsBit (copy (prefixSum ms.numberOfCopyRegionCells r + i)).ltsSetup 9)
              = true := by
        intro r hr i hi
        by_contra hcon
        exact hall ⟨r, hr, Or.inr ⟨i, hi, by simpa using hcon⟩⟩
      obtain ⟨r, hr, hbad⟩ := h
      have hrR : r = R := by
        rcases Nat.lt_succ_iff_lt_or_eq.1 hr with h' | h'
        · exact absurd ⟨r, h', hbad⟩ hall
        · exact h'
      subst hrR
      obtain ⟨L, hL, _⟩ := forLoop_deriveRegionLayout_some ms ghost copy r hG hC
      rw [hL, Option.some_bind, deriveRegionLayout_none ms ghost copy r _ _ L hbad]

/-- A loop that fills a table, entry `c` from a computation of its own. -/
theorem forLoop_table_some {α : Type} (f : Nat → Option α) (n : Nat) (t0 : Nat → α)
    (h : ∀ c, c < n → ∃ a, f c = some a) :
    ∃ t, forLoop (fun c t => (f c).map fun a => Function.update t c a) n t0 = some t
      ∧ ∀ c, c < n → f c = some (t c) := by
  induction n with
  | zero => exact ⟨t0, rfl, fun c hc => absurd hc (Nat.not_lt_zero c)⟩
  | succ n ih =>
    obtain ⟨t, ht, hc⟩ := ih (fun c hc => h c (Nat.lt_succ_of_lt hc))
    obtain ⟨a, ha⟩ := h n (Nat.lt_succ_self n)
    refine ⟨Function.update t n a, ?_, ?_⟩
    · rw [forLoop_succ, ht, Option.some_bind, ha]
      rfl
    · intro c hlt
      rcases Nat.lt_succ_iff_lt_or_eq.1 hlt with h' | h'
      · rw [Function.update_noteq (Nat.ne_of_lt h')]
        exact hc c h'
      · rw [h', Function.update_same]
        exact ha

theorem forLoop_table_none {α : Type} (f : Nat → Option α) (n : Nat) (t0 : Nat → α)
    (h : ∃ c, c < n ∧ f c = none) :
    forLoop (fun c t => (f c).map fun a => Function.update t c a) n t0 = none := by
  induction n with
  | zero =>
    obtain ⟨c, hc, _⟩ := h
    exact absurd hc (Nat.not_lt_zero c)
  | succ n ih =>
    rw [forLoop_succ]
    by_cases hall : ∃ c, c < n ∧ f c = none
    · rw [ih hall]
      rfl
    · obtain ⟨c, hc, hf⟩ := h
      have hcn : c = n := by
        rcases Nat.lt_succ_iff_lt_or_eq.1 hc with h' | h'
        · exact absurd ⟨c, h', hf⟩ hall
        · exact h'
      subst hcn
      cases hx : forLoop (fun c t => (f c).map fun a => Function.update t c a) c t0 with
      | none => rfl
      | some t =>
        rw [Option.some_bind, hf]
        rfl

/-- The interior loop of `deriveLayerLayouts` counts the interior cells with
bit 8 and with bit 9; it has no check. -/
theorem forLoop_countInteriorCell (interior : Nat → CellLocalInformation) (n : Nat) :
    forLoop (fun l_cell c => countInteriorCell (interior l_cell) c) n (0, 0)
      = some (cellsWithBit 8 interior 0 n, cellsWithBit 9 interior 0 n) := by
  have h := forLoop_count_some countInteriorCell (fun _ => true)
    (fun cell st => by rw [countInteriorCell_eq]; rfl) interior 0 n (fun _ _ => rfl)
  exact h

/-- The counts of one cluster whose ghost and copy cells pass the checks. -/
theorem deriveClusterLayout_some (ms : MeshStructure)
    (ghost copy interior : Nat → CellLocalInformation) (h : LayoutChecksPass ms ghost copy) :
    ∃ L, deriveClusterLayout ms ghost copy interior = some L
      ∧ (∀ r, r < ms.numberOfRegions →
          L.m_numberOfGhostRegionBuffers r
            = cellsWithBit 8 ghost (prefixSum ms.numberOfGhostRegionCells r)
                (ms.numberOfGhostRegionCells r)
          ∧ L.m_numberOfGhostRegionDerivatives r
            = cellsWithBit 9 ghost (prefixSum ms.numberOfGhostRegionCells r)
                (ms.numberOfGhostRegionCells r)
          ∧ L.m_numberOfCopyRegionBuffers r
            = cellsWithBit 8 copy (prefixSum ms.numberOfCopyRegionCells r)
                (ms.numberOfCopyRegionCells r)
          ∧ L.m_numberOfCopyRegionDerivatives r
            = cellsWithBit 9 copy (prefixSum ms.numberOfCopyRegionCells r)
                (ms.numberOfCopyRegionCells r))
      ∧ L.m_numberOfGhostBuffers = prefixSum L.m_numberOfGhostRegionBuffers ms.numberOfRegions
      ∧ L.m_numberOfGhostDerivatives
          = prefixSum L.m_numberOfGhostRegionDerivatives ms.numberOfRegions
      ∧ L.m_numberOfCopyBuffers = prefixSum L.m_numberOfCopyRegionBuffers ms.numberOfRegions
      ∧ L.m_numberOfCopyDerivatives
          = prefixSum L.m_numberOfCopyRegionDerivatives ms.numberOfRegions
      ∧ L.m_numberOfInteriorBuffers = cellsWithBit 8 interior 0 ms.numberOfInteriorCells
      ∧ L.m_numberOfInteriorDerivatives = cellsWithBit 9 interior 0 ms.numberOfInteriorCells := by
  obtain ⟨L, hL, hreg, h1, h2, h3, h4⟩ :=
    forLoop_deriveRegionLayout_some ms ghost copy ms.numberOfRegions h.1 h.2
  refine ⟨{ L with
      m_numberOfInteriorBuffers := cellsWithBit 8 interior 0 ms.numberOfInteriorCells
      m_numberOfInteriorDerivatives := cellsWithBit 9 interior 0 ms.numberOfInteriorCells },
    ?_, hreg, h1, h2, h3, h4, rfl, rfl⟩
  unfold deriveClusterLayout
  rw [hL, Option.some_bind, forLoop_countInteriorCell, Option.map_some']

/-- The pass for one cluster fails when its ghost and copy cells do not pass
the checks. -/
theorem deriveClusterLayout_none (ms : MeshStructure)
    (ghost copy interior : Nat → CellLocalInformation) (h : ¬ LayoutChecksPass ms ghost copy) :
    deriveClusterLayout ms ghost copy interior = none := by
  unfold deriveClusterLayout
  rw [forLoop_deriveRegionLayout_none ms ghost copy ms.numberOfRegions ?_]
  · rfl
  · unfold LayoutChecksPass at h
    by_contra hcon
    apply h
    constructor
    · intro r hr i hi
      by_contra hx
      exact hcon ⟨r, hr, Or.inl ⟨i, hi, by simpa using hx⟩⟩
    · intro r hr i hi
      by_contra hx
      exact hcon ⟨r, hr, Or.inr ⟨i, hi, by simpa using hx⟩⟩

/-- The ghost cells of a region that passes the check are counted once each. -/
theorem cellsWithBit_exclusive (cells : Nat → CellLocalInformation) (off n : Nat)
    (h : ∀ i, i < n →
      xor (ltsBit (cells (off + i)).ltsSetup 8) (ltsBit (cells (off + i)).ltsSetup 9) = true) :
    cellsWithBit 8 cells off n + cellsWithBit 9 cells off n = n := by
  induction n with
  | zero => rfl
  | succ n ih =>
    have hn := h n (Nat.lt_succ_self n)
    have := ih (fun i hi => h i (Nat.lt_succ_of_lt hi))
    rw [cellsWithBit_succ, cellsWithBit_succ]
    cases h8 : ltsBit (cells (off + n)).ltsSetup 8 <;>
    cases h9 : ltsBit (cells (off + n)).ltsSetup 9 <;>
    rw [h8, h9] at hn <;> simp at hn ⊢ <;> omega

/-- `deriveLayerLayouts` returns the table of the counts of the clusters when
every cluster passes the checks and fails otherwise. -/
theorem deriveLayerLayouts_cases (n : Nat) (m : Nat → MeshStructure)
    (cells : Nat → CellLocalInformation) (pointers : Nat → LayerPointers) :
    ((∀ c, c < n → LayoutChecksPass (m c)
          (fun k => cells ((pointers c).m_ghostCellInformation + k))
          (fun k => cells ((pointers c).m_copyCellInformation + k))) →
        ∃ t, deriveLayerLayouts n m cells pointers = some t
          ∧ ∀ c, c < n → deriveClusterLayout (m c)
              (fun k => cells ((pointers c).m_ghostCellInformation + k))
              (fun k => cells ((pointers c).m_copyCellInformation + k))
              (fun k => cells ((pointers c).m_interiorCellInformation + k)) = some (t c))
      ∧ ((∃ c, c < n ∧ ¬ LayoutChecksPass (m c)
          (fun k => cells ((pointers c).m_ghostCellInformation + k))
          (fun k => cells ((pointers c).m_copyCellInformation + k))) →
        deriveLayerLayouts n m cells pointers = none) := by
  constructor
  · intro h
    exact forLoop_table_some _ n _ (fun c hc => by
      obtain ⟨L, hL, _⟩ := deriveClusterLayout_some (m c)
        (fun k => cells ((pointers c).m_ghostCellInformation + k))
        (fun k => cells ((pointers c).m_copyCellInformation + k))
        (fun k => cells ((pointers c).m_interiorCellInformation + k)) (h c hc)
      exact ⟨L, hL⟩)
  · rintro ⟨c, hc, hbad⟩
    exact forLoop_table_none _ n _ ⟨c, hc, deriveClusterLayout_none _ _ _ _ hbad⟩

/-! ## C16 and C17: the checks and the counts of `deriveLayerLayouts` -/

theorem not_layoutChecksPass_iff (ms : MeshStructure) (ghost copy : Nat → CellLocalInformation) :
    ¬ LayoutChecksPass ms ghost copy ↔
      ∃ r, r < ms.numberOfRegions ∧
        ((∃ i, i < ms.numberOfGhostRegionCells r ∧
            ltsBit (ghost (prefixSum ms.numberOfGhostRegionCells r + i)).ltsSetup 8
              = ltsBit (ghost (prefixSum ms.numberOfGhostRegionCells r + i)).ltsSetup 9)
          ∨ (∃ i, i < ms.numberOfCopyRegionCells r ∧
            ltsBit (copy (prefixSum ms.numberOfCopyRegionCells r + i)).ltsSetup 8 = false
              ∧ ltsBit (copy (prefixSum ms.numberOfCopyRegionCells r + i)).ltsSetup 9
                = false)) := by
  unfold LayoutChecksPass
  constructor
  · intro h
    by_contra hcon
    apply h
    constructor
    · intro r hr i hi
      by_contra hx
      apply hcon
      refine ⟨r, hr, Or.inl ⟨i, hi, ?_⟩⟩
      cases h8 : ltsBit (ghost (prefixSum ms.numberOfGhostRegionCells r + i)).ltsSetup 8 <;>
      cases h9 : ltsBit (ghost (prefixSum ms.numberOfGhostRegionCells r + i)).ltsSetup 9 <;>
      simp [h8, h9] at hx ⊢
    · intro r hr i hi
      by_contra hx
      apply hcon
      refine ⟨r, hr, Or.inr ⟨i, hi, ?_⟩⟩
      cases h8 : ltsBit (copy (prefixSum ms.numberOfCopyRegionCells r + i)).ltsSetup 8 <;>
      cases h9 : ltsBit (copy (prefixSum ms.numberOfCopyRegionCells r + i)).ltsSetup 9 <;>
      simp [h8, h9] at hx ⊢
  · rintro ⟨r, hr, ⟨i, hi, hbad⟩ | ⟨i, hi, hb8, hb9⟩⟩ ⟨hG, hC⟩
    · have := hG r hr i hi
      rw [hbad] at this
      simp at this
    · have := hC r hr i hi
      rw [hb8, hb9] at this
      simp at this

/-- C16 (counterexample).  The cell array `smallCells` of one cluster (three
ghost, two copy, two interior cells) after `correctGhostRegionSetups`, with
the pointers of `setUpLayers`: the copy cell 3 has both storage bits and the
interior cell 6 has neither, and `deriveLayerLayouts` does not fail. -/
theorem deriveLayerLayouts_accepts_copy_and_interior :
    (correctGhostRegionSetups 1 (fun _ => smallMesh) smallCells).map
        (fun g => (List.range 7).map fun j => (g j).ltsSetup)
      = some ((List.range 7).map fun j => (smallCellsCorrected j).ltsSetup)
    ∧ setUpLayers 1 (fun _ => smallMesh) 0 = ⟨0, 3, 5⟩
    ∧ ltsBit (smallCellsCorrected 3).ltsSetup 8 = true
    ∧ ltsBit (smallCellsCorrected 3).ltsSetup 9 = true
    ∧ ltsBit (smallCellsCorrected 6).ltsSetup 8 = false
    ∧ ltsBit (smallCellsCorrected 6).ltsSetup 9 = false
    ∧ (deriveLayerLayouts 1 (fun _ => smallMesh) smallCellsCorrected
        (setUpLayers 1 (fun _ => smallMesh))).isSome = true := by
  refine ⟨by decide!, by decide!, by decide!, by decide!, by decide!, by decide!, by decide!⟩

/-- C16 (amended).  `deriveLayerLayouts` fails exactly when, in some region of
some cluster, a ghost cell has both of the storage bits 8 and 9 or neither,
or a copy cell has neither; a copy cell with both bits passes, and the
interior cells are not checked. -/
theorem deriveLayerLayouts_fails_iff (m_numberOfClusters : Nat)
    (m_meshStructure : Nat → MeshStructure) (cells : Nat → CellLocalInformation)
    (pointers : Nat → LayerPointers) :
    deriveLayerLayouts m_numberOfClusters m_meshStructure cells pointers = none ↔
      ∃ c, c < m_numberOfClusters ∧ ∃ r, r < (m_meshStructure c).numberOfRegions ∧
        ((∃ i, i < (m_meshStructure c).numberOfGhostRegionCells r ∧
            ltsBit (cells ((pointers c).m_ghostCellInformation
                + (prefixSum (m_meshStructure c).numberOfGhostRegionCells r + i))).ltsSetup 8
              = ltsBit (cells ((pointers c).m_ghostCellInformation
                + (prefixSum (m_meshStructure c).numberOfGhostRegionCells r + i))).ltsSetup 9)
          ∨ (∃ i, i < (m_meshStructure c).numberOfCopyRegionCells r ∧
            ltsBit (cells ((pointers c).m_copyCellInformation
                + (prefixSum (m_meshStructure c).numberOfCopyRegionCells r + i))).ltsSetup 8
              = false
            ∧ ltsBit (cells ((pointers c).m_copyCellInformation
                + (prefixSum (m_meshStructure c).numberOfCopyRegionCells r + i))).ltsSetup 9
              = false)) := by
  obtain ⟨hsome, hnone⟩ := deriveLayerLayouts_cases m_numberOfClusters m_meshStructure cells
    pointers
  constructor
  · intro h
    by_contra hcon
    have hall : ∀ c, c < m_numberOfClusters → LayoutChecksPass (m_meshStructure c)
        (fun k => cells ((pointers c).m_ghostCellInformation + k))
        (fun k => cells ((pointers c).m_copyCellInformation + k)) := by
      intro c hc
      by_contra hx
      rw [not_layoutChecksPass_iff] at hx
      obtain ⟨r, hr, hbad⟩ := hx
      exact hcon ⟨c, hc, r, hr, hbad⟩
    obtain ⟨t, ht, _⟩ := hsome hall
    rw [ht] at h
    exact Option.noConfusion h
  · rintro ⟨c, hc, r, hr, hbad⟩
    exact hnone ⟨c, hc, (not_layoutChecksPass_iff _ _ _).2 ⟨r, hr, hbad⟩⟩

/-- C16 (witness): `smallCells` before `correctGhostRegionSetups` has a ghost
cell with both storage bits, and `deriveLayerLayouts` fails. -/
theorem deriveLayerLayouts_fails_iff_witness :
    deriveLayerLayouts 1 (fun _ => smallMesh) smallCells (setUpLayers 1 (fun _ => smallMesh))
      = none :=
  (deriveLayerLayouts_fails_iff 1 (fun _ => smallMesh) smallCells
    (setUpLayers 1 (fun _ => smallMesh))).2
    ⟨0, by decide, 0, by decide, Or.inl ⟨0, by decide, by decide!⟩⟩

/-- C17.  When the ghost and copy cells of every cluster pass the checks,
`deriveLayerLayouts` returns for every cluster: for each ghost and copy
region the number of its cells with the buffer bit (bit 8) and the number
with the derivative bit (bit 9), for the interior the same two numbers; the
totals of the ghost and of the copy layer are the sums of the counts of the
regions; and in every ghost region buffers + derivatives is the number of
cells of the region. -/
theorem deriveLayerLayouts_counts (m_numberOfClusters : Nat)
    (m_meshStructure : Nat → MeshStructure) (cells : Nat → CellLocalInformation)
    (pointers : Nat → LayerPointers)
    (h : ∀ c, c < m_numberOfClusters → LayoutChecksPass (m_meshStructure c)
      (fun k => cells ((pointers c).m_ghostCellInformation + k))
      (fun k => cells ((pointers c).m_copyCellInformation + k))) :
    ∃ t, deriveLayerLayouts m_numberOfClusters m_meshStructure cells pointers = some t
      ∧ ∀ c, c < m_numberOfClusters →
        (∀ r, r < (m_meshStructure c).numberOfRegions →
          (t c).m_numberOfGhostRegionBuffers r
            = cellsWithBit 8 (fun k => cells ((pointers c).m_ghostCellInformation + k))
                (prefixSum (m_meshStructure c).numberOfGhostRegionCells r)
                ((m_meshStructure c).numberOfGhostRegionCells r)
          ∧ (t c).m_numberOfGhostRegionDerivatives r
            = cellsWithBit 9 (fun k => cells ((pointers c).m_ghostCellInformation + k))
                (prefixSum (m_meshStructure c).numberOfGhostRegionCells r)
                ((m_meshStructure c).numberOfGhostRegionCells r)
          ∧ (t c).m_numberOfCopyRegionBuffers r
            = cellsWithBit 8 (fun k => cells ((pointers c).m_copyCellInformation + k))
                (prefixSum (m_meshStructure c).numberOfCopyRegionCells r)
                ((m_meshStructure c).numberOfCopyRegionCells r)
          ∧ (t c).m_numberOfCopyRegionDerivatives r
            = cellsWithBit 9 (fun k => cells ((pointers c).m_copyCellInformation + k))
                (prefixSum (m_meshStructure c).numberOfCopyRegionCells r)
                ((m_meshStructure c).numberOfCopyRegionCells r)
          ∧ (t c).m_numberOfGhostRegionBuffers r + (t c).m_numberOfGhostRegionDerivatives r
            = (m_meshStructure c).numberOfGhostRegionCells r)
        ∧ (t c).m_numberOfGhostBuffers
          = prefixSum (t c).m_numberOfGhostRegionBuffers (m_meshStructure c).numberOfRegions
        ∧ (t c).m_numberOfGhostDerivatives
          = prefixSum (t c).m_numberOfGhostRegionDerivatives (m_meshStructure c).numberOfRegions
        ∧ (t c).m_numberOfCopyBuffers
          = prefixSum (t c).m_numberOfCopyRegionBuffers (m_meshStructure c).numberOfRegions
        ∧ (t c).m_numberOfCopyDerivatives
          = prefixSum (t c).m_numberOfCopyRegionDerivatives (m_meshStructure c).numberOfRegions
        ∧ (t c).m_numberOfInteriorBuffers
          = cellsWithBit 8 (fun k => cells ((pointers c).m_interiorCellInformation + k)) 0
              (m_meshStructure c).numberOfInteriorCells
        ∧ (t c).m_numberOfInteriorDerivatives
          = cellsWithBit 9 (fun k => cells ((pointers c).m_interiorCellInformation + k)) 0
              (m_meshStructure c).numberOfInteriorCells := by
  obtain ⟨t, ht, hc⟩ := (deriveLayerLayouts_cases m_numberOfClusters m_meshStructure cells
    pointers).1 h
  refine ⟨t, ht, ?_⟩
  intro c hlt
  obtain ⟨L, hL, hreg, h1, h2, h3, h4, h5, h6⟩ := deriveClusterLayout_some (m_meshStructure c)
    (fun k => cells ((pointers c).m_ghostCellInformation + k))
    (fun k => cells ((pointers c).m_copyCellInformation + k))
    (fun k => cells ((pointers c).m_interiorCellInformation + k)) (h c hlt)
  have e : t c = L := by
    have := hc c hlt
    rw [hL] at this
    exact (Option.some.inj this).symm
  rw [e]
  refine ⟨?_, h1, h2, h3, h4, h5, h6⟩
  intro r hr
  obtain ⟨a1, a2, a3, a4⟩ := hreg r hr
  refine ⟨a1, a2, a3, a4, ?_⟩
  rw [a1, a2]
  exact cellsWithBit_exclusive _ _ _ ((h c hlt).1 r hr)

theorem smallCellsCorrected_pass :
    ∀ c, c < 1 → LayoutChecksPass smallMesh
      (fun k => smallCellsCorrected ((setUpLayers 1 (fun _ => smallMesh) c).m_ghostCellInformation
        + k))
      (fun k => smallCellsCorrected ((setUpLayers 1 (fun _ => smallMesh) c).m_copyCellInformation
        + k)) := by
  intro c hc
  have hc0 : c = 0 := by omega
  subst hc0
  constructor
  · intro r hr i hi
    have hr0 : r = 0 := by
      have : r < 1 := hr
      omega
    subst hr0
    have hi3 : i < 3 := hi
    interval_cases i <;> decide!
  · intro r hr i hi
    have hr0 : r = 0 := by
      have : r < 1 := hr
      omega
    subst hr0
    have hi2 : i < 2 := hi
    interval_cases i <;> decide!

/-- C17 (witness): the counts of the corrected `smallCells` are returned. -/
theorem deriveLayerLayouts_counts_witness :
    ∃ t, deriveLayerLayouts 1 (fun _ => smallMesh) smallCellsCorrected
        (setUpLayers 1 (fun _ => smallMesh)) = some t
      ∧ (t 0).m_numberOfGhostBuffers
          = prefixSum (t 0).m_numberOfGhostRegionBuffers smallMesh.numberOfRegions
      ∧ (t 0).m_numberOfInteriorBuffers
          = cellsWithBit 8 (fun k => smallCellsCorrected
              ((setUpLayers 1 (fun _ => smallMesh) 0).m_interiorCellInformation + k)) 0
              smallMesh.numberOfInteriorCells := by
  obtain ⟨t, ht, hc⟩ := deriveLayerLayouts_counts 1 (fun _ => smallMesh) smallCellsCorrected
    (setUpLayers 1 (fun _ => smallMesh)) smallCellsCorrected_pass
  exact ⟨t, ht, (hc 0 Nat.one_pos).2.1, (hc 0 Nat.one_pos).2.2.2.2.2.1⟩

/-- The counts of the corrected `smallCells`: 2 buffers and 1 derivative in
the ghost layer, 1 buffer and 2 derivatives in the copy layer (one copy cell
has both), 1 buffer and no derivatives in the interior. -/
theorem deriveLayerLayouts_smallCells :
    (deriveLayerLayouts 1 (fun _ => smallMesh) smallCellsCorrected
        (setUpLayers 1 (fun _ => smallMesh))).map (fun t =>
          [(t 0).m_numberOfGhostBuffers, (t 0).m_numberOfGhostDerivatives,
            (t 0).m_numberOfCopyBuffers, (t 0).m_numberOfCopyDerivatives,
            (t 0).m_numberOfInteriorBuffers, (t 0).m_numberOfInteriorDerivatives])
      = some [2, 1, 1, 2, 1, 0] := by
  decide!
/-! ## The sizes and the starts of the layers -/

theorem iterLoop_succ {σ : Type} (body : Nat → σ → σ) (n : Nat) (s : σ) :
    iterLoop body (n + 1) s = body n (iterLoop body n s) := rfl

theorem prefixSum_succ (f : Nat → Nat) (n : Nat) :
    prefixSum f (n + 1) = prefixSum f n + f n := rfl

theorem le_prefixSum (f : Nat → Nat) {c n : Nat} (h : c < n) : f c ≤ prefixSum f n :=
  le_trans (Nat.le_add_left _ _) (prefixSum_succ_le f h)

theorem prefixSum_linear (a b : Nat) (f g : Nat → Nat) (n : Nat) :
    prefixSum (fun r => a * f r + b * g r) n = a * prefixSum f n + b * prefixSum g n := by
  induction n with
  | zero => rfl
  | succ n ih =>
    rw [prefixSum_succ, prefixSum_succ, prefixSum_succ, ih]
    ring

theorem uadd_umul_eq (s a b c d : Nat) (h : s + (a * b + c * d) < UINT_RANGE) :
    uadd (uadd s (umul a b)) (umul c d) = s + (a * b + c * d) := by
  unfold uadd umul
  have h1 : a * b % UINT_RANGE = a * b := Nat.mod_eq_of_lt (by omega)
  have h2 : c * d % UINT_RANGE = c * d := Nat.mod_eq_of_lt (by omega)
  rw [h1, h2, Nat.mod_eq_of_lt (by omega : s + a * b < UINT_RANGE), Nat.mod_eq_of_lt (by omega)]
  omega

theorem umul_add_umul_eq (a b c d : Nat) (h : a * b + c * d < UINT_RANGE) :
    umul a b + umul c d = a * b + c * d := by
  unfold umul
  rw [Nat.mod_eq_of_lt (by omega : a * b < UINT_RANGE),
    Nat.mod_eq_of_lt (by omega : c * d < UINT_RANGE)]

/-- The loop over the regions in `allocateInternalState` adds the sizes of
the regions when the sums stay below `2^32`. -/
theorem iterLoop_allocateRegionSizes (DOFS DERS : Nat) (L : LayerLayout) (R g0 c0 : Nat)
    (hg : g0 + prefixSum (fun r => DOFS * L.m_numberOfGhostRegionBuffers r
      + DERS * L.m_numberOfGhostRegionDerivatives r) R < UINT_RANGE)
    (hc : c0 + prefixSum (fun r => DOFS * L.m_numberOfCopyRegionBuffers r
      + DERS * L.m_numberOfCopyRegionDerivatives r) R < UINT_RANGE) :
    iterLoop (allocateRegionSizes DOFS DERS L) R (g0, c0)
      = (g0 + prefixSum (fun r => DOFS * L.m_numberOfGhostRegionBuffers r
            + DERS * L.m_numberOfGhostRegionDerivatives r) R,
          c0 + prefixSum (fun r => DOFS * L.m_numberOfCopyRegionBuffers r
            + DERS * L.m_numberOfCopyRegionDerivatives r) R) := by
  induction R with
  | zero => rfl
  | succ R ih =>
    rw [prefixSum_succ] at hg hc
    rw [iterLoop_succ, ih (by omega) (by omega)]
    unfold allocateRegionSizes
    simp only []
    rw [uadd_umul_eq _ _ _ _ _ (by omega), uadd_umul_eq _ _ _ _ _ (by omega), prefixSum_succ,
      prefixSum_succ]
    simp only [Nat.add_assoc]

/-- The loop of `allocateInternalState` adds the sizes of the clusters when
the sums stay below `2^32`. -/
theorem iterLoop_allocateClusterSizes (DOFS DERS : Nat) (m : Nat → MeshStructure)
    (layouts : Nat → LayerLayout) (n C : Nat) (hC : C ≤ n)
    (hT : ∀ c, c < n → LayoutTotals (m c) (layouts c))
    (hg : prefixSum (fun c => ghostSize DOFS DERS (layouts c)) n < UINT_RANGE)
    (hc : prefixSum (fun c => copySize DOFS DERS (layouts c)) n < UINT_RANGE)
    (hi : prefixSum (fun c => interiorSize DOFS DERS (layouts c)) n < UINT_RANGE) :
    iterLoop (allocateClusterSizes DOFS DERS m layouts) C (0, 0, 0)
      = (prefixSum (fun c => ghostSize DOFS DERS (layouts c)) C,
          prefixSum (fun c => copySize DOFS DERS (layouts c)) C,
          prefixSum (fun c => interiorSize DOFS DERS (layouts c)) C) := by
  induction C with
  | zero => rfl
  | succ C ih =>
    have hlt : C < n := Nat.lt_of_succ_le hC
    have b1 := prefixSum_succ_le (fun c => ghostSize DOFS DERS (layouts c)) hlt
    have b2 := prefixSum_succ_le (fun c => copySize DOFS DERS (layouts c)) hlt
    have b3 := prefixSum_succ_le (fun c => interiorSize DOFS DERS (layouts c)) hlt
    simp only [] at b1 b2 b3
    obtain ⟨t1, t2, t3, t4⟩ := hT C hlt
    have e1 : prefixSum (fun r => DOFS * (layouts C).m_numberOfGhostRegionBuffers r
          + DERS * (layouts C).m_numberOfGhostRegionDerivatives r) (m C).numberOfRegions
        = ghostSize DOFS DERS (layouts C) := by
      rw [prefixSum_linear, ← t1, ← t2]
      rfl
    have e2 : prefixSum (fun r => DOFS * (layouts C).m_numberOfCopyRegionBuffers r
          + DERS * (layouts C).m_numberOfCopyRegionDerivatives r) (m C).numberOfRegions
        = copySize DOFS DERS (layouts C) := by
      rw [prefixSum_linear, ← t3, ← t4]
      rfl
    rw [iterLoop_succ, ih (Nat.le_of_lt hlt)]
    unfold allocateClusterSizes
    simp only []
    rw [iterLoop_allocateRegionSizes DOFS DERS (layouts C) _ _ _ (by rw [e1]; omega)
      (by rw [e2]; omega), e1, e2,
      uadd_umul_eq _ _ _ _ _ (by
        have e3 : interiorSize DOFS DERS (layouts C)
            = DOFS * (layouts C).m_numberOfInteriorBuffers
              + DERS * (layouts C).m_numberOfInteriorDerivatives := rfl
        omega)]
    rfl

theorem initializeInternalStateCluster_fst (DOFS DERS : Nat) (m : Nat → MeshStructure)
    (layouts : Nat → LayerLayout) (c : Nat) (st : InternalCursor × (Nat → ClusterState)) :
    (initializeInternalStateCluster DOFS DERS m layouts c st).1
      = { l_offset := st.1.l_offset + (m c).numberOfGhostCells + (m c).numberOfCopyCells
            + (m c).numberOfInteriorCells
          l_ghostPointer := st.1.l_ghostPointer + umul DOFS (layouts c).m_numberOfGhostBuffers
            + umul DERS (layouts c).m_numberOfGhostDerivatives
          l_copyPointer := st.1.l_copyPointer + umul DOFS (layouts c).m_numberOfCopyBuffers
            + umul DERS (layouts c).m_numberOfCopyDerivatives
          l_interiorPointer := st.1.l_interiorPointer
            + umul DOFS (layouts c).m_numberOfInteriorBuffers
            + umul DERS (layouts c).m_numberOfInteriorDerivatives } := rfl

theorem initializeInternalStateCluster_snd (DOFS DERS : Nat) (m : Nat → MeshStructure)
    (layouts : Nat → LayerLayout) (c : Nat) (st : InternalCursor × (Nat → ClusterState)) :
    (initializeInternalStateCluster DOFS DERS m layouts c st).2
      = Function.update st.2 c
          { l_ghostPointer := st.1.l_ghostPointer, ghostOffset := st.1.l_offset
            l_copyPointer := st.1.l_copyPointer
            copyOffset := st.1.l_offset + (m c).numberOfGhostCells
            l_interiorPointer := st.1.l_interiorPointer
            interiorOffset := st.1.l_offset + (m c).numberOfGhostCells
              + (m c).numberOfCopyCells } := rfl

/-- The loop variables of `initializeInternalState` after `C` clusters, and
the arguments recorded for the clusters below `C`. -/
theorem iterLoop_initializeInternalStateCluster (DOFS DERS : Nat) (m : Nat → MeshStructure)
    (layouts : Nat → LayerLayout) (n C : Nat) (hC : C ≤ n)
    (hg : prefixSum (fun c => ghostSize DOFS DERS (layouts c)) n < UINT_RANGE)
    (hc : prefixSum (fun c => copySize DOFS DERS (layouts c)) n < UINT_RANGE)
    (hi : prefixSum (fun c => interiorSize DOFS DERS (layouts c)) n < UINT_RANGE) :
    (iterLoop (initializeInternalStateCluster DOFS DERS m layouts) C
        (⟨0, 0, 0, 0⟩, fun _ => ⟨0, 0, 0, 0, 0, 0⟩)).1
      = { l_offset := prefixSum (fun c => (m c).numberOfGhostCells + (m c).numberOfCopyCells
            + (m c).numberOfInteriorCells) C
          l_ghostPointer := prefixSum (fun c => ghostSize DOFS DERS (layouts c)) C
          l_copyPointer := prefixSum (fun c => copySize DOFS DERS (layouts c)) C
          l_interiorPointer := prefixSum (fun c => interiorSize DOFS DERS (layouts c)) C }
    ∧ ∀ c, c < C →
      (iterLoop (initializeInternalStateCluster DOFS DERS m layouts) C
        (⟨0, 0, 0, 0⟩, fun _ => ⟨0, 0, 0, 0, 0, 0⟩)).2 c
      = { l_ghostPointer := prefixSum (fun c => ghostSize DOFS DERS (layouts c)) c
          ghostOffset := prefixSum (fun c => (m c).numberOfGhostCells
            + (m c).numberOfCopyCells + (m c).numberOfInteriorCells) c
          l_copyPointer := prefixSum (fun c => copySize DOFS DERS (layouts c)) c
          copyOffset := prefixSum (fun c => (m c).numberOfGhostCells
            + (m c).numberOfCopyCells + (m c).numberOfInteriorCells) c
            + (m c).numberOfGhostCells
          l_interiorPointer := prefixSum (fun c => interiorSize DOFS DERS (layouts c)) c
          interiorOffset := prefixSum (fun c => (m c).numberOfGhostCells
            + (m c).numberOfCopyCells + (m c).numberOfInteriorCells) c
            + (m c).numberOfGhostCells + (m c).numberOfCopyCells } := by
  induction C with
  | zero => exact ⟨rfl, fun c hc => absurd hc (Nat.not_lt_zero c)⟩
  | succ C ih =>
    have hlt : C < n := Nat.lt_of_succ_le hC
    have b1 := le_prefixSum (fun c => ghostSize DOFS DERS (layouts c)) hlt
    have b2 := le_prefixSum (fun c => copySize DOFS DERS (layouts c)) hlt
    have b3 := le_prefixSum (fun c => interiorSize DOFS DERS (layouts c)) hlt
    simp only [] at b1 b2 b3
    obtain ⟨h1, h2⟩ := ih (Nat.le_of_lt hlt)
    rw [iterLoop_succ]
    constructor
    · have u1 : umul DOFS (layouts C).m_numberOfGhostBuffers
          + umul DERS (layouts C).m_numberOfGhostDerivatives
          = ghostSize DOFS DERS (layouts C) :=
        umul_add_umul_eq _ _ _ _ (lt_of_le_of_lt b1 hg)
      have u2 : umul DOFS (layouts C).m_numberOfCopyBuffers
          + umul DERS (layouts C).m_numberOfCopyDerivatives
          = copySize DOFS DERS (layouts C) :=
        umul_add_umul_eq _ _ _ _ (lt_of_le_of_lt b2 hc)
      have u3 : umul DOFS (layouts C).m_numberOfInteriorBuffers
          + umul DERS (layouts C).m_numberOfInteriorDerivatives
          = interiorSize DOFS DERS (layouts C) :=
        umul_add_umul_eq _ _ _ _ (lt_of_le_of_lt b3 hi)
      rw [initializeInternalStateCluster_fst, h1]
      simp only [prefixSum_succ, InternalCursor.mk.injEq]
      refine ⟨by omega, by omega, by omega, by omega⟩
    · intro c hcl
      rw [initializeInternalStateCluster_snd]
      rcases Nat.lt_succ_iff_lt_or_eq.1 hcl with h' | h'
      · rw [Function.update_noteq (Nat.ne_of_lt h')]
        exact h2 c h'
      · subst h'
        rw [Function.update_same, h1]

/-! ## C18: the sub-ranges of the clusters in the three layers -/

/-- C18 (failing input).  Two clusters of 4261413 interior cells each, all
with a buffer, and slots of 504 reals: each cluster takes 2147752152 reals.
`allocateInternalState` computes the interior size in an `unsigned int`,
537008 reals; `initializeInternalState` starts the second cluster at
2147752152 and ends it at 4295504304, beyond the size allocated. -/
theorem internalState_exceeds_allocation :
    allocateInternalState 504 1134 2 (fun _ => interiorMesh 4261413)
        (fun _ => interiorLayout 4261413) = (0, 0, 537008)
    ∧ ((initializeInternalState 504 1134 2 (fun _ => interiorMesh 4261413)
        (fun _ => interiorLayout 4261413)).2 1).l_interiorPointer = 2147752152
    ∧ (initializeInternalState 504 1134 2 (fun _ => interiorMesh 4261413)
        (fun _ => interiorLayout 4261413)).1.l_interiorPointer = 4295504304 := by
  refine ⟨by decide!, by decide!, by decide!⟩

/-- Layers below `2^32` reals.  Let the counts of every cluster have the
totals of `deriveLayerLayouts`, and let the size of each layer, the sum over
the clusters of `DOFS` times the number of buffers plus `DERS` times the
number of derivatives, be below `2^32`.  In each layer (ghost, copy, interior) the
sub-range that `initializeInternalState` hands to cluster `c` starts at the
sum of the sizes of the clusters before `c`, so consecutive sub-ranges are
disjoint and without gaps, and the end of the last sub-range is the size
that `allocateInternalState` computes for the layer. -/
theorem internalState_tiles_allocation (DOFS DERS m_numberOfClusters : Nat)
    (m_meshStructure : Nat → MeshStructure) (layouts : Nat → LayerLayout)
    (hT : ∀ c, c < m_numberOfClusters → LayoutTotals (m_meshStructure c) (layouts c))
    (hg : prefixSum (fun c => ghostSize DOFS DERS (layouts c)) m_numberOfClusters < UINT_RANGE)
    (hc : prefixSum (fun c => copySize DOFS DERS (layouts c)) m_numberOfClusters < UINT_RANGE)
    (hi : prefixSum (fun c => interiorSize DOFS DERS (layouts c)) m_numberOfClusters
      < UINT_RANGE) :
    (∀ c, c < m_numberOfClusters →
      ((initializeInternalState DOFS DERS m_numberOfClusters m_meshStructure layouts).2
          c).l_ghostPointer
        = prefixSum (fun c => ghostSize DOFS DERS (layouts c)) c
      ∧ ((initializeInternalState DOFS DERS m_numberOfClusters m_meshStructure layouts).2
          c).l_copyPointer
        = prefixSum (fun c => copySize DOFS DERS (layouts c)) c
      ∧ ((initializeInternalState DOFS DERS m_numberOfClusters m_meshStructure layouts).2
          c).l_interiorPointer
        = prefixSum (fun c => interiorSize DOFS DERS (layouts c)) c)
    ∧ allocateInternalState DOFS DERS m_numberOfClusters m_meshStructure layouts
      = (prefixSum (fun c => ghostSize DOFS DERS (layouts c)) m_numberOfClusters,
          prefixSum (fun c => copySize DOFS DERS (layouts c)) m_numberOfClusters,
          prefixSum (fun c => interiorSize DOFS DERS (layouts c)) m_numberOfClusters)
    ∧ (initializeInternalState DOFS DERS m_numberOfClusters m_meshStructure
        layouts).1.l_ghostPointer
      = (allocateInternalState DOFS DERS m_numberOfClusters m_meshStructure layouts).1
    ∧ (initializeInternalState DOFS DERS m_numberOfClusters m_meshStructure
        layouts).1.l_copyPointer
      = (allocateInternalState DOFS DERS m_numberOfClusters m_meshStructure layouts).2.1
    ∧ (initializeInternalState DOFS DERS m_numberOfClusters m_meshStructure
        layouts).1.l_interiorPointer
      = (allocateInternalState DOFS DERS m_numberOfClusters m_meshStructure layouts).2.2 := by
  obtain ⟨h1, h2⟩ := iterLoop_initializeInternalStateCluster DOFS DERS m_meshStructure layouts
    m_numberOfClusters m_numberOfClusters (le_refl _) hg hc hi
  have ha := iterLoop_allocateClusterSizes DOFS DERS m_meshStructure layouts
    m_numberOfClusters m_numberOfClusters (le_refl _) hT hg hc hi
  have ha' : allocateInternalState DOFS DERS m_numberOfClusters m_meshStructure layouts
      = (prefixSum (fun c => ghostSize DOFS DERS (layouts c)) m_numberOfClusters,
          prefixSum (fun c => copySize DOFS DERS (layouts c)) m_numberOfClusters,
          prefixSum (fun c => interiorSize DOFS DERS (layouts c)) m_numberOfClusters) := ha
  have h1' : (initializeInternalState DOFS DERS m_numberOfClusters m_meshStructure layouts).1
      = _ := h1
  refine ⟨?_, ha', ?_, ?_, ?_⟩
  · intro c hlt
    have e : (initializeInternalState DOFS DERS m_numberOfClusters m_meshStructure layouts).2 c
        = _ := h2 c hlt
    rw [e]
    exact ⟨rfl, rfl, rfl⟩
  · rw [h1', ha']
  · rw [h1', ha']
  · rw [h1', ha']

/-- Two clusters of 3 interior cells with a buffer each and slots of 504
reals: the clusters start at 0 and 1512 and 3024 reals are allocated. -/
theorem internalState_tiles_allocation_witness :
    ((initializeInternalState 504 1134 2 (fun _ => interiorMesh 3)
        (fun _ => interiorLayout 3)).2 1).l_interiorPointer
      = prefixSum (fun _ => interiorSize 504 1134 (interiorLayout 3)) 1
    ∧ allocateInternalState 504 1134 2 (fun _ => interiorMesh 3) (fun _ => interiorLayout 3)
      = (prefixSum (fun _ => ghostSize 504 1134 (interiorLayout 3)) 2,
          prefixSum (fun _ => copySize 504 1134 (interiorLayout 3)) 2,
          prefixSum (fun _ => interiorSize 504 1134 (interiorLayout 3)) 2) :=
  ⟨((internalState_tiles_allocation 504 1134 2 (fun _ => interiorMesh 3)
      (fun _ => interiorLayout 3) (fun _ _ => ⟨rfl, rfl, rfl, rfl⟩) (by decide!) (by decide!)
      (by decide!)).1 1 (by decide)).2.2,
    (internalState_tiles_allocation 504 1134 2 (fun _ => interiorMesh 3)
      (fun _ => interiorLayout 3) (fun _ _ => ⟨rfl, rfl, rfl, rfl⟩) (by decide!) (by decide!)
      (by decide!)).2.1⟩

/-! ## The face neighbor pointers -/

theorem setFaceNeighbor_same (fn : Nat → Nat → Option Nat) (L f : Nat) (p : Option Nat) :
    setFaceNeighbor fn L f p L f = p := by
  simp [setFaceNeighbor]

theorem setFaceNeighbor_face (fn : Nat → Nat → Option Nat) (L f g : Nat) (p : Option Nat)
    (h : g ≠ f) : setFaceNeighbor fn L f p L g = fn L g := by
  simp [setFaceNeighbor, Function.update_noteq h]

theorem setFaceNeighbor_cell (fn : Nat → Nat → Option Nat) (L f j : Nat) (p : Option Nat)
    (h : j ≠ L) : setFaceNeighbor fn L f p j = fn j := by
  simp [setFaceNeighbor, Function.update_noteq h]

theorem ltsBit_of_ne {x f : Nat} (h : (x >>> f) % 2 ≠ 0) : ltsBit x f = true := by
  simp [ltsBit, h]

theorem ltsBit_of_eq {x f : Nat} (h : (x >>> f) % 2 = 0) : ltsBit x f = false := by
  simp [ltsBit, h]

/-- A face whose asserts hold gets its pointer. -/
theorem initializeFace_some (b d : Nat → Option Nat) (c : CellLocalInformation)
    (L G f : Nat) (fn : Nat → Nat → Option Nat) (h : FaceAssert b d c (L + G) f) :
    initializeFace b d c L G f fn
      = some (setFaceNeighbor fn L f (facePointer b d c (L + G) f)) := by
  unfold FaceAssert facePointer at h
  unfold initializeFace facePointer
  by_cases h1 : c.faceTypes f = FaceType.regular ∨ c.faceTypes f = FaceType.periodic
      ∨ c.faceTypes f = FaceType.dynamicRupture
  · have hno : c.faceTypes f ≠ FaceType.outflow := by
      rcases h1 with h1 | h1 | h1 <;> rw [h1] <;> decide
    rw [if_pos h1] at h
    rw [if_pos h1, if_pos h1]
    rcases h with h | h
    · exact absurd h hno
    · by_cases hb : (c.ltsSetup >>> f) % 2 ≠ 0
      · rw [ltsBit_of_ne hb, if_pos rfl] at h
        rw [ltsBit_of_ne hb, if_pos rfl]
        simp only [if_pos hb]
        rw [if_pos h]
      · have hb0 : (c.ltsSetup >>> f) % 2 = 0 := not_not.mp hb
        rw [ltsBit_of_eq hb0, if_neg (by decide)] at h
        simp only [ltsBit_of_eq hb0, Bool.false_eq_true, if_false, if_neg hb]
        rw [if_pos h]
  · rw [if_neg h1] at h
    rw [if_neg h1, if_neg h1]
    by_cases h2 : c.faceTypes f = FaceType.freeSurface
    · have hno : c.faceTypes f ≠ FaceType.outflow := by rw [h2]; decide
      rw [if_pos h2] at h
      rw [if_pos h2, if_pos h2]
      rcases h with h | h
      · exact absurd h hno
      · by_cases hb : (c.ltsSetup >>> f) % 2 = 0
        · rw [ltsBit_of_eq hb, if_neg (by decide)] at h
          simp only [ltsBit_of_eq hb, Bool.false_eq_true, if_false, if_pos hb]
          rw [if_pos h]
        · rw [ltsBit_of_ne hb, if_pos rfl] at h
          rw [ltsBit_of_ne hb, if_pos rfl]
          simp only [if_neg hb]
          rw [if_pos h]
    · rw [if_neg h2] at h
      rw [if_neg h2, if_neg h2]
      rcases h with h | h
      · rw [if_pos h]
      · exact absurd rfl h

/-- A face with a failing assert ends the run. -/
theorem initializeFace_none (b d : Nat → Option Nat) (c : CellLocalInformation)
    (L G f : Nat) (fn : Nat → Nat → Option Nat) (h : ¬ FaceAssert b d c (L + G) f) :
    initializeFace b d c L G f fn = none := by
  unfold FaceAssert facePointer at h
  unfold initializeFace
  rw [not_or, not_not] at h
  obtain ⟨hno, h⟩ := h
  by_cases h1 : c.faceTypes f = FaceType.regular ∨ c.faceTypes f = FaceType.periodic
      ∨ c.faceTypes f = FaceType.dynamicRupture
  · rw [if_pos h1] at h
    rw [if_pos h1]
    by_cases hb : (c.ltsSetup >>> f) % 2 ≠ 0
    · rw [ltsBit_of_ne hb, if_pos rfl] at h
      simp only [if_pos hb]
      rw [if_neg (not_not.mpr h)]
    · have hb0 : (c.ltsSetup >>> f) % 2 = 0 := not_not.mp hb
      rw [ltsBit_of_eq hb0, if_neg (by decide)] at h
      simp only [if_neg hb]
      rw [if_neg (not_not.mpr h)]
  · rw [if_neg h1] at h
    rw [if_neg h1]
    by_cases h2 : c.faceTypes f = FaceType.freeSurface
    · rw [if_pos h2] at h
      rw [if_pos h2]
      by_cases hb : (c.ltsSetup >>> f) % 2 = 0
      · rw [ltsBit_of_eq hb, if_neg (by decide)] at h
        simp only [if_pos hb]
        rw [if_neg (not_not.mpr h)]
      · rw [ltsBit_of_ne hb, if_pos rfl] at h
        simp only [if_neg hb]
        rw [if_neg (not_not.mpr h)]
    · rw [if_neg h2, if_neg hno]

/-- The loop over the faces of a cell in `initializeFaceNeighbors` when the
asserts hold: the faces of the cell get their pointers and the pointers of
the other cells stay. -/
theorem forLoop_initializeFace_some (b d : Nat → Option Nat) (c : CellLocalInformation)
    (L G : Nat) (fn : Nat → Nat → Option Nat) (F : Nat)
    (h : ∀ f, f < F → FaceAssert b d c (L + G) f) :
    ∃ fn', forLoop (initializeFace b d c L G) F fn = some fn'
      ∧ (∀ f, f < F → fn' L f = facePointer b d c (L + G) f)
      ∧ ∀ j, j ≠ L → fn' j = fn j := by
  induction F with
  | zero => exact ⟨fn, rfl, fun f hf => absurd hf (Nat.not_lt_zero f), fun _ _ => rfl⟩
  | succ F ih =>
    obtain ⟨fn1, h1, h2, h3⟩ := ih (fun f hf => h f (Nat.lt_succ_of_lt hf))
    refine ⟨setFaceNeighbor fn1 L F (facePointer b d c (L + G) F), ?_, ?_, ?_⟩
    · rw [forLoop_succ, h1, Option.some_bind, initializeFace_some b d c L G F fn1
        (h F (Nat.lt_succ_self F))]
    · intro f hf
      by_cases e : f = F
      · subst e
        exact setFaceNeighbor_same fn1 L f _
      · rw [setFaceNeighbor_face fn1 L F f _ e]
        exact h2 f (by omega)
    · intro j hj
      rw [setFaceNeighbor_cell fn1 L F j _ hj]
      exact h3 j hj

/-- The loop over the faces of a cell ends the run at a failing assert. -/
theorem forLoop_initializeFace_none (b d : Nat → Option Nat) (c : CellLocalInformation)
    (L G : Nat) (fn : Nat → Nat → Option Nat) (F : Nat)
    (h : ∃ f, f < F ∧ ¬ FaceAssert b d c (L + G) f) :
    forLoop (initializeFace b d c L G) F fn = none := by
  induction F with
  | zero =>
    obtain ⟨f, hf, -⟩ := h
    exact absurd hf (Nat.not_lt_zero f)
  | succ F ih =>
    obtain ⟨f, hf, hn⟩ := h
    rw [forLoop_succ]
    by_cases e : f = F
    · subst e
      cases h1 : forLoop (initializeFace b d c L G) f fn with
      | none => rfl
      | some fn1 => rw [Option.some_bind, initializeFace_none b d c L G f fn1 hn]
    · rw [ih ⟨f, by omega, hn⟩]
      rfl

theorem initializeCellFaces_eq (b d : Nat → Option Nat) (ms : MeshStructure)
    (ptr : LayerPointers) (cells : Nat → CellLocalInformation) (k : Nat)
    (st : FaceNeighborState) :
    initializeCellFaces b d ms ptr cells k st
      = (forLoop (initializeFace b d (faceCellInformation ms ptr cells k) st.l_cell
          st.l_ghostOffset) 4 st.faceNeighbors).map
        fun faceNeighbors =>
          { l_cell := st.l_cell + 1, l_ghostOffset := st.l_ghostOffset,
            faceNeighbors := faceNeighbors } := rfl

/-- The loop over the cells of a cluster in `initializeFaceNeighbors` when
the asserts hold. -/
theorem forLoop_initializeCellFaces_some (b d : Nat → Option Nat) (ms : MeshStructure)
    (ptr : LayerPointers) (cells : Nat → CellLocalInformation) (st : FaceNeighborState)
    (K : Nat)
    (h : ∀ k, k < K → ∀ f, f < 4 → FaceAssert b d (faceCellInformation ms ptr cells k)
      (st.l_cell + k + st.l_ghostOffset) f) :
    ∃ st', forLoop (initializeCellFaces b d ms ptr cells) K st = some st'
      ∧ st'.l_cell = st.l_cell + K ∧ st'.l_ghostOffset = st.l_ghostOffset
      ∧ (∀ k, k < K → ∀ f, f < 4 → st'.faceNeighbors (st.l_cell + k) f
          = facePointer b d (faceCellInformation ms ptr cells k)
            (st.l_cell + k + st.l_ghostOffset) f)
      ∧ ∀ j, j < st.l_cell → st'.faceNeighbors j = st.faceNeighbors j := by
  induction K with
  | zero =>
    exact ⟨st, rfl, rfl, rfl, fun k hk => absurd hk (Nat.not_lt_zero k), fun _ _ => rfl⟩
  | succ K ih =>
    obtain ⟨st1, h1, h2, h3, h4, h5⟩ := ih (fun k hk => h k (Nat.lt_succ_of_lt hk))
    have hK : ∀ f, f < 4 → FaceAssert b d (faceCellInformation ms ptr cells K)
        (st1.l_cell + st1.l_ghostOffset) f := by
      intro f hf
      rw [h2, h3]
      exact h K (Nat.lt_succ_self K) f hf
    obtain ⟨fn', g1, g2, g3⟩ := forLoop_initializeFace_some b d
      (faceCellInformation ms ptr cells K) st1.l_cell st1.l_ghostOffset st1.faceNeighbors 4 hK
    refine ⟨⟨st1.l_cell + 1, st1.l_ghostOffset, fn'⟩, ?_, ?_, h3, ?_, ?_⟩
    · rw [forLoop_succ, h1, Option.some_bind, initializeCellFaces_eq, g1, Option.map_some']
    · show st1.l_cell + 1 = st.l_cell + (K + 1)
      omega
    · intro k hk f hf
      show fn' (st.l_cell + k) f = _
      by_cases e : k = K
      · subst e
        rw [← h2, g2 f hf, h3]
      · rw [g3 (st.l_cell + k) (by omega)]
        exact h4 k (by omega) f hf
    · intro j hj
      show fn' j = _
      rw [g3 j (by omega)]
      exact h5 j hj

/-- The loop over the cells of a cluster ends the run at a failing assert. -/
theorem forLoop_initializeCellFaces_none (b d : Nat → Option Nat) (ms : MeshStructure)
    (ptr : LayerPointers) (cells : Nat → CellLocalInformation) (st : FaceNeighborState)
    (K : Nat)
    (h : ∃ k, k < K ∧ ∃ f, f < 4 ∧ ¬ FaceAssert b d (faceCellInformation ms ptr cells k)
      (st.l_cell + k + st.l_ghostOffset) f) :
    forLoop (initializeCellFaces b d ms ptr cells) K st = none := by
  induction K with
  | zero =>
    obtain ⟨k, hk, -⟩ := h
    exact absurd hk (Nat.not_lt_zero k)
  | succ K ih =>
    rw [forLoop_succ]
    by_cases hp : ∃ k, k < K ∧ ∃ f, f < 4 ∧ ¬ FaceAssert b d
        (faceCellInformation ms ptr cells k) (st.l_cell + k + st.l_ghostOffset) f
    · rw [ih hp]
      rfl
    · have hall : ∀ k, k < K → ∀ f, f < 4 → FaceAssert b d
          (faceCellInformation ms ptr cells k) (st.l_cell + k + st.l_ghostOffset) f := by
        intro k hk f hf
        by_contra hn
        exact hp ⟨k, hk, f, hf, hn⟩
      obtain ⟨st1, h1, h2, h3, -, -⟩ :=
        forLoop_initializeCellFaces_some b d ms ptr cells st K hall
      obtain ⟨k, hk, f, hf, hn⟩ := h
      have e : k = K := by
        by_contra hne
        exact hp ⟨k, by omega, f, hf, hn⟩
      subst e
      rw [h1, Option.some_bind, initializeCellFaces_eq,
        forLoop_initializeFace_none b d _ st1.l_cell st1.l_ghostOffset st1.faceNeighbors 4
          ⟨f, hf, by rw [h2, h3]; exact hn⟩]
      rfl

theorem initializeClusterFaces_eq (b d : Nat → Option Nat) (m : Nat → MeshStructure)
    (ptrs : Nat → LayerPointers) (cells : Nat → CellLocalInformation) (c : Nat)
    (st : FaceNeighborState) :
    initializeClusterFaces b d m ptrs cells c st
      = forLoop (initializeCellFaces b d (m c) (ptrs c) cells)
          ((m c).numberOfCopyCells + (m c).numberOfInteriorCells)
          ⟨st.l_cell, st.l_ghostOffset + (m c).numberOfGhostCells, st.faceNeighbors⟩ := rfl

theorem firstFaceCell_succ (m : Nat → MeshStructure) (c : Nat) :
    firstFaceCell m (c + 1)
      = firstFaceCell m c + ((m c).numberOfCopyCells + (m c).numberOfInteriorCells) := rfl

theorem ghostOffsetOf_eq (m : Nat → MeshStructure) (c : Nat) :
    ghostOffsetOf m c
      = prefixSum (fun c => (m c).numberOfGhostCells) c + (m c).numberOfGhostCells := rfl

theorem firstFaceCell_add_le (m : Nat → MeshStructure) {c C : Nat} (h : c < C) :
    firstFaceCell m c + ((m c).numberOfCopyCells + (m c).numberOfInteriorCells)
      ≤ firstFaceCell m C :=
  prefixSum_succ_le (fun c => (m c).numberOfCopyCells + (m c).numberOfInteriorCells) h

/-- The loop over the clusters in `initializeFaceNeighbors` when the asserts
hold: `l_cell` and `l_ghostOffset` after `C` clusters, and the pointers of
the faces of the cells of these clusters. -/
theorem forLoop_initializeClusterFaces_some (b d : Nat → Option Nat)
    (m : Nat → MeshStructure) (ptrs : Nat → LayerPointers)
    (cells : Nat → CellLocalInformation) (fn0 : Nat → Nat → Option Nat) (C : Nat)
    (h : ∀ c, c < C → ∀ k, k < (m c).numberOfCopyCells + (m c).numberOfInteriorCells →
      ∀ f, f < 4 → FaceAssert b d (faceCellInformation (m c) (ptrs c) cells k)
        (firstFaceCell m c + k + ghostOffsetOf m c) f) :
    ∃ st, forLoop (initializeClusterFaces b d m ptrs cells) C ⟨0, 0, fn0⟩ = some st
      ∧ st.l_cell = firstFaceCell m C
      ∧ st.l_ghostOffset = prefixSum (fun c => (m c).numberOfGhostCells) C
      ∧ ∀ c, c < C → ∀ k, k < (m c).numberOfCopyCells + (m c).numberOfInteriorCells →
        ∀ f, f < 4 → st.faceNeighbors (firstFaceCell m c + k) f
          = facePointer b d (faceCellInformation (m c) (ptrs c) cells k)
            (firstFaceCell m c + k + ghostOffsetOf m c) f := by
  induction C with
  | zero =>
    exact ⟨⟨0, 0, fn0⟩, rfl, rfl, rfl, fun c hc => absurd hc (Nat.not_lt_zero c)⟩
  | succ C ih =>
    obtain ⟨st1, h1, h2, h3, h4⟩ := ih (fun c hc => h c (Nat.lt_succ_of_lt hc))
    have hC : ∀ k, k < (m C).numberOfCopyCells + (m C).numberOfInteriorCells →
        ∀ f, f < 4 → FaceAssert b d (faceCellInformation (m C) (ptrs C) cells k)
          ((⟨st1.l_cell, st1.l_ghostOffset + (m C).numberOfGhostCells,
            st1.faceNeighbors⟩ : FaceNeighborState).l_cell + k
            + (⟨st1.l_cell, st1.l_ghostOffset + (m C).numberOfGhostCells,
            st1.faceNeighbors⟩ : FaceNeighborState).l_ghostOffset) f := by
      intro k hk f hf
      show FaceAssert b d _ (st1.l_cell + k + (st1.l_ghostOffset + (m C).numberOfGhostCells)) f
      rw [h2, h3, ← ghostOffsetOf_eq]
      exact h C (Nat.lt_succ_self C) k hk f hf
    obtain ⟨st2, g1, g2, g3, g4, g5⟩ := forLoop_initializeCellFaces_some b d (m C) (ptrs C)
      cells ⟨st1.l_cell, st1.l_ghostOffset + (m C).numberOfGhostCells, st1.faceNeighbors⟩
      ((m C).numberOfCopyCells + (m C).numberOfInteriorCells) hC
    refine ⟨st2, ?_, ?_, ?_, ?_⟩
    · rw [forLoop_succ, h1, Option.some_bind, initializeClusterFaces_eq, g1]
    · rw [g2, firstFaceCell_succ]
      show st1.l_cell + _ = _
      rw [h2]
    · rw [g3]
      show st1.l_ghostOffset + _ = _
      rw [h3]
      rfl
    · intro c hc k hk f hf
      by_cases e : c = C
      · subst e
        have := g4 k hk f hf
        simp only [] at this
        rw [h2, h3, ← ghostOffsetOf_eq] at this
        exact this
      · have hlt : c < C := by omega
        have hle := firstFaceCell_add_le m hlt
        have := g5 (firstFaceCell m c + k) (by
          show firstFaceCell m c + k < st1.l_cell
          rw [h2]
          omega)
        rw [this]
        exact h4 c hlt k hk f hf

/-- The loop over the clusters ends the run at a failing assert. -/
theorem forLoop_initializeClusterFaces_none (b d : Nat → Option Nat)
    (m : Nat → MeshStructure) (ptrs : Nat → LayerPointers)
    (cells : Nat → CellLocalInformation) (fn0 : Nat → Nat → Option Nat) (C : Nat)
    (h : ∃ c, c < C ∧ ∃ k, k < (m c).numberOfCopyCells + (m c).numberOfInteriorCells ∧
      ∃ f, f < 4 ∧ ¬ FaceAssert b d (faceCellInformation (m c) (ptrs c) cells k)
        (firstFaceCell m c + k + ghostOffsetOf m c) f) :
    forLoop (initializeClusterFaces b d m ptrs cells) C ⟨0, 0, fn0⟩ = none := by
  induction C with
  | zero =>
    obtain ⟨c, hc, -⟩ := h
    exact absurd hc (Nat.not_lt_zero c)
  | succ C ih =>
    rw [forLoop_succ]
    by_cases hp : ∃ c, c < C ∧ ∃ k, k < (m c).numberOfCopyCells + (m c).numberOfInteriorCells ∧
        ∃ f, f < 4 ∧ ¬ FaceAssert b d (faceCellInformation (m c) (ptrs c) cells k)
          (firstFaceCell m c + k + ghostOffsetOf m c) f
    · rw [ih hp]
      rfl
    · have hall : ∀ c, c < C → ∀ k,
          k < (m c).numberOfCopyCells + (m c).numberOfInteriorCells →
          ∀ f, f < 4 → FaceAssert b d (faceCellInformation (m c) (ptrs c) cells k)
            (firstFaceCell m c + k + ghostOffsetOf m c) f := by
        intro c hc k hk f hf
        by_contra hn
        exact hp ⟨c, hc, k, hk, f, hf, hn⟩
      obtain ⟨st1, h1, h2, h3, -⟩ :=
        forLoop_initializeClusterFaces_some b d m ptrs cells fn0 C hall
      obtain ⟨c, hc, k, hk, f, hf, hn⟩ := h
      have e : c = C := by
        by_contra hne
        exact hp ⟨c, by omega, k, hk, f, hf, hn⟩
      subst e
      rw [h1, Option.some_bind, initializeClusterFaces_eq]
      apply forLoop_initializeCellFaces_none
      refine ⟨k, hk, f, hf, ?_⟩
      show ¬ FaceAssert b d _ (st1.l_cell + k + (st1.l_ghostOffset + (m c).numberOfGhostCells)) f
      rw [h2, h3, ← ghostOffsetOf_eq]
      exact hn

/-- When the asserts hold `initializeFaceNeighbors` returns, and every face
of every cell of the copy layers and interiors has the pointer of
`facePointer`. -/
theorem initializeFaceNeighbors_some (n : Nat) (m : Nat → MeshStructure)
    (ptrs : Nat → LayerPointers) (cells : Nat → CellLocalInformation)
    (b d : Nat → Option Nat) (fn0 : Nat → Nat → Option Nat)
    (h : FaceAssertsHold n m ptrs cells b d) :
    ∃ st, initializeFaceNeighbors n m ptrs cells b d fn0 = some st
      ∧ ∀ c, c < n → ∀ k, k < (m c).numberOfCopyCells + (m c).numberOfInteriorCells →
        ∀ f, f < 4 → st.faceNeighbors (firstFaceCell m c + k) f
          = facePointer b d (faceCellInformation (m c) (ptrs c) cells k)
            (firstFaceCell m c + k + ghostOffsetOf m c) f := by
  obtain ⟨st, h1, -, -, h4⟩ := forLoop_initializeClusterFaces_some b d m ptrs cells fn0 n h
  exact ⟨st, h1, h4⟩

/-- When an assert fails `initializeFaceNeighbors` does not return. -/
theorem initializeFaceNeighbors_none (n : Nat) (m : Nat → MeshStructure)
    (ptrs : Nat → LayerPointers) (cells : Nat → CellLocalInformation)
    (b d : Nat → Option Nat) (fn0 : Nat → Nat → Option Nat)
    (h : ¬ FaceAssertsHold n m ptrs cells b d) :
    initializeFaceNeighbors n m ptrs cells b d fn0 = none := by
  apply forLoop_initializeClusterFaces_none
  unfold FaceAssertsHold at h
  push_neg at h
  obtain ⟨c, hc, k, hk, f, hf, hn⟩ := h
  exact ⟨c, hc, k, hk, f, hf, hn⟩

/-- The cell offsets that `initializeInternalState` passes for a cluster:
the ghost cells of the cluster start after the cells of the clusters before
it, its copy cells after its ghost cells, its interior cells after its copy
cells. -/
theorem initializeInternalState_offsets (DOFS DERS : Nat) (m : Nat → MeshStructure)
    (layouts : Nat → LayerLayout) (C : Nat) :
    (iterLoop (initializeInternalStateCluster DOFS DERS m layouts) C
        (⟨0, 0, 0, 0⟩, fun _ => ⟨0, 0, 0, 0, 0, 0⟩)).1.l_offset
      = prefixSum (fun c => (m c).numberOfGhostCells + (m c).numberOfCopyCells
          + (m c).numberOfInteriorCells) C
    ∧ ∀ c, c < C →
      ((iterLoop (initializeInternalStateCluster DOFS DERS m layouts) C
        (⟨0, 0, 0, 0⟩, fun _ => ⟨0, 0, 0, 0, 0, 0⟩)).2 c).copyOffset
        = prefixSum (fun c => (m c).numberOfGhostCells + (m c).numberOfCopyCells
          + (m c).numberOfInteriorCells) c + (m c).numberOfGhostCells
      ∧ ((iterLoop (initializeInternalStateCluster DOFS DERS m layouts) C
        (⟨0, 0, 0, 0⟩, fun _ => ⟨0, 0, 0, 0, 0, 0⟩)).2 c).interiorOffset
        = prefixSum (fun c => (m c).numberOfGhostCells + (m c).numberOfCopyCells
          + (m c).numberOfInteriorCells) c + (m c).numberOfGhostCells
          + (m c).numberOfCopyCells := by
  induction C with
  | zero => exact ⟨rfl, fun c hc => absurd hc (Nat.not_lt_zero c)⟩
  | succ C ih =>
    obtain ⟨h1, h2⟩ := ih
    rw [iterLoop_succ]
    constructor
    · rw [initializeInternalStateCluster_fst]
      show _ + _ + _ + _ = _
      rw [h1, prefixSum_succ]
      omega
    · intro c hcl
      rw [initializeInternalStateCluster_snd]
      rcases Nat.lt_succ_iff_lt_or_eq.1 hcl with h' | h'
      · rw [Function.update_noteq (Nat.ne_of_lt h')]
        exact h2 c h'
      · subst h'
        rw [Function.update_same]
        exact ⟨by rw [h1], by rw [h1]⟩

/-- The sum of the cells of the copy layers and interiors and of the ghost
cells is the sum of all cells. -/
theorem firstFaceCell_add_ghost (m : Nat → MeshStructure) (c : Nat) :
    firstFaceCell m c + prefixSum (fun c => (m c).numberOfGhostCells) c
      = prefixSum (fun c => (m c).numberOfGhostCells + (m c).numberOfCopyCells
          + (m c).numberOfInteriorCells) c := by
  induction c with
  | zero => rfl
  | succ c ih =>
    rw [firstFaceCell_succ, prefixSum_succ, prefixSum_succ, ← ih]
    omega

/-- The asserts hold when no pointer of the arrays is `NULL` and every face
of every cell has one of the five face types handled. -/
theorem faceAssertsHold_of_slots (n : Nat) (m : Nat → MeshStructure)
    (ptrs : Nat → LayerPointers) (cells : Nat → CellLocalInformation)
    (b d : Nat → Option Nat) (hb : ∀ i, b i ≠ none) (hd : ∀ i, d i ≠ none)
    (ht : ∀ j f, f < 4 → (cells j).faceTypes f ≠ FaceType.other) :
    FaceAssertsHold n m ptrs cells b d := by
  intro c _ k _ f hf
  have hty : (faceCellInformation (m c) (ptrs c) cells k).faceTypes f ≠ FaceType.other := by
    unfold faceCellInformation
    split_ifs
    · exact ht _ f hf
    · exact ht _ f hf
  unfold FaceAssert facePointer
  generalize faceCellInformation (m c) (ptrs c) cells k = ci at hty ⊢
  by_cases h1 : ci.faceTypes f = FaceType.regular ∨ ci.faceTypes f = FaceType.periodic
      ∨ ci.faceTypes f = FaceType.dynamicRupture
  · right
    rw [if_pos h1]
    split_ifs
    · exact hd _
    · exact hb _
  · rw [if_neg h1]
    by_cases h2 : ci.faceTypes f = FaceType.freeSurface
    · right
      rw [if_pos h2]
      split_ifs
      · exact hd _
      · exact hb _
    · left
      cases h : ci.faceTypes f with
      | regular => exact absurd (Or.inl h) h1
      | freeSurface => exact absurd h h2
      | outflow => rfl
      | dynamicRupture => exact absurd (Or.inr (Or.inr h)) h1
      | periodic => exact absurd (Or.inr (Or.inl h)) h1
      | other => exact absurd h hty

theorem faceCells_asserts :
    FaceAssertsHold 2 (fun _ => smallMesh) (setUpLayers 2 (fun _ => smallMesh)) faceCells
      slotBuffers slotDerivatives := by
  apply faceAssertsHold_of_slots
  · intro i
    simp [slotBuffers]
  · intro i
    simp [slotDerivatives]
  · intro j f hf
    interval_cases f <;> simp [faceCells]

/-! ## C19: regular, periodic, dynamic rupture and outflow faces -/

/-- C19.  When the asserts of `initializeFaceNeighbors` hold, the call
returns, and for every cell `k` of the copy layer and interior of every
cluster `c` and each of its four faces: over a regular, periodic or dynamic
rupture face the pointer `faceNeighbors[l_cell][face]` is
`derivatives[faceNeighborIds[face]]` when bit `face` of `ltsSetup` is set and
`buffers[faceNeighborIds[face]]` when it is not, and over an outflow face it
is `NULL`. -/
theorem initializeFaceNeighbors_neighbor_faces (m_numberOfClusters : Nat)
    (m_meshStructure : Nat → MeshStructure) (pointers : Nat → LayerPointers)
    (cells : Nat → CellLocalInformation) (buffers derivatives : Nat → Option Nat)
    (faceNeighbors : Nat → Nat → Option Nat)
    (h : FaceAssertsHold m_numberOfClusters m_meshStructure pointers cells buffers
      derivatives) :
    ∃ st, initializeFaceNeighbors m_numberOfClusters m_meshStructure pointers cells buffers
        derivatives faceNeighbors = some st
      ∧ ∀ c, c < m_numberOfClusters →
        ∀ k, k < (m_meshStructure c).numberOfCopyCells
            + (m_meshStructure c).numberOfInteriorCells →
          ∀ face, face < 4 →
            ((faceCellInformation (m_meshStructure c) (pointers c) cells k).faceTypes face
                = FaceType.regular
              ∨ (faceCellInformation (m_meshStructure c) (pointers c) cells k).faceTypes face
                = FaceType.periodic
              ∨ (faceCellInformation (m_meshStructure c) (pointers c) cells k).faceTypes face
                = FaceType.dynamicRupture →
              st.faceNeighbors (firstFaceCell m_meshStructure c + k) face
                = if ltsBit (faceCellInformation (m_meshStructure c) (pointers c) cells
                    k).ltsSetup face
                  then derivatives ((faceCellInformation (m_meshStructure c) (pointers c)
                    cells k).faceNeighborIds face)
                  else buffers ((faceCellInformation (m_meshStructure c) (pointers c)
                    cells k).faceNeighborIds face))
            ∧ ((faceCellInformation (m_meshStructure c) (pointers c) cells k).faceTypes face
                = FaceType.outflow →
              st.faceNeighbors (firstFaceCell m_meshStructure c + k) face = none) := by
  obtain ⟨st, h1, h2⟩ := initializeFaceNeighbors_some m_numberOfClusters m_meshStructure
    pointers cells buffers derivatives faceNeighbors h
  refine ⟨st, h1, ?_⟩
  intro c hc k hk face hf
  rw [h2 c hc k hk face hf]
  unfold facePointer
  constructor
  · intro ht
    rw [if_pos ht]
  · intro ht
    rw [if_neg (by rw [ht]; decide), if_neg (by rw [ht]; decide)]

/-- C19 (witness): two clusters with the layout of `smallMesh` and the cells
`faceCells`.  The first copy cell of the second cluster is cell 4 of the copy
layers and interiors and cell 10 of the cell array, with `ltsSetup` 10: its
regular face 0 (bit 0 clear) has the buffer of its neighbor 10, its periodic
face 3 (bit 3 set) the derivatives of its neighbor 13, its outflow face 2 a
null pointer. -/
theorem initializeFaceNeighbors_neighbor_faces_witness :
    ∃ st, initializeFaceNeighbors 2 (fun _ => smallMesh) (setUpLayers 2 (fun _ => smallMesh))
        faceCells slotBuffers slotDerivatives (fun _ _ => none) = some st
      ∧ st.faceNeighbors 4 0 = some 20 ∧ st.faceNeighbors 4 3 = some 27
      ∧ st.faceNeighbors 4 2 = none := by
  obtain ⟨st, h1, h2⟩ := initializeFaceNeighbors_neighbor_faces 2 (fun _ => smallMesh)
    (setUpLayers 2 (fun _ => smallMesh)) faceCells slotBuffers slotDerivatives
    (fun _ _ => none) faceCells_asserts
  refine ⟨st, h1, ?_, ?_, ?_⟩
  · exact ((h2 1 (by decide) 0 (by decide) 0 (by decide)).1 (Or.inl rfl)).trans rfl
  · exact ((h2 1 (by decide) 0 (by decide) 3 (by decide)).1 (Or.inr (Or.inl rfl))).trans rfl
  · exact (h2 1 (by decide) 0 (by decide) 2 (by decide)).2 rfl

/-! ## C20: free surface faces -/

/-- C20.  When the asserts of `initializeFaceNeighbors` hold, the call
returns, and for every cell `k` of the copy layer and interior of every
cluster `c` and every free surface face of the cell, the pointer
`faceNeighbors[l_cell][face]` is the entry of the cell itself in the pointer
arrays, at the position that `initializeInternalState` gives the cell in the
order of the ghost, copy and interior cells of the clusters:
`derivatives[position]` when bit `face` of `ltsSetup` is set and
`buffers[position]` when it is not. -/
theorem initializeFaceNeighbors_free_surface (DOFS DERS m_numberOfClusters : Nat)
    (m_meshStructure : Nat → MeshStructure) (layouts : Nat → LayerLayout)
    (pointers : Nat → LayerPointers) (cells : Nat → CellLocalInformation)
    (buffers derivatives : Nat → Option Nat) (faceNeighbors : Nat → Nat → Option Nat)
    (h : FaceAssertsHold m_numberOfClusters m_meshStructure pointers cells buffers
      derivatives) :
    ∃ st, initializeFaceNeighbors m_numberOfClusters m_meshStructure pointers cells buffers
        derivatives faceNeighbors = some st
      ∧ ∀ c, c < m_numberOfClusters →
        ∀ k, k < (m_meshStructure c).numberOfCopyCells
            + (m_meshStructure c).numberOfInteriorCells →
          ∀ face, face < 4 →
            (faceCellInformation (m_meshStructure c) (pointers c) cells k).faceTypes face
                = FaceType.freeSurface →
              st.faceNeighbors (firstFaceCell m_meshStructure c + k) face
                = if ltsBit (faceCellInformation (m_meshStructure c) (pointers c) cells
                    k).ltsSetup face
                  then derivatives (ownPosition (m_meshStructure c)
                    ((initializeInternalState DOFS DERS m_numberOfClusters m_meshStructure
                      layouts).2 c) k)
                  else buffers (ownPosition (m_meshStructure c)
                    ((initializeInternalState DOFS DERS m_numberOfClusters m_meshStructure
                      layouts).2 c) k) := by
  obtain ⟨st, h1, h2⟩ := initializeFaceNeighbors_some m_numberOfClusters m_meshStructure
    pointers cells buffers derivatives faceNeighbors h
  refine ⟨st, h1, ?_⟩
  intro c hc k hk face hf ht
  obtain ⟨-, ho⟩ := initializeInternalState_offsets DOFS DERS m_meshStructure layouts
    m_numberOfClusters
  obtain ⟨o1, o2⟩ := ho c hc
  have hpos : ownPosition (m_meshStructure c)
      ((initializeInternalState DOFS DERS m_numberOfClusters m_meshStructure layouts).2 c) k
      = firstFaceCell m_meshStructure c + k + ghostOffsetOf m_meshStructure c := by
    have e := firstFaceCell_add_ghost m_meshStructure c
    have g := ghostOffsetOf_eq m_meshStructure c
    unfold ownPosition initializeInternalState
    split_ifs with hk'
    · rw [o1]
      omega
    · rw [o2]
      omega
  rw [h2 c hc k hk face hf, hpos]
  unfold facePointer
  rw [if_neg (by rw [ht]; decide), if_pos ht]

/-- C20 (witness): two clusters with the layout of `smallMesh` and the cells
`faceCells`; face 1 of every cell is a free surface face.  The first copy
cell of the second cluster (cell 4 of the copy layers and interiors, with bit
1 of `ltsSetup` set) is at position 10 of the pointer arrays and gets its own
derivatives; its last interior cell (cell 7, with bit 1 clear) is at
position 13 and gets its own buffer. -/
theorem initializeFaceNeighbors_free_surface_witness :
    ∃ st, initializeFaceNeighbors 2 (fun _ => smallMesh) (setUpLayers 2 (fun _ => smallMesh))
        faceCells slotBuffers slotDerivatives (fun _ _ => none) = some st
      ∧ st.faceNeighbors 4 1 = slotDerivatives 10 ∧ st.faceNeighbors 7 1 = slotBuffers 13 := by
  obtain ⟨st, h1, h2⟩ := initializeFaceNeighbors_free_surface 504 1134 2 (fun _ => smallMesh)
    (fun _ => emptyLayout) (setUpLayers 2 (fun _ => smallMesh)) faceCells slotBuffers
    slotDerivatives (fun _ _ => none) faceCells_asserts
  refine ⟨st, h1, ?_, ?_⟩
  · exact (h2 1 (by decide) 0 (by decide) 1 (by decide) rfl).trans rfl
  · exact (h2 1 (by decide) 3 (by decide) 1 (by decide) rfl).trans rfl

/-! ## C21: dynamic rupture -/

/-- C21.  `enableDynamicRupture` reports a fatal error exactly when the time
manager has more than one cluster, and with exactly one cluster it enables
dynamic rupture on cluster 0 and reports no error. -/
theorem enableDynamicRupture_fatal_iff (s : TimeManager) (dynamicRupture : Nat → Bool) :
    (enableDynamicRupture s dynamicRupture = Except.error Failure.logError
        ↔ 1 < s.m_timeStepping.numberOfLocalClusters)
    ∧ (s.m_timeStepping.numberOfLocalClusters = 1 →
        enableDynamicRupture s dynamicRupture
          = Except.ok (Function.update dynamicRupture 0 true)) := by
  unfold enableDynamicRupture
  constructor
  · constructor
    · intro h
      by_contra hn
      rw [if_neg hn] at h
      split_ifs at h
      simp at h
    · intro h
      rw [if_pos h]
  · intro h
    rw [if_neg (by omega), if_pos (by omega)]

/-- C21 (witness): with the one cluster of `singleCluster` dynamic rupture is
enabled on cluster 0; with the two clusters of `twoClusters` the fatal error
is reported. -/
theorem enableDynamicRupture_fatal_iff_witness :
    enableDynamicRupture singleCluster (fun _ => false)
        = Except.ok (Function.update (fun _ => false) 0 true)
    ∧ enableDynamicRupture twoClusters (fun _ => false) = Except.error Failure.logError :=
  ⟨(enableDynamicRupture_fatal_iff singleCluster (fun _ => false)).2 rfl,
    (enableDynamicRupture_fatal_iff twoClusters (fun _ => false)).1.2 (by decide)⟩

/-! ## C22: the wave field output -/

theorem wavefield_hdf_write_step_invariant (time : ℚ) (st : WaveFieldOutput)
    (h1 : st.written.Pairwise (· < ·)) (h2 : ∀ t, t ∈ st.written → t ≤ st.lastTimeStep) :
    (wavefield_hdf_write_step time st).written.Pairwise (· < ·)
      ∧ ∀ t, t ∈ (wavefield_hdf_write_step time st).written →
        t ≤ (wavefield_hdf_write_step time st).lastTimeStep := by
  unfold wavefield_hdf_write_step
  split_ifs with h
  · exact ⟨h1, h2⟩
  · push_neg at h
    constructor
    · show (st.written ++ [time]).Pairwise (· < ·)
      rw [List.pairwise_append]
      refine ⟨h1, List.pairwise_singleton _ _, ?_⟩
      intro a ha b hb
      rw [List.mem_singleton] at hb
      subst hb
      exact lt_of_le_of_lt (h2 a ha) h
    · intro t ht
      show t ≤ time
      have ht' : t ∈ st.written ++ [time] := ht
      rw [List.mem_append, List.mem_singleton] at ht'
      rcases ht' with ht' | ht'
      · exact le_of_lt (lt_of_le_of_lt (h2 t ht') h)
      · exact le_of_eq ht'

theorem writeSteps_invariant (times : List ℚ) (st : WaveFieldOutput)
    (h1 : st.written.Pairwise (· < ·)) (h2 : ∀ t, t ∈ st.written → t ≤ st.lastTimeStep) :
    (writeSteps times st).written.Pairwise (· < ·)
      ∧ ∀ t, t ∈ (writeSteps times st).written → t ≤ (writeSteps times st).lastTimeStep := by
  induction times generalizing st with
  | nil => exact ⟨h1, h2⟩
  | cons x xs ih =>
    obtain ⟨g1, g2⟩ := wavefield_hdf_write_step_invariant x st h1 h2
    exact ih _ g1 g2

/-- C22.  After every sequence of calls of `wavefield_hdf_write_step` from
program start, the times passed on to the wave field writer are strictly
increasing in the order of the calls, so no time is written twice; and in
every state a call with a time that is not greater than `lastTimeStep`
writes nothing and leaves `lastTimeStep` unchanged. -/
theorem wavefield_hdf_write_step_increasing (times : List ℚ) :
    (writeSteps times initialWaveFieldOutput).written.Pairwise (· < ·)
    ∧ (writeSteps times initialWaveFieldOutput).written.Nodup
    ∧ ∀ (st : WaveFieldOutput) (time : ℚ), time ≤ st.lastTimeStep →
        wavefield_hdf_write_step time st = st := by
  have h := (writeSteps_invariant times initialWaveFieldOutput List.Pairwise.nil
    (fun t ht => absurd ht (List.not_mem_nil t))).1
  refine ⟨h, ?_, ?_⟩
  · exact h.imp (fun hab => ne_of_lt hab)
  · intro st time ht
    unfold wavefield_hdf_write_step
    rw [if_pos ht]

/-- C22 (witness): the calls with the times 0, 1, 1, 1/2, 2 write the times
0, 1, 2. -/
theorem wavefield_hdf_write_step_increasing_witness :
    (writeSteps [0, 1, 1, 1 / 2, 2] initialWaveFieldOutput).written = [0, 1, 2]
    ∧ (writeSteps [0, 1, 1, 1 / 2, 2] initialWaveFieldOutput).written.Pairwise (· < ·) :=
  ⟨by decide!, (wavefield_hdf_write_step_increasing [0, 1, 1, 1 / 2, 2]).1⟩

/-! ## C23: the pointer to the inverse mass matrix -/

/-- The call of `setInverseMassMatrix` in the constructor leaves the field
`m_globalData.inverseMassMatrix` as it was. -/
theorem setGlobalData_inverseMassMatrix (mm : MatrixPointers) (g : GlobalData) :
    (setGlobalData mm g).inverseMassMatrix = g.inverseMassMatrix := rfl

/-- The sibling `setFluxMatrices` sets the 52 pointers of the global data. -/
theorem setGlobalData_fluxMatrices (mm : MatrixPointers) (g : GlobalData) (l : Nat)
    (hl : l < 52) : (setGlobalData mm g).fluxMatrices l = mm.m_fluxMatrixPointers l := by
  show setFluxMatrices mm g.fluxMatrices l = _
  unfold setFluxMatrices
  have key : ∀ n, l < n →
      iterLoop (fun l_matrix o => Function.update o l_matrix (mm.m_fluxMatrixPointers l_matrix))
        n g.fluxMatrices l = mm.m_fluxMatrixPointers l := by
    intro n
    induction n with
    | zero => intro h; omega
    | succ n ih =>
      intro h
      rw [iterLoop_succ]
      by_cases e : l = n
      · subst e
        rw [Function.update_same]
      · rw [Function.update_noteq e]
        exact ih (by omega)
  exact key 52 hl

/-- C23 (failing input).  The pointers of `samplePointers` (inverse mass
matrix at address 5800) and global data whose field `inverseMassMatrix` is
`NULL`: after the four calls of the constructor the flux and stiffness
pointers of the global data are set, and the field `inverseMassMatrix` is
still `NULL`, not `m_inverseMassMatrixPointer`. -/
theorem setInverseMassMatrix_leaves_field :
    (setGlobalData samplePointers nullGlobalData).inverseMassMatrix = none
    ∧ samplePointers.m_inverseMassMatrixPointer = some 5800
    ∧ (setGlobalData samplePointers nullGlobalData).fluxMatrices 51 = some 5700
    ∧ (setGlobalData samplePointers nullGlobalData).stiffnessMatrices 2 = some 500
    ∧ (setGlobalData samplePointers nullGlobalData).stiffnessMatricesTransposed 0
        = some 0 := by
  refine ⟨rfl, rfl, ?_, ?_, ?_⟩
  · rw [setGlobalData_fluxMatrices _ _ 51 (by decide)]
    rfl
  · simp [setGlobalData, setStiffnessMatrices, samplePointers]
  · simp [setGlobalData, setStiffnessMatricesTransposed, samplePointers]

/-! ## C25: the two guards exclude each other -/

/-- C25.  In every state of the manager and for every cluster, the guard for
a full update and the guard for a prediction of `updateClusterDependencies`
do not hold together (the first needs `|predictionTime - fullUpdateTime|`
above the tolerance, the second below it), also when the second guard is
evaluated after the body of the first; so one pass of the loop body leaves
the neighboring interior queue or the local interior queue as it was. -/
theorem guards_exclude_each_other (s : TimeManager) (l_cluster : Nat) :
    ¬ (fullUpdateCondition s l_cluster = true ∧ predictionCondition s l_cluster = true)
    ∧ ¬ (fullUpdateCondition s l_cluster = true
        ∧ predictionCondition (enqueueFullUpdate s l_cluster) l_cluster = true)
    ∧ ((evaluateCluster l_cluster s).m_neighboringInteriorQueue = s.m_neighboringInteriorQueue
        ∨ (evaluateCluster l_cluster s).m_localInteriorQueue = s.m_localInteriorQueue) := by
  have key : ¬ (fullUpdateCondition s l_cluster = true
      ∧ predictionCondition s l_cluster = true) := by
    rintro ⟨h1, h2⟩
    unfold fullUpdateCondition at h1
    unfold predictionCondition at h2
    simp only [Bool.and_eq_true, decide_eq_true_eq] at h1 h2
    have a := h1.1.2
    have b := h2.1.2
    rw [abs_sub_comm] at b
    exact absurd b (not_lt.mpr (le_of_lt a))
  refine ⟨key, ?_, ?_⟩
  · rw [predictionCondition_enqueueFullUpdate]
    exact key
  · rw [evaluateCluster_neighboringInteriorQueue, evaluateCluster_localInteriorQueue]
    by_cases h1 : fullUpdateCondition s l_cluster = true
    · right
      have h2 : ¬ predictionCondition s l_cluster = true := fun h2 => key ⟨h1, h2⟩
      rw [if_neg h2]
    · left
      rw [if_neg h1]

/-! ## C27: a call at the time that the clusters have reached -/

/-- One pass of the loop body for a cluster that passes neither guard
changes nothing. -/
theorem evaluateCluster_of_guards_false (s : TimeManager) (l : Nat)
    (h1 : fullUpdateCondition s l = false) (h2 : predictionCondition s l = false) :
    evaluateCluster l s = s := by
  rw [evaluateCluster_eq, h1, h2]
  simp

/-- A cluster whose full update time is within the tolerance of the
synchronization time passes neither guard. -/
theorem guards_false_at_synchronizationTime (s : TimeManager) (l : Nat)
    (h : |(s.m_clusters l).m_fullUpdateTime - s.m_timeStepping.synchronizationTime|
      ≤ getTimeTolerance s) :
    fullUpdateCondition s l = false ∧ predictionCondition s l = false := by
  have hd : decide (|(s.m_clusters l).m_fullUpdateTime - s.m_timeStepping.synchronizationTime|
      > getTimeTolerance s) = false := by
    rw [decide_eq_false_iff_not]
    exact not_lt.mpr h
  constructor
  · unfold fullUpdateCondition
    simp only [hd, Bool.and_false, Bool.false_and]
  · unfold predictionCondition
    simp only [hd, Bool.and_false, Bool.false_and]

/-- When every cluster is within the tolerance of `T`, the initialisation of
the queues enqueues nothing: it ends in the state with the default values. -/
theorem advanceInTimeSetup_at_synchronizationTime (T : ℚ) (s : TimeManager)
    (hfut : ∀ l, l < s.m_timeStepping.numberOfLocalClusters →
      |(s.m_clusters l).m_fullUpdateTime - T| ≤ getTimeTolerance s) :
    advanceInTimeSetup T s = resetState T s := by
  apply advanceInTimeSetup_induction (fun t => t = resetState T s) T s _ rfl
  intro t k _ hk ht
  subst ht
  apply updateClusterDependencies_induction (fun t => t = resetState T s) (resetState T s) k hk
    _ rfl
  intro t j _ hj _ _ ht
  subst ht
  have hf : |((resetState T s).m_clusters j).m_fullUpdateTime
      - (resetState T s).m_timeStepping.synchronizationTime|
      ≤ getTimeTolerance (resetState T s) := by
    rw [resetState_clusters T s j hj]
    exact hfut j hj
  obtain ⟨h1, h2⟩ := guards_false_at_synchronizationTime (resetState T s) j hf
  exact evaluateCluster_of_guards_false _ j h1 h2

theorem resetState_allQueuesEmpty (T : ℚ) (s : TimeManager) (hi : Idle s) :
    allQueuesEmpty (resetState T s) = true := by
  unfold allQueuesEmpty resetState
  simp [hi.localCopyQueue, hi.localInteriorQueue, hi.neighboringCopyQueue,
    hi.neighboringInteriorQueue]

theorem resetState_idle (T : ℚ) (s : TimeManager) (hi : Idle s) : Idle (resetState T s) :=
  idle_of_wellFormed _ (resetState_wellFormed T s hi) (resetState_allQueuesEmpty T s hi)

theorem resetState_times (T : ℚ) (s : TimeManager) (l : Nat) :
    ((resetState T s).m_clusters l).m_predictionTime = (s.m_clusters l).m_predictionTime
    ∧ ((resetState T s).m_clusters l).m_fullUpdateTime = (s.m_clusters l).m_fullUpdateTime := by
  unfold resetState
  simp only
  split_ifs <;> exact ⟨rfl, rfl⟩

theorem advanceInTimeLoop_of_allQueuesEmpty (fuel : Nat) (s : TimeManager)
    (h : allQueuesEmpty s = true) : advanceInTimeLoop fuel s = some s := by
  cases fuel with
  | zero => simp [advanceInTimeLoop, h]
  | succ n => simp [advanceInTimeLoop, h]

/-- A call at the time that the clusters have reached returns the state with
the default values. -/
theorem advanceInTime_of_reached (T : ℚ) (s : TimeManager) (hi : Idle s)
    (hT : s.m_timeStepping.synchronizationTime ≤ T)
    (hfut : ∀ l, l < s.m_timeStepping.numberOfLocalClusters →
      |(s.m_clusters l).m_fullUpdateTime - T| ≤ getTimeTolerance s) (fuel : Nat) :
    advanceInTime fuel T s = some (resetState T s) := by
  unfold advanceInTime
  rw [if_pos hT, advanceInTimeSetup_at_synchronizationTime T s hfut]
  exact advanceInTimeLoop_of_allQueuesEmpty fuel _ (resetState_allQueuesEmpty T s hi)

/-- C27.  Let the manager be between two calls, `T` not before its
synchronization time, and the full update time of every cluster within the
tolerance of `T`.  Then `advanceInTime(T)` returns, for every bound on the
iterations of its loop, the state that its first loop leaves: no cluster is
enqueued and the `while` loop is not entered, so no prediction or correction
step is made, all queues are empty, and the prediction time and the full
update time of every cluster are unchanged.  A second call `advanceInTime(T)`
on the state returned does the same. -/
theorem advanceInTime_at_reached_time (T : ℚ) (s : TimeManager) (hi : Idle s)
    (hT : s.m_timeStepping.synchronizationTime ≤ T)
    (hfut : ∀ l, l < s.m_timeStepping.numberOfLocalClusters →
      |(s.m_clusters l).m_fullUpdateTime - T| ≤ getTimeTolerance s) (fuel : Nat) :
    advanceInTime fuel T s = some (resetState T s)
    ∧ advanceInTimeSetup T s = resetState T s
    ∧ allQueuesEmpty (resetState T s) = true
    ∧ (∀ l, ((resetState T s).m_clusters l).m_predictionTime = (s.m_clusters l).m_predictionTime
        ∧ ((resetState T s).m_clusters l).m_fullUpdateTime
          = (s.m_clusters l).m_fullUpdateTime)
    ∧ ∀ fuel2, ∃ t, advanceInTime fuel2 T (resetState T s) = some t
        ∧ ∀ l, (t.m_clusters l).m_predictionTime = (s.m_clusters l).m_predictionTime
          ∧ (t.m_clusters l).m_fullUpdateTime = (s.m_clusters l).m_fullUpdateTime := by
  refine ⟨advanceInTime_of_reached T s hi hT hfut fuel,
    advanceInTimeSetup_at_synchronizationTime T s hfut,
    resetState_allQueuesEmpty T s hi, resetState_times T s, ?_⟩
  intro fuel2
  refine ⟨resetState T (resetState T s), ?_, ?_⟩
  · apply advanceInTime_of_reached T _ (resetState_idle T s hi) (le_refl T)
    intro l hl
    rw [(resetState_times T s l).2]
    exact hfut l hl
  · intro l
    rw [(resetState_times T (resetState T s) l).1, (resetState_times T (resetState T s) l).2]
    exact resetState_times T s l

/-- A second call `advanceInTime(T)` right after a call `advanceInTime(T)`
that has brought every cluster within the tolerance of `T` returns with the
times of the clusters unchanged. -/
theorem advanceInTime_again (T : ℚ) (s0 s1 : TimeManager) (fuel fuel2 : Nat) (hi : Idle s0)
    (h : advanceInTime fuel T s0 = some s1)
    (hfut : ∀ l, l < s1.m_timeStepping.numberOfLocalClusters →
      |(s1.m_clusters l).m_fullUpdateTime - T| ≤ getTimeTolerance s1) :
    advanceInTime fuel2 T s1 = some (resetState T s1)
    ∧ ∀ l, ((resetState T s1).m_clusters l).m_predictionTime
          = (s1.m_clusters l).m_predictionTime
        ∧ ((resetState T s1).m_clusters l).m_fullUpdateTime
          = (s1.m_clusters l).m_fullUpdateTime := by
  have hi1 := advanceInTime_idle T s0 fuel s1 hi h
  obtain ⟨hr, -⟩ := advanceInTime_reached T s0 fuel s1 h
  have hts : s1.m_timeStepping = (resetState T s0).m_timeStepping :=
    (reached_evolves T s0 s1 hi hr).1
  have hs : s1.m_timeStepping.synchronizationTime = T := by
    rw [hts]
    rfl
  exact ⟨advanceInTime_of_reached T s1 hi1 (le_of_eq hs) hfut fuel2, resetState_times T s1⟩

/-- C27 (witness): the one cluster of `singleCluster` at time 0 and the call
`advanceInTime(0)`. -/
theorem advanceInTime_at_reached_time_witness :
    advanceInTime 0 0 singleCluster = some (resetState 0 singleCluster) :=
  (advanceInTime_at_reached_time 0 singleCluster
    ⟨fun _ _ => rfl, fun _ _ => rfl, fun _ _ => rfl, rfl, rfl, rfl, rfl⟩ (le_refl _)
    (fun l _ => by
      simp only [singleCluster, managerOf, clusterAt, getTimeTolerance]
      norm_num) 0).1

/-! ## C29: what `correctGhostRegionSetups` leaves unchanged -/

theorem setupFrame_refl (a : CellLocalInformation) : SetupFrame a a :=
  ⟨rfl, rfl, fun _ _ _ _ => rfl⟩

theorem setupFrame_trans {a b c : CellLocalInformation} (h1 : SetupFrame a b)
    (h2 : SetupFrame b c) : SetupFrame a c :=
  ⟨h2.1.trans h1.1, h2.2.1.trans h1.2.1,
    fun k h8 h9 h10 => (h2.2.2 k h8 h9 h10).trans (h1.2.2 k h8 h9 h10)⟩

theorem ghostCellCorrected_frame (ms : MeshStructure) (r i : Nat) (c : CellLocalInformation) :
    SetupFrame c (ghostCellCorrected ms r i c) := by
  unfold ghostCellCorrected
  split_ifs
  · refine ⟨rfl, rfl, ?_⟩
    intro k h8 _ h10
    simp [CellLocalInformation.withLtsSetup, ltsBit_clearBit, h8, h10]
  · refine ⟨rfl, rfl, ?_⟩
    intro k _ h9 _
    simp [CellLocalInformation.withLtsSetup, ltsBit_clearBit, h9]

/-- Every index below a sum lies in one of its summands. -/
theorem prefixSum_decompose (f : Nat → Nat) (R j : Nat) (h : j < prefixSum f R) :
    ∃ r, r < R ∧ ∃ i, i < f r ∧ j = prefixSum f r + i := by
  induction R with
  | zero => exact absurd h (Nat.not_lt_zero j)
  | succ R ih =>
    by_cases hlt : j < prefixSum f R
    · obtain ⟨r, hr, i, hi, e⟩ := ih hlt
      exact ⟨r, Nat.lt_succ_of_lt hr, i, hi, e⟩
    · have e : prefixSum f (R + 1) = prefixSum f R + f R := rfl
      exact ⟨R, Nat.lt_succ_self R, j - prefixSum f R, by omega, by omega⟩

/-- The loop over the ghost regions of a cluster, when it returns: the new
offset, the frame of every cell and the cells outside the ghost regions. -/
theorem forLoop_correctGhostRegion_frame (ms : MeshStructure) (off0 R : Nat)
    (cells0 : Nat → CellLocalInformation) (off : Nat) (g : Nat → CellLocalInformation)
    (h : forLoop (correctGhostRegion ms) R (off0, cells0) = some (off, g)) :
    off = off0 + prefixSum ms.numberOfGhostRegionCells R
      ∧ (∀ j, SetupFrame (cells0 j) (g j))
      ∧ ∀ j, (j < off0 ∨ off0 + prefixSum ms.numberOfGhostRegionCells R ≤ j) →
          g j = cells0 j := by
  have hv : ∀ r, r < R → ∀ i, i < ms.numberOfGhostRegionCells r →
      ghostCellValid ms r i
        (cells0 (off0 + prefixSum ms.numberOfGhostRegionCells r + i)) = true := by
    intro r hr i hi
    by_contra hn
    rw [Bool.not_eq_true] at hn
    rw [forLoop_correctGhostRegion_none ms off0 R cells0 ⟨r, hr, i, hi, hn⟩] at h
    exact Option.noConfusion h
  obtain ⟨g', hg, hout, hin⟩ := forLoop_correctGhostRegion_some ms off0 R cells0 hv
  rw [hg, Option.some.injEq, Prod.mk.injEq] at h
  obtain ⟨e1, e2⟩ := h
  subst e2
  refine ⟨e1.symm, ?_, hout⟩
  intro j
  by_cases hj : j < off0 ∨ off0 + prefixSum ms.numberOfGhostRegionCells R ≤ j
  · rw [hout j hj]
    exact setupFrame_refl _
  · have hj' : j - off0 < prefixSum ms.numberOfGhostRegionCells R := by omega
    obtain ⟨r, hr, i, hi, e⟩ := prefixSum_decompose _ R (j - off0) hj'
    have ej : j = off0 + prefixSum ms.numberOfGhostRegionCells r + i := by omega
    rw [ej, hin r hr i hi]
    exact ghostCellCorrected_frame ms r i _

/-- The loop over the clusters in `correctGhostRegionSetups`, when it
returns: the frame of every cell, and the cells that are no ghost cells. -/
theorem forLoop_correctGhostCluster_frame (m : Nat → MeshStructure) (C : Nat)
    (cells0 : Nat → CellLocalInformation) (off : Nat) (g : Nat → CellLocalInformation)
    (h : forLoop (fun l_cluster st => correctGhostCluster (m l_cluster) st) C (0, cells0)
      = some (off, g)) :
    off = prefixSum (fun c => ghostRegionCells (m c) + (m c).numberOfCopyCells
        + (m c).numberOfInteriorCells) C
      ∧ (∀ j, SetupFrame (cells0 j) (g j))
      ∧ ∀ j, (∀ c, c < C →
            j < prefixSum (fun c => ghostRegionCells (m c) + (m c).numberOfCopyCells
                + (m c).numberOfInteriorCells) c
            ∨ prefixSum (fun c => ghostRegionCells (m c) + (m c).numberOfCopyCells
                + (m c).numberOfInteriorCells) c + ghostRegionCells (m c) ≤ j) →
          g j = cells0 j := by
  induction C generalizing off g with
  | zero =>
    have e : (0, cells0) = (off, g) := Option.some.inj h
    rw [Prod.mk.injEq] at e
    obtain ⟨e1, e2⟩ := e
    subst e2
    exact ⟨e1.symm, fun j => setupFrame_refl _, fun _ _ => rfl⟩
  | succ C ih =>
    rw [forLoop_succ] at h
    cases h1 : forLoop (fun l_cluster st => correctGhostCluster (m l_cluster) st) C (0, cells0)
      with
    | none =>
      rw [h1] at h
      exact Option.noConfusion h
    | some st1 =>
      obtain ⟨off1, g1⟩ := st1
      rw [h1, Option.some_bind] at h
      obtain ⟨a1, a2, a3⟩ := ih off1 g1 h1
      unfold correctGhostCluster at h
      cases h2 : forLoop (correctGhostRegion (m C)) (m C).numberOfRegions (off1, g1) with
      | none =>
        rw [h2] at h
        exact Option.noConfusion h
      | some st2 =>
        obtain ⟨off2, g2⟩ := st2
        rw [h2, Option.map_some', Option.some.injEq, Prod.mk.injEq] at h
        obtain ⟨e1, e2⟩ := h
        simp only [] at e1 e2
        subst e2
        obtain ⟨b1, b2, b3⟩ := forLoop_correctGhostRegion_frame (m C) off1
          (m C).numberOfRegions g1 off2 g2 h2
        have hps : prefixSum (fun c => ghostRegionCells (m c) + (m c).numberOfCopyCells
            + (m c).numberOfInteriorCells) (C + 1)
            = prefixSum (fun c => ghostRegionCells (m c) + (m c).numberOfCopyCells
              + (m c).numberOfInteriorCells) C
              + (ghostRegionCells (m C) + (m C).numberOfCopyCells
                + (m C).numberOfInteriorCells) := rfl
        have hgr : ghostRegionCells (m C)
            = prefixSum (m C).numberOfGhostRegionCells (m C).numberOfRegions := rfl
        refine ⟨?_, ?_, ?_⟩
        · rw [hps, ← e1, b1, a1, hgr]
          omega
        · intro j
          exact setupFrame_trans (a2 j) (b2 j)
        · intro j hj
          have hC := hj C (Nat.lt_succ_self C)
          rw [b3 j (by rw [a1, ← hgr]; exact hC)]
          exact a3 j (fun c hc => hj c (Nat.lt_succ_of_lt hc))

/-- C29.  When `correctGhostRegionSetups` returns, every cell of the array
has its face types and its face neighbor ids as before and every bit of its
`ltsSetup` other than the bits 8, 9 and 10 as before, and every cell that is
not a ghost cell is unchanged: the cells of the copy layer and interior of
every cluster, and the cells behind the last cluster. -/
theorem correctGhostRegionSetups_frame (m_numberOfClusters : Nat)
    (m_meshStructure : Nat → MeshStructure) (cells g : Nat → CellLocalInformation)
    (h : correctGhostRegionSetups m_numberOfClusters m_meshStructure cells = some g) :
    (∀ j, (g j).faceTypes = (cells j).faceTypes
        ∧ (g j).faceNeighborIds = (cells j).faceNeighborIds
        ∧ ∀ k, k ≠ 8 → k ≠ 9 → k ≠ 10 →
            ltsBit (g j).ltsSetup k = ltsBit (cells j).ltsSetup k)
    ∧ (∀ c, c < m_numberOfClusters →
        ∀ k, k < (m_meshStructure c).numberOfCopyCells
            + (m_meshStructure c).numberOfInteriorCells →
          g (copyInteriorCellIndex m_meshStructure c k)
            = cells (copyInteriorCellIndex m_meshStructure c k))
    ∧ ∀ j, prefixSum (fun c => ghostRegionCells (m_meshStructure c)
          + (m_meshStructure c).numberOfCopyCells
          + (m_meshStructure c).numberOfInteriorCells) m_numberOfClusters ≤ j →
        g j = cells j := by
  unfold correctGhostRegionSetups at h
  cases h1 : forLoop (fun l_cluster st => correctGhostCluster (m_meshStructure l_cluster) st)
      m_numberOfClusters (0, cells) with
  | none =>
    rw [h1] at h
    exact Option.noConfusion h
  | some st =>
    obtain ⟨off, g'⟩ := st
    rw [h1, Option.map_some', Option.some.injEq] at h
    simp only [] at h
    subst h
    obtain ⟨-, a2, a3⟩ := forLoop_correctGhostCluster_frame m_meshStructure m_numberOfClusters
      cells off g' h1
    refine ⟨a2, ?_, ?_⟩
    · intro c hc k hk
      apply a3
      intro c' hc'
      unfold copyInteriorCellIndex
      rcases Nat.lt_trichotomy c' c with hlt | heq | hgt
      · right
        have := prefixSum_succ_le (fun c => ghostRegionCells (m_meshStructure c)
          + (m_meshStructure c).numberOfCopyCells
          + (m_meshStructure c).numberOfInteriorCells) hlt
        simp only [] at this
        omega
      · subst heq
        right
        omega
      · left
        have := prefixSum_succ_le (fun c => ghostRegionCells (m_meshStructure c)
          + (m_meshStructure c).numberOfCopyCells
          + (m_meshStructure c).numberOfInteriorCells) hgt
        simp only [] at this
        omega
    · intro j hj
      apply a3
      intro c hc
      right
      have := prefixSum_succ_le (fun c => ghostRegionCells (m_meshStructure c)
        + (m_meshStructure c).numberOfCopyCells
        + (m_meshStructure c).numberOfInteriorCells) hc
      simp only [] at this
      omega

/-- C29 (witness): the cell array `smallCells` of one cluster: the call
returns, and the two copy cells and the two interior cells (cells 3 to 6)
are unchanged. -/
theorem correctGhostRegionSetups_frame_witness :
    ∃ g, correctGhostRegionSetups 1 (fun _ => smallMesh) smallCells = some g
      ∧ ∀ k, k < 4 → g (3 + k) = smallCells (3 + k) := by
  cases h : correctGhostRegionSetups 1 (fun _ => smallMesh) smallCells with
  | none =>
    have := correctGhostRegionSetups_smallCells
    rw [h] at this
    exact Option.noConfusion this
  | some g =>
    refine ⟨g, rfl, ?_⟩
    intro k hk
    exact (correctGhostRegionSetups_frame 1 (fun _ => smallMesh) smallCells g h).2.1 0
      (by decide) k hk

/-! ## C24: the global matrices -/

theorem usub_one (a : Nat) (h1 : 1 ≤ a) (h2 : a < UINT_RANGE) : usub a 1 = a - 1 := by
  unfold usub
  have e : (1 : Nat) % UINT_RANGE = 1 := by unfold UINT_RANGE; norm_num
  rw [e]
  have e2 : a + UINT_RANGE - 1 = (a - 1) + UINT_RANGE := by omega
  rw [e2, Nat.add_mod_right, Nat.mod_eq_of_lt (by omega)]

/-- A position of a column-major matrix determines its row and its column. -/
theorem position_injective (ld a b a' b' : Nat) (hb : b < ld) (hb' : b' < ld)
    (h : a * ld + b = a' * ld + b') : a = a' ∧ b = b' := by
  have hld : 0 < ld := by omega
  have e1 : (a * ld + b) / ld = a := by
    rw [Nat.add_comm, Nat.add_mul_div_right _ _ hld, Nat.div_eq_of_lt hb, Nat.zero_add]
  have e2 : (a' * ld + b') / ld = a' := by
    rw [Nat.add_comm, Nat.add_mul_div_right _ _ hld, Nat.div_eq_of_lt hb', Nat.zero_add]
  have ha : a = a' := by rw [← e1, ← e2, h]
  subst ha
  exact ⟨rfl, by omega⟩

theorem position_lt (ld n a b : Nat) (ha : a < n) (hb : b < ld) : a * ld + b < ld * n := by
  have : (a + 1) * ld ≤ n * ld := Nat.mul_le_mul_right ld (by omega)
  have e : (a + 1) * ld = a * ld + ld := by ring
  have e2 : n * ld = ld * n := Nat.mul_comm _ _
  omega

/-- One nonzero of a dense matrix with a valid row and column. -/
theorem setNonzero_some (ld n : Nat) (rows cols : List Nat) (vals : List ℚ) (l : Nat)
    (o : Nat → ℚ) (hsize : ld * n < UINT_RANGE)
    (hr : 1 ≤ rows.getD l 0 ∧ rows.getD l 0 ≤ ld)
    (hc : 1 ≤ cols.getD l 0 ∧ cols.getD l 0 ≤ n) :
    setNonzero ld n rows cols vals l o
      = some (Function.update o ((cols.getD l 0 - 1) * ld + (rows.getD l 0 - 1))
          (vals.getD l 0)) := by
  have hn : 1 ≤ n := by omega
  have hld : 1 ≤ ld := by omega
  have h1 : ld ≤ ld * n := Nat.le_mul_of_pos_right ld hn
  have h2 : n ≤ ld * n := Nat.le_mul_of_pos_left n hld
  have hpos := position_lt ld n (cols.getD l 0 - 1) (rows.getD l 0 - 1) (by omega) (by omega)
  unfold setNonzero
  simp only []
  rw [usub_one _ hr.1 (by omega), usub_one _ hc.1 (by omega)]
  rw [if_pos (by omega), if_pos (by omega)]
  have e1 : umul (cols.getD l 0 - 1) ld = (cols.getD l 0 - 1) * ld := by
    unfold umul
    exact Nat.mod_eq_of_lt (by omega)
  have e2 : uadd ((cols.getD l 0 - 1) * ld) (rows.getD l 0 - 1)
      = (cols.getD l 0 - 1) * ld + (rows.getD l 0 - 1) := by
    unfold uadd
    exact Nat.mod_eq_of_lt (by omega)
  rw [e1, e2]

/-- The loop over the nonzeros of a dense matrix: after the first `L`
entries every position of the matrix holds the last value given for it, or
what it held before the loop. -/
theorem forLoop_setNonzero (ld n : Nat) (rows cols : List Nat) (vals : List ℚ)
    (o : Nat → ℚ) (hsize : ld * n < UINT_RANGE) (L : Nat)
    (hr : ∀ l, l < L → 1 ≤ rows.getD l 0 ∧ rows.getD l 0 ≤ ld)
    (hc : ∀ l, l < L → 1 ≤ cols.getD l 0 ∧ cols.getD l 0 ≤ n) :
    ∃ out, forLoop (setNonzero ld n rows cols vals) L o = some out
      ∧ (∀ r c, 1 ≤ r → r ≤ ld → 1 ≤ c → c ≤ n →
          out ((c - 1) * ld + (r - 1))
            = (lastEntry rows cols vals r c L).getD (o ((c - 1) * ld + (r - 1))))
      ∧ ∀ p, ld * n ≤ p → out p = o p := by
  induction L with
  | zero => exact ⟨o, rfl, fun _ _ _ _ _ _ => rfl, fun _ _ => rfl⟩
  | succ L ih =>
    obtain ⟨out1, h1, h2, h3⟩ := ih (fun l hl => hr l (Nat.lt_succ_of_lt hl))
      (fun l hl => hc l (Nat.lt_succ_of_lt hl))
    have hrL := hr L (Nat.lt_succ_self L)
    have hcL := hc L (Nat.lt_succ_self L)
    refine ⟨Function.update out1 ((cols.getD L 0 - 1) * ld + (rows.getD L 0 - 1))
      (vals.getD L 0), ?_, ?_, ?_⟩
    · rw [forLoop_succ, h1, Option.some_bind, setNonzero_some ld n rows cols vals L out1 hsize
        hrL hcL]
    · intro r c hr1 hr2 hc1 hc2
      by_cases hm : rows.getD L 0 = r ∧ cols.getD L 0 = c
      · obtain ⟨e1, e2⟩ := hm
        subst e1 e2
        rw [Function.update_same]
        unfold lastEntry
        rw [if_pos ⟨rfl, rfl⟩]
        rfl
      · have hne : (c - 1) * ld + (r - 1) ≠ (cols.getD L 0 - 1) * ld + (rows.getD L 0 - 1) := by
          intro e
          obtain ⟨e1, e2⟩ := position_injective ld _ _ _ _ (by omega) (by omega) e
          exact hm ⟨by omega, by omega⟩
        rw [Function.update_noteq hne, h2 r c hr1 hr2 hc1 hc2]
        conv_rhs => unfold lastEntry
        rw [if_neg hm]
    · intro p hp
      have hpos := position_lt ld n (cols.getD L 0 - 1) (rows.getD L 0 - 1) (by omega)
        (by omega)
      rw [Function.update_noteq (by omega)]
      exact h3 p hp

/-- The loop that writes the values of a sparse matrix one after another. -/
theorem iterLoop_sparse (vals : List ℚ) (o : Nat → ℚ) (L : Nat) :
    (∀ l, l < L →
      iterLoop (fun l_entry o => Function.update o l_entry (vals.getD l_entry 0)) L o l
        = vals.getD l 0)
    ∧ ∀ p, L ≤ p →
      iterLoop (fun l_entry o => Function.update o l_entry (vals.getD l_entry 0)) L o p
        = o p := by
  induction L with
  | zero => exact ⟨fun l hl => absurd hl (Nat.not_lt_zero l), fun _ _ => rfl⟩
  | succ L ih =>
    rw [iterLoop_succ]
    constructor
    · intro l hl
      by_cases e : l = L
      · subst e
        rw [Function.update_same]
      · rw [Function.update_noteq e]
        exact ih.1 l (by omega)
    · intro p hp
      rw [Function.update_noteq (by omega)]
      exact ih.2 p (by omega)

/-- C24 (counterexample).  A dense matrix with leading dimension 65536 and
65536 columns and no entries, in an array that holds 1 everywhere: the size
`i_leadingDimension*i_numberOfColumns` of the range set to zero is 0 as an
`unsigned int`, and position 0 still holds 1 after the call. -/
theorem initializeGlobalMatrix_leaves_large_matrix :
    (initializeGlobalMatrix (-1) 65536 65536 [] [] [] (fun _ => 1)).map (fun out => out 0)
      = some 1 := by
  decide!

/-- C24 (amended).  For a dense matrix (`i_sparse = -1`) with leading
dimension `ld` and `n` columns, `ld * n` below `2^32`, and entries in
coordinate format whose rows are between 1 and `ld` and whose columns are
between 1 and `n`, `initializeGlobalMatrix` returns a column-major array in
which position `(c - 1) * ld + (r - 1)` holds the value of the last entry
given for row `r` and column `c` and 0 when there is none, and the array
behind the `ld * n` reals of the matrix is unchanged.  For a sparse matrix
(`i_sparse` the number of entries) the array holds the values in the order
given and is unchanged behind them. -/
theorem initializeGlobalMatrix_layout (i_sparse : Int)
    (i_leadingDimension i_numberOfColumns : Nat) (i_rows i_columns : List Nat)
    (i_values : List ℚ) (o_matrix : Nat → ℚ)
    (hrows : i_rows.length = i_values.length) (hcols : i_columns.length = i_values.length) :
    (i_sparse = -1 → i_leadingDimension * i_numberOfColumns < UINT_RANGE →
      (∀ l, l < i_values.length →
        1 ≤ i_rows.getD l 0 ∧ i_rows.getD l 0 ≤ i_leadingDimension
          ∧ 1 ≤ i_columns.getD l 0 ∧ i_columns.getD l 0 ≤ i_numberOfColumns) →
      ∃ out, initializeGlobalMatrix i_sparse i_leadingDimension i_numberOfColumns i_rows
          i_columns i_values o_matrix = some out
        ∧ (∀ r c, 1 ≤ r → r ≤ i_leadingDimension → 1 ≤ c → c ≤ i_numberOfColumns →
            out ((c - 1) * i_leadingDimension + (r - 1))
              = (lastEntry i_rows i_columns i_values r c i_values.length).getD 0)
        ∧ ∀ p, i_leadingDimension * i_numberOfColumns ≤ p → out p = o_matrix p)
    ∧ (i_sparse = (i_values.length : Int) →
      ∃ out, initializeGlobalMatrix i_sparse i_leadingDimension i_numberOfColumns i_rows
          i_columns i_values o_matrix = some out
        ∧ (∀ l, l < i_values.length → out l = i_values.getD l 0)
        ∧ ∀ p, i_values.length ≤ p → out p = o_matrix p) := by
  constructor
  · intro hs hsize hrc
    obtain ⟨out, h1, h2, h3⟩ := forLoop_setNonzero i_leadingDimension i_numberOfColumns i_rows
      i_columns i_values
      (fun p => if p < umul i_leadingDimension i_numberOfColumns then 0 else o_matrix p)
      hsize i_values.length (fun l hl => ⟨(hrc l hl).1, (hrc l hl).2.1⟩)
      (fun l hl => ⟨(hrc l hl).2.2.1, (hrc l hl).2.2.2⟩)
    have hu : umul i_leadingDimension i_numberOfColumns
        = i_leadingDimension * i_numberOfColumns := by
      unfold umul
      exact Nat.mod_eq_of_lt hsize
    refine ⟨out, ?_, ?_, ?_⟩
    · unfold initializeGlobalMatrix
      rw [if_pos (hrows.trans hcols.symm), if_pos hcols, if_neg (not_not.mpr hs)]
      exact h1
    · intro r c hr1 hr2 hc1 hc2
      rw [h2 r c hr1 hr2 hc1 hc2]
      have hpos := position_lt i_leadingDimension i_numberOfColumns (c - 1) (r - 1) (by omega)
        (by omega)
      simp only [hu, if_pos hpos]
    · intro p hp
      rw [h3 p hp, hu, if_neg (by omega)]
  · intro hs
    refine ⟨iterLoop (fun l_entry o => Function.update o l_entry (i_values.getD l_entry 0))
      i_values.length o_matrix, ?_, (iterLoop_sparse i_values o_matrix i_values.length).1,
      (iterLoop_sparse i_values o_matrix i_values.length).2⟩
    unfold initializeGlobalMatrix
    have hne : i_sparse ≠ -1 := by
      rw [hs]
      intro h
      have : (0 : Int) ≤ (i_values.length : Int) := Int.natCast_nonneg _
      omega
    rw [if_pos (hrows.trans hcols.symm), if_pos hcols, if_pos hne, if_pos hs.symm]

/-- C24 (witness): a dense matrix with leading dimension 3 and 2 columns and
the entries (1, 1) ↦ 5, (3, 2) ↦ 7, (1, 1) ↦ 9, in an array that holds 1
everywhere: the array starts with 9, 0, 0, 0, 0, 7 and holds 1 behind the
matrix. -/
theorem initializeGlobalMatrix_layout_witness :
    ∃ out, initializeGlobalMatrix (-1) 3 2 [1, 3, 1] [1, 2, 1] [5, 7, 9] (fun _ => 1)
        = some out
      ∧ out 0 = 9 ∧ out 1 = 0 ∧ out 5 = 7 ∧ out 6 = 1 := by
  obtain ⟨out, h1, h2, h3⟩ := (initializeGlobalMatrix_layout (-1) 3 2 [1, 3, 1] [1, 2, 1]
    [5, 7, 9] (fun _ => 1) rfl rfl).1 rfl (by decide) (fun l hl => by
      have hl' : l < 3 := hl
      interval_cases l <;> decide)
  refine ⟨out, h1, ?_, ?_, ?_, h3 6 (by decide)⟩
  · exact (h2 1 1 (by decide) (by decide) (by decide) (by decide)).trans (by decide!)
  · exact (h2 2 1 (by decide) (by decide) (by decide) (by decide)).trans (by decide!)
  · exact (h2 3 2 (by decide) (by decide) (by decide) (by decide)).trans (by decide!)

/-! ## The ghost regions -/

theorem setUpLayersCluster_fst (m : Nat → MeshStructure) (c : Nat)
    (st : Nat × (Nat → LayerPointers)) :
    (setUpLayersCluster m c st).1
      = st.1 + (m c).numberOfGhostCells + (m c).numberOfCopyCells
          + (m c).numberOfInteriorCells := rfl

theorem setUpLayersCluster_snd (m : Nat → MeshStructure) (c : Nat)
    (st : Nat × (Nat → LayerPointers)) :
    (setUpLayersCluster m c st).2
      = Function.update st.2 c ⟨st.1, st.1 + (m c).numberOfGhostCells,
          st.1 + (m c).numberOfGhostCells + (m c).numberOfCopyCells⟩ := rfl

/-- The pointers that `setUpLayers` sets for a cluster. -/
theorem setUpLayers_pointers (n : Nat) (m : Nat → MeshStructure) (c : Nat) (hc : c < n) :
    setUpLayers n m c
      = ⟨prefixSum (fun c => (m c).numberOfGhostCells + (m c).numberOfCopyCells
            + (m c).numberOfInteriorCells) c,
          prefixSum (fun c => (m c).numberOfGhostCells + (m c).numberOfCopyCells
            + (m c).numberOfInteriorCells) c + (m c).numberOfGhostCells,
          prefixSum (fun c => (m c).numberOfGhostCells + (m c).numberOfCopyCells
            + (m c).numberOfInteriorCells) c + (m c).numberOfGhostCells
            + (m c).numberOfCopyCells⟩ := by
  have key : ∀ C,
      (iterLoop (setUpLayersCluster m) C (0, fun _ => ⟨0, 0, 0⟩)).1
        = prefixSum (fun c => (m c).numberOfGhostCells + (m c).numberOfCopyCells
            + (m c).numberOfInteriorCells) C
      ∧ ∀ c, c < C →
        (iterLoop (setUpLayersCluster m) C (0, fun _ => ⟨0, 0, 0⟩)).2 c
          = ⟨prefixSum (fun c => (m c).numberOfGhostCells + (m c).numberOfCopyCells
                + (m c).numberOfInteriorCells) c,
              prefixSum (fun c => (m c).numberOfGhostCells + (m c).numberOfCopyCells
                + (m c).numberOfInteriorCells) c + (m c).numberOfGhostCells,
              prefixSum (fun c => (m c).numberOfGhostCells + (m c).numberOfCopyCells
                + (m c).numberOfInteriorCells) c + (m c).numberOfGhostCells
                + (m c).numberOfCopyCells⟩ := by
    intro C
    induction C with
    | zero => exact ⟨rfl, fun c hc => absurd hc (Nat.not_lt_zero c)⟩
    | succ C ih =>
      obtain ⟨h1, h2⟩ := ih
      rw [iterLoop_succ]
      constructor
      · rw [setUpLayersCluster_fst, h1, prefixSum_succ]
        omega
      · intro c hcl
        rw [setUpLayersCluster_snd]
        rcases Nat.lt_succ_iff_lt_or_eq.1 hcl with h' | h'
        · rw [Function.update_noteq (Nat.ne_of_lt h')]
          exact h2 c h'
        · subst h'
          rw [Function.update_same, h1]
  exact (key n).2 c hc

/-- The number of the first `n` cells from `off` with bit `k` set, when
exactly the first `d` of them have it. -/
theorem cellsWithBit_first (k : Nat) (cells : Nat → CellLocalInformation) (off n d : Nat)
    (hd : d ≤ n)
    (h : ∀ i, i < n → (ltsBit (cells (off + i)).ltsSetup k = true ↔ i < d)) :
    cellsWithBit k cells off n = d := by
  induction n generalizing d with
  | zero =>
    rw [cellsWithBit_zero]
    omega
  | succ n ih =>
    rw [cellsWithBit_succ]
    by_cases hb : ltsBit (cells (off + n)).ltsSetup k = true
    · rw [if_pos hb]
      have hn := (h n (Nat.lt_succ_self n)).1 hb
      have hdn : d = n + 1 := by omega
      have := ih n (le_refl n) (fun i hi => by
        rw [h i (Nat.lt_succ_of_lt hi)]
        constructor
        · intro _; exact hi
        · intro _; omega)
      omega
    · rw [if_neg hb]
      have hn : ¬ n < d := fun hlt => hb ((h n (Nat.lt_succ_self n)).2 hlt)
      exact ih d (by omega) (fun i hi => h i (Nat.lt_succ_of_lt hi))

/-- The number of the first `n` cells from `off` with bit `k` set, when
exactly the cells from the `d`-th on have it. -/
theorem cellsWithBit_rest (k : Nat) (cells : Nat → CellLocalInformation) (off n d : Nat)
    (hd : d ≤ n)
    (h : ∀ i, i < n → (ltsBit (cells (off + i)).ltsSetup k = true ↔ d ≤ i)) :
    cellsWithBit k cells off n = n - d := by
  induction n with
  | zero =>
    rw [cellsWithBit_zero]
    omega
  | succ n ih =>
    rw [cellsWithBit_succ]
    by_cases hb : ltsBit (cells (off + n)).ltsSetup k = true
    · rw [if_pos hb]
      have hn := (h n (Nat.lt_succ_self n)).1 hb
      have := ih hn (fun i hi => h i (Nat.lt_succ_of_lt hi))
      omega
    · rw [if_neg hb]
      have hn : ¬ d ≤ n := fun hle => hb ((h n (Nat.lt_succ_self n)).2 hle)
      have hdn : d = n + 1 := by omega
      subst hdn
      have : cellsWithBit k cells off n = 0 := by
        have h0 : ∀ i, i < n → ltsBit (cells (off + i)).ltsSetup k = false := by
          intro i hi
          cases hbi : ltsBit (cells (off + i)).ltsSetup k with
          | false => rfl
          | true =>
            have := (h i (Nat.lt_succ_of_lt hi)).1 hbi
            omega
        clear ih h hb hn hd
        induction n with
        | zero => rfl
        | succ j ihj =>
          rw [cellsWithBit_succ, h0 j (Nat.lt_succ_self j)]
          simp only [Bool.false_eq_true, if_false]
          exact ihj (fun i hi => h0 i (Nat.lt_succ_of_lt hi))
      omega

/-- The ghost cells after a call of `correctGhostRegionSetups` that returns:
the cell `i` of region `r` of cluster `c`, read through the pointer of
`setUpLayers`, has bit 9 exactly when it is among the first
`numberOfGhostRegionDerivatives` and bit 8 exactly when it is not. -/
theorem ghostCells_after_correction (n : Nat) (m : Nat → MeshStructure)
    (cells g : Nat → CellLocalInformation)
    (hsum : ∀ c, c < n → ghostRegionCells (m c) = (m c).numberOfGhostCells)
    (hcorr : correctGhostRegionSetups n m cells = some g)
    (c : Nat) (hc : c < n) (r : Nat) (hr : r < (m c).numberOfRegions) (i : Nat)
    (hi : i < (m c).numberOfGhostRegionCells r) :
    (ltsBit (g ((setUpLayers n m c).m_ghostCellInformation
        + (prefixSum (m c).numberOfGhostRegionCells r + i))).ltsSetup 9 = true
      ↔ i < (m c).numberOfGhostRegionDerivatives r)
    ∧ (ltsBit (g ((setUpLayers n m c).m_ghostCellInformation
        + (prefixSum (m c).numberOfGhostRegionCells r + i))).ltsSetup 8 = true
      ↔ (m c).numberOfGhostRegionDerivatives r ≤ i) := by
  have hv : ∀ c, c < n → ∀ r, r < (m c).numberOfRegions →
      ∀ i, i < (m c).numberOfGhostRegionCells r →
        ghostCellValid (m c) r i (cells (ghostCellIndex m c r i)) = true := by
    intro c hc r hr i hi
    by_contra hn
    rw [Bool.not_eq_true] at hn
    unfold correctGhostRegionSetups at hcorr
    rw [forLoop_correctGhostCluster_none m n cells ⟨c, hc, r, hr, i, hi, hn⟩] at hcorr
    exact Option.noConfusion hcorr
  obtain ⟨g', hg, -, hin⟩ := forLoop_correctGhostCluster_some m n cells hv
  have hgg : g' = g := by
    unfold correctGhostRegionSetups at hcorr
    rw [hg] at hcorr
    exact Option.some.inj hcorr
  subst hgg
  have hidx : (setUpLayers n m c).m_ghostCellInformation
      + (prefixSum (m c).numberOfGhostRegionCells r + i) = ghostCellIndex m c r i := by
    rw [setUpLayers_pointers n m c hc]
    unfold ghostCellIndex
    have e : prefixSum (fun c => (m c).numberOfGhostCells + (m c).numberOfCopyCells
          + (m c).numberOfInteriorCells) c
        = prefixSum (fun c => ghostRegionCells (m c) + (m c).numberOfCopyCells
          + (m c).numberOfInteriorCells) c :=
      prefixSum_congr _ _ c (fun j hj => by
        show (m j).numberOfGhostCells + _ + _ = ghostRegionCells (m j) + _ + _
        rw [hsum j (by omega)])
    show prefixSum _ c + _ = _
    rw [e]
    omega
  rw [hidx, hin c hc r hr i hi]
  have hb := ghostCellCorrected_bits (m c) r i _ (hv c hc r hr i hi)
  by_cases hlt : i < (m c).numberOfGhostRegionDerivatives r
  · obtain ⟨b9, b8⟩ := hb.1 hlt
    rw [b9, b8]
    constructor
    · exact ⟨fun _ => hlt, fun _ => rfl⟩
    · constructor
      · intro h; exact absurd h (by decide)
      · intro h; omega
  · obtain ⟨b8, b9⟩ := hb.2 (by omega)
    rw [b9, b8]
    constructor
    · constructor
      · intro h; exact absurd h (by decide)
      · intro h; exact absurd h hlt
    · exact ⟨fun _ => by omega, fun _ => rfl⟩

/-- The counts that `deriveLayerLayouts` derives for the ghost regions after
`correctGhostRegionSetups` are the counts of the mesh structure. -/
theorem ghostCounts_of_corrected (n : Nat) (m : Nat → MeshStructure)
    (cells g : Nat → CellLocalInformation) (t : Nat → LayerLayout)
    (hsum : ∀ c, c < n → ghostRegionCells (m c) = (m c).numberOfGhostCells)
    (hle : ∀ c, c < n → ∀ r, r < (m c).numberOfRegions →
      (m c).numberOfGhostRegionDerivatives r ≤ (m c).numberOfGhostRegionCells r)
    (hcorr : correctGhostRegionSetups n m cells = some g)
    (hret : deriveLayerLayouts n m g (setUpLayers n m) = some t) :
    ∀ c, c < n →
      (∀ r, r < (m c).numberOfRegions →
        (t c).m_numberOfGhostRegionDerivatives r = (m c).numberOfGhostRegionDerivatives r
        ∧ (t c).m_numberOfGhostRegionBuffers r
          = (m c).numberOfGhostRegionCells r - (m c).numberOfGhostRegionDerivatives r)
      ∧ LayoutTotals (m c) (t c) := by
  obtain ⟨hsome, hnone⟩ := deriveLayerLayouts_cases n m g (setUpLayers n m)
  have hpass : ∀ c, c < n → LayoutChecksPass (m c)
      (fun k => g ((setUpLayers n m c).m_ghostCellInformation + k))
      (fun k => g ((setUpLayers n m c).m_copyCellInformation + k)) := by
    intro c hc
    by_contra hbad
    rw [hnone ⟨c, hc, hbad⟩] at hret
    exact Option.noConfusion hret
  obtain ⟨t', ht', hcl⟩ := hsome hpass
  have htt : t' = t := by
    rw [ht'] at hret
    exact Option.some.inj hret
  subst htt
  intro c hc
  obtain ⟨L, hL, hreg, t1, t2, t3, t4, -, -⟩ := deriveClusterLayout_some (m c)
    (fun k => g ((setUpLayers n m c).m_ghostCellInformation + k))
    (fun k => g ((setUpLayers n m c).m_copyCellInformation + k))
    (fun k => g ((setUpLayers n m c).m_interiorCellInformation + k)) (hpass c hc)
  have hLt : L = t' c := by
    rw [hcl c hc] at hL
    exact (Option.some.inj hL).symm
  subst hLt
  refine ⟨?_, t1, t2, t3, t4⟩
  intro r hr
  obtain ⟨a1, a2, -, -⟩ := hreg r hr
  constructor
  · rw [a2]
    exact cellsWithBit_first 9 _ _ _ _ (hle c hc r hr)
      (fun i hi => (ghostCells_after_correction n m cells g hsum hcorr c hc r hr i hi).1)
  · rw [a1]
    exact cellsWithBit_rest 8 _ _ _ _ (hle c hc r hr)
      (fun i hi => (ghostCells_after_correction n m cells g hsum hcorr c hc r hr i hi).2)

theorem initializeGhostRegion_fst (DOFS DERS : Nat) (m : Nat → MeshStructure) (c r : Nat)
    (st : Nat × GhostRegions) :
    (initializeGhostRegion DOFS DERS m c r st).1
      = st.1 + ghostRegionSize DOFS DERS (m c) r := rfl

theorem initializeGhostRegion_regions (DOFS DERS : Nat) (m : Nat → MeshStructure) (c r : Nat)
    (st : Nat × GhostRegions) :
    (initializeGhostRegion DOFS DERS m c r st).2.ghostRegions
      = Function.update st.2.ghostRegions c
          (Function.update (st.2.ghostRegions c) r st.1) := rfl

theorem initializeGhostRegion_sizes (DOFS DERS : Nat) (m : Nat → MeshStructure) (c r : Nat)
    (st : Nat × GhostRegions) :
    (initializeGhostRegion DOFS DERS m c r st).2.ghostRegionSizes
      = Function.update st.2.ghostRegionSizes c
          (Function.update (st.2.ghostRegionSizes c) r (ghostRegionSize DOFS DERS (m c) r)) :=
  rfl

/-- The loop over the ghost regions of a cluster in
`initializeCommunicationStructure`: each region starts where the region
before it ends. -/
theorem iterLoop_initializeGhostRegion (DOFS DERS : Nat) (m : Nat → MeshStructure) (c : Nat)
    (st : Nat × GhostRegions) (R : Nat) :
    (iterLoop (initializeGhostRegion DOFS DERS m c) R st).1
        = st.1 + prefixSum (ghostRegionSize DOFS DERS (m c)) R
    ∧ (∀ r, r < R →
        (iterLoop (initializeGhostRegion DOFS DERS m c) R st).2.ghostRegions c r
          = st.1 + prefixSum (ghostRegionSize DOFS DERS (m c)) r
        ∧ (iterLoop (initializeGhostRegion DOFS DERS m c) R st).2.ghostRegionSizes c r
          = ghostRegionSize DOFS DERS (m c) r)
    ∧ ∀ c', c' ≠ c →
        (iterLoop (initializeGhostRegion DOFS DERS m c) R st).2.ghostRegions c'
          = st.2.ghostRegions c'
        ∧ (iterLoop (initializeGhostRegion DOFS DERS m c) R st).2.ghostRegionSizes c'
          = st.2.ghostRegionSizes c' := by
  induction R with
  | zero => exact ⟨rfl, fun r hr => absurd hr (Nat.not_lt_zero r), fun _ _ => ⟨rfl, rfl⟩⟩
  | succ R ih =>
    obtain ⟨h1, h2, h3⟩ := ih
    rw [iterLoop_succ]
    refine ⟨?_, ?_, ?_⟩
    · rw [initializeGhostRegion_fst, h1, prefixSum_succ]
      omega
    · intro r hr
      rw [initializeGhostRegion_regions, initializeGhostRegion_sizes, Function.update_same,
        Function.update_same]
      by_cases e : r = R
      · subst e
        rw [Function.update_same, Function.update_same, h1]
        exact ⟨rfl, rfl⟩
      · rw [Function.update_noteq e, Function.update_noteq e]
        exact h2 r (by omega)
    · intro c' hc'
      rw [initializeGhostRegion_regions, initializeGhostRegion_sizes,
        Function.update_noteq hc', Function.update_noteq hc']
      exact h3 c' hc'

/-- The ghost layer part of `initializeCommunicationStructure`: the ghost
regions follow each other, cluster by cluster and region by region, each
starting where the one before it ends, and `l_ghostStart` ends at the sum of
their sizes. -/
theorem iterLoop_initializeGhostCluster (DOFS DERS : Nat) (m : Nat → MeshStructure) (C : Nat) :
    (iterLoop (fun l_cluster st =>
        iterLoop (initializeGhostRegion DOFS DERS m l_cluster) (m l_cluster).numberOfRegions st)
      C (0, { ghostRegions := fun _ _ => 0, ghostRegionSizes := fun _ _ => 0 })).1
        = prefixSum (fun c => prefixSum (ghostRegionSize DOFS DERS (m c))
            (m c).numberOfRegions) C
    ∧ ∀ c, c < C → ∀ r, r < (m c).numberOfRegions →
        (iterLoop (fun l_cluster st =>
            iterLoop (initializeGhostRegion DOFS DERS m l_cluster)
              (m l_cluster).numberOfRegions st)
          C (0, { ghostRegions := fun _ _ => 0, ghostRegionSizes := fun _ _ => 0 })).2.ghostRegions
            c r
          = prefixSum (fun c => prefixSum (ghostRegionSize DOFS DERS (m c))
              (m c).numberOfRegions) c
            + prefixSum (ghostRegionSize DOFS DERS (m c)) r
        ∧ (iterLoop (fun l_cluster st =>
            iterLoop (initializeGhostRegion DOFS DERS m l_cluster)
              (m l_cluster).numberOfRegions st)
          C (0, { ghostRegions := fun _ _ => 0,
                  ghostRegionSizes := fun _ _ => 0 })).2.ghostRegionSizes c r
          = ghostRegionSize DOFS DERS (m c) r := by
  induction C with
  | zero => exact ⟨rfl, fun c hc => absurd hc (Nat.not_lt_zero c)⟩
  | succ C ih =>
    obtain ⟨h1, h2⟩ := ih
    rw [iterLoop_succ]
    obtain ⟨a1, a2, a3⟩ := iterLoop_initializeGhostRegion DOFS DERS m C
      (iterLoop (fun l_cluster st =>
        iterLoop (initializeGhostRegion DOFS DERS m l_cluster) (m l_cluster).numberOfRegions st)
      C (0, { ghostRegions := fun _ _ => 0, ghostRegionSizes := fun _ _ => 0 }))
      (m C).numberOfRegions
    refine ⟨?_, ?_⟩
    · rw [a1, h1, prefixSum_succ]
    · intro c hc r hr
      by_cases e : c = C
      · subst e
        rw [(a2 r hr).1, (a2 r hr).2, h1]
        exact ⟨rfl, rfl⟩
      · rw [(a3 c e).1, (a3 c e).2]
        exact h2 c (by omega) r hr

theorem usub_eq (a b : Nat) (hb : b ≤ a) (ha : a < UINT_RANGE) : usub a b = a - b := by
  unfold usub
  rw [Nat.mod_eq_of_lt (by omega : b < UINT_RANGE)]
  have e : a + UINT_RANGE - b = (a - b) + UINT_RANGE := by omega
  rw [e, Nat.add_mod_right, Nat.mod_eq_of_lt (by omega)]

/-- The size of a ghost region when the counts agree and the size is below
`2^32`. -/
theorem ghostRegionSize_eq (DOFS DERS : Nat) (ms : MeshStructure) (r : Nat)
    (hle : ms.numberOfGhostRegionDerivatives r ≤ ms.numberOfGhostRegionCells r)
    (hcells : ms.numberOfGhostRegionCells r < UINT_RANGE)
    (hsize : DOFS * (ms.numberOfGhostRegionCells r - ms.numberOfGhostRegionDerivatives r)
      + DERS * ms.numberOfGhostRegionDerivatives r < UINT_RANGE) :
    ghostRegionSize DOFS DERS ms r
      = DOFS * (ms.numberOfGhostRegionCells r - ms.numberOfGhostRegionDerivatives r)
        + DERS * ms.numberOfGhostRegionDerivatives r := by
  unfold ghostRegionSize
  simp only []
  rw [usub_eq _ _ hle hcells]
  unfold uadd umul
  rw [Nat.mod_eq_of_lt (by omega : DOFS * (ms.numberOfGhostRegionCells r
      - ms.numberOfGhostRegionDerivatives r) < UINT_RANGE),
    Nat.mod_eq_of_lt (by omega : DERS * ms.numberOfGhostRegionDerivatives r < UINT_RANGE),
    Nat.mod_eq_of_lt hsize]

/-- The ghost size of `allocateInternalState` depends on the counts of the
ghost regions only: the loop over the regions. -/
theorem iterLoop_allocateRegionSizes_fst (DOFS DERS : Nat) (L : LayerLayout) (R g0 c0 : Nat)
    (hg : g0 + prefixSum (fun r => DOFS * L.m_numberOfGhostRegionBuffers r
      + DERS * L.m_numberOfGhostRegionDerivatives r) R < UINT_RANGE) :
    (iterLoop (allocateRegionSizes DOFS DERS L) R (g0, c0)).1
      = g0 + prefixSum (fun r => DOFS * L.m_numberOfGhostRegionBuffers r
            + DERS * L.m_numberOfGhostRegionDerivatives r) R := by
  induction R with
  | zero => rfl
  | succ R ih =>
    rw [prefixSum_succ] at hg
    rw [iterLoop_succ]
    show uadd (uadd (iterLoop (allocateRegionSizes DOFS DERS L) R (g0, c0)).1 _) _ = _
    rw [ih (by omega), uadd_umul_eq _ _ _ _ _ (by omega), prefixSum_succ]
    omega

/-- The ghost size of `allocateInternalState` is the sum of the sizes of the
ghost regions when that sum is below `2^32`. -/
theorem iterLoop_allocateClusterSizes_fst (DOFS DERS : Nat) (m : Nat → MeshStructure)
    (layouts : Nat → LayerLayout) (n C : Nat) (hC : C ≤ n)
    (hg : prefixSum (fun c => prefixSum (fun r =>
        DOFS * (layouts c).m_numberOfGhostRegionBuffers r
          + DERS * (layouts c).m_numberOfGhostRegionDerivatives r) (m c).numberOfRegions) n
      < UINT_RANGE) :
    (iterLoop (allocateClusterSizes DOFS DERS m layouts) C (0, 0, 0)).1
      = prefixSum (fun c => prefixSum (fun r =>
          DOFS * (layouts c).m_numberOfGhostRegionBuffers r
            + DERS * (layouts c).m_numberOfGhostRegionDerivatives r) (m c).numberOfRegions) C := by
  induction C with
  | zero => rfl
  | succ C ih =>
    have hmono := prefixSum_mono (fun c => prefixSum (fun r =>
        DOFS * (layouts c).m_numberOfGhostRegionBuffers r
          + DERS * (layouts c).m_numberOfGhostRegionDerivatives r) (m c).numberOfRegions) hC
    rw [prefixSum_succ] at hmono
    rw [iterLoop_succ]
    show (iterLoop (allocateRegionSizes DOFS DERS (layouts C)) (m C).numberOfRegions
      ((iterLoop (allocateClusterSizes DOFS DERS m layouts) C (0, 0, 0)).1,
        (iterLoop (allocateClusterSizes DOFS DERS m layouts) C (0, 0, 0)).2.1)).1 = _
    rw [iterLoop_allocateRegionSizes_fst, ih (by omega), prefixSum_succ]
    rw [ih (by omega)]
    omega

/-! ## C28: the ghost regions and the ghost layer -/

theorem ghostSize_eq_regions (DOFS DERS : Nat) (ms : MeshStructure) (L : LayerLayout)
    (hT : LayoutTotals ms L) :
    ghostSize DOFS DERS L
      = prefixSum (fun r => DOFS * L.m_numberOfGhostRegionBuffers r
          + DERS * L.m_numberOfGhostRegionDerivatives r) ms.numberOfRegions := by
  unfold ghostSize
  rw [prefixSum_linear, hT.1, hT.2.1]

/-- The ghost regions tile the ghost layer when its size is below `2^32`.
Let the ghost region cell counts of every cluster sum to its
`numberOfGhostCells`, let no region have more derivatives than cells, let
`correctGhostRegionSetups` and `deriveLayerLayouts` return, and let the size of
the ghost layer be below `2^32` reals.  Then the counts derived for the ghost
regions are those of the mesh structure, the ghost regions of
`initializeCommunicationStructure` follow each other without gap and
overlap, and the sum of their sizes is the ghost size that
`allocateInternalState` computes. -/
theorem ghostRegions_tile_ghostLayer (DOFS DERS n : Nat) (m : Nat → MeshStructure)
    (cells g : Nat → CellLocalInformation) (t : Nat → LayerLayout)
    (hDOFS : 0 < DOFS) (hDERS : 0 < DERS)
    (hsum : ∀ c, c < n → ghostRegionCells (m c) = (m c).numberOfGhostCells)
    (hle : ∀ c, c < n → ∀ r, r < (m c).numberOfRegions →
      (m c).numberOfGhostRegionDerivatives r ≤ (m c).numberOfGhostRegionCells r)
    (hcorr : correctGhostRegionSetups n m cells = some g)
    (hret : deriveLayerLayouts n m g (setUpLayers n m) = some t)
    (hsize : prefixSum (fun c => ghostSize DOFS DERS (t c)) n < UINT_RANGE) :
    (∀ c, c < n → ∀ r, r < (m c).numberOfRegions →
        (t c).m_numberOfGhostRegionDerivatives r = (m c).numberOfGhostRegionDerivatives r
        ∧ (t c).m_numberOfGhostRegionBuffers r
          = (m c).numberOfGhostRegionCells r - (m c).numberOfGhostRegionDerivatives r)
    ∧ (∀ c, c < n → ∀ r, r < (m c).numberOfRegions →
        (initializeCommunicationStructure DOFS DERS n m).2.ghostRegions c r
          = prefixSum (fun c => prefixSum (ghostRegionSize DOFS DERS (m c))
              (m c).numberOfRegions) c
            + prefixSum (ghostRegionSize DOFS DERS (m c)) r
        ∧ (initializeCommunicationStructure DOFS DERS n m).2.ghostRegionSizes c r
          = ghostRegionSize DOFS DERS (m c) r)
    ∧ (initializeCommunicationStructure DOFS DERS n m).1
        = prefixSum (fun c => prefixSum (ghostRegionSize DOFS DERS (m c))
            (m c).numberOfRegions) n
    ∧ (initializeCommunicationStructure DOFS DERS n m).1
        = (allocateInternalState DOFS DERS n m t).1 := by
  have hcounts := ghostCounts_of_corrected n m cells g t hsum hle hcorr hret
  obtain ⟨c1, c2⟩ := iterLoop_initializeGhostCluster DOFS DERS m n
  have hreg : ∀ c, c < n → ∀ r, r < (m c).numberOfRegions →
      ghostRegionSize DOFS DERS (m c) r
        = DOFS * (t c).m_numberOfGhostRegionBuffers r
          + DERS * (t c).m_numberOfGhostRegionDerivatives r := by
    intro c hc r hr
    obtain ⟨a1, a2⟩ := (hcounts c hc).1 r hr
    have b1 := le_prefixSum (fun c => ghostSize DOFS DERS (t c)) hc
    simp only [] at b1
    rw [ghostSize_eq_regions DOFS DERS (m c) (t c) (hcounts c hc).2] at b1
    have b2 := le_prefixSum (fun r => DOFS * (t c).m_numberOfGhostRegionBuffers r
      + DERS * (t c).m_numberOfGhostRegionDerivatives r) hr
    simp only [] at b2
    rw [a1, a2] at b2
    have hl := hle c hc r hr
    have k1 : (m c).numberOfGhostRegionCells r - (m c).numberOfGhostRegionDerivatives r
        ≤ DOFS * ((m c).numberOfGhostRegionCells r - (m c).numberOfGhostRegionDerivatives r) :=
      Nat.le_mul_of_pos_left _ hDOFS
    have k2 : (m c).numberOfGhostRegionDerivatives r
        ≤ DERS * (m c).numberOfGhostRegionDerivatives r := Nat.le_mul_of_pos_left _ hDERS
    rw [ghostRegionSize_eq DOFS DERS (m c) r hl (by omega) (by omega), a1, a2]
  have hsumeq : prefixSum (fun c => prefixSum (ghostRegionSize DOFS DERS (m c))
        (m c).numberOfRegions) n
      = prefixSum (fun c => prefixSum (fun r =>
          DOFS * (t c).m_numberOfGhostRegionBuffers r
            + DERS * (t c).m_numberOfGhostRegionDerivatives r) (m c).numberOfRegions) n :=
    prefixSum_congr _ _ n (fun c hc => prefixSum_congr _ _ _ (fun r hr => hreg c hc r hr))
  have hsz : prefixSum (fun c => prefixSum (fun r =>
        DOFS * (t c).m_numberOfGhostRegionBuffers r
          + DERS * (t c).m_numberOfGhostRegionDerivatives r) (m c).numberOfRegions) n
      < UINT_RANGE := by
    have e : prefixSum (fun c => ghostSize DOFS DERS (t c)) n
        = prefixSum (fun c => prefixSum (fun r =>
          DOFS * (t c).m_numberOfGhostRegionBuffers r
            + DERS * (t c).m_numberOfGhostRegionDerivatives r) (m c).numberOfRegions) n :=
      prefixSum_congr _ _ n (fun c hc =>
        ghostSize_eq_regions DOFS DERS (m c) (t c) (hcounts c hc).2)
    rw [← e]
    exact hsize
  refine ⟨fun c hc => (hcounts c hc).1, c2, c1, ?_⟩
  have e1 : (initializeCommunicationStructure DOFS DERS n m).1 = _ := c1
  have e2 : (allocateInternalState DOFS DERS n m t).1 = _ :=
    iterLoop_allocateClusterSizes_fst DOFS DERS m t n n (le_refl n) hsz
  rw [e1, e2, hsumeq]

/-- Witness for the ghost regions below `2^32` reals: two clusters with one
ghost region of 3 cells each and slots of 504 reals.  The regions have 1512
reals each, the second one starts at 1512, and the regions end at 3024, the
ghost size of `allocateInternalState`. -/
theorem ghostRegions_tile_ghostLayer_witness :
    ∃ g t, correctGhostRegionSetups 2 (fun _ => ghostMesh 3) (fun _ => cellWith 256) = some g
      ∧ deriveLayerLayouts 2 (fun _ => ghostMesh 3) g (setUpLayers 2 (fun _ => ghostMesh 3))
          = some t
      ∧ (initializeCommunicationStructure 504 1134 2 (fun _ => ghostMesh 3)).2.ghostRegions 1 0
          = 1512
      ∧ (initializeCommunicationStructure 504 1134 2 (fun _ => ghostMesh 3)).1 = 3024
      ∧ (initializeCommunicationStructure 504 1134 2 (fun _ => ghostMesh 3)).1
          = (allocateInternalState 504 1134 2 (fun _ => ghostMesh 3) t).1 := by
  have hv : ∀ c, c < 2 → ∀ r, r < ((fun _ => ghostMesh 3) c).numberOfRegions →
      ∀ i, i < ((fun _ => ghostMesh 3) c).numberOfGhostRegionCells r →
        ghostCellValid ((fun _ => ghostMesh 3) c) r i
          ((fun _ => cellWith 256) (ghostCellIndex (fun _ => ghostMesh 3) c r i))
          = true := by
    intro c _ r _ i _
    show ghostCellValid (ghostMesh 3) r i (cellWith 256) = true
    unfold ghostCellValid
    have h0 : ¬ i < (ghostMesh 3).numberOfGhostRegionDerivatives r := Nat.not_lt_zero i
    rw [if_neg h0]
    decide
  obtain ⟨g, hg, -, -⟩ := forLoop_correctGhostCluster_some (fun _ => ghostMesh 3) 2
    (fun _ => cellWith 256) hv
  have hcorr : correctGhostRegionSetups 2 (fun _ => ghostMesh 3) (fun _ => cellWith 256)
      = some g := by
    unfold correctGhostRegionSetups
    rw [hg]
    rfl
  have hsum : ∀ c, c < 2 → ghostRegionCells ((fun _ => ghostMesh 3) c)
      = ((fun _ => ghostMesh 3) c).numberOfGhostCells := fun _ _ => by
    show prefixSum (fun _ => 3) 1 = 3
    rfl
  have hle : ∀ c, c < 2 → ∀ r, r < ((fun _ => ghostMesh 3) c).numberOfRegions →
      ((fun _ => ghostMesh 3) c).numberOfGhostRegionDerivatives r
        ≤ ((fun _ => ghostMesh 3) c).numberOfGhostRegionCells r :=
    fun _ _ _ _ => Nat.zero_le _
  have hpass : ∀ c, c < 2 → LayoutChecksPass ((fun _ => ghostMesh 3) c)
      (fun k => g ((setUpLayers 2 (fun _ => ghostMesh 3) c).m_ghostCellInformation + k))
      (fun k => g ((setUpLayers 2 (fun _ => ghostMesh 3) c).m_copyCellInformation + k)) := by
    intro c hc
    constructor
    · intro r hr i hi
      obtain ⟨b9, b8⟩ := ghostCells_after_correction 2 (fun _ => ghostMesh 3)
        (fun _ => cellWith 256) g hsum hcorr c hc r hr i hi
      have h8 := b8.2 (Nat.zero_le i)
      have h9 : ltsBit (g ((setUpLayers 2 (fun _ => ghostMesh 3) c).m_ghostCellInformation
          + (prefixSum (ghostMesh 3).numberOfGhostRegionCells r + i))).ltsSetup 9
          = false := by
        cases hb : ltsBit (g ((setUpLayers 2
            (fun _ => ghostMesh 3) c).m_ghostCellInformation
          + (prefixSum (ghostMesh 3).numberOfGhostRegionCells r + i))).ltsSetup 9 with
        | false => rfl
        | true => exact absurd (b9.1 hb) (Nat.not_lt_zero i)
      show xor (ltsBit (g _).ltsSetup 8) (ltsBit (g _).ltsSetup 9) = true
      rw [h8, h9]
      rfl
    · intro r _ i hi
      exact absurd hi (Nat.not_lt_zero i)
  obtain ⟨t, ht, -⟩ := (deriveLayerLayouts_cases 2 (fun _ => ghostMesh 3) g
    (setUpLayers 2 (fun _ => ghostMesh 3))).1 hpass
  have hcounts := ghostCounts_of_corrected 2 (fun _ => ghostMesh 3)
    (fun _ => cellWith 256) g t hsum hle hcorr ht
  have hsize : prefixSum (fun c => ghostSize 504 1134 (t c)) 2 < UINT_RANGE := by
    have e : ∀ c, c < 2 → ghostSize 504 1134 (t c) = 1512 := by
      intro c hc
      obtain ⟨d0, b0⟩ := (hcounts c hc).1 0 (Nat.zero_lt_one)
      rw [ghostSize_eq_regions 504 1134 ((fun _ => ghostMesh 3) c) (t c) (hcounts c hc).2]
      show 0 + (504 * (t c).m_numberOfGhostRegionBuffers 0
        + 1134 * (t c).m_numberOfGhostRegionDerivatives 0) = 1512
      rw [d0, b0]
      rfl
    show 0 + ghostSize 504 1134 (t 0) + ghostSize 504 1134 (t 1) < UINT_RANGE
    rw [e 0 (by decide), e 1 (by decide)]
    decide
  obtain ⟨-, -, -, h4⟩ := ghostRegions_tile_ghostLayer 504 1134 2 (fun _ => ghostMesh 3)
    (fun _ => cellWith 256) g t (by decide) (by decide) hsum hle hcorr ht hsize
  exact ⟨g, t, hcorr, ht, by decide!, by decide!, h4⟩

/-- The ghost size of `allocateInternalState` for two clusters with one
region each. -/
theorem allocateInternalState_two (DOFS DERS N : Nat) (t : Nat → LayerLayout) :
    (allocateInternalState DOFS DERS 2 (fun _ => ghostMesh N) t).1
      = uadd (uadd (uadd (uadd 0 (umul DOFS ((t 0).m_numberOfGhostRegionBuffers 0)))
            (umul DERS ((t 0).m_numberOfGhostRegionDerivatives 0)))
          (umul DOFS ((t 1).m_numberOfGhostRegionBuffers 0)))
        (umul DERS ((t 1).m_numberOfGhostRegionDerivatives 0)) := rfl

/-- C28 (failing input).  Two clusters with one ghost region of 4261413
cells each, all with the buffer bit (`ltsSetup` 256) and none providing
derivatives, no copy and interior cells, and slots of 504 reals.
`correctGhostRegionSetups` and `deriveLayerLayouts` return, the counts derived
are those of the mesh structure, and each ghost region has the size
2147752152: the second region starts at 2147752152 and the regions end at
4295504304, while `allocateInternalState` computes the ghost size 537008 in
an `unsigned int`. -/
theorem ghostRegions_exceed_ghostLayer :
    ∃ g t, correctGhostRegionSetups 2 (fun _ => ghostMesh 4261413) (fun _ => cellWith 256)
        = some g
      ∧ deriveLayerLayouts 2 (fun _ => ghostMesh 4261413) g
          (setUpLayers 2 (fun _ => ghostMesh 4261413)) = some t
      ∧ (t 0).m_numberOfGhostRegionBuffers 0 = 4261413
      ∧ (t 1).m_numberOfGhostRegionBuffers 0 = 4261413
      ∧ (allocateInternalState 504 1134 2 (fun _ => ghostMesh 4261413) t).1 = 537008
      ∧ (initializeCommunicationStructure 504 1134 2
          (fun _ => ghostMesh 4261413)).2.ghostRegionSizes 0 0 = 2147752152
      ∧ (initializeCommunicationStructure 504 1134 2
          (fun _ => ghostMesh 4261413)).2.ghostRegions 1 0 = 2147752152
      ∧ (initializeCommunicationStructure 504 1134 2
          (fun _ => ghostMesh 4261413)).2.ghostRegionSizes 1 0 = 2147752152
      ∧ (initializeCommunicationStructure 504 1134 2 (fun _ => ghostMesh 4261413)).1
          = 4295504304 := by
  have hv : ∀ c, c < 2 → ∀ r, r < ((fun _ => ghostMesh 4261413) c).numberOfRegions →
      ∀ i, i < ((fun _ => ghostMesh 4261413) c).numberOfGhostRegionCells r →
        ghostCellValid ((fun _ => ghostMesh 4261413) c) r i
          ((fun _ => cellWith 256) (ghostCellIndex (fun _ => ghostMesh 4261413) c r i))
          = true := by
    intro c _ r _ i _
    show ghostCellValid (ghostMesh 4261413) r i (cellWith 256) = true
    unfold ghostCellValid
    have h0 : ¬ i < (ghostMesh 4261413).numberOfGhostRegionDerivatives r := Nat.not_lt_zero i
    rw [if_neg h0]
    decide
  obtain ⟨g, hg, -, -⟩ := forLoop_correctGhostCluster_some (fun _ => ghostMesh 4261413) 2
    (fun _ => cellWith 256) hv
  have hcorr : correctGhostRegionSetups 2 (fun _ => ghostMesh 4261413) (fun _ => cellWith 256)
      = some g := by
    unfold correctGhostRegionSetups
    rw [hg]
    rfl
  have hsum : ∀ c, c < 2 → ghostRegionCells ((fun _ => ghostMesh 4261413) c)
      = ((fun _ => ghostMesh 4261413) c).numberOfGhostCells := fun _ _ => by
    show prefixSum (fun _ => 4261413) 1 = 4261413
    rfl
  have hle : ∀ c, c < 2 → ∀ r, r < ((fun _ => ghostMesh 4261413) c).numberOfRegions →
      ((fun _ => ghostMesh 4261413) c).numberOfGhostRegionDerivatives r
        ≤ ((fun _ => ghostMesh 4261413) c).numberOfGhostRegionCells r :=
    fun _ _ _ _ => Nat.zero_le _
  have hpass : ∀ c, c < 2 → LayoutChecksPass ((fun _ => ghostMesh 4261413) c)
      (fun k => g ((setUpLayers 2 (fun _ => ghostMesh 4261413) c).m_ghostCellInformation + k))
      (fun k => g ((setUpLayers 2 (fun _ => ghostMesh 4261413) c).m_copyCellInformation + k)) := by
    intro c hc
    constructor
    · intro r hr i hi
      obtain ⟨b9, b8⟩ := ghostCells_after_correction 2 (fun _ => ghostMesh 4261413)
        (fun _ => cellWith 256) g hsum hcorr c hc r hr i hi
      have h8 := b8.2 (Nat.zero_le i)
      have h9 : ltsBit (g ((setUpLayers 2 (fun _ => ghostMesh 4261413) c).m_ghostCellInformation
          + (prefixSum (ghostMesh 4261413).numberOfGhostRegionCells r + i))).ltsSetup 9
          = false := by
        cases hb : ltsBit (g ((setUpLayers 2
            (fun _ => ghostMesh 4261413) c).m_ghostCellInformation
          + (prefixSum (ghostMesh 4261413).numberOfGhostRegionCells r + i))).ltsSetup 9 with
        | false => rfl
        | true => exact absurd (b9.1 hb) (Nat.not_lt_zero i)
      show xor (ltsBit (g _).ltsSetup 8) (ltsBit (g _).ltsSetup 9) = true
      rw [h8, h9]
      rfl
    · intro r _ i hi
      exact absurd hi (Nat.not_lt_zero i)
  obtain ⟨t, ht, -⟩ := (deriveLayerLayouts_cases 2 (fun _ => ghostMesh 4261413) g
    (setUpLayers 2 (fun _ => ghostMesh 4261413))).1 hpass
  have hcounts := ghostCounts_of_corrected 2 (fun _ => ghostMesh 4261413)
    (fun _ => cellWith 256) g t hsum hle hcorr ht
  obtain ⟨d0, b0⟩ := (hcounts 0 (by decide)).1 0 (by decide)
  obtain ⟨d1, b1⟩ := (hcounts 1 (by decide)).1 0 (by decide)
  have b0' : (t 0).m_numberOfGhostRegionBuffers 0 = 4261413 := b0
  have b1' : (t 1).m_numberOfGhostRegionBuffers 0 = 4261413 := b1
  have d0' : (t 0).m_numberOfGhostRegionDerivatives 0 = 0 := d0
  have d1' : (t 1).m_numberOfGhostRegionDerivatives 0 = 0 := d1
  refine ⟨g, t, hcorr, ht, b0', b1', ?_, by decide!, by decide!, by decide!, by decide!⟩
  rw [allocateInternalState_two, b0', b1', d0', d1']
  decide!

/-! ## The cube mesh generator: sizes and indices -/

theorem cubeOdd_eq (zz yy xx : Nat) : cubeOdd zz yy xx = (zz + yy + xx) % 2 := by
  unfold cubeOdd uadd UINT_RANGE
  omega

theorem cubeOdd_lt (zz yy xx : Nat) : cubeOdd zz yy xx < 2 := by
  rw [cubeOdd_eq]
  omega

theorem cubeIndex_lt {n0 n1 n2 zz yy xx : Nat} (hz : zz < n2) (hy : yy < n1) (hx : xx < n0) :
    (zz * n1 + yy) * n0 + xx < n0 * n1 * n2 := by
  have h1 : zz * n1 + yy + 1 ≤ n2 * n1 := by
    have : (zz + 1) * n1 ≤ n2 * n1 := Nat.mul_le_mul_right n1 hz
    nlinarith
  have h2 : (zz * n1 + yy + 1) * n0 ≤ n2 * n1 * n0 := Nat.mul_le_mul_right n0 h1
  nlinarith

theorem numCubesPerPart_facts (args : CubeArguments) (hacc : ArgumentsAccepted args)
    (i : Nat) (hi : i < 3) :
    2 ≤ numCubesPerPart args i ∧ numCubesPerPart args i % 2 = 0
      ∧ 0 < numPartitions args i
      ∧ numCubes args i = numPartitions args i * numCubesPerPart args i := by
  obtain ⟨h2, hdiv, heven⟩ := hacc i hi
  have hp : 0 < numPartitions args i := by
    rcases Nat.eq_zero_or_pos (numPartitions args i) with h0 | h0
    · rw [h0, Nat.mod_zero] at hdiv
      omega
    · exact h0
  have hmul : numCubes args i = numPartitions args i * numCubesPerPart args i := by
    unfold numCubesPerPart
    exact (Nat.mul_div_cancel' (Nat.dvd_of_mod_eq_zero hdiv)).symm
  have hpos : 0 < numCubesPerPart args i := by
    rcases Nat.eq_zero_or_pos (numCubesPerPart args i) with h0 | h0
    · rw [h0, Nat.mul_zero] at hmul
      omega
    · exact h0
  refine ⟨?_, heven, hp, hmul⟩
  have : numCubesPerPart args i % 2 = 0 := heven
  omega

theorem numCubesPerPart_three (args : CubeArguments) (hno : NoOverflow args) :
    numCubesPerPart args 3
      = numCubesPerPart args 0 * numCubesPerPart args 1 * numCubesPerPart args 2 :=
  hno.1

theorem numElemPerPart_three (args : CubeArguments) (hno : NoOverflow args) :
    numElemPerPart args 3
      = 5 * (numCubesPerPart args 0 * numCubesPerPart args 1 * numCubesPerPart args 2) := by
  unfold numElemPerPart umul
  rw [numCubesPerPart_three args hno]
  have h := hno.2
  rw [Nat.mod_eq_of_lt (by omega)]
  omega

theorem cubeStart_eq (args : CubeArguments) (hno : NoOverflow args) {zz yy xx : Nat}
    (hz : zz < numCubesPerPart args 2) (hy : yy < numCubesPerPart args 1)
    (hx : xx < numCubesPerPart args 0) :
    cubeStart args zz yy xx
        = 20 * ((zz * numCubesPerPart args 1 + yy) * numCubesPerPart args 0 + xx)
      ∧ cubeOffset args zz yy xx
        = 5 * ((zz * numCubesPerPart args 1 + yy) * numCubesPerPart args 0 + xx) := by
  have hK := cubeIndex_lt hz hy hx
  have h := hno.2
  have b2 : zz * numCubesPerPart args 1 + yy
      ≤ (zz * numCubesPerPart args 1 + yy) * numCubesPerPart args 0 + xx :=
    le_trans (Nat.le_mul_of_pos_right _ (by omega)) (Nat.le_add_right _ _)
  have b1 : zz * numCubesPerPart args 1
      ≤ (zz * numCubesPerPart args 1 + yy) * numCubesPerPart args 0 + xx := by omega
  have b3 : (zz * numCubesPerPart args 1 + yy) * numCubesPerPart args 0
      ≤ (zz * numCubesPerPart args 1 + yy) * numCubesPerPart args 0 + xx := by omega
  unfold cubeStart cubeOffset umul uadd
  rw [Nat.mod_eq_of_lt (by omega : zz * numCubesPerPart args 1 < UINT_RANGE),
    Nat.mod_eq_of_lt (by omega : zz * numCubesPerPart args 1 + yy < UINT_RANGE),
    Nat.mod_eq_of_lt (by omega : (zz * numCubesPerPart args 1 + yy) * numCubesPerPart args 0
      < UINT_RANGE),
    Nat.mod_eq_of_lt (by omega : (zz * numCubesPerPart args 1 + yy) * numCubesPerPart args 0 + xx
      < UINT_RANGE),
    Nat.mod_eq_of_lt (by omega), Nat.mod_eq_of_lt (by omega)]
  constructor <;> ring

/-! ## The cube mesh generator: the loops over the cubes -/

theorem div_mod_decode (q r w : Nat) (hr : r < w) :
    (q * w + r) / w = q ∧ (q * w + r) % w = r := by
  have hw : 0 < w := by omega
  constructor
  · rw [Nat.add_comm, Nat.add_mul_div_right r q hw, Nat.div_eq_of_lt hr, Nat.zero_add]
  · rw [Nat.add_comm, Nat.add_mul_mod_self_right, Nat.mod_eq_of_lt hr]

/-- A loop whose `k`-th iteration sets the `k`-th block of `w` entries from
`lo` on sets the first `n` blocks. -/
theorem iterLoop_blocks (F : Nat → (Nat → Int) → (Nat → Int)) (W : Nat → Nat → Int)
    (lo w : Nat) (hw : 0 < w) (n : Nat)
    (h : ∀ k, k < n → ∀ e p, F k e p
      = if lo + k * w ≤ p ∧ p < lo + k * w + w then W k (p - (lo + k * w)) else e p) :
    ∀ e p, iterLoop F n e p
      = if lo ≤ p ∧ p < lo + n * w then W ((p - lo) / w) ((p - lo) % w) else e p := by
  induction n with
  | zero =>
    intro e p
    have hc : ¬ (lo ≤ p ∧ p < lo + 0 * w) := by
      rw [Nat.zero_mul]
      omega
    rw [if_neg hc]
    rfl
  | succ n ih =>
    intro e p
    rw [iterLoop_succ, h n (Nat.lt_succ_self n),
      ih (fun k hk => h k (Nat.lt_succ_of_lt hk))]
    have hs : (n + 1) * w = n * w + w := Nat.succ_mul n w
    by_cases hb : lo + n * w ≤ p ∧ p < lo + n * w + w
    · rw [if_pos hb, if_pos (by rw [hs]; omega)]
      have hp : p - lo = n * w + (p - (lo + n * w)) := by omega
      have hr : p - (lo + n * w) < w := by omega
      obtain ⟨d1, d2⟩ := div_mod_decode n (p - (lo + n * w)) w hr
      rw [hp, d1, d2]
    · rw [if_neg hb]
      by_cases hc : lo ≤ p ∧ p < lo + n * w
      · rw [if_pos hc, if_pos (by rw [hs]; omega)]
      · rw [if_neg hc, if_neg (by rw [hs]; omega)]

/-- The loops over the cubes with a body that sets the twenty entries of its
cube: the array at the end. -/
theorem cubeLoops_entry (args : CubeArguments)
    (body : Nat → Nat → Nat → (Nat → Int) → (Nat → Int)) (V : Nat → Nat → Nat → Nat → Int)
    (hbody : ∀ zz yy xx, zz < numCubesPerPart args 2 → yy < numCubesPerPart args 1 →
      xx < numCubesPerPart args 0 → ∀ e p, body zz yy xx e p
        = if 20 * ((zz * numCubesPerPart args 1 + yy) * numCubesPerPart args 0 + xx) ≤ p
            ∧ p < 20 * ((zz * numCubesPerPart args 1 + yy) * numCubesPerPart args 0 + xx) + 20
          then V zz yy xx
            (p - 20 * ((zz * numCubesPerPart args 1 + yy) * numCubesPerPart args 0 + xx))
          else e p)
    (e : Nat → Int) :
    (∀ zz yy xx i, zz < numCubesPerPart args 2 → yy < numCubesPerPart args 1 →
      xx < numCubesPerPart args 0 → i < 20 →
      cubeLoops args body e
          (20 * ((zz * numCubesPerPart args 1 + yy) * numCubesPerPart args 0 + xx) + i)
        = V zz yy xx i)
    ∧ (∀ p, 20 * (numCubesPerPart args 0 * numCubesPerPart args 1 * numCubesPerPart args 2) ≤ p →
      cubeLoops args body e p = e p) := by
  generalize hn0 : numCubesPerPart args 0 = n0 at *
  generalize hn1 : numCubesPerPart args 1 = n1 at *
  generalize hn2 : numCubesPerPart args 2 = n2 at *
  have inner : ∀ (n : Nat) (G : Nat → (Nat → Int) → (Nat → Int)),
      (∀ k a, G k a = a) → ∀ a, iterLoop G n a = a := by
    intro n G hG
    induction n with
    | zero => intro a; rfl
    | succ n ih => intro a; rw [iterLoop_succ, hG, ih]
  rcases Nat.eq_zero_or_pos n0 with h0 | h0
  · subst h0
    constructor
    · intro zz yy xx i _ _ hx
      exact absurd hx (Nat.not_lt_zero xx)
    · intro p _
      unfold cubeLoops
      rw [hn0, hn1, hn2]
      have h1 : ∀ zz a,
          iterLoop (fun yy e => iterLoop (fun xx e => body zz yy xx e) 0 e) n1 a = a :=
        fun zz a => inner n1 _ (fun yy a => rfl) a
      have h2 := inner n2
        (fun zz e => iterLoop (fun yy e => iterLoop (fun xx e => body zz yy xx e) 0 e) n1 e)
        h1 e
      rw [h2]
  rcases Nat.eq_zero_or_pos n1 with h1 | h1
  · subst h1
    constructor
    · intro zz yy xx i _ hy
      exact absurd hy (Nat.not_lt_zero yy)
    · intro p _
      unfold cubeLoops
      rw [hn0, hn1, hn2]
      have h2 := inner n2
        (fun zz e => iterLoop (fun yy e => iterLoop (fun xx e => body zz yy xx e) n0 e) 0 e)
        (fun zz a => rfl) e
      rw [h2]
  have hinner : ∀ zz yy, zz < n2 → yy < n1 → ∀ e p,
      iterLoop (fun xx e => body zz yy xx e) n0 e p
        = if 20 * (zz * n1 * n0) + yy * (n0 * 20) ≤ p
            ∧ p < 20 * (zz * n1 * n0) + yy * (n0 * 20) + n0 * 20
          then V zz yy ((p - (20 * (zz * n1 * n0) + yy * (n0 * 20))) / 20)
            ((p - (20 * (zz * n1 * n0) + yy * (n0 * 20))) % 20)
          else e p := by
    intro zz yy hz hy e p
    have := iterLoop_blocks (fun xx e => body zz yy xx e) (fun xx r => V zz yy xx r)
      (20 * (zz * n1 * n0) + yy * (n0 * 20)) 20 (by decide) n0 (by
        intro k hk e p
        have e1 : 20 * ((zz * n1 + yy) * n0 + k)
            = 20 * (zz * n1 * n0) + yy * (n0 * 20) + k * 20 := by ring
        show body zz yy k e p = _
        rw [hbody zz yy k hz hy hk e p, e1]) e p
    exact this
  have hmiddle : ∀ zz, zz < n2 → ∀ e p,
      iterLoop (fun yy e => iterLoop (fun xx e => body zz yy xx e) n0 e) n1 e p
        = if 0 + zz * (n1 * (n0 * 20)) ≤ p ∧ p < 0 + zz * (n1 * (n0 * 20)) + n1 * (n0 * 20)
          then V zz ((p - (0 + zz * (n1 * (n0 * 20)))) / (n0 * 20))
            ((p - (0 + zz * (n1 * (n0 * 20)))) % (n0 * 20) / 20)
            ((p - (0 + zz * (n1 * (n0 * 20)))) % (n0 * 20) % 20)
          else e p := by
    intro zz hz e p
    have := iterLoop_blocks (fun yy e => iterLoop (fun xx e => body zz yy xx e) n0 e)
      (fun yy r => V zz yy (r / 20) (r % 20))
      (0 + zz * (n1 * (n0 * 20))) (n0 * 20) (by omega) n1 (by
        intro k hk e p
        have e1 : 20 * (zz * n1 * n0) + k * (n0 * 20)
            = 0 + zz * (n1 * (n0 * 20)) + k * (n0 * 20) := by ring
        show iterLoop (fun xx e => body zz k xx e) n0 e p = _
        rw [hinner zz k hz hk e p, e1]) e p
    exact this
  have houter := iterLoop_blocks
    (fun zz e => iterLoop (fun yy e => iterLoop (fun xx e => body zz yy xx e) n0 e) n1 e)
    (fun zz r => V zz (r / (n0 * 20)) (r % (n0 * 20) / 20) (r % (n0 * 20) % 20))
    0 (n1 * (n0 * 20)) (Nat.mul_pos h1 (by omega)) n2 (by
      intro k hk e p
      show iterLoop (fun yy e => iterLoop (fun xx e => body k yy xx e) n0 e) n1 e p = _
      rw [hmiddle k hk e p]) e
  constructor
  · intro zz yy xx i hz hy hx hi
    unfold cubeLoops
    rw [hn0, hn1, hn2, houter]
    have hp : 20 * ((zz * n1 + yy) * n0 + xx) + i
        = zz * (n1 * (n0 * 20)) + (yy * (n0 * 20) + (xx * 20 + i)) := by ring
    have r1 : xx * 20 + i < n0 * 20 := by omega
    have r2 : yy * (n0 * 20) + (xx * 20 + i) < n1 * (n0 * 20) := by
      have : (yy + 1) * (n0 * 20) ≤ n1 * (n0 * 20) := Nat.mul_le_mul_right _ hy
      nlinarith
    have r3 : zz * (n1 * (n0 * 20)) + (yy * (n0 * 20) + (xx * 20 + i))
        < 0 + n2 * (n1 * (n0 * 20)) := by
      have : (zz + 1) * (n1 * (n0 * 20)) ≤ n2 * (n1 * (n0 * 20)) := Nat.mul_le_mul_right _ hz
      nlinarith
    rw [hp, if_pos ⟨Nat.zero_le _, r3⟩, Nat.sub_zero]
    obtain ⟨a1, a2⟩ := div_mod_decode zz _ _ r2
    obtain ⟨b1, b2⟩ := div_mod_decode yy _ _ r1
    obtain ⟨c1, c2⟩ := div_mod_decode xx i 20 hi
    simp only [a1, a2, b1, b2, c1, c2]
  · intro p hp
    unfold cubeLoops
    rw [hn0, hn1, hn2, houter]
    have : 20 * (n0 * n1 * n2) = n2 * (n1 * (n0 * 20)) := by ring
    rw [if_neg (by omega)]

/-! ## The cube mesh generator: the entries of a cube -/

theorem agreeOnBlock_memcpy (c : Nat) (e e' : Nat → Int) (src : List Int) :
    AgreeOnBlock c e (memcpy e c src 20) (memcpy e' c src 20) := by
  constructor
  · intro p hp
    unfold memcpy
    rw [if_neg hp]
  · intro p h1 h2
    unfold memcpy
    rw [if_pos ⟨h1, h2⟩, if_pos ⟨h1, h2⟩]

theorem agreeOnBlock_add (c : Nat) (e u v : Nat → Int) (h : AgreeOnBlock c e u v)
    (i : Nat) (hi : c ≤ i ∧ i < c + 20) (d : Int) :
    AgreeOnBlock c e (Function.update u i (u i + d)) (Function.update v i (v i + d)) := by
  constructor
  · intro p hp
    have hne : p ≠ i := fun hpi => hp (hpi ▸ hi)
    rw [Function.update_noteq hne]
    exact h.1 p hp
  · intro p h1 h2
    by_cases hpi : p = i
    · subst hpi
      rw [Function.update_same, Function.update_same, h.2 p h1 h2]
    · rw [Function.update_noteq hpi, Function.update_noteq hpi]
      exact h.2 p h1 h2

theorem agreeOnBlock_set (c : Nat) (e u v : Nat → Int) (h : AgreeOnBlock c e u v)
    (i : Nat) (hi : c ≤ i ∧ i < c + 20) (d : Int) :
    AgreeOnBlock c e (Function.update u i d) (Function.update v i d) := by
  constructor
  · intro p hp
    have hne : p ≠ i := fun hpi => hp (hpi ▸ hi)
    rw [Function.update_noteq hne]
    exact h.1 p hp
  · intro p h1 h2
    by_cases hpi : p = i
    · subst hpi
      rw [Function.update_same, Function.update_same]
    · rw [Function.update_noteq hpi, Function.update_noteq hpi]
      exact h.2 p h1 h2

theorem agreeOnBlock_setBoundarySides (c : Nat) (e u v : Nat → Int) (h : AgreeOnBlock c e u v)
    (periodic : Bool) (i j : Nat) (hi : c ≤ i ∧ i < c + 20) (hj : c ≤ j ∧ j < c + 20)
    (delta numElem : Int) :
    AgreeOnBlock c e (setBoundarySides periodic u i j delta numElem)
      (setBoundarySides periodic v i j delta numElem) := by
  unfold setBoundarySides
  cases periodic with
  | true =>
    simp only [if_true]
    exact agreeOnBlock_add c e _ _ (agreeOnBlock_add c e u v h i hi delta) j hj delta
  | false =>
    simp only [Bool.false_eq_true, if_false]
    exact agreeOnBlock_set c e _ _ (agreeOnBlock_set c e u v h i hi numElem) j hj numElem

theorem uadd_block (c : Nat) (hc : c + 20 ≤ UINT_RANGE) (k : Nat) (hk : k < 20) :
    uadd c k = c + k := by
  unfold uadd
  exact Nat.mod_eq_of_lt (by omega)

theorem agreeOnBlock_addOffset (c : Nat) (hc : c + 20 ≤ UINT_RANGE) (e u v : Nat → Int)
    (h : AgreeOnBlock c e u v) (offset : Int) :
    AgreeOnBlock c e (addOffset c offset u) (addOffset c offset v) := by
  have key : ∀ n, n ≤ 20 → AgreeOnBlock c e
      (iterLoop (fun i e => Function.update e (uadd c i) (e (uadd c i) + offset)) n u)
      (iterLoop (fun i e => Function.update e (uadd c i) (e (uadd c i) + offset)) n v) := by
    intro n
    induction n with
    | zero => exact fun _ => h
    | succ n ih =>
      intro hn
      rw [iterLoop_succ, iterLoop_succ]
      have hu : uadd c n = c + n := uadd_block c hc n (by omega)
      exact agreeOnBlock_add c e _ _ (ih (by omega)) (uadd c n) (by rw [hu]; omega) offset
  exact key 20 (le_refl 20)

theorem block_positions (c : Nat) (hc : c + 20 ≤ UINT_RANGE) (k : Nat) (hk : k < 20) :
    c ≤ uadd c k ∧ uadd c k < c + 20 := by
  rw [uadd_block c hc k hk]
  omega

theorem agreeOnBlock_setSidesX (args : CubeArguments) (zz yy xx : Nat)
    (hc : cubeStart args zz yy xx + 20 ≤ UINT_RANGE) (e u v : Nat → Int)
    (h : AgreeOnBlock (cubeStart args zz yy xx) e u v) :
    AgreeOnBlock (cubeStart args zz yy xx) e (setSidesX args zz yy xx u)
      (setSidesX args zz yy xx v) := by
  have pos := block_positions (cubeStart args zz yy xx) hc
  have pos0 : cubeStart args zz yy xx ≤ cubeStart args zz yy xx
      ∧ cubeStart args zz yy xx < cubeStart args zz yy xx + 20 := ⟨le_refl _, by omega⟩
  unfold setSidesX
  simp only []
  split_ifs
  · exact agreeOnBlock_setBoundarySides _ e u v h _ _ _ pos0 (pos 10 (by decide)) _ _
  · exact agreeOnBlock_setBoundarySides _ e u v h _ _ _ (pos 2 (by decide)) (pos 12 (by decide)) _ _
  · exact agreeOnBlock_setBoundarySides _ e u v h _ _ _ (pos 7 (by decide)) (pos 12 (by decide)) _ _
  · exact agreeOnBlock_setBoundarySides _ e u v h _ _ _ (pos 6 (by decide)) (pos 9 (by decide)) _ _
  · exact h

theorem agreeOnBlock_setSidesY (args : CubeArguments) (zz yy xx : Nat)
    (hc : cubeStart args zz yy xx + 20 ≤ UINT_RANGE) (e u v : Nat → Int)
    (h : AgreeOnBlock (cubeStart args zz yy xx) e u v) :
    AgreeOnBlock (cubeStart args zz yy xx) e (setSidesY args zz yy xx u)
      (setSidesY args zz yy xx v) := by
  have pos := block_positions (cubeStart args zz yy xx) hc
  unfold setSidesY
  simp only []
  split_ifs
  · exact agreeOnBlock_setBoundarySides _ e u v h _ _ _ (pos 6 (by decide)) (pos 9 (by decide)) _ _
  · exact agreeOnBlock_setBoundarySides _ e u v h _ _ _ (pos 1 (by decide)) (pos 10 (by decide)) _ _
  · exact agreeOnBlock_setBoundarySides _ e u v h _ _ _ (pos 3 (by decide)) (pos 14 (by decide)) _ _
  · exact agreeOnBlock_setBoundarySides _ e u v h _ _ _ (pos 7 (by decide)) (pos 13 (by decide)) _ _
  · exact h

theorem agreeOnBlock_setSidesZ (args : CubeArguments) (zz yy xx : Nat)
    (hc : cubeStart args zz yy xx + 20 ≤ UINT_RANGE) (e u v : Nat → Int)
    (h : AgreeOnBlock (cubeStart args zz yy xx) e u v) :
    AgreeOnBlock (cubeStart args zz yy xx) e (setSidesZ args zz yy xx u)
      (setSidesZ args zz yy xx v) := by
  have pos := block_positions (cubeStart args zz yy xx) hc
  have pos0 : cubeStart args zz yy xx ≤ cubeStart args zz yy xx
      ∧ cubeStart args zz yy xx < cubeStart args zz yy xx + 20 := ⟨le_refl _, by omega⟩
  unfold setSidesZ
  simp only []
  split_ifs
  · exact agreeOnBlock_setBoundarySides _ e u v h _ _ _ (pos 1 (by decide)) (pos 5 (by decide)) _ _
  · exact agreeOnBlock_setBoundarySides _ e u v h _ _ _ pos0 (pos 5 (by decide)) _ _
  · exact agreeOnBlock_setBoundarySides _ e u v h _ _ _ (pos 11 (by decide)) (pos 15 (by decide)) _ _
  · exact agreeOnBlock_setBoundarySides _ e u v h _ _ _ (pos 11 (by decide)) (pos 15 (by decide)) _ _
  · exact h

/-- The body of the loops over the cubes sets the twenty entries of its cube
and these only, to values which do not depend on the array before. -/
theorem setCubeNeighbors_agreeOnBlock (args : CubeArguments) (zz yy xx : Nat)
    (hc : cubeStart args zz yy xx + 20 ≤ UINT_RANGE) (e e' : Nat → Int) :
    AgreeOnBlock (cubeStart args zz yy xx) e (setCubeNeighbors args zz yy xx e)
      (setCubeNeighbors args zz yy xx e') := by
  unfold setCubeNeighbors
  exact agreeOnBlock_setSidesZ args zz yy xx hc e _ _
    (agreeOnBlock_setSidesY args zz yy xx hc e _ _
      (agreeOnBlock_setSidesX args zz yy xx hc e _ _
        (agreeOnBlock_addOffset _ hc e _ _
          (agreeOnBlock_memcpy _ e e' _) _)))

/-- The entries of `elemNeighbors` are those that the body of the loops sets
for their cube, and the array is left as it was behind the last cube. -/
theorem elemNeighbors_entry (args : CubeArguments) (hno : NoOverflow args) (e : Nat → Int) :
    (∀ zz yy xx i, zz < numCubesPerPart args 2 → yy < numCubesPerPart args 1 →
      xx < numCubesPerPart args 0 → i < 20 →
      elemNeighbors args e
          (20 * ((zz * numCubesPerPart args 1 + yy) * numCubesPerPart args 0 + xx) + i)
        = setCubeNeighbors args zz yy xx (fun _ => 0)
          (20 * ((zz * numCubesPerPart args 1 + yy) * numCubesPerPart args 0 + xx) + i))
    ∧ (∀ p, 20 * (numCubesPerPart args 0 * numCubesPerPart args 1 * numCubesPerPart args 2) ≤ p →
      elemNeighbors args e p = e p) := by
  have h := cubeLoops_entry args (setCubeNeighbors args)
    (fun zz yy xx i => setCubeNeighbors args zz yy xx (fun _ => 0)
      (20 * ((zz * numCubesPerPart args 1 + yy) * numCubesPerPart args 0 + xx) + i))
    (by
      intro zz yy xx hz hy hx e p
      obtain ⟨hc, -⟩ := cubeStart_eq args hno hz hy hx
      have hK := cubeIndex_lt hz hy hx
      have hb := hno.2
      have ha := setCubeNeighbors_agreeOnBlock args zz yy xx (by rw [hc]; omega) e (fun _ => 0)
      rw [hc] at ha
      by_cases hp : 20 * ((zz * numCubesPerPart args 1 + yy) * numCubesPerPart args 0 + xx) ≤ p
          ∧ p < 20 * ((zz * numCubesPerPart args 1 + yy) * numCubesPerPart args 0 + xx) + 20
      · rw [if_pos hp, ha.2 p hp.1 hp.2]
        congr 1
        omega
      · rw [if_neg hp, ha.1 p hp]) e
  exact h

theorem elemNeighborSidesDef_entry (args : CubeArguments) (hno : NoOverflow args)
    (e : Nat → Int) :
    ∀ zz yy xx i, zz < numCubesPerPart args 2 → yy < numCubesPerPart args 1 →
      xx < numCubesPerPart args 0 → i < 20 →
      elemNeighborSidesDef args e
          (20 * ((zz * numCubesPerPart args 1 + yy) * numCubesPerPart args 0 + xx) + i)
        = (TET_SIDE_NEIGHBORS (cubeOdd zz yy xx)).getD i 0 := by
  have h := cubeLoops_entry args (fun zz yy xx e =>
      memcpy e (cubeStart args zz yy xx) (TET_SIDE_NEIGHBORS (cubeOdd zz yy xx)) 20)
    (fun zz yy xx i => (TET_SIDE_NEIGHBORS (cubeOdd zz yy xx)).getD i 0)
    (by
      intro zz yy xx hz hy hx e p
      obtain ⟨hc, -⟩ := cubeStart_eq args hno hz hy hx
      show memcpy e (cubeStart args zz yy xx) (TET_SIDE_NEIGHBORS (cubeOdd zz yy xx)) 20 p = _
      unfold memcpy
      rw [hc]) e
  exact h.1

/-! ## The cube mesh generator: the tables -/

/-- The entries of `TET_NEIGHBORS` by the cube and the tetrahedron of the
neighbour. -/
theorem TET_NEIGHBORS_steps (args : CubeArguments) (odd r : Nat) (ho : odd < 2) (hr : r < 20) :
    (TET_NEIGHBORS args odd).getD r 0
      = 5 * stepX odd r + targetTet odd r
        + stepY odd r * ((numCubesPerPart args 0 : Int) * 5)
        + stepZ odd r * ((numCubesPerPart args 1 : Int) * (numCubesPerPart args 0 : Int) * 5) := by
  interval_cases odd <;> interval_cases r <;>
    simp [TET_NEIGHBORS, stepX, stepY, stepZ, targetTet] <;> ring

/-- The sides that the body of the loops treats at the faces of the
partition are those with a step out of the cube in the direction of the
face. -/
theorem boundarySides_steps : ∀ r, r < 20 →
    ((r = 0 ∨ r = 10) ↔ stepX 1 r = -1) ∧ ((r = 2 ∨ r = 12) ↔ stepX 0 r = -1)
    ∧ ((r = 7 ∨ r = 12) ↔ stepX 1 r = 1) ∧ ((r = 6 ∨ r = 9) ↔ stepX 0 r = 1)
    ∧ ((r = 6 ∨ r = 9) ↔ stepY 1 r = -1) ∧ ((r = 1 ∨ r = 10) ↔ stepY 0 r = -1)
    ∧ ((r = 3 ∨ r = 14) ↔ stepY 1 r = 1) ∧ ((r = 7 ∨ r = 13) ↔ stepY 0 r = 1)
    ∧ ((r = 1 ∨ r = 5) ↔ stepZ 1 r = -1) ∧ ((r = 0 ∨ r = 5) ↔ stepZ 0 r = -1)
    ∧ ((r = 11 ∨ r = 15) ↔ stepZ 1 r = 1) ∧ ((r = 11 ∨ r = 15) ↔ stepZ 0 r = 1) := by
  intro r hr
  interval_cases r <;> decide

/-- The tables `TET_NEIGHBORS` and `TET_SIDE_NEIGHBORS` fit: the entry for a
side names a tetrahedron of the same or of a neighbouring cube, of the other
parity, and the entry of that tetrahedron at the side `TET_SIDE_NEIGHBORS`
names steps back and the tetrahedron of the side. -/
theorem tables_symmetric : ∀ odd, odd < 2 → ∀ r, r < 20 →
    0 ≤ (TET_SIDE_NEIGHBORS odd).getD r 0 ∧ (TET_SIDE_NEIGHBORS odd).getD r 0 < 4
    ∧ targetTet odd r < 5
    ∧ ((stepX odd r = 0 ∧ stepY odd r = 0 ∧ stepZ odd r = 0
          ∧ stepX odd (4 * targetTet odd r + ((TET_SIDE_NEIGHBORS odd).getD r 0).toNat) = 0
          ∧ stepY odd (4 * targetTet odd r + ((TET_SIDE_NEIGHBORS odd).getD r 0).toNat) = 0
          ∧ stepZ odd (4 * targetTet odd r + ((TET_SIDE_NEIGHBORS odd).getD r 0).toNat) = 0
          ∧ targetTet odd (4 * targetTet odd r + ((TET_SIDE_NEIGHBORS odd).getD r 0).toNat)
            = r / 4)
        ∨ (((stepX odd r = 1 ∨ stepX odd r = -1) ∧ stepY odd r = 0 ∧ stepZ odd r = 0
            ∨ stepX odd r = 0 ∧ (stepY odd r = 1 ∨ stepY odd r = -1) ∧ stepZ odd r = 0
            ∨ stepX odd r = 0 ∧ stepY odd r = 0 ∧ (stepZ odd r = 1 ∨ stepZ odd r = -1))
          ∧ stepX (1 - odd) (4 * targetTet odd r + ((TET_SIDE_NEIGHBORS odd).getD r 0).toNat)
            = -stepX odd r
          ∧ stepY (1 - odd) (4 * targetTet odd r + ((TET_SIDE_NEIGHBORS odd).getD r 0).toNat)
            = -stepY odd r
          ∧ stepZ (1 - odd) (4 * targetTet odd r + ((TET_SIDE_NEIGHBORS odd).getD r 0).toNat)
            = -stepZ odd r
          ∧ targetTet (1 - odd)
              (4 * targetTet odd r + ((TET_SIDE_NEIGHBORS odd).getD r 0).toNat)
            = r / 4)) := by
  intro odd ho r hr
  interval_cases odd <;> interval_cases r <;> decide

/-! ## The cube mesh generator: the value of an entry -/

theorem setBoundarySides_apply (periodic : Bool) (e : Nat → Int) (i j : Nat) (hij : i ≠ j)
    (delta numElem : Int) (p : Nat) :
    setBoundarySides periodic e i j delta numElem p
      = if p = i ∨ p = j then (if periodic then e p + delta else numElem) else e p := by
  unfold setBoundarySides
  cases periodic with
  | true =>
    simp only [if_true]
    by_cases hj : p = j
    · subst hj
      rw [Function.update_same, Function.update_noteq (Ne.symm hij), if_pos (Or.inr rfl)]
    · rw [Function.update_noteq hj]
      by_cases hi : p = i
      · subst hi
        rw [Function.update_same, if_pos (Or.inl rfl)]
      · rw [Function.update_noteq hi, if_neg (by tauto)]
  | false =>
    simp only [Bool.false_eq_true, if_false]
    by_cases hj : p = j
    · subst hj
      rw [Function.update_same, if_pos (Or.inr rfl)]
    · rw [Function.update_noteq hj]
      by_cases hi : p = i
      · subst hi
        rw [Function.update_same, if_pos (Or.inl rfl)]
      · rw [Function.update_noteq hi, if_neg (by tauto)]

theorem setBoundarySides_block (c : Nat) (hc : c + 20 ≤ UINT_RANGE) (periodic : Bool)
    (e : Nat → Int) (a b : Nat) (ha : a < 20) (hb : b < 20) (hab : a ≠ b)
    (delta numElem : Int) (r : Nat) (P : Prop) [Decidable P] (hP : (r = a ∨ r = b) ↔ P) :
    setBoundarySides periodic e (uadd c a) (uadd c b) delta numElem (c + r)
      = if P then (if periodic then e (c + r) + delta else numElem) else e (c + r) := by
  rw [uadd_block c hc a ha, uadd_block c hc b hb,
    setBoundarySides_apply periodic e (c + a) (c + b) (by omega)]
  have h : (c + r = c + a ∨ c + r = c + b) ↔ P := by
    rw [← hP]
    constructor
    · rintro (h | h)
      · exact Or.inl (by omega)
      · exact Or.inr (by omega)
    · rintro (h | h)
      · exact Or.inl (by omega)
      · exact Or.inr (by omega)
  simp only [h]

theorem setBoundarySides_block_first (c : Nat) (hc : c + 20 ≤ UINT_RANGE) (periodic : Bool)
    (e : Nat → Int) (b : Nat) (hb : b < 20) (hab : 0 ≠ b)
    (delta numElem : Int) (r : Nat) (P : Prop) [Decidable P] (hP : (r = 0 ∨ r = b) ↔ P) :
    setBoundarySides periodic e c (uadd c b) delta numElem (c + r)
      = if P then (if periodic then e (c + r) + delta else numElem) else e (c + r) := by
  have h0 : uadd c 0 = c := uadd_block c hc 0 (by decide)
  have h := setBoundarySides_block c hc periodic e 0 b (by decide) hb hab delta numElem r P hP
  rw [h0] at h
  exact h

theorem setSidesX_apply (args : CubeArguments) (zz yy xx : Nat)
    (hc : cubeStart args zz yy xx + 20 ≤ UINT_RANGE) (e : Nat → Int) (r : Nat) (hr : r < 20) :
    setSidesX args zz yy xx e (cubeStart args zz yy xx + r)
      = sideValue (xx = 0) (xx = usub (numCubesPerPart args 0) 1) (stepX (cubeOdd zz yy xx) r)
          (decide (boundary args = 6 ∧ numPartitions args 0 = 1))
          (umul (numCubesPerPart args 0) 5 : Nat) (numElemPerPart args 3 : Nat)
          (e (cubeStart args zz yy xx + r)) := by
  obtain ⟨t1, t2, t3, t4, -⟩ := boundarySides_steps r hr
  have ho := cubeOdd_lt zz yy xx
  unfold setSidesX sideValue
  have hodd : cubeOdd zz yy xx = 0 ∨ cubeOdd zz yy xx = 1 := by omega
  rcases hodd with ho | ho
  · rw [ho]
    by_cases h0 : xx = 0
    · rw [if_pos h0, if_pos h0, if_neg (by decide),
        setBoundarySides_block _ hc _ _ 2 12 (by decide) (by decide) (by decide) _ _ _ _ t2]
    · rw [if_neg h0, if_neg h0]
      by_cases h1 : xx = usub (numCubesPerPart args 0) 1
      · rw [if_pos h1, if_pos h1, if_neg (by decide),
          setBoundarySides_block _ hc _ _ 6 9 (by decide) (by decide) (by decide) _ _ _ _ t4]
      · rw [if_neg h1, if_neg h1]
  · rw [ho]
    by_cases h0 : xx = 0
    · rw [if_pos h0, if_pos h0, if_pos (by decide),
        setBoundarySides_block_first _ hc _ _ 10 (by decide) (by decide) _ _ _ _ t1]
    · rw [if_neg h0, if_neg h0]
      by_cases h1 : xx = usub (numCubesPerPart args 0) 1
      · rw [if_pos h1, if_pos h1, if_pos (by decide),
          setBoundarySides_block _ hc _ _ 7 12 (by decide) (by decide) (by decide) _ _ _ _ t3]
      · rw [if_neg h1, if_neg h1]

theorem setSidesY_apply (args : CubeArguments) (zz yy xx : Nat)
    (hc : cubeStart args zz yy xx + 20 ≤ UINT_RANGE) (e : Nat → Int) (r : Nat) (hr : r < 20) :
    setSidesY args zz yy xx e (cubeStart args zz yy xx + r)
      = sideValue (yy = 0) (yy = usub (numCubesPerPart args 1) 1) (stepY (cubeOdd zz yy xx) r)
          (decide (boundary args = 6 ∧ numPartitions args 1 = 1))
          (umul (umul (numCubesPerPart args 0) (numCubesPerPart args 1)) 5 : Nat)
          (numElemPerPart args 3 : Nat) (e (cubeStart args zz yy xx + r)) := by
  obtain ⟨-, -, -, -, t5, t6, t7, t8, -⟩ := boundarySides_steps r hr
  have ho := cubeOdd_lt zz yy xx
  unfold setSidesY sideValue
  have hodd : cubeOdd zz yy xx = 0 ∨ cubeOdd zz yy xx = 1 := by omega
  rcases hodd with ho | ho
  · rw [ho]
    by_cases h0 : yy = 0
    · rw [if_pos h0, if_pos h0, if_neg (by decide),
        setBoundarySides_block _ hc _ _ 1 10 (by decide) (by decide) (by decide) _ _ _ _ t6]
    · rw [if_neg h0, if_neg h0]
      by_cases h1 : yy = usub (numCubesPerPart args 1) 1
      · rw [if_pos h1, if_pos h1, if_neg (by decide),
          setBoundarySides_block _ hc _ _ 7 13 (by decide) (by decide) (by decide) _ _ _ _ t8]
      · rw [if_neg h1, if_neg h1]
  · rw [ho]
    by_cases h0 : yy = 0
    · rw [if_pos h0, if_pos h0, if_pos (by decide),
        setBoundarySides_block _ hc _ _ 6 9 (by decide) (by decide) (by decide) _ _ _ _ t5]
    · rw [if_neg h0, if_neg h0]
      by_cases h1 : yy = usub (numCubesPerPart args 1) 1
      · rw [if_pos h1, if_pos h1, if_pos (by decide),
          setBoundarySides_block _ hc _ _ 3 14 (by decide) (by decide) (by decide) _ _ _ _ t7]
      · rw [if_neg h1, if_neg h1]

theorem setSidesZ_apply (args : CubeArguments) (zz yy xx : Nat)
    (hc : cubeStart args zz yy xx + 20 ≤ UINT_RANGE) (e : Nat → Int) (r : Nat) (hr : r < 20) :
    setSidesZ args zz yy xx e (cubeStart args zz yy xx + r)
      = sideValue (zz = 0) (zz = usub (numCubesPerPart args 2) 1) (stepZ (cubeOdd zz yy xx) r)
          (decide (boundary args = 6 ∧ numPartitions args 2 = 1))
          (umul (umul (umul (numCubesPerPart args 0) (numCubesPerPart args 1))
            (numCubesPerPart args 2)) 5 : Nat)
          (numElemPerPart args 3 : Nat) (e (cubeStart args zz yy xx + r)) := by
  obtain ⟨-, -, -, -, -, -, -, -, t9, t10, t11, t12⟩ := boundarySides_steps r hr
  have ho := cubeOdd_lt zz yy xx
  unfold setSidesZ sideValue
  have hodd : cubeOdd zz yy xx = 0 ∨ cubeOdd zz yy xx = 1 := by omega
  rcases hodd with ho | ho
  · rw [ho]
    by_cases h0 : zz = 0
    · rw [if_pos h0, if_pos h0, if_neg (by decide),
        setBoundarySides_block_first _ hc _ _ 5 (by decide) (by decide) _ _ _ _ t10]
    · rw [if_neg h0, if_neg h0]
      by_cases h1 : zz = usub (numCubesPerPart args 2) 1
      · rw [if_pos h1, if_pos h1, if_neg (by decide),
          setBoundarySides_block _ hc _ _ 11 15 (by decide) (by decide) (by decide) _ _ _ _ t12]
      · rw [if_neg h1, if_neg h1]
  · rw [ho]
    by_cases h0 : zz = 0
    · rw [if_pos h0, if_pos h0, if_pos (by decide),
        setBoundarySides_block _ hc _ _ 1 5 (by decide) (by decide) (by decide) _ _ _ _ t9]
    · rw [if_neg h0, if_neg h0]
      by_cases h1 : zz = usub (numCubesPerPart args 2) 1
      · rw [if_pos h1, if_pos h1, if_pos (by decide),
          setBoundarySides_block _ hc _ _ 11 15 (by decide) (by decide) (by decide) _ _ _ _ t11]
      · rw [if_neg h1, if_neg h1]

theorem addOffset_apply (c : Nat) (hc : c + 20 ≤ UINT_RANGE) (offset : Int) (e : Nat → Int)
    (r : Nat) (hr : r < 20) : addOffset c offset e (c + r) = e (c + r) + offset := by
  have key : ∀ n, n ≤ 20 → ∀ p,
      iterLoop (fun i e => Function.update e (uadd c i) (e (uadd c i) + offset)) n e p
        = if c ≤ p ∧ p < c + n then e p + offset else e p := by
    intro n
    induction n with
    | zero =>
      intro _ p
      rw [if_neg (by omega)]
      rfl
    | succ n ih =>
      intro hn p
      rw [iterLoop_succ, uadd_block c hc n (by omega)]
      by_cases hp : p = c + n
      · subst hp
        rw [Function.update_same, ih (by omega), if_neg (by omega), if_pos (by omega)]
      · rw [Function.update_noteq hp, ih (by omega)]
        by_cases hq : c ≤ p ∧ p < c + n
        · rw [if_pos hq, if_pos (by omega)]
        · rw [if_neg hq, if_neg (by omega)]
  unfold addOffset
  rw [key 20 (le_refl 20), if_pos (by omega)]

theorem usub_one_eq (n : Nat) (h1 : 1 ≤ n) (h2 : n < UINT_RANGE) : usub n 1 = n - 1 := by
  unfold usub
  have e : (1 : Nat) % UINT_RANGE = 1 := by unfold UINT_RANGE; norm_num
  rw [e]
  have : n + UINT_RANGE - 1 = (n - 1) + 1 * UINT_RANGE := by omega
  rw [this, Nat.add_mul_mod_self_right, Nat.mod_eq_of_lt (by omega)]

/-- The value of the entry `r` of the cube `(zz, yy, xx)` in `elemNeighbors`:
the number of the tetrahedron that the table names, in the cube that the
steps lead to, after the treatment of the faces of the partition. -/
theorem elemNeighbors_value (args : CubeArguments) (hacc : ArgumentsAccepted args)
    (hno : NoOverflow args) (e : Nat → Int) (zz yy xx r : Nat)
    (hz : zz < numCubesPerPart args 2) (hy : yy < numCubesPerPart args 1)
    (hx : xx < numCubesPerPart args 0) (hr : r < 20) :
    elemNeighbors args e
        (20 * ((zz * numCubesPerPart args 1 + yy) * numCubesPerPart args 0 + xx) + r)
      = sideValue (zz = 0) (zz = numCubesPerPart args 2 - 1) (stepZ ((zz + yy + xx) % 2) r)
          (decide (boundary args = 6 ∧ numPartitions args 2 = 1))
          (5 * (numCubesPerPart args 0 * numCubesPerPart args 1) * (numCubesPerPart args 2 : Nat))
          (numElemPerPart args 3 : Nat)
        (sideValue (yy = 0) (yy = numCubesPerPart args 1 - 1) (stepY ((zz + yy + xx) % 2) r)
          (decide (boundary args = 6 ∧ numPartitions args 1 = 1))
          (5 * numCubesPerPart args 0 * (numCubesPerPart args 1 : Nat))
          (numElemPerPart args 3 : Nat)
        (sideValue (xx = 0) (xx = numCubesPerPart args 0 - 1) (stepX ((zz + yy + xx) % 2) r)
          (decide (boundary args = 6 ∧ numPartitions args 0 = 1))
          (5 * (numCubesPerPart args 0 : Nat))
          (numElemPerPart args 3 : Nat)
          (5 * stepX ((zz + yy + xx) % 2) r + targetTet ((zz + yy + xx) % 2) r
            + stepY ((zz + yy + xx) % 2) r * ((numCubesPerPart args 0 : Int) * 5)
            + stepZ ((zz + yy + xx) % 2) r
              * ((numCubesPerPart args 1 : Int) * (numCubesPerPart args 0 : Int) * 5)
            + (5 * ((zz * numCubesPerPart args 1 + yy) * numCubesPerPart args 0 + xx) : Nat)))) := by
  obtain ⟨hcs, hoff⟩ := cubeStart_eq args hno hz hy hx
  have hK := cubeIndex_lt hz hy hx
  have hb := hno.2
  have hc : cubeStart args zz yy xx + 20 ≤ UINT_RANGE := by rw [hcs]; omega
  obtain ⟨g0, -, -, -⟩ := numCubesPerPart_facts args hacc 0 (by decide)
  obtain ⟨g1, -, -, -⟩ := numCubesPerPart_facts args hacc 1 (by decide)
  obtain ⟨g2, -, -, -⟩ := numCubesPerPart_facts args hacc 2 (by decide)
  have m01 : numCubesPerPart args 0 * numCubesPerPart args 1
      ≤ numCubesPerPart args 0 * numCubesPerPart args 1 * numCubesPerPart args 2 :=
    Nat.le_mul_of_pos_right _ (by omega)
  have m0 : numCubesPerPart args 0 ≤ numCubesPerPart args 0 * numCubesPerPart args 1 :=
    Nat.le_mul_of_pos_right _ (by omega)
  have u0 := usub_one_eq (numCubesPerPart args 0) (by omega) (by omega)
  have u1 : usub (numCubesPerPart args 1) 1 = numCubesPerPart args 1 - 1 := by
    have : numCubesPerPart args 1 ≤ numCubesPerPart args 0 * numCubesPerPart args 1 :=
      Nat.le_mul_of_pos_left _ (by omega)
    exact usub_one_eq _ (by omega) (by omega)
  have u2 : usub (numCubesPerPart args 2) 1 = numCubesPerPart args 2 - 1 := by
    have : numCubesPerPart args 2
        ≤ numCubesPerPart args 0 * numCubesPerPart args 1 * numCubesPerPart args 2 :=
      Nat.le_mul_of_pos_left _ (Nat.mul_pos (by omega) (by omega))
    exact usub_one_eq _ (by omega) (by omega)
  have d0 : umul (numCubesPerPart args 0) 5 = 5 * numCubesPerPart args 0 := by
    unfold umul
    rw [Nat.mod_eq_of_lt (by omega)]
    omega
  have d1 : umul (umul (numCubesPerPart args 0) (numCubesPerPart args 1)) 5
      = 5 * numCubesPerPart args 0 * numCubesPerPart args 1 := by
    unfold umul
    rw [Nat.mod_eq_of_lt (by omega : numCubesPerPart args 0 * numCubesPerPart args 1
      < UINT_RANGE), Nat.mod_eq_of_lt (by omega)]
    ring
  have d2 : umul (umul (umul (numCubesPerPart args 0) (numCubesPerPart args 1))
        (numCubesPerPart args 2)) 5
      = 5 * (numCubesPerPart args 0 * numCubesPerPart args 1) * numCubesPerPart args 2 := by
    unfold umul
    rw [Nat.mod_eq_of_lt (by omega : numCubesPerPart args 0 * numCubesPerPart args 1
      < UINT_RANGE), Nat.mod_eq_of_lt (by omega : numCubesPerPart args 0 * numCubesPerPart args 1
        * numCubesPerPart args 2 < UINT_RANGE), Nat.mod_eq_of_lt (by omega)]
    ring
  rw [(elemNeighbors_entry args hno e).1 zz yy xx r hz hy hx hr, ← hcs]
  unfold setCubeNeighbors
  rw [setSidesZ_apply args zz yy xx hc _ r hr, setSidesY_apply args zz yy xx hc _ r hr,
    setSidesX_apply args zz yy xx hc _ r hr, addOffset_apply _ hc _ _ r hr]
  have hm : memcpy (fun _ => (0 : Int)) (cubeStart args zz yy xx)
      (TET_NEIGHBORS args (cubeOdd zz yy xx)) 20 (cubeStart args zz yy xx + r)
      = (TET_NEIGHBORS args (cubeOdd zz yy xx)).getD r 0 := by
    unfold memcpy
    rw [if_pos (by omega), Nat.add_sub_cancel_left]
  rw [hm, TET_NEIGHBORS_steps args _ r (cubeOdd_lt zz yy xx) hr, cubeOdd_eq, u0, u1, u2,
    d0, d1, d2, hoff]
  push_cast
  rfl

/-! ## The cube mesh generator: steps between the cubes -/

theorem sideValue_zero (first last : Prop) [Decidable first] [Decidable last]
    (periodic : Bool) (delta numElem v : Int) :
    sideValue first last 0 periodic delta numElem v = v := by
  unfold sideValue
  rw [if_neg (by decide : ¬ (0 : Int) = -1), if_neg (by decide : ¬ (0 : Int) = 1)]
  split_ifs <;> rfl

/-- A step out of a cube in one direction and the step back from the cube it
leads to: either the side is at a face of the partition that is not
periodic, or the step leads to a cube `x'` of the other parity, from which the
step back leads to the cube `x`. -/
theorem sideValue_pair (n x : Nat) (hn : 2 ≤ n) (heven : n % 2 = 0) (hx : x < n) (step : Int)
    (hs : step = 1 ∨ step = -1) (periodic : Bool) (stride numElem : Int) :
    (∀ B, sideValue (x = 0) (x = n - 1) step periodic (stride * n) numElem
        (B + stride * x + stride * step) = numElem)
    ∨ ∃ x', x' < n ∧ (x' + x) % 2 = 1
      ∧ (∀ B, sideValue (x = 0) (x = n - 1) step periodic (stride * n) numElem
          (B + stride * x + stride * step) = B + stride * x')
      ∧ (∀ B, sideValue (x' = 0) (x' = n - 1) (-step) periodic (stride * n) numElem
          (B + stride * x' + stride * (-step)) = B + stride * x) := by
  rcases hs with hs | hs
  · subst hs
    by_cases hl : x = n - 1
    · cases periodic with
      | false =>
        left
        intro B
        unfold sideValue
        rw [if_neg (by omega), if_pos hl, if_pos rfl]
        rfl
      | true =>
        right
        refine ⟨0, by omega, by omega, ?_, ?_⟩
        · intro B
          unfold sideValue
          rw [if_neg (by omega), if_pos hl, if_pos rfl, if_pos rfl, hl]
          push_cast [Nat.cast_sub (by omega : 1 ≤ n)]
          ring
        · intro B
          unfold sideValue
          rw [if_pos rfl, if_pos rfl, if_pos rfl, hl]
          push_cast [Nat.cast_sub (by omega : 1 ≤ n)]
          ring
    · right
      refine ⟨x + 1, by omega, by omega, ?_, ?_⟩
      · intro B
        unfold sideValue
        by_cases h0 : x = 0
        · rw [if_pos h0, if_neg (by decide)]
          push_cast
          ring
        · rw [if_neg h0, if_neg hl]
          push_cast
          ring
      · intro B
        unfold sideValue
        rw [if_neg (by omega)]
        by_cases h1 : x + 1 = n - 1
        · rw [if_pos h1, if_neg (by decide)]
          push_cast
          ring
        · rw [if_neg h1]
          push_cast
          ring
  · subst hs
    by_cases h0 : x = 0
    · cases periodic with
      | false =>
        left
        intro B
        unfold sideValue
        rw [if_pos h0, if_pos rfl]
        rfl
      | true =>
        right
        refine ⟨n - 1, by omega, by omega, ?_, ?_⟩
        · intro B
          unfold sideValue
          rw [if_pos h0, if_pos rfl, if_pos rfl, h0]
          push_cast [Nat.cast_sub (by omega : 1 ≤ n)]
          ring
        · intro B
          unfold sideValue
          rw [if_neg (by omega), if_pos rfl, if_pos (by decide), if_pos rfl, h0]
          push_cast [Nat.cast_sub (by omega : 1 ≤ n)]
          ring
    · right
      refine ⟨x - 1, by omega, by omega, ?_, ?_⟩
      · intro B
        unfold sideValue
        rw [if_neg h0]
        by_cases hl : x = n - 1
        · rw [if_pos hl, if_neg (by decide)]
          push_cast [Nat.cast_sub (by omega : 1 ≤ x)]
          ring
        · rw [if_neg hl]
          push_cast [Nat.cast_sub (by omega : 1 ≤ x)]
          ring
      · intro B
        unfold sideValue
        by_cases h1 : x - 1 = 0
        · rw [if_pos h1, if_neg (by decide)]
          push_cast [Nat.cast_sub (by omega : 1 ≤ x)]
          ring
        · rw [if_neg h1, if_neg (by omega)]
          push_cast [Nat.cast_sub (by omega : 1 ≤ x)]
          ring

theorem cube_decode (n0 n1 n2 K : Nat) (hK : K < n0 * n1 * n2) :
    ∃ zz yy xx, zz < n2 ∧ yy < n1 ∧ xx < n0 ∧ K = (zz * n1 + yy) * n0 + xx := by
  have h0 : 0 < n0 := by
    rcases Nat.eq_zero_or_pos n0 with h | h
    · rw [h] at hK
      simp at hK
    · exact h
  have h1 : 0 < n1 := by
    rcases Nat.eq_zero_or_pos n1 with h | h
    · rw [h] at hK
      simp at hK
    · exact h
  refine ⟨K / n0 / n1, K / n0 % n1, K % n0, ?_, Nat.mod_lt _ h1, Nat.mod_lt _ h0, ?_⟩
  · rw [Nat.div_div_eq_div_mul]
    exact Nat.div_lt_of_lt_mul hK
  · have a := Nat.div_add_mod (K / n0) n1
    have b := Nat.div_add_mod K n0
    rw [Nat.mul_comm (K / n0 / n1) n1, a, Nat.mul_comm (K / n0) n0, b]

/-! ## The cube mesh generator: the sides at the faces of the domain -/

theorem sideValue_face (n x : Nat) (hn : 2 ≤ n) (step : Int)
    (h : (x = 0 ∧ step = -1) ∨ (x = n - 1 ∧ step = 1)) (delta numElem v : Int) :
    sideValue (x = 0) (x = n - 1) step false delta numElem v = numElem := by
  unfold sideValue
  rcases h with ⟨h0, hs⟩ | ⟨h1, hs⟩
  · rw [if_pos h0, if_pos hs]
    rfl
  · rw [if_neg (by omega), if_pos h1, if_pos hs]
    rfl

/-- Unless the boundary condition is 6, the entry of `elemNeighbors` for a
side with a step out of the partition is `numElemPerPart[3]`. -/
theorem elemNeighbors_face (args : CubeArguments) (hacc : ArgumentsAccepted args)
    (hno : NoOverflow args) (hb : boundary args ≠ 6) (e : Nat → Int) (zz yy xx r : Nat)
    (hz : zz < numCubesPerPart args 2) (hy : yy < numCubesPerPart args 1)
    (hx : xx < numCubesPerPart args 0) (hr : r < 20)
    (h : (xx = 0 ∧ stepX ((zz + yy + xx) % 2) r = -1)
      ∨ (xx = numCubesPerPart args 0 - 1 ∧ stepX ((zz + yy + xx) % 2) r = 1)
      ∨ (yy = 0 ∧ stepY ((zz + yy + xx) % 2) r = -1)
      ∨ (yy = numCubesPerPart args 1 - 1 ∧ stepY ((zz + yy + xx) % 2) r = 1)
      ∨ (zz = 0 ∧ stepZ ((zz + yy + xx) % 2) r = -1)
      ∨ (zz = numCubesPerPart args 2 - 1 ∧ stepZ ((zz + yy + xx) % 2) r = 1)) :
    elemNeighbors args e
        (20 * ((zz * numCubesPerPart args 1 + yy) * numCubesPerPart args 0 + xx) + r)
      = (numElemPerPart args 3 : Nat) := by
  obtain ⟨g0, -, -, -⟩ := numCubesPerPart_facts args hacc 0 (by decide)
  obtain ⟨g1, -, -, -⟩ := numCubesPerPart_facts args hacc 1 (by decide)
  obtain ⟨g2, -, -, -⟩ := numCubesPerPart_facts args hacc 2 (by decide)
  have p0 : decide (boundary args = 6 ∧ numPartitions args 0 = 1) = false :=
    decide_eq_false (fun h => hb h.1)
  have p1 : decide (boundary args = 6 ∧ numPartitions args 1 = 1) = false :=
    decide_eq_false (fun h => hb h.1)
  have p2 : decide (boundary args = 6 ∧ numPartitions args 2 = 1) = false :=
    decide_eq_false (fun h => hb h.1)
  have ho : (zz + yy + xx) % 2 < 2 := Nat.mod_lt _ (by decide)
  obtain ⟨-, -, -, hcase⟩ := tables_symmetric ((zz + yy + xx) % 2) ho r hr
  rw [elemNeighbors_value args hacc hno e zz yy xx r hz hy hx hr, p0, p1, p2]
  have hdir : (stepY ((zz + yy + xx) % 2) r = 0 ∧ stepZ ((zz + yy + xx) % 2) r = 0)
      ∨ (stepX ((zz + yy + xx) % 2) r = 0 ∧ stepZ ((zz + yy + xx) % 2) r = 0
        ∧ (stepY ((zz + yy + xx) % 2) r = 1 ∨ stepY ((zz + yy + xx) % 2) r = -1))
      ∨ (stepX ((zz + yy + xx) % 2) r = 0 ∧ stepY ((zz + yy + xx) % 2) r = 0
        ∧ (stepZ ((zz + yy + xx) % 2) r = 1 ∨ stepZ ((zz + yy + xx) % 2) r = -1)) := by
    rcases hcase with ⟨-, sy, sz, -⟩ | ⟨dir, -⟩
    · exact Or.inl ⟨sy, sz⟩
    · rcases dir with ⟨-, sy, sz⟩ | ⟨sx, dy, sz⟩ | ⟨sx, sy, dz⟩
      · exact Or.inl ⟨sy, sz⟩
      · exact Or.inr (Or.inl ⟨sx, sz, dy⟩)
      · exact Or.inr (Or.inr ⟨sx, sy, dz⟩)
  rcases h with h | h | h | h | h | h
  · rcases hdir with ⟨sy, sz⟩ | ⟨sx, -⟩ | ⟨sx, -⟩
    · rw [sy, sz, sideValue_zero, sideValue_zero]
      exact sideValue_face _ xx g0 _ (Or.inl h) _ _ _
    · rw [sx] at h
      exact absurd h.2 (by decide)
    · rw [sx] at h
      exact absurd h.2 (by decide)
  · rcases hdir with ⟨sy, sz⟩ | ⟨sx, -⟩ | ⟨sx, -⟩
    · rw [sy, sz, sideValue_zero, sideValue_zero]
      exact sideValue_face _ xx g0 _ (Or.inr h) _ _ _
    · rw [sx] at h
      exact absurd h.2 (by decide)
    · rw [sx] at h
      exact absurd h.2 (by decide)
  · rcases hdir with ⟨sy, -⟩ | ⟨-, sz, -⟩ | ⟨-, sy, -⟩
    · rw [sy] at h
      exact absurd h.2 (by decide)
    · rw [sz, sideValue_zero]
      exact sideValue_face _ yy g1 _ (Or.inl h) _ _ _
    · rw [sy] at h
      exact absurd h.2 (by decide)
  · rcases hdir with ⟨sy, -⟩ | ⟨-, sz, -⟩ | ⟨-, sy, -⟩
    · rw [sy] at h
      exact absurd h.2 (by decide)
    · rw [sz, sideValue_zero]
      exact sideValue_face _ yy g1 _ (Or.inr h) _ _ _
    · rw [sy] at h
      exact absurd h.2 (by decide)
  · exact sideValue_face _ zz g2 _ (Or.inl h) _ _ _
  · exact sideValue_face _ zz g2 _ (Or.inr h) _ _ _

theorem zeroSides_frame (P : Nat → Prop) (e : Nat → Int) (i j : Nat) (hi : P i) (hj : P j)
    (p : Nat) (hp : ¬ P p) : zeroSides e i j p = e p := by
  unfold zeroSides
  have h1 : p ≠ j := fun h => hp (by rw [h]; exact hj)
  have h2 : p ≠ i := fun h => hp (by rw [h]; exact hi)
  rw [Function.update_noteq h1, Function.update_noteq h2]

theorem iterLoop_frame (P : Nat → Prop) (F : Nat → (Nat → Int) → (Nat → Int)) (n : Nat)
    (h : ∀ k, k < n → ∀ e p, ¬ P p → F k e p = e p) :
    ∀ e p, ¬ P p → iterLoop F n e p = e p := by
  induction n with
  | zero => intro e p _; rfl
  | succ n ih =>
    intro e p hp
    rw [iterLoop_succ, h n (Nat.lt_succ_self n) _ p hp,
      ih (fun k hk => h k (Nat.lt_succ_of_lt hk)) e p hp]

theorem faceLoops_frame (P : Nat → Prop) (na nb : Nat)
    (body : Nat → Nat → (Nat → Int) → (Nat → Int))
    (h : ∀ a, a < na → ∀ b, b < nb → ∀ e p, ¬ P p → body a b e p = e p) :
    ∀ e p, ¬ P p → faceLoops na nb body e p = e p := by
  unfold faceLoops
  exact iterLoop_frame P _ na (fun a ha => iterLoop_frame P _ nb (fun b hb => h a ha b hb))

theorem umul_eq (a b : Nat) (h : a * b < UINT_RANGE) : umul a b = a * b := by
  unfold umul
  exact Nat.mod_eq_of_lt h

theorem uadd_eq (a b : Nat) (h : a + b < UINT_RANGE) : uadd a b = a + b := by
  unfold uadd
  exact Nat.mod_eq_of_lt h

theorem face_entry (args : CubeArguments) (hacc : ArgumentsAccepted args)
    (hno : NoOverflow args) (hb : boundary args ≠ 6) (e : Nat → Int) (zz yy xx r o : Nat)
    (hz : zz < numCubesPerPart args 2) (hy : yy < numCubesPerPart args 1)
    (hx : xx < numCubesPerPart args 0) (hr : r < 20) (ho : (zz + yy + xx) % 2 = o)
    (h : (xx = 0 ∧ stepX o r = -1)
      ∨ (xx = numCubesPerPart args 0 - 1 ∧ stepX o r = 1)
      ∨ (yy = 0 ∧ stepY o r = -1)
      ∨ (yy = numCubesPerPart args 1 - 1 ∧ stepY o r = 1)
      ∨ (zz = 0 ∧ stepZ o r = -1)
      ∨ (zz = numCubesPerPart args 2 - 1 ∧ stepZ o r = 1)) :
    elemNeighbors args e
        (uadd (20 * ((zz * numCubesPerPart args 1 + yy) * numCubesPerPart args 0 + xx)) r)
      = (numElemPerPart args 3 : Nat) := by
  have hK := cubeIndex_lt hz hy hx
  have hn := hno.2
  rw [uadd_block _ (by omega) r hr]
  subst ho
  exact elemNeighbors_face args hacc hno hb e zz yy xx r hz hy hx hr h

theorem face_entry_first (args : CubeArguments) (hacc : ArgumentsAccepted args)
    (hno : NoOverflow args) (hb : boundary args ≠ 6) (e : Nat → Int) (zz yy xx o : Nat)
    (hz : zz < numCubesPerPart args 2) (hy : yy < numCubesPerPart args 1)
    (hx : xx < numCubesPerPart args 0) (ho : (zz + yy + xx) % 2 = o)
    (h : (xx = 0 ∧ stepX o 0 = -1)
      ∨ (xx = numCubesPerPart args 0 - 1 ∧ stepX o 0 = 1)
      ∨ (yy = 0 ∧ stepY o 0 = -1)
      ∨ (yy = numCubesPerPart args 1 - 1 ∧ stepY o 0 = 1)
      ∨ (zz = 0 ∧ stepZ o 0 = -1)
      ∨ (zz = numCubesPerPart args 2 - 1 ∧ stepZ o 0 = 1)) :
    elemNeighbors args e
        (20 * ((zz * numCubesPerPart args 1 + yy) * numCubesPerPart args 0 + xx))
      = (numElemPerPart args 3 : Nat) := by
  subst ho
  exact elemNeighbors_face args hacc hno hb e zz yy xx 0 hz hy hx (by decide) h

theorem parity_cases (a : Nat) : a % 2 = 0 ∨ a % 2 = 1 := by omega

theorem faceX0_frame (args : CubeArguments) (hacc : ArgumentsAccepted args)
    (hno : NoOverflow args) (hb : boundary args ≠ 6) (u e : Nat → Int) (p : Nat)
    (hp : ¬ elemNeighbors args u p = (numElemPerPart args 3 : Nat)) :
    faceX0 args e p = e p := by
  obtain ⟨g0, -, -, -⟩ := numCubesPerPart_facts args hacc 0 (by decide)
  unfold faceX0
  refine faceLoops_frame (fun p => elemNeighbors args u p = (numElemPerPart args 3 : Nat))
    _ _ _ ?_ e p hp
  intro zz hz yy hy e p hp
  have hx : 0 < numCubesPerPart args 0 := by omega
  have hK := cubeIndex_lt hz hy hx
  have hn := hno.2
  have b1 : zz * numCubesPerPart args 1 + yy
      ≤ (zz * numCubesPerPart args 1 + yy) * numCubesPerPart args 0 :=
    Nat.le_mul_of_pos_right _ hx
  have hc : umul (umul (uadd (umul zz (numCubesPerPart args 1)) yy) (numCubesPerPart args 0)) 20
      = 20 * ((zz * numCubesPerPart args 1 + yy) * numCubesPerPart args 0 + 0) := by
    rw [umul_eq zz _ (by omega), uadd_eq _ _ (by omega), umul_eq _ (numCubesPerPart args 0)
      (by omega), umul_eq _ 20 (by omega)]
    omega
  have hodd : uadd zz yy % 2 = (zz + yy + 0) % 2 := by
    unfold uadd UINT_RANGE
    omega
  rw [hc, hodd]
  rcases parity_cases (zz + yy + 0) with ho | ho
  · rw [ho, if_neg (by decide)]
    exact zeroSides_frame (fun p => elemNeighbors args u p = (numElemPerPart args 3 : Nat)) e _ _
      (face_entry args hacc hno hb u zz yy 0 2 0 hz hy hx (by decide) ho (Or.inl ⟨rfl, rfl⟩))
      (face_entry args hacc hno hb u zz yy 0 12 0 hz hy hx (by decide) ho (Or.inl ⟨rfl, rfl⟩))
      p hp
  · rw [ho, if_pos (by decide)]
    exact zeroSides_frame (fun p => elemNeighbors args u p = (numElemPerPart args 3 : Nat)) e _ _
      (face_entry_first args hacc hno hb u zz yy 0 1 hz hy hx ho (Or.inl ⟨rfl, rfl⟩))
      (face_entry args hacc hno hb u zz yy 0 10 1 hz hy hx (by decide) ho (Or.inl ⟨rfl, rfl⟩))
      p hp


theorem faceX1_frame (args : CubeArguments) (hacc : ArgumentsAccepted args)
    (hno : NoOverflow args) (hb : boundary args ≠ 6) (u e : Nat → Int) (p : Nat)
    (hp : ¬ elemNeighbors args u p = (numElemPerPart args 3 : Nat)) :
    faceX1 args e p = e p := by
  obtain ⟨g0, ev0, -, -⟩ := numCubesPerPart_facts args hacc 0 (by decide)
  obtain ⟨g1, ev1, -, -⟩ := numCubesPerPart_facts args hacc 1 (by decide)
  obtain ⟨g2, ev2, -, -⟩ := numCubesPerPart_facts args hacc 2 (by decide)
  unfold faceX1
  refine faceLoops_frame (fun p => elemNeighbors args u p = (numElemPerPart args 3 : Nat))
    _ _ _ ?_ e p hp
  intro zz hzz yy hyy e p hp
  have hz := hzz
  have hy := hyy
  have hx : numCubesPerPart args 0 - 1 < numCubesPerPart args 0 := by omega
  have hK := cubeIndex_lt hz hy hx
  have hn := hno.2

  have hc : umul (usub (uadd (umul (uadd (umul zz (numCubesPerPart args 1)) yy) (numCubesPerPart args 0))
      (numCubesPerPart args 0)) 1) 20
      = 20 * ((zz * numCubesPerPart args 1 + yy) * numCubesPerPart args 0 + (numCubesPerPart args 0 - 1)) := by
    have b1 : zz * numCubesPerPart args 1 + yy
        ≤ (zz * numCubesPerPart args 1 + yy) * numCubesPerPart args 0 :=
      Nat.le_mul_of_pos_right _ (by omega)
    rw [umul_eq zz _ (by omega), uadd_eq _ yy (by omega), umul_eq _ (numCubesPerPart args 0) (by omega),
      uadd_eq _ (numCubesPerPart args 0) (by omega), usub_one_eq _ (by omega) (by omega),
      umul_eq _ 20 (by omega)]
    omega
  have hodd : uadd (uadd zz yy) 1 % 2 = (zz + yy + (numCubesPerPart args 0 - 1)) % 2 := by
    unfold uadd UINT_RANGE
    omega
  rw [hc, hodd]
  rcases parity_cases (zz + yy + (numCubesPerPart args 0 - 1)) with ho | ho
  · rw [ho, if_neg (by decide)]
    exact zeroSides_frame (fun p => elemNeighbors args u p = (numElemPerPart args 3 : Nat)) e _ _
      (face_entry args hacc hno hb u zz yy (numCubesPerPart args 0 - 1) 6 0 hz hy hx (by decide) ho (Or.inr (Or.inl ⟨rfl, rfl⟩)))
      (face_entry args hacc hno hb u zz yy (numCubesPerPart args 0 - 1) 9 0 hz hy hx (by decide) ho (Or.inr (Or.inl ⟨rfl, rfl⟩)))
      p hp
  · rw [ho, if_pos (by decide)]
    exact zeroSides_frame (fun p => elemNeighbors args u p = (numElemPerPart args 3 : Nat)) e _ _
      (face_entry args hacc hno hb u zz yy (numCubesPerPart args 0 - 1) 7 1 hz hy hx (by decide) ho (Or.inr (Or.inl ⟨rfl, rfl⟩)))
      (face_entry args hacc hno hb u zz yy (numCubesPerPart args 0 - 1) 12 1 hz hy hx (by decide) ho (Or.inr (Or.inl ⟨rfl, rfl⟩)))
      p hp

theorem faceY0_frame (args : CubeArguments) (hacc : ArgumentsAccepted args)
    (hno : NoOverflow args) (hb : boundary args ≠ 6) (u e : Nat → Int) (p : Nat)
    (hp : ¬ elemNeighbors args u p = (numElemPerPart args 3 : Nat)) :
    faceY0 args e p = e p := by
  obtain ⟨g0, ev0, -, -⟩ := numCubesPerPart_facts args hacc 0 (by decide)
  obtain ⟨g1, ev1, -, -⟩ := numCubesPerPart_facts args hacc 1 (by decide)
  obtain ⟨g2, ev2, -, -⟩ := numCubesPerPart_facts args hacc 2 (by decide)
  unfold faceY0
  refine faceLoops_frame (fun p => elemNeighbors args u p = (numElemPerPart args 3 : Nat))
    _ _ _ ?_ e p hp
  intro zz hzz xx hxx e p hp
  have hz := hzz
  have hx := hxx
  have hy : 0 < numCubesPerPart args 1 := by omega
  have hK := cubeIndex_lt hz hy hx
  have hn := hno.2

  have hc : umul (uadd (umul (umul zz (numCubesPerPart args 1)) (numCubesPerPart args 0)) xx) 20
      = 20 * ((zz * numCubesPerPart args 1 + 0) * numCubesPerPart args 0 + xx) := by
    have e0 : (zz * numCubesPerPart args 1 + 0) * numCubesPerPart args 0
        = zz * numCubesPerPart args 1 * numCubesPerPart args 0 := by ring
    have b1 : zz * numCubesPerPart args 1 ≤ zz * numCubesPerPart args 1 * numCubesPerPart args 0 :=
      Nat.le_mul_of_pos_right _ (by omega)
    rw [umul_eq zz _ (by omega), umul_eq _ (numCubesPerPart args 0) (by omega), uadd_eq _ xx (by omega),
      umul_eq _ 20 (by omega)]
    omega
  have hodd : uadd zz xx % 2 = (zz + 0 + xx) % 2 := by
    unfold uadd UINT_RANGE
    omega
  rw [hc, hodd]
  rcases parity_cases (zz + 0 + xx) with ho | ho
  · rw [ho, if_neg (by decide)]
    exact zeroSides_frame (fun p => elemNeighbors args u p = (numElemPerPart args 3 : Nat)) e _ _
      (face_entry args hacc hno hb u zz 0 xx 1 0 hz hy hx (by decide) ho (Or.inr (Or.inr (Or.inl ⟨rfl, rfl⟩))))
      (face_entry args hacc hno hb u zz 0 xx 10 0 hz hy hx (by decide) ho (Or.inr (Or.inr (Or.inl ⟨rfl, rfl⟩))))
      p hp
  · rw [ho, if_pos (by decide)]
    exact zeroSides_frame (fun p => elemNeighbors args u p = (numElemPerPart args 3 : Nat)) e _ _
      (face_entry args hacc hno hb u zz 0 xx 6 1 hz hy hx (by decide) ho (Or.inr (Or.inr (Or.inl ⟨rfl, rfl⟩))))
      (face_entry args hacc hno hb u zz 0 xx 9 1 hz hy hx (by decide) ho (Or.inr (Or.inr (Or.inl ⟨rfl, rfl⟩))))
      p hp

theorem faceY1_frame (args : CubeArguments) (hacc : ArgumentsAccepted args)
    (hno : NoOverflow args) (hb : boundary args ≠ 6) (u e : Nat → Int) (p : Nat)
    (hp : ¬ elemNeighbors args u p = (numElemPerPart args 3 : Nat)) :
    faceY1 args e p = e p := by
  obtain ⟨g0, ev0, -, -⟩ := numCubesPerPart_facts args hacc 0 (by decide)
  obtain ⟨g1, ev1, -, -⟩ := numCubesPerPart_facts args hacc 1 (by decide)
  obtain ⟨g2, ev2, -, -⟩ := numCubesPerPart_facts args hacc 2 (by decide)
  unfold faceY1
  refine faceLoops_frame (fun p => elemNeighbors args u p = (numElemPerPart args 3 : Nat))
    _ _ _ ?_ e p hp
  intro zz hzz xx hxx e p hp
  have hz := hzz
  have hx := hxx
  have hy : numCubesPerPart args 1 - 1 < numCubesPerPart args 1 := by omega
  have hK := cubeIndex_lt hz hy hx
  have hn := hno.2

  have hc : umul (uadd (umul (usub (uadd (umul zz (numCubesPerPart args 1))
      (numCubesPerPart args 1)) 1) (numCubesPerPart args 0)) xx) 20
      = 20 * ((zz * numCubesPerPart args 1 + (numCubesPerPart args 1 - 1)) * numCubesPerPart args 0 + xx) := by
    have b1 : zz * numCubesPerPart args 1 + (numCubesPerPart args 1 - 1)
        ≤ (zz * numCubesPerPart args 1 + (numCubesPerPart args 1 - 1)) * numCubesPerPart args 0 :=
      Nat.le_mul_of_pos_right _ (by omega)
    have e1 : zz * numCubesPerPart args 1 + numCubesPerPart args 1 - 1
        = zz * numCubesPerPart args 1 + (numCubesPerPart args 1 - 1) := by omega
    rw [umul_eq zz _ (by omega), uadd_eq _ (numCubesPerPart args 1) (by omega),
      usub_one_eq _ (by omega) (by omega), e1, umul_eq _ (numCubesPerPart args 0) (by omega),
      uadd_eq _ xx (by omega), umul_eq _ 20 (by omega)]
    omega
  have hodd : uadd (uadd zz xx) 1 % 2 = (zz + (numCubesPerPart args 1 - 1) + xx) % 2 := by
    unfold uadd UINT_RANGE
    omega
  rw [hc, hodd]
  rcases parity_cases (zz + (numCubesPerPart args 1 - 1) + xx) with ho | ho
  · rw [ho, if_neg (by decide)]
    exact zeroSides_frame (fun p => elemNeighbors args u p = (numElemPerPart args 3 : Nat)) e _ _
      (face_entry args hacc hno hb u zz (numCubesPerPart args 1 - 1) xx 7 0 hz hy hx (by decide) ho (Or.inr (Or.inr (Or.inr (Or.inl ⟨rfl, rfl⟩)))))
      (face_entry args hacc hno hb u zz (numCubesPerPart args 1 - 1) xx 13 0 hz hy hx (by decide) ho (Or.inr (Or.inr (Or.inr (Or.inl ⟨rfl, rfl⟩)))))
      p hp
  · rw [ho, if_pos (by decide)]
    exact zeroSides_frame (fun p => elemNeighbors args u p = (numElemPerPart args 3 : Nat)) e _ _
      (face_entry args hacc hno hb u zz (numCubesPerPart args 1 - 1) xx 3 1 hz hy hx (by decide) ho (Or.inr (Or.inr (Or.inr (Or.inl ⟨rfl, rfl⟩)))))
      (face_entry args hacc hno hb u zz (numCubesPerPart args 1 - 1) xx 14 1 hz hy hx (by decide) ho (Or.inr (Or.inr (Or.inr (Or.inl ⟨rfl, rfl⟩)))))
      p hp

theorem faceZ0_frame (args : CubeArguments) (hacc : ArgumentsAccepted args)
    (hno : NoOverflow args) (hb : boundary args ≠ 6) (u e : Nat → Int) (p : Nat)
    (hp : ¬ elemNeighbors args u p = (numElemPerPart args 3 : Nat)) :
    faceZ0 args e p = e p := by
  obtain ⟨g0, ev0, -, -⟩ := numCubesPerPart_facts args hacc 0 (by decide)
  obtain ⟨g1, ev1, -, -⟩ := numCubesPerPart_facts args hacc 1 (by decide)
  obtain ⟨g2, ev2, -, -⟩ := numCubesPerPart_facts args hacc 2 (by decide)
  unfold faceZ0
  refine faceLoops_frame (fun p => elemNeighbors args u p = (numElemPerPart args 3 : Nat))
    _ _ _ ?_ e p hp
  intro yy hyy xx hxx e p hp
  have hy := hyy
  have hx := hxx
  have hz : 0 < numCubesPerPart args 2 := by omega
  have hK := cubeIndex_lt hz hy hx
  have hn := hno.2

  have hc : umul (uadd (umul yy (numCubesPerPart args 0)) xx) 20
      = 20 * ((0 * numCubesPerPart args 1 + yy) * numCubesPerPart args 0 + xx) := by
    have e0 : (0 * numCubesPerPart args 1 + yy) * numCubesPerPart args 0
        = yy * numCubesPerPart args 0 := by ring
    rw [umul_eq yy _ (by omega), uadd_eq _ xx (by omega), umul_eq _ 20 (by omega)]
    omega
  have hodd : uadd yy xx % 2 = (0 + yy + xx) % 2 := by
    unfold uadd UINT_RANGE
    omega
  rw [hc, hodd]
  rcases parity_cases (0 + yy + xx) with ho | ho
  · rw [ho, if_neg (by decide)]
    exact zeroSides_frame (fun p => elemNeighbors args u p = (numElemPerPart args 3 : Nat)) e _ _
      (face_entry_first args hacc hno hb u 0 yy xx 0 hz hy hx ho (Or.inr (Or.inr (Or.inr (Or.inr (Or.inl ⟨rfl, rfl⟩))))))
      (face_entry args hacc hno hb u 0 yy xx 5 0 hz hy hx (by decide) ho (Or.inr (Or.inr (Or.inr (Or.inr (Or.inl ⟨rfl, rfl⟩))))))
      p hp
  · rw [ho, if_pos (by decide)]
    exact zeroSides_frame (fun p => elemNeighbors args u p = (numElemPerPart args 3 : Nat)) e _ _
      (face_entry args hacc hno hb u 0 yy xx 1 1 hz hy hx (by decide) ho (Or.inr (Or.inr (Or.inr (Or.inr (Or.inl ⟨rfl, rfl⟩))))))
      (face_entry args hacc hno hb u 0 yy xx 5 1 hz hy hx (by decide) ho (Or.inr (Or.inr (Or.inr (Or.inr (Or.inl ⟨rfl, rfl⟩))))))
      p hp


theorem faceZ1_frame (args : CubeArguments) (hacc : ArgumentsAccepted args)
    (hno : NoOverflow args) (hb : boundary args ≠ 6) (u e : Nat → Int) (p : Nat)
    (hp : ¬ elemNeighbors args u p = (numElemPerPart args 3 : Nat)) :
    faceZ1 args e p = e p := by
  obtain ⟨g0, ev0, -, -⟩ := numCubesPerPart_facts args hacc 0 (by decide)
  obtain ⟨g1, ev1, -, -⟩ := numCubesPerPart_facts args hacc 1 (by decide)
  obtain ⟨g2, ev2, -, -⟩ := numCubesPerPart_facts args hacc 2 (by decide)
  unfold faceZ1
  refine faceLoops_frame (fun p => elemNeighbors args u p = (numElemPerPart args 3 : Nat))
    _ _ _ ?_ e p hp
  intro yy hy xx hx e p hp
  have hz : numCubesPerPart args 2 - 1 < numCubesPerPart args 2 := by omega
  have hK := cubeIndex_lt hz hy hx
  have hn := hno.2
  have hc : umul (uadd (umul (uadd (umul (usub (numCubesPerPart args 2) 1)
        (numCubesPerPart args 1)) yy) (numCubesPerPart args 0)) xx) 20
      = 20 * (((numCubesPerPart args 2 - 1) * numCubesPerPart args 1 + yy)
        * numCubesPerPart args 0 + xx) := by
    have b1 : (numCubesPerPart args 2 - 1) * numCubesPerPart args 1 + yy
        ≤ ((numCubesPerPart args 2 - 1) * numCubesPerPart args 1 + yy)
          * numCubesPerPart args 0 :=
      Nat.le_mul_of_pos_right _ (by omega)
    have b2 : numCubesPerPart args 2
        ≤ numCubesPerPart args 0 * numCubesPerPart args 1 * numCubesPerPart args 2 :=
      Nat.le_mul_of_pos_left _ (Nat.mul_pos (by omega) (by omega))
    rw [usub_one_eq _ (by omega) (by omega), umul_eq _ (numCubesPerPart args 1) (by omega),
      uadd_eq _ yy (by omega), umul_eq _ (numCubesPerPart args 0) (by omega),
      uadd_eq _ xx (by omega), umul_eq _ 20 (by omega)]
    omega
  rw [hc]
  rcases parity_cases (numCubesPerPart args 2 - 1 + yy + xx) with ho | ho
  · exact zeroSides_frame (fun p => elemNeighbors args u p = (numElemPerPart args 3 : Nat)) e _ _
      (face_entry args hacc hno hb u (numCubesPerPart args 2 - 1) yy xx 11 0 hz hy hx
        (by decide) ho (Or.inr (Or.inr (Or.inr (Or.inr (Or.inr ⟨rfl, rfl⟩))))))
      (face_entry args hacc hno hb u (numCubesPerPart args 2 - 1) yy xx 15 0 hz hy hx
        (by decide) ho (Or.inr (Or.inr (Or.inr (Or.inr (Or.inr ⟨rfl, rfl⟩))))))
      p hp
  · exact zeroSides_frame (fun p => elemNeighbors args u p = (numElemPerPart args 3 : Nat)) e _ _
      (face_entry args hacc hno hb u (numCubesPerPart args 2 - 1) yy xx 11 1 hz hy hx
        (by decide) ho (Or.inr (Or.inr (Or.inr (Or.inr (Or.inr ⟨rfl, rfl⟩))))))
      (face_entry args hacc hno hb u (numCubesPerPart args 2 - 1) yy xx 15 1 hz hy hx
        (by decide) ho (Or.inr (Or.inr (Or.inr (Or.inr (Or.inr ⟨rfl, rfl⟩))))))
      p hp

/-- The array `elemNeighborSides` of a partition is `elemNeighborSidesDef`
at every side of an element whose entry in `elemNeighbors` is not
`numElemPerPart[3]`. -/
theorem elemNeighborSides_eq (args : CubeArguments) (hacc : ArgumentsAccepted args)
    (hno : NoOverflow args) (x y z : Nat) (u sidesDef v : Nat → Int) (p : Nat)
    (hlt : p < numElemPerPart args 3 * 4)
    (hp : ¬ elemNeighbors args u p = (numElemPerPart args 3 : Nat)) :
    elemNeighborSides args x y z sidesDef v p = sidesDef p := by
  have s0 := fun (hb : boundary args ≠ 6) e => faceX0_frame args hacc hno hb u e p hp
  have s1 := fun (hb : boundary args ≠ 6) e => faceX1_frame args hacc hno hb u e p hp
  have s2 := fun (hb : boundary args ≠ 6) e => faceY0_frame args hacc hno hb u e p hp
  have s3 := fun (hb : boundary args ≠ 6) e => faceY1_frame args hacc hno hb u e p hp
  have s4 := fun (hb : boundary args ≠ 6) e => faceZ0_frame args hacc hno hb u e p hp
  have s5 := fun (hb : boundary args ≠ 6) e => faceZ1_frame args hacc hno hb u e p hp
  have step : ∀ (c : Prop) [Decidable c] (F : (Nat → Int) → (Nat → Int)) (e : Nat → Int),
      (c → boundary args ≠ 6) → (∀ hb : boundary args ≠ 6, ∀ e, F e p = e p) →
      (if c then F e else e) p = e p := by
    intro c _ F e hc hF
    by_cases h : c
    · rw [if_pos h]
      exact hF (hc h) e
    · rw [if_neg h]
  unfold elemNeighborSides
  rw [step _ _ _ (fun h => h.1) s5, step _ _ _ (fun h => h.1) s4, step _ _ _ (fun h => h.1) s3,
    step _ _ _ (fun h => h.1) s2, step _ _ _ (fun h => h.1) s1, step _ _ _ (fun h => h.1) s0,
    if_pos hlt]

/-! ## C30: the connectivity of the cube mesh -/

/-- The connectivity is symmetric, with the sides of `elemNeighborSidesDef`. -/
theorem elemNeighborSidesDef_symmetric (args : CubeArguments) (uninitialized sides : Nat → Int)
    (hacc : ArgumentsAccepted args) (hno : NoOverflow args) (e s : Nat)
    (he : e < numElemPerPart args 3) (hs : s < 4)
    (hb : elemNeighbors args uninitialized (4 * e + s) ≠ (numElemPerPart args 3 : Nat)) :
    ∃ n t : Nat, elemNeighbors args uninitialized (4 * e + s) = n
      ∧ elemNeighborSidesDef args sides (4 * e + s) = t
      ∧ n < numElemPerPart args 3 ∧ t < 4
      ∧ elemNeighbors args uninitialized (4 * n + t) = e := by
  have hval := elemNeighbors_value args hacc hno uninitialized
  have hsides := elemNeighborSidesDef_entry args hno sides
  obtain ⟨g0, ev0, -, -⟩ := numCubesPerPart_facts args hacc 0 (by decide)
  obtain ⟨g1, ev1, -, -⟩ := numCubesPerPart_facts args hacc 1 (by decide)
  obtain ⟨g2, ev2, -, -⟩ := numCubesPerPart_facts args hacc 2 (by decide)
  have hN := numElemPerPart_three args hno
  rw [hN] at he hb ⊢
  simp only [hN] at hval
  generalize numCubesPerPart args 0 = n0 at *
  generalize numCubesPerPart args 1 = n1 at *
  generalize numCubesPerPart args 2 = n2 at *
  generalize decide (boundary args = 6 ∧ numPartitions args 0 = 1) = per0 at *
  generalize decide (boundary args = 6 ∧ numPartitions args 1 = 1) = per1 at *
  generalize decide (boundary args = 6 ∧ numPartitions args 2 = 1) = per2 at *
  obtain ⟨zz, yy, xx, hz, hy, hx, hK⟩ := cube_decode n0 n1 n2 (e / 5) (by omega)
  have hr : 4 * (e % 5) + s < 20 := by omega
  have hp : 4 * e + s = 20 * ((zz * n1 + yy) * n0 + xx) + (4 * (e % 5) + s) := by omega
  have hr4 : (4 * (e % 5) + s) / 4 = e % 5 := by omega
  have hee : e = 5 * ((zz * n1 + yy) * n0 + xx) + e % 5 := by omega
  generalize 4 * (e % 5) + s = r at *
  have ho : (zz + yy + xx) % 2 < 2 := Nat.mod_lt _ (by decide)
  obtain ⟨ht0, ht4, hu, hcase⟩ := tables_symmetric ((zz + yy + xx) % 2) ho r hr
  have hv := hval zz yy xx r hz hy hx hr
  have hsd := hsides zz yy xx r hz hy hx hr
  rw [cubeOdd_eq] at hsd
  have htn : (((TET_SIDE_NEIGHBORS ((zz + yy + xx) % 2)).getD r 0).toNat : Int)
      = (TET_SIDE_NEIGHBORS ((zz + yy + xx) % 2)).getD r 0 := Int.toNat_of_nonneg ht0
  have htn4 : ((TET_SIDE_NEIGHBORS ((zz + yy + xx) % 2)).getD r 0).toNat < 4 := by omega
  have hKN := cubeIndex_lt hz hy hx
  rw [hp, hsd]
  rw [hp] at hb
  generalize ((TET_SIDE_NEIGHBORS ((zz + yy + xx) % 2)).getD r 0) = T at *
  generalize hT : T.toNat = t at *
  have hr' : 4 * targetTet ((zz + yy + xx) % 2) r + t < 20 := by omega
  rcases hcase with ⟨sx, sy, sz, bx, by_, bz, bt⟩ | ⟨dir, bx, by_, bz, bt⟩
  · -- the neighbour is a tetrahedron of the same cube
    rw [sx, sy, sz] at hv
    simp only [sideValue_zero] at hv
    have hv' := hval zz yy xx (4 * targetTet ((zz + yy + xx) % 2) r + t) hz hy hx hr'
    rw [bx, by_, bz, bt] at hv'
    simp only [sideValue_zero] at hv'
    refine ⟨5 * ((zz * n1 + yy) * n0 + xx) + targetTet ((zz + yy + xx) % 2) r, t,
      ?_, htn.symm, by omega, htn4, ?_⟩
    · rw [hv]
      push_cast
      ring
    · have hq : 4 * (5 * ((zz * n1 + yy) * n0 + xx) + targetTet ((zz + yy + xx) % 2) r) + t
          = 20 * ((zz * n1 + yy) * n0 + xx)
            + (4 * targetTet ((zz + yy + xx) % 2) r + t) := by ring
      rw [hq, hv', hr4]
      conv_rhs => rw [hee]
      push_cast
      ring
  · rcases dir with ⟨dx, sy, sz⟩ | ⟨sx, dy, sz⟩ | ⟨sx, sy, dz⟩
    · -- the neighbour lies in the next cube in x direction
      rw [sy, sz] at hv
      simp only [sideValue_zero] at hv
      have harg : 5 * stepX ((zz + yy + xx) % 2) r + (targetTet ((zz + yy + xx) % 2) r : Int)
            + 0 * ((n0 : Int) * 5) + 0 * ((n1 : Int) * (n0 : Int) * 5)
            + ((5 * ((zz * n1 + yy) * n0 + xx) : Nat) : Int)
          = ((targetTet ((zz + yy + xx) % 2) r : Int) + 5 * (((zz * n1 + yy) * n0 : Nat) : Int))
            + 5 * (xx : Int) + 5 * stepX ((zz + yy + xx) % 2) r := by
        push_cast
        ring
      rw [harg] at hv
      rcases sideValue_pair n0 xx g0 ev0 hx (stepX ((zz + yy + xx) % 2) r) dx per0 5
        ((5 * (n0 * n1 * n2) : Nat) : Int) with hbv | ⟨x', hx', hflip, hf, hbk⟩
      · rw [hbv] at hv
        exact absurd hv hb
      · rw [hf] at hv
        have hpar : (zz + yy + x') % 2 = 1 - (zz + yy + xx) % 2 := by omega
        have hv' := hval zz yy x' (4 * targetTet ((zz + yy + xx) % 2) r + t) hz hy hx' hr'
        rw [hpar, bx, by_, bz, bt, sy, sz] at hv'
        simp only [neg_zero, sideValue_zero] at hv'
        have harg' : 5 * -stepX ((zz + yy + xx) % 2) r + ((r / 4 : Nat) : Int)
              + 0 * ((n0 : Int) * 5) + 0 * ((n1 : Int) * (n0 : Int) * 5)
              + ((5 * ((zz * n1 + yy) * n0 + x') : Nat) : Int)
            = (((r / 4 : Nat) : Int) + 5 * (((zz * n1 + yy) * n0 : Nat) : Int))
              + 5 * (x' : Int) + 5 * -stepX ((zz + yy + xx) % 2) r := by
          push_cast
          ring
        rw [harg', hbk] at hv'
        have hKN' := cubeIndex_lt hz hy hx'
        refine ⟨5 * ((zz * n1 + yy) * n0 + x') + targetTet ((zz + yy + xx) % 2) r, t,
          ?_, htn.symm, by omega, htn4, ?_⟩
        · rw [hv]
          push_cast
          ring
        · have hq : 4 * (5 * ((zz * n1 + yy) * n0 + x') + targetTet ((zz + yy + xx) % 2) r) + t
              = 20 * ((zz * n1 + yy) * n0 + x')
                + (4 * targetTet ((zz + yy + xx) % 2) r + t) := by ring
          rw [hq, hv', hr4]
          conv_rhs => rw [hee]
          push_cast
          ring
    · -- the neighbour lies in the next cube in y direction
      rw [sx, sz] at hv
      simp only [sideValue_zero] at hv
      have harg : 5 * 0 + (targetTet ((zz + yy + xx) % 2) r : Int)
            + stepY ((zz + yy + xx) % 2) r * ((n0 : Int) * 5) + 0 * ((n1 : Int) * (n0 : Int) * 5)
            + ((5 * ((zz * n1 + yy) * n0 + xx) : Nat) : Int)
          = ((targetTet ((zz + yy + xx) % 2) r : Int) + 5 * ((zz * n1 * n0 + xx : Nat) : Int))
            + 5 * (n0 : Int) * (yy : Int) + 5 * (n0 : Int) * stepY ((zz + yy + xx) % 2) r := by
        push_cast
        ring
      rw [harg] at hv
      rcases sideValue_pair n1 yy g1 ev1 hy (stepY ((zz + yy + xx) % 2) r) dy per1 (5 * (n0 : Int))
        ((5 * (n0 * n1 * n2) : Nat) : Int) with hbv | ⟨y', hy', hflip, hf, hbk⟩
      · rw [hbv] at hv
        exact absurd hv hb
      · rw [hf] at hv
        have hpar : (zz + y' + xx) % 2 = 1 - (zz + yy + xx) % 2 := by omega
        have hv' := hval zz y' xx (4 * targetTet ((zz + yy + xx) % 2) r + t) hz hy' hx hr'
        rw [hpar, bx, by_, bz, bt, sx, sz] at hv'
        simp only [neg_zero, sideValue_zero] at hv'
        have harg' : 5 * 0 + ((r / 4 : Nat) : Int)
              + -stepY ((zz + yy + xx) % 2) r * ((n0 : Int) * 5)
              + 0 * ((n1 : Int) * (n0 : Int) * 5)
              + ((5 * ((zz * n1 + y') * n0 + xx) : Nat) : Int)
            = (((r / 4 : Nat) : Int) + 5 * ((zz * n1 * n0 + xx : Nat) : Int))
              + 5 * (n0 : Int) * (y' : Int) + 5 * (n0 : Int) * -stepY ((zz + yy + xx) % 2) r := by
          push_cast
          ring
        rw [harg', hbk] at hv'
        have hKN' := cubeIndex_lt hz hy' hx
        refine ⟨5 * ((zz * n1 + y') * n0 + xx) + targetTet ((zz + yy + xx) % 2) r, t,
          ?_, htn.symm, by omega, htn4, ?_⟩
        · rw [hv]
          push_cast
          ring
        · have hq : 4 * (5 * ((zz * n1 + y') * n0 + xx) + targetTet ((zz + yy + xx) % 2) r) + t
              = 20 * ((zz * n1 + y') * n0 + xx)
                + (4 * targetTet ((zz + yy + xx) % 2) r + t) := by ring
          rw [hq, hv', hr4]
          conv_rhs => rw [hee]
          push_cast
          ring
    · -- the neighbour lies in the next cube in z direction
      rw [sx, sy] at hv
      simp only [sideValue_zero] at hv
      have harg : 5 * 0 + (targetTet ((zz + yy + xx) % 2) r : Int)
            + 0 * ((n0 : Int) * 5)
            + stepZ ((zz + yy + xx) % 2) r * ((n1 : Int) * (n0 : Int) * 5)
            + ((5 * ((zz * n1 + yy) * n0 + xx) : Nat) : Int)
          = ((targetTet ((zz + yy + xx) % 2) r : Int) + 5 * ((yy * n0 + xx : Nat) : Int))
            + 5 * ((n0 : Int) * (n1 : Int)) * (zz : Int)
            + 5 * ((n0 : Int) * (n1 : Int)) * stepZ ((zz + yy + xx) % 2) r := by
        push_cast
        ring
      rw [harg] at hv
      rcases sideValue_pair n2 zz g2 ev2 hz (stepZ ((zz + yy + xx) % 2) r) dz per2
        (5 * ((n0 : Int) * (n1 : Int))) ((5 * (n0 * n1 * n2) : Nat) : Int)
        with hbv | ⟨z', hz', hflip, hf, hbk⟩
      · rw [hbv] at hv
        exact absurd hv hb
      · rw [hf] at hv
        have hpar : (z' + yy + xx) % 2 = 1 - (zz + yy + xx) % 2 := by omega
        have hv' := hval z' yy xx (4 * targetTet ((zz + yy + xx) % 2) r + t) hz' hy hx hr'
        rw [hpar, bx, by_, bz, bt, sx, sy] at hv'
        simp only [neg_zero, sideValue_zero] at hv'
        have harg' : 5 * 0 + ((r / 4 : Nat) : Int)
              + 0 * ((n0 : Int) * 5)
              + -stepZ ((zz + yy + xx) % 2) r * ((n1 : Int) * (n0 : Int) * 5)
              + ((5 * ((z' * n1 + yy) * n0 + xx) : Nat) : Int)
            = (((r / 4 : Nat) : Int) + 5 * ((yy * n0 + xx : Nat) : Int))
              + 5 * ((n0 : Int) * (n1 : Int)) * (z' : Int)
              + 5 * ((n0 : Int) * (n1 : Int)) * -stepZ ((zz + yy + xx) % 2) r := by
          push_cast
          ring
        rw [harg', hbk] at hv'
        have hKN' := cubeIndex_lt hz' hy hx
        refine ⟨5 * ((z' * n1 + yy) * n0 + xx) + targetTet ((zz + yy + xx) % 2) r, t,
          ?_, htn.symm, by omega, htn4, ?_⟩
        · rw [hv]
          push_cast
          ring
        · have hq : 4 * (5 * ((z' * n1 + yy) * n0 + xx) + targetTet ((zz + yy + xx) % 2) r) + t
              = 20 * ((z' * n1 + yy) * n0 + xx)
                + (4 * targetTet ((zz + yy + xx) % 2) r + t) := by ring
          rw [hq, hv', hr4]
          conv_rhs => rw [hee]
          push_cast
          ring

/-- The index `c` of a cube does not wrap when twenty times the number of the
cube is below `2^32`. -/
theorem cubeStart_of_lt (args : CubeArguments) {zz yy xx : Nat}
    (h : 20 * ((zz * numCubesPerPart args 1 + yy) * numCubesPerPart args 0 + xx) < UINT_RANGE)
    (h0 : 0 < numCubesPerPart args 0) :
    cubeStart args zz yy xx
        = 20 * ((zz * numCubesPerPart args 1 + yy) * numCubesPerPart args 0 + xx) := by
  have b2 : zz * numCubesPerPart args 1 + yy
      ≤ (zz * numCubesPerPart args 1 + yy) * numCubesPerPart args 0 + xx :=
    le_trans (Nat.le_mul_of_pos_right _ h0) (Nat.le_add_right _ _)
  have b1 : zz * numCubesPerPart args 1
      ≤ (zz * numCubesPerPart args 1 + yy) * numCubesPerPart args 0 + xx := by omega
  have b3 : (zz * numCubesPerPart args 1 + yy) * numCubesPerPart args 0
      ≤ (zz * numCubesPerPart args 1 + yy) * numCubesPerPart args 0 + xx := by omega
  unfold cubeStart umul uadd
  rw [Nat.mod_eq_of_lt (by omega : zz * numCubesPerPart args 1 < UINT_RANGE),
    Nat.mod_eq_of_lt (by omega : zz * numCubesPerPart args 1 + yy < UINT_RANGE),
    Nat.mod_eq_of_lt (by omega : (zz * numCubesPerPart args 1 + yy) * numCubesPerPart args 0
      < UINT_RANGE),
    Nat.mod_eq_of_lt (by omega : (zz * numCubesPerPart args 1 + yy) * numCubesPerPart args 0 + xx
      < UINT_RANGE),
    Nat.mod_eq_of_lt (by omega)]
  ring

/-- When every write is within the array, the array has an entry for every
side of every tetrahedron of the partition. -/
theorem entries_le_of_inBounds (args : CubeArguments) (hacc : ArgumentsAccepted args)
    (hloop : VertexLoopEnds args) (hmem : WritesInBounds args) :
    20 * (numCubesPerPart args 0 * numCubesPerPart args 1 * numCubesPerPart args 2)
      ≤ 4 * numElemPerPart args 3 := by
  obtain ⟨g0, -, -, -⟩ := numCubesPerPart_facts args hacc 0 (by decide)
  obtain ⟨g1, -, -, -⟩ := numCubesPerPart_facts args hacc 1 (by decide)
  obtain ⟨g2, -, -, -⟩ := numCubesPerPart_facts args hacc 2 (by decide)
  unfold VertexLoopEnds at hloop
  unfold WritesInBounds at hmem
  have key : ∀ k, k < numCubesPerPart args 0 * numCubesPerPart args 1 * numCubesPerPart args 2 →
      20 * k + 20 ≤ 4 * numElemPerPart args 3 := by
    intro k
    induction k with
    | zero =>
      intro _
      have h := hmem 0 (by omega) 0 (by omega) 0 (by omega)
      rw [cubeStart_of_lt args (by unfold UINT_RANGE; omega) (by omega)] at h
      omega
    | succ k ih =>
      intro hk
      have hk0 := ih (by omega)
      obtain ⟨zz, yy, xx, hz, hy, hx, hK⟩ := cube_decode _ _ _ (k + 1) hk
      have h := hmem zz hz yy hy xx hx
      rw [cubeStart_of_lt args (by rw [← hK]; omega) (by omega), ← hK] at h
      omega
  have hpos : 0 < numCubesPerPart args 0 * numCubesPerPart args 1 * numCubesPerPart args 2 :=
    Nat.mul_pos (Nat.mul_pos (by omega) (by omega)) (by omega)
  have := key (numCubesPerPart args 0 * numCubesPerPart args 1 * numCubesPerPart args 2 - 1)
    (by omega)
  omega

/-- The quotient `numCubes[3] / numPartitions[3]` of the wrapped products is
at most the number of cubes of a partition. -/
theorem numCubesPerPart_three_le (args : CubeArguments) (hacc : ArgumentsAccepted args) :
    numCubesPerPart args 3
      ≤ numCubesPerPart args 0 * numCubesPerPart args 1 * numCubesPerPart args 2 := by
  obtain ⟨-, -, p0, m0⟩ := numCubesPerPart_facts args hacc 0 (by decide)
  obtain ⟨-, -, p1, m1⟩ := numCubesPerPart_facts args hacc 1 (by decide)
  obtain ⟨-, -, p2, m2⟩ := numCubesPerPart_facts args hacc 2 (by decide)
  have hx : args.x = numCubes args 0 := rfl
  have hy : args.y = numCubes args 1 := rfl
  have hz : args.z = numCubes args 2 := rfl
  have hpx : args.px = numPartitions args 0 := rfl
  have hpy : args.py = numPartitions args 1 := rfl
  have hpz : args.pz = numPartitions args 2 := rfl
  have e3 : numCubes args 3 = (args.x * args.y * args.z) % UINT_RANGE := by
    show umul (umul args.x args.y) args.z = _
    unfold umul
    exact Nat.mod_mul_mod
  have p3 : numPartitions args 3 = (args.px * args.py * args.pz) % UINT_RANGE := by
    show umul (umul args.px args.py) args.pz = _
    unfold umul
    exact Nat.mod_mul_mod
  show numCubes args 3 / numPartitions args 3 ≤ _
  apply Nat.div_le_of_le_mul
  rw [e3, hx, hy, hz, m0, m1, m2]
  have e : numPartitions args 0 * numCubesPerPart args 0
        * (numPartitions args 1 * numCubesPerPart args 1)
        * (numPartitions args 2 * numCubesPerPart args 2)
      = (numCubesPerPart args 0 * numCubesPerPart args 1 * numCubesPerPart args 2)
        * (args.px * args.py * args.pz) := by
    rw [hpx, hpy, hpz]
    ring
  rw [e, Nat.mul_mod, ← p3]
  rw [Nat.mul_comm (numPartitions args 3)]
  exact le_trans (Nat.mod_le _ _) (Nat.mul_le_mul_right _ (Nat.mod_le _ _))

/-- Where `main` gets past the loop over `vertices` and writes within
`elemNeighbors`, the counters of the partition have not wrapped. -/
theorem noOverflow_of_inBounds (args : CubeArguments) (hacc : ArgumentsAccepted args)
    (hloop : VertexLoopEnds args) (hmem : WritesInBounds args) : NoOverflow args := by
  have h1 := entries_le_of_inBounds args hacc hloop hmem
  have h2 := numCubesPerPart_three_le args hacc
  unfold VertexLoopEnds at hloop
  have h3 : numElemPerPart args 3 ≤ numCubesPerPart args 3 * 5 := by
    unfold numElemPerPart umul
    exact Nat.mod_le _ _
  refine ⟨by omega, by omega⟩

/-- C30.  Let the arguments pass the checks of `main`, so that every
dimension of a partition has an even number of at least two cubes, and let
`main` reach the end of the loops that fill `elemNeighbors`: the loop over
`vertices` before them ends, and every entry written is one of the array.
Then for every element `e` of a partition and every side `s` whose entry
`elemNeighbors[4e+s]` is not `numElemPerPart[3]`, this entry is the number
`n` of an element of the partition, the entry `elemNeighborSides[4e+s]` of
every partition is a side `t`, and `elemNeighbors[4n+t]` is `e`. -/
theorem elemNeighbors_symmetric (args : CubeArguments) (x y z : Nat)
    (uninitialized sides sides0 : Nat → Int)
    (hacc : ArgumentsAccepted args) (hloop : VertexLoopEnds args)
    (hmem : WritesInBounds args) (e s : Nat)
    (he : e < numElemPerPart args 3) (hs : s < 4)
    (hb : elemNeighbors args uninitialized (4 * e + s) ≠ (numElemPerPart args 3 : Nat)) :
    ∃ n t : Nat, elemNeighbors args uninitialized (4 * e + s) = n
      ∧ elemNeighborSides args x y z (elemNeighborSidesDef args sides) sides0 (4 * e + s) = t
      ∧ n < numElemPerPart args 3 ∧ t < 4
      ∧ elemNeighbors args uninitialized (4 * n + t) = e := by
  have hno := noOverflow_of_inBounds args hacc hloop hmem
  obtain ⟨n, t, h1, h2, h3, h4, h5⟩ :=
    elemNeighborSidesDef_symmetric args uninitialized sides hacc hno e s he hs hb
  refine ⟨n, t, h1, ?_, h3, h4, h5⟩
  rw [elemNeighborSides_eq args hacc hno x y z uninitialized _ _ _ (by omega) hb]
  exact h2

/-- Witness for C30: the first side of the first element of the partition of
two cubes in every dimension with periodic boundaries. -/
theorem elemNeighbors_symmetric_witness :
    ∃ n t : Nat, elemNeighbors periodicCube (fun _ => 0) (4 * 0 + 0) = n
      ∧ elemNeighborSides periodicCube 0 0 0 (elemNeighborSidesDef periodicCube (fun _ => 0))
          (fun _ => 0) (4 * 0 + 0) = t
      ∧ n < numElemPerPart periodicCube 3 ∧ t < 4
      ∧ elemNeighbors periodicCube (fun _ => 0) (4 * n + t) = 0 :=
  elemNeighbors_symmetric periodicCube 0 0 0 (fun _ => 0) (fun _ => 0) (fun _ => 0)
    (by decide) (by unfold VertexLoopEnds; decide!) (by unfold WritesInBounds; decide!)
    0 0 (by decide!) (by decide) (by decide!)


/-! ## Rounding to double -/

theorem pow2_eq (e : Int) : pow2 e = (2 : ℚ) ^ e := by
  unfold pow2
  split_ifs with h
  · have : e = (e.toNat : Int) := (Int.toNat_of_nonneg h).symm
    conv_rhs => rw [this]
    rw [zpow_natCast]
    push_cast
    rfl
  · have h' : 0 ≤ -e := by omega
    have : e = -((-e).toNat : Int) := by rw [Int.toNat_of_nonneg h']; ring
    conv_rhs => rw [this]
    rw [zpow_neg, zpow_natCast]
    push_cast
    rw [one_div]

theorem pow2_pos (e : Int) : 0 < pow2 e := by
  rw [pow2_eq]
  positivity

theorem pow2_add (a b : Int) : pow2 (a + b) = pow2 a * pow2 b := by
  rw [pow2_eq, pow2_eq, pow2_eq, zpow_add₀ (by norm_num)]

theorem pow2_le_pow2 {a b : Int} (h : a ≤ b) : pow2 a ≤ pow2 b := by
  rw [pow2_eq, pow2_eq]
  exact zpow_le_zpow_right₀ (by norm_num) h

theorem pow2_lt_pow2 {a b : Int} (h : a < b) : pow2 a < pow2 b := by
  rw [pow2_eq, pow2_eq]
  exact zpow_lt_zpow_right₀ (by norm_num) h

theorem pow2_lt_pow2_iff {a b : Int} : pow2 a < pow2 b ↔ a < b := by
  constructor
  · intro h
    by_contra hc
    exact absurd (pow2_le_pow2 (not_lt.mp hc)) (not_le.mpr h)
  · exact pow2_lt_pow2

theorem pow2_natCast (n : Nat) : pow2 (n : Int) = ((2 ^ n : Nat) : ℚ) := by
  rw [pow2_eq, zpow_natCast]
  push_cast
  rfl

theorem log2Aux_spec : ∀ fuel n : Nat, n ≤ fuel → 0 < n →
    2 ^ log2Aux fuel n ≤ n ∧ n < 2 ^ (log2Aux fuel n + 1) := by
  intro fuel
  induction fuel with
  | zero => intro n h1 h2; omega
  | succ fuel ih =>
    intro n h1 h2
    unfold log2Aux
    split_ifs with h
    · obtain ⟨a, b⟩ := ih (n / 2) (by omega) (by omega)
      constructor
      · rw [pow_succ]; omega
      · rw [pow_succ]; omega
    · simp
      omega


theorem abs_eq_natAbs_div (x : ℚ) : |x| = (x.num.natAbs : ℚ) / (x.den : ℚ) := by
  have h := Rat.num_div_den x
  conv_lhs => rw [← h]
  rw [abs_div, Nat.abs_cast]
  rw [Nat.cast_natAbs, Int.cast_abs]

theorem ilog2_spec (x : ℚ) (hx : x ≠ 0) :
    pow2 (ilog2 x) ≤ |x| ∧ |x| < pow2 (ilog2 x + 1) := by
  have hn : 0 < x.num.natAbs := Int.natAbs_pos.mpr (Rat.num_ne_zero.mpr hx)
  have hd : 0 < x.den := x.den_pos
  obtain ⟨a1, a2⟩ := log2Aux_spec _ _ (le_refl _) hn
  obtain ⟨b1, b2⟩ := log2Aux_spec _ _ (le_refl _) hd
  have habs := abs_eq_natAbs_div x
  unfold ilog2
  simp only []
  generalize log2Aux x.num.natAbs x.num.natAbs = a at *
  generalize log2Aux x.den x.den = b at *
  have hdq : (0 : ℚ) < x.den := by exact_mod_cast hd
  have A1 : ((2 : ℚ) ^ a) ≤ x.num.natAbs := by exact_mod_cast a1
  have A2 : (x.num.natAbs : ℚ) < (2 : ℚ) ^ (a + 1) := by exact_mod_cast a2
  have B1 : ((2 : ℚ) ^ b) ≤ x.den := by exact_mod_cast b1
  have B2 : (x.den : ℚ) < (2 : ℚ) ^ (b + 1) := by exact_mod_cast b2
  have e0 : pow2 ((a : Int) - b) = (2 : ℚ) ^ a / (2 : ℚ) ^ b := by
    rw [pow2_eq, zpow_sub₀ (by norm_num), zpow_natCast, zpow_natCast]
  have e1 : pow2 ((a : Int) - b + 1) = (2 : ℚ) ^ (a + 1) / (2 : ℚ) ^ b := by
    rw [pow2_eq, show ((a : Int) - b + 1) = ((a + 1 : Nat) : Int) - (b : Int) by push_cast; ring,
      zpow_sub₀ (by norm_num), zpow_natCast, zpow_natCast]
  have e2 : pow2 ((a : Int) - b - 1) = (2 : ℚ) ^ a / (2 : ℚ) ^ (b + 1) := by
    rw [pow2_eq, show ((a : Int) - b - 1) = (a : Int) - ((b + 1 : Nat) : Int) by push_cast; ring,
      zpow_sub₀ (by norm_num), zpow_natCast, zpow_natCast]
  have p2b : (0 : ℚ) < 2 ^ b := by positivity
  have p2b1 : (0 : ℚ) < 2 ^ (b + 1) := by positivity
  split_ifs with h
  · refine ⟨h, ?_⟩
    rw [e1, habs, div_lt_div_iff₀ hdq p2b]
    calc (x.num.natAbs : ℚ) * 2 ^ b ≤ x.num.natAbs * x.den := by
          apply mul_le_mul_of_nonneg_left B1 (by positivity)
      _ < 2 ^ (a + 1) * x.den := by
          apply mul_lt_mul_of_pos_right A2 hdq
  · constructor
    · rw [e2, habs, div_le_div_iff₀ p2b1 hdq]
      calc (2 : ℚ) ^ a * x.den ≤ x.num.natAbs * x.den := by
            apply mul_le_mul_of_nonneg_right A1 (le_of_lt hdq)
        _ ≤ x.num.natAbs * 2 ^ (b + 1) := by
            apply mul_le_mul_of_nonneg_left (le_of_lt B2) (by positivity)
    · rw [show ((a : Int) - b - 1 + 1) = (a : Int) - b by ring]
      exact not_le.mp h

theorem ilog2_unique (x : ℚ) (e : Int) (h1 : pow2 e ≤ |x|) (h2 : |x| < pow2 (e + 1)) :
    ilog2 x = e := by
  have hx : x ≠ 0 := by
    intro h
    rw [h, abs_zero] at h1
    exact absurd h1 (not_le.mpr (pow2_pos e))
  obtain ⟨s1, s2⟩ := ilog2_spec x hx
  have a : ilog2 x < e + 1 := pow2_lt_pow2_iff.mp (lt_of_le_of_lt s1 h2)
  have b : e < ilog2 x + 1 := pow2_lt_pow2_iff.mp (lt_of_le_of_lt h1 s2)
  omega

theorem ilog2_mono (x y : ℚ) (hx : x ≠ 0) (h : |x| ≤ |y|) : ilog2 x ≤ ilog2 y := by
  have hy : y ≠ 0 := by
    intro h0
    rw [h0, abs_zero] at h
    exact hx (abs_eq_zero.mp (le_antisymm h (abs_nonneg x)))
  obtain ⟨s1, -⟩ := ilog2_spec x hx
  obtain ⟨-, t2⟩ := ilog2_spec y hy
  have : ilog2 x < ilog2 y + 1 := pow2_lt_pow2_iff.mp (lt_of_le_of_lt (le_trans s1 h) t2)
  omega

theorem ilog2_neg (x : ℚ) : ilog2 (-x) = ilog2 x := by
  unfold ilog2
  simp only [Rat.neg_num, Int.natAbs_neg, Rat.neg_den, abs_neg]


theorem roundEven_intCast (n : Int) : roundEven (n : ℚ) = n := by
  unfold roundEven
  simp only [Int.floor_intCast, sub_self]
  norm_num

theorem floor_le_roundEven (y : ℚ) : ⌊y⌋ ≤ roundEven y := by
  unfold roundEven
  simp only []
  split_ifs <;> omega

theorem roundEven_le_floor_add_one (y : ℚ) : roundEven y ≤ ⌊y⌋ + 1 := by
  unfold roundEven
  simp only []
  split_ifs <;> omega

theorem roundEven_mono {y z : ℚ} (h : y ≤ z) : roundEven y ≤ roundEven z := by
  have hf : ⌊y⌋ ≤ ⌊z⌋ := Int.floor_le_floor h
  rcases lt_or_eq_of_le hf with hlt | heq
  · have a := roundEven_le_floor_add_one y
    have b := floor_le_roundEven z
    omega
  · unfold roundEven
    simp only []
    rw [heq]
    have hr : y - (⌊z⌋ : ℚ) ≤ z - (⌊z⌋ : ℚ) := by linarith
    split_ifs with h1 h2 h3 h4 h5 h6 h7 h8 h9 <;> first | omega | (exfalso; linarith)

theorem roundEven_neg (y : ℚ) : roundEven (-y) = -roundEven y := by
  by_cases hy : (⌊y⌋ : ℚ) = y
  · rw [← hy, ← Int.cast_neg, roundEven_intCast, roundEven_intCast]
  · have h1 : (⌊y⌋ : ℚ) < y := lt_of_le_of_ne (Int.floor_le y) hy
    have h2 : y < ⌊y⌋ + 1 := Int.lt_floor_add_one y
    have hf : ⌊-y⌋ = -⌊y⌋ - 1 := by
      rw [Int.floor_eq_iff]
      push_cast
      constructor <;> linarith
    unfold roundEven
    simp only []
    rw [hf]
    push_cast
    split_ifs with a1 a2 a3 a4 a5 a6 a7 a8 a9 <;>
      first | omega | (exfalso; linarith)

theorem roundEven_le_of_le {y : ℚ} {n : Int} (h : y ≤ n) : roundEven y ≤ n := by
  have := roundEven_mono h
  rwa [roundEven_intCast] at this

theorem le_roundEven_of_le {y : ℚ} {n : Int} (h : (n : ℚ) ≤ y) : n ≤ roundEven y := by
  have := roundEven_mono h
  rwa [roundEven_intCast] at this


theorem quantum_neg (x : ℚ) : quantum (-x) = quantum x := by
  unfold quantum
  rw [ilog2_neg]

theorem fl_zero : fl 0 = 0 := by
  unfold fl
  simp

theorem fl_neg (x : ℚ) : fl (-x) = -fl x := by
  unfold fl
  by_cases h : x = 0
  · simp [h]
  · have h' : -x ≠ 0 := neg_ne_zero.mpr h
    rw [if_neg h, if_neg h', quantum_neg, neg_div, roundEven_neg]
    push_cast
    ring

theorem fl_nonneg {x : ℚ} (h : 0 ≤ x) : 0 ≤ fl x := by
  unfold fl
  split_ifs with h0
  · exact le_refl _
  · apply mul_nonneg _ (le_of_lt (pow2_pos _))
    have : (0 : ℚ) ≤ x / pow2 (quantum x) := div_nonneg h (le_of_lt (pow2_pos _))
    have := le_roundEven_of_le (n := 0) (by simpa using this)
    exact_mod_cast this

theorem quantum_mono (x y : ℚ) (hx : x ≠ 0) (h : |x| ≤ |y|) : quantum x ≤ quantum y := by
  unfold quantum
  have := ilog2_mono x y hx h
  exact max_le_max (by omega) (le_refl _)

theorem pow2_intCast (n : Nat) : pow2 (n : Int) = (((2 : Int) ^ n : Int) : ℚ) := by
  rw [pow2_natCast]
  push_cast
  rfl

theorem fl_mono_pos {x y : ℚ} (hx : 0 < x) (h : x ≤ y) : fl x ≤ fl y := by
  have hy : 0 < y := lt_of_lt_of_le hx h
  have hx0 : x ≠ 0 := ne_of_gt hx
  have hy0 : y ≠ 0 := ne_of_gt hy
  have habs : |x| ≤ |y| := by rwa [abs_of_pos hx, abs_of_pos hy]
  have hq := quantum_mono x y hx0 habs
  unfold fl
  rw [if_neg hx0, if_neg hy0]
  rcases lt_or_eq_of_le hq with hlt | heq
  · -- different spacing: a power of two lies between
    obtain ⟨-, sx⟩ := ilog2_spec x hx0
    obtain ⟨sy, -⟩ := ilog2_spec y hy0
    rw [abs_of_pos hx] at sx
    rw [abs_of_pos hy] at sy
    have hqx : ilog2 x - 52 ≤ quantum x := le_max_left _ _
    have hqx' : -1074 ≤ quantum x := le_max_right _ _
    have hqy : quantum y = ilog2 y - 52 := by
      unfold quantum at hlt ⊢
      rcases max_cases (ilog2 y - 52) (-1074) with ⟨e, -⟩ | ⟨e, -⟩
      · exact e
      · rw [e] at hlt
        exact absurd hqx' (not_le.mpr hlt)
    have hexp : ilog2 x < ilog2 y := by
      unfold quantum at hlt
      by_contra hc
      have : ilog2 y ≤ ilog2 x := not_lt.mp hc
      have : max (ilog2 y - 52) (-1074) ≤ max (ilog2 x - 52) (-1074) :=
        max_le_max (by omega) (le_refl _)
      omega
    -- the bound `2^(ilog2 y)` in units of both spacings
    have k1 : 0 ≤ ilog2 y - quantum x := by omega
    have e1 : pow2 (ilog2 y) = pow2 ((ilog2 y - quantum x).toNat : Int) * pow2 (quantum x) := by
      rw [← pow2_add, Int.toNat_of_nonneg k1]
      congr 1
      ring
    have e2 : pow2 (ilog2 y) = pow2 ((52 : Nat) : Int) * pow2 (quantum y) := by
      rw [← pow2_add, hqy]
      congr 1
      push_cast
      ring
    have bx : x ≤ pow2 (ilog2 y) :=
      le_trans (le_of_lt sx) (pow2_le_pow2 (by omega))
    have rx : roundEven (x / pow2 (quantum x)) ≤ (2 : Int) ^ (ilog2 y - quantum x).toNat := by
      apply roundEven_le_of_le
      rw [div_le_iff₀ (pow2_pos _), ← pow2_intCast, ← e1]
      exact bx
    have ry : (2 : Int) ^ 52 ≤ roundEven (y / pow2 (quantum y)) := by
      apply le_roundEven_of_le
      rw [le_div_iff₀ (pow2_pos _), ← pow2_intCast, ← e2]
      exact sy
    calc (roundEven (x / pow2 (quantum x)) : ℚ) * pow2 (quantum x)
        ≤ (((2 : Int) ^ (ilog2 y - quantum x).toNat : Int) : ℚ) * pow2 (quantum x) := by
          apply mul_le_mul_of_nonneg_right _ (le_of_lt (pow2_pos _))
          exact_mod_cast rx
      _ = pow2 (ilog2 y) := by rw [e1, pow2_intCast]
      _ = (((2 : Int) ^ 52 : Int) : ℚ) * pow2 (quantum y) := by rw [e2, pow2_intCast]
      _ ≤ (roundEven (y / pow2 (quantum y)) : ℚ) * pow2 (quantum y) := by
          apply mul_le_mul_of_nonneg_right _ (le_of_lt (pow2_pos _))
          exact_mod_cast ry
  · rw [heq]
    apply mul_le_mul_of_nonneg_right _ (le_of_lt (pow2_pos _))
    have : x / pow2 (quantum y) ≤ y / pow2 (quantum y) :=
      div_le_div_of_nonneg_right h (le_of_lt (pow2_pos _))
    exact_mod_cast roundEven_mono this

theorem fl_mono {x y : ℚ} (h : x ≤ y) : fl x ≤ fl y := by
  rcases lt_trichotomy x 0 with hx | hx | hx
  · rcases lt_or_le y 0 with hy | hy
    · have := fl_mono_pos (x := -y) (y := -x) (by linarith) (by linarith)
      rw [fl_neg, fl_neg] at this
      linarith
    · have a := fl_nonneg (x := -x) (by linarith)
      rw [fl_neg] at a
      have b := fl_nonneg hy
      linarith
  · rw [hx, fl_zero]
    rw [hx] at h
    exact fl_nonneg h
  · exact fl_mono_pos hx h


/-- An integer of magnitude below `2^53` times a power of two from `2^-1074`
on is not changed by rounding. -/
theorem fl_of_mantissa (m p : Int) (hp : -1074 ≤ p) (hm : |m| < 2 ^ 53) :
    fl ((m : ℚ) * pow2 p) = (m : ℚ) * pow2 p := by
  by_cases h0 : (m : ℚ) * pow2 p = 0
  · rw [h0, fl_zero]
  · have hq : quantum ((m : ℚ) * pow2 p) ≤ p := by
      unfold quantum
      apply max_le _ hp
      obtain ⟨s1, -⟩ := ilog2_spec _ h0
      rw [abs_mul, abs_of_pos (pow2_pos p)] at s1
      have hm' : |(m : ℚ)| < pow2 ((53 : Nat) : Int) := by
        rw [pow2_intCast, ← Int.cast_abs]
        exact_mod_cast hm
      have : pow2 (ilog2 ((m : ℚ) * pow2 p)) < pow2 ((53 : Nat) : Int) * pow2 p :=
        lt_of_le_of_lt s1 (mul_lt_mul_of_pos_right hm' (pow2_pos p))
      rw [← pow2_add] at this
      have := pow2_lt_pow2_iff.mp this
      push_cast at this
      omega
    unfold fl
    rw [if_neg h0]
    generalize quantum ((m : ℚ) * pow2 p) = q at hq
    have k : 0 ≤ p - q := by omega
    have e : pow2 p = pow2 ((p - q).toNat : Int) * pow2 q := by
      rw [← pow2_add, Int.toNat_of_nonneg k]
      congr 1
      ring
    have e' : (m : ℚ) * pow2 p / pow2 q = ((m * (2 : Int) ^ (p - q).toNat : Int) : ℚ) := by
      rw [e, pow2_intCast, ← mul_assoc, mul_div_assoc, div_self (ne_of_gt (pow2_pos q))]
      push_cast
      ring
    rw [e', roundEven_intCast, e, pow2_intCast]
    push_cast
    ring

theorem fl_of_representable {x : ℚ} (h : Representable x) : fl x = x := by
  obtain ⟨⟨m, p, hp, hm, rfl⟩, -⟩ := h
  exact fl_of_mantissa m p hp hm

theorem representable_zero : Representable 0 :=
  ⟨⟨0, 0, by norm_num, by norm_num, by simp⟩, by unfold DBL_MAX; norm_num⟩

/-! ## Double arithmetic: the guards and the loop of `updateClusterDependencies` -/

theorem predictionCondition_enqueueFullUpdate_ieee (s : TimeManager) (l : Nat) :
    Ieee.predictionCondition (enqueueFullUpdate s l) l = Ieee.predictionCondition s l := by
  unfold Ieee.predictionCondition Ieee.getTimeTolerance
  by_cases h0 : l > 0 <;> by_cases h1 : l < s.m_timeStepping.numberOfLocalClusters - 1
  all_goals
    have e1 : l > 0 → l - 1 ≠ l := by omega
    simp [enqueueFullUpdate, markFullUpdate, Function.update_same, Function.update_noteq,
      h0, h1, e1]

theorem predictionCondition_afterFullUpdate_ieee (s : TimeManager) (l : Nat) :
    Ieee.predictionCondition (if Ieee.fullUpdateCondition s l then enqueueFullUpdate s l else s) l
      = Ieee.predictionCondition s l := by
  split
  · exact predictionCondition_enqueueFullUpdate_ieee s l
  · rfl

theorem fullUpdateCondition_iff_ieee (s : TimeManager) (l : Nat)
    (hmax : fl ((s.m_clusters l).m_predictionTime - Ieee.getTimeTolerance s) < DBL_MAX) :
    Ieee.fullUpdateCondition s l = true ↔
      ((s.m_clusters l).m_updatable.neighboringCopy = false
        ∧ (s.m_clusters l).m_updatable.neighboringInterior = false
        ∧ |fl ((s.m_clusters l).m_fullUpdateTime - s.m_timeStepping.synchronizationTime)|
            > Ieee.getTimeTolerance s
        ∧ (0 < l → (s.m_clusters (l - 1)).m_predictionTime
            > fl ((s.m_clusters l).m_predictionTime - Ieee.getTimeTolerance s))
        ∧ |fl ((s.m_clusters l).m_predictionTime - (s.m_clusters l).m_fullUpdateTime)|
            > Ieee.getTimeTolerance s
        ∧ (l + 1 < s.m_timeStepping.numberOfLocalClusters →
            (s.m_clusters (l + 1)).m_predictionTime
              > fl ((s.m_clusters l).m_predictionTime - Ieee.getTimeTolerance s))) := by
  unfold Ieee.fullUpdateCondition
  by_cases h0 : l > 0 <;> by_cases h1 : l < s.m_timeStepping.numberOfLocalClusters - 1
  all_goals
    have h1' : (l + 1 < s.m_timeStepping.numberOfLocalClusters) ↔
        l < s.m_timeStepping.numberOfLocalClusters - 1 := by omega
    simp only [h1', h0, h1, if_true, if_false, Bool.and_eq_true, Bool.not_eq_true',
      decide_eq_true_eq, gt_iff_lt, true_implies, false_implies, and_true, hmax]
    tauto

theorem predictionCondition_iff_ieee (s : TimeManager) (l : Nat)
    (hlo : fl ((s.m_clusters l).m_predictionTime - Ieee.getTimeTolerance s) < DBL_MAX)
    (hhi : fl ((s.m_clusters l).m_predictionTime + Ieee.getTimeTolerance s) < DBL_MAX) :
    Ieee.predictionCondition s l = true ↔
      ((s.m_clusters l).m_updatable.localCopy = false
        ∧ (s.m_clusters l).m_updatable.localInterior = false
        ∧ |fl ((s.m_clusters l).m_fullUpdateTime - s.m_timeStepping.synchronizationTime)|
            > Ieee.getTimeTolerance s
        ∧ (0 < l → (s.m_clusters (l - 1)).m_fullUpdateTime
            > fl ((s.m_clusters l).m_predictionTime - Ieee.getTimeTolerance s))
        ∧ |fl ((s.m_clusters l).m_fullUpdateTime - (s.m_clusters l).m_predictionTime)|
            < Ieee.getTimeTolerance s
        ∧ (l + 1 < s.m_timeStepping.numberOfLocalClusters →
            fl ((s.m_clusters (l + 1)).m_fullUpdateTime
                + (s.m_clusters (l + 1)).m_timeStepWidth)
              > fl ((s.m_clusters l).m_predictionTime + Ieee.getTimeTolerance s))) := by
  unfold Ieee.predictionCondition
  by_cases h0 : l > 0 <;> by_cases h1 : l < s.m_timeStepping.numberOfLocalClusters - 1
  all_goals
    have h1' : (l + 1 < s.m_timeStepping.numberOfLocalClusters) ↔
        l < s.m_timeStepping.numberOfLocalClusters - 1 := by omega
    simp only [h1', h0, h1, if_true, if_false, Bool.and_eq_true, Bool.not_eq_true',
      decide_eq_true_eq, gt_iff_lt, true_implies, false_implies, and_true, hlo, hhi]
    tauto

/-- The four outcomes of one pass of the loop body. -/
theorem evaluateCluster_eq_ieee (s : TimeManager) (l : Nat) :
    Ieee.evaluateCluster l s =
      if Ieee.fullUpdateCondition s l then
        (if Ieee.predictionCondition s l then Ieee.enqueuePrediction (enqueueFullUpdate s l) l
         else enqueueFullUpdate s l)
      else (if Ieee.predictionCondition s l then Ieee.enqueuePrediction s l else s) := by
  unfold Ieee.evaluateCluster
  by_cases h : Ieee.fullUpdateCondition s l = true <;>
  by_cases h2 : Ieee.predictionCondition s l = true <;>
  simp [h, h2, predictionCondition_enqueueFullUpdate_ieee]

/-- The neighboring interior queue after one pass of the loop body. -/
theorem evaluateCluster_neighboringInteriorQueue_ieee (s : TimeManager) (l : Nat) :
    (Ieee.evaluateCluster l s).m_neighboringInteriorQueue
      = if Ieee.fullUpdateCondition s l then s.m_neighboringInteriorQueue ++ [l]
        else s.m_neighboringInteriorQueue := by
  rw [evaluateCluster_eq_ieee]
  split_ifs <;> rfl

/-- The local interior queue after one pass of the loop body. -/
theorem evaluateCluster_localInteriorQueue_ieee (s : TimeManager) (l : Nat) :
    (Ieee.evaluateCluster l s).m_localInteriorQueue
      = if Ieee.predictionCondition s l then s.m_localInteriorQueue ++ [l]
        else s.m_localInteriorQueue := by
  rw [evaluateCluster_eq_ieee]
  split_ifs <;> rfl

theorem evaluateCluster_timeStepping_ieee (s : TimeManager) (l : Nat) :
    (Ieee.evaluateCluster l s).m_timeStepping = s.m_timeStepping := by
  rw [evaluateCluster_eq_ieee]
  split_ifs <;> rfl

theorem evaluateCluster_logUpdates_ieee (s : TimeManager) (l : Nat) :
    (Ieee.evaluateCluster l s).m_logUpdates = s.m_logUpdates := by
  rw [evaluateCluster_eq_ieee]
  split_ifs <;> rfl

theorem evaluateCluster_localCopyQueue_ieee (s : TimeManager) (l : Nat) :
    (Ieee.evaluateCluster l s).m_localCopyQueue = s.m_localCopyQueue := by
  rw [evaluateCluster_eq_ieee]
  split_ifs <;> rfl

theorem evaluateCluster_neighboringCopyQueue_ieee (s : TimeManager) (l : Nat) :
    (Ieee.evaluateCluster l s).m_neighboringCopyQueue = s.m_neighboringCopyQueue := by
  rw [evaluateCluster_eq_ieee]
  split_ifs <;> rfl

theorem getTimeTolerance_evaluateCluster_ieee (s : TimeManager) (l : Nat) :
    Ieee.getTimeTolerance (Ieee.evaluateCluster l s) = Ieee.getTimeTolerance s := by
  unfold Ieee.getTimeTolerance
  rw [evaluateCluster_timeStepping_ieee]

/-- One pass of the loop body rewrites the record of the evaluated cluster
and no other. -/
theorem evaluateCluster_clusters_ieee (s : TimeManager) (l : Nat) :
    (Ieee.evaluateCluster l s).m_clusters
      = Function.update s.m_clusters l (Ieee.evaluatedCluster s l) := by
  rw [evaluateCluster_eq_ieee]
  unfold Ieee.evaluatedCluster
  by_cases h : Ieee.fullUpdateCondition s l = true <;>
  by_cases h2 : Ieee.predictionCondition s l = true
  · simp [h, h2, Ieee.enqueuePrediction, enqueueFullUpdate, Ieee.getTimeTolerance]
  · simp [h, h2, enqueueFullUpdate]
  · simp [h, h2, Ieee.enqueuePrediction]
  · simp [h, h2]

theorem evaluateCluster_clusters_same_ieee (s : TimeManager) (l : Nat) :
    (Ieee.evaluateCluster l s).m_clusters l = Ieee.evaluatedCluster s l := by
  rw [evaluateCluster_clusters_ieee, Function.update_same]

theorem evaluateCluster_clusters_ne_ieee (s : TimeManager) (l j : Nat) (h : j ≠ l) :
    (Ieee.evaluateCluster l s).m_clusters j = s.m_clusters j := by
  rw [evaluateCluster_clusters_ieee, Function.update_noteq h]

theorem predictionSetup_timeStepWidth_ieee (ts : TimeStepping) (e : ℚ) (l : Nat) (c : TimeCluster) :
    (Ieee.predictionSetup ts e l c).m_timeStepWidth
      = min (ts.globalCflTimeStepWidths (ts.clusterIds l))
          (fl (ts.synchronizationTime - c.m_fullUpdateTime)) := by
  unfold Ieee.predictionSetup
  simp only []
  split_ifs <;> rfl

theorem predictionSetup_fullUpdateTime_ieee (ts : TimeStepping) (e : ℚ) (l : Nat) (c : TimeCluster) :
    (Ieee.predictionSetup ts e l c).m_fullUpdateTime = c.m_fullUpdateTime := by
  unfold Ieee.predictionSetup
  simp only []
  split_ifs <;> rfl

theorem predictionSetup_predictionTime_ieee (ts : TimeStepping) (e : ℚ) (l : Nat) (c : TimeCluster) :
    (Ieee.predictionSetup ts e l c).m_predictionTime = c.m_predictionTime := by
  unfold Ieee.predictionSetup
  simp only []
  split_ifs <;> rfl

theorem predictionSetup_numberOfFullUpdates_ieee (ts : TimeStepping) (e : ℚ) (l : Nat)
    (c : TimeCluster) :
    (Ieee.predictionSetup ts e l c).m_numberOfFullUpdates = c.m_numberOfFullUpdates := by
  unfold Ieee.predictionSetup
  simp only []
  split_ifs <;> rfl

theorem predictionSetup_clusterId_ieee (ts : TimeStepping) (e : ℚ) (l : Nat) (c : TimeCluster) :
    (Ieee.predictionSetup ts e l c).m_clusterId = c.m_clusterId := by
  unfold Ieee.predictionSetup
  simp only []
  split_ifs <;> rfl

theorem predictionSetup_globalClusterId_ieee (ts : TimeStepping) (e : ℚ) (l : Nat)
    (c : TimeCluster) :
    (Ieee.predictionSetup ts e l c).m_globalClusterId = c.m_globalClusterId := by
  unfold Ieee.predictionSetup
  simp only []
  split_ifs <;> rfl

theorem predictionSetup_updatable_ieee (ts : TimeStepping) (e : ℚ) (l : Nat) (c : TimeCluster) :
    (Ieee.predictionSetup ts e l c).m_updatable = { c.m_updatable with localInterior := true } := by
  unfold Ieee.predictionSetup
  simp only []
  split_ifs <;> rfl

theorem predictionSetup_resetLtsBuffers_ieee (ts : TimeStepping) (e : ℚ) (l : Nat)
    (c : TimeCluster) :
    (Ieee.predictionSetup ts e l c).m_resetLtsBuffers
      = decide (c.m_numberOfFullUpdates % ts.globalTimeStepRates (ts.clusterIds l) = 0) := by
  unfold Ieee.predictionSetup
  simp only []
  split_ifs <;> simp_all

theorem predictionSetup_subTimeStart_ieee (ts : TimeStepping) (e : ℚ) (l : Nat) (c : TimeCluster) :
    (Ieee.predictionSetup ts e l c).m_subTimeStart
      = if c.m_numberOfFullUpdates % ts.globalTimeStepRates (ts.clusterIds l) = 0 then 0
        else c.m_subTimeStart := by
  unfold Ieee.predictionSetup
  simp only []
  split_ifs <;> simp_all

theorem predictionSetup_sendLtsBuffers_ieee (ts : TimeStepping) (e : ℚ) (l : Nat) (c : TimeCluster) :
    (Ieee.predictionSetup ts e l c).m_sendLtsBuffers
      = (decide ((c.m_numberOfFullUpdates + 1) % ts.globalTimeStepRates (ts.clusterIds l) = 0)
         || decide (|fl (ts.synchronizationTime - fl (c.m_fullUpdateTime
              + min (ts.globalCflTimeStepWidths (ts.clusterIds l))
                  (fl (ts.synchronizationTime - c.m_fullUpdateTime))))| < e)) := by
  unfold Ieee.predictionSetup
  simp only []
  split_ifs <;> simp_all

/-- The record of a cluster that passes the prediction guard. -/
theorem evaluatedCluster_of_prediction_ieee (s : TimeManager) (l : Nat)
    (h : Ieee.predictionCondition s l = true) :
    Ieee.evaluatedCluster s l
      = Ieee.predictionSetup s.m_timeStepping (Ieee.getTimeTolerance s) l
          (if Ieee.fullUpdateCondition s l then markFullUpdate (s.m_clusters l)
           else s.m_clusters l) := by
  unfold Ieee.evaluatedCluster
  simp [h]

theorem evaluatedCluster_fullUpdateTime_ieee (s : TimeManager) (l : Nat) :
    (Ieee.evaluatedCluster s l).m_fullUpdateTime = (s.m_clusters l).m_fullUpdateTime := by
  unfold Ieee.evaluatedCluster
  split_ifs <;> simp [predictionSetup_fullUpdateTime_ieee, markFullUpdate_fullUpdateTime]

theorem evaluatedCluster_predictionTime_ieee (s : TimeManager) (l : Nat) :
    (Ieee.evaluatedCluster s l).m_predictionTime = (s.m_clusters l).m_predictionTime := by
  unfold Ieee.evaluatedCluster
  split_ifs <;> simp [predictionSetup_predictionTime_ieee, markFullUpdate_predictionTime]

theorem evaluatedCluster_numberOfFullUpdates_ieee (s : TimeManager) (l : Nat) :
    (Ieee.evaluatedCluster s l).m_numberOfFullUpdates = (s.m_clusters l).m_numberOfFullUpdates := by
  unfold Ieee.evaluatedCluster
  split_ifs <;> simp [predictionSetup_numberOfFullUpdates_ieee, markFullUpdate_numberOfFullUpdates]

theorem evaluatedCluster_clusterId_ieee (s : TimeManager) (l : Nat) :
    (Ieee.evaluatedCluster s l).m_clusterId = (s.m_clusters l).m_clusterId := by
  unfold Ieee.evaluatedCluster
  split_ifs <;> simp [predictionSetup_clusterId_ieee, markFullUpdate]

theorem evaluatedCluster_globalClusterId_ieee (s : TimeManager) (l : Nat) :
    (Ieee.evaluatedCluster s l).m_globalClusterId = (s.m_clusters l).m_globalClusterId := by
  unfold Ieee.evaluatedCluster
  split_ifs <;> simp [predictionSetup_globalClusterId_ieee, markFullUpdate]

theorem evaluatedCluster_timeStepWidth_ieee (s : TimeManager) (l : Nat) :
    (Ieee.evaluatedCluster s l).m_timeStepWidth
      = if Ieee.predictionCondition s l then
          min (s.m_timeStepping.globalCflTimeStepWidths (s.m_timeStepping.clusterIds l))
            (fl (s.m_timeStepping.synchronizationTime - (s.m_clusters l).m_fullUpdateTime))
        else (s.m_clusters l).m_timeStepWidth := by
  unfold Ieee.evaluatedCluster
  split_ifs <;> simp [predictionSetup_timeStepWidth_ieee, markFullUpdate_timeStepWidth,
    markFullUpdate_fullUpdateTime]

theorem evaluatedCluster_localInterior_ieee (s : TimeManager) (l : Nat) :
    (Ieee.evaluatedCluster s l).m_updatable.localInterior
      = (Ieee.predictionCondition s l || (s.m_clusters l).m_updatable.localInterior) := by
  unfold Ieee.evaluatedCluster
  split_ifs with h1 h2 h2 <;> simp [predictionSetup_updatable_ieee, markFullUpdate, h2]

theorem evaluatedCluster_neighboringInterior_ieee (s : TimeManager) (l : Nat) :
    (Ieee.evaluatedCluster s l).m_updatable.neighboringInterior
      = (Ieee.fullUpdateCondition s l || (s.m_clusters l).m_updatable.neighboringInterior) := by
  unfold Ieee.evaluatedCluster
  split_ifs with h1 h2 h2 <;> simp [predictionSetup_updatable_ieee, markFullUpdate, h1]

theorem evaluatedCluster_localCopy_ieee (s : TimeManager) (l : Nat) :
    (Ieee.evaluatedCluster s l).m_updatable.localCopy = (s.m_clusters l).m_updatable.localCopy := by
  unfold Ieee.evaluatedCluster
  split_ifs <;> simp [predictionSetup_updatable_ieee, markFullUpdate]

theorem evaluatedCluster_neighboringCopy_ieee (s : TimeManager) (l : Nat) :
    (Ieee.evaluatedCluster s l).m_updatable.neighboringCopy
      = (s.m_clusters l).m_updatable.neighboringCopy := by
  unfold Ieee.evaluatedCluster
  split_ifs <;> simp [predictionSetup_updatable_ieee, markFullUpdate]

theorem foldl_evaluateCluster_induction_ieee (P : TimeManager → Prop) (ts : TimeStepping)
    (ls : List Nat) (s : TimeManager) (hts : s.m_timeStepping = ts)
    (hstep : ∀ t j, t.m_timeStepping = ts → j ∈ ls → P t → P (Ieee.evaluateCluster j t))
    (h0 : P s) :
    P (ls.foldl (fun t l => Ieee.evaluateCluster l t) s)
      ∧ (ls.foldl (fun t l => Ieee.evaluateCluster l t) s).m_timeStepping = ts := by
  induction ls generalizing s with
  | nil => exact ⟨h0, hts⟩
  | cons x xs ih =>
    simp only [List.foldl_cons]
    apply ih
    · rw [evaluateCluster_timeStepping_ieee, hts]
    · intro t j ht hj hp
      exact hstep t j ht (List.mem_cons_of_mem _ hj) hp
    · exact hstep s x hts (List.mem_cons_self _ _) h0

/-- A property that every pass of the loop body keeps is kept by
`Ieee.updateClusterDependencies`; the passes are for clusters next to
`i_localClusterId` and below the number of clusters. -/
theorem updateClusterDependencies_induction_ieee (P : TimeManager → Prop) (s : TimeManager)
    (k : Nat) (hk : k < s.m_timeStepping.numberOfLocalClusters)
    (hstep : ∀ t j, t.m_timeStepping = s.m_timeStepping →
      j < s.m_timeStepping.numberOfLocalClusters → k ≤ j + 1 → j ≤ k + 1 →
      P t → P (Ieee.evaluateCluster j t))
    (h0 : P s) :
    P (Ieee.updateClusterDependencies k s) := by
  unfold Ieee.updateClusterDependencies
  refine (foldl_evaluateCluster_induction_ieee P s.m_timeStepping _ s rfl ?_ h0).1
  intro t j ht hj hp
  rw [List.mem_range'_1] at hj
  apply hstep t j ht _ _ _ hp
  · split_ifs at hj <;> omega
  · split_ifs at hj <;> omega
  · split_ifs at hj <;> omega

theorem updateClusterDependencies_timeStepping_ieee (s : TimeManager) (k : Nat) :
    (Ieee.updateClusterDependencies k s).m_timeStepping = s.m_timeStepping := by
  unfold Ieee.updateClusterDependencies
  exact (foldl_evaluateCluster_induction_ieee (fun _ => True) s.m_timeStepping _ s rfl
    (fun _ _ _ _ _ => trivial) trivial).2

/-! ## Double arithmetic: claims on one evaluation of a cluster -/

/-- C2 (counterexample), in double arithmetic.  In `nearSyncState` cluster 1
is not queued, has not reached the synchronization time and has a pending
prediction, and the prediction time 1 of cluster 0 is strictly behind the
prediction time `1 + 2^-18` of cluster 1, so condition (c) of the claim
fails; all the same `updateClusterDependencies` flags cluster 1 and pushes it
on the neighboring interior queue.  In `levelState` the tolerance is 1,
cluster 0 meets (a), (b) and (d), has no coarser neighbour, and the
prediction time 1 of cluster 1 is its own prediction time 2 minus the
tolerance, so condition (e) of the claim holds; all the same cluster 0 is
not pushed on the neighboring interior queue. -/
theorem fullUpdate_enqueued_behind_coarser :
    ((nearSyncState.m_clusters 0).m_predictionTime
        < (nearSyncState.m_clusters 1).m_predictionTime
      ∧ nearSyncState.m_neighboringInteriorQueue = []
      ∧ (Ieee.updateClusterDependencies 1 nearSyncState).m_neighboringInteriorQueue = [1]
      ∧ ((Ieee.updateClusterDependencies 1 nearSyncState).m_clusters 1).m_updatable.neighboringInterior
          = true)
    ∧ (Ieee.getTimeTolerance levelState = 1
      ∧ (levelState.m_clusters 0).m_updatable.neighboringCopy = false
      ∧ (levelState.m_clusters 0).m_updatable.neighboringInterior = false
      ∧ |(levelState.m_clusters 0).m_fullUpdateTime
          - levelState.m_timeStepping.synchronizationTime| > 1
      ∧ |(levelState.m_clusters 0).m_predictionTime
          - (levelState.m_clusters 0).m_fullUpdateTime| > 1
      ∧ (levelState.m_clusters 1).m_predictionTime
          ≥ (levelState.m_clusters 0).m_predictionTime - 1
      ∧ (Ieee.evaluateCluster 0 levelState).m_neighboringInteriorQueue = []
      ∧ ((Ieee.evaluateCluster 0 levelState).m_clusters 0).m_updatable.neighboringInterior
          = false) := by
  decide!

/-- C2 (amended), in double arithmetic: every difference is rounded to
double, and the tolerance `ε` is the double product of the literal `1E-5`
and the first CFL width.  For every scheduler state and every cluster `l`
for which the rounded `predictionTime - ε` is below the largest double, one
pass of the loop body of `updateClusterDependencies` pushes `l` on the
neighboring interior queue with its neighboring flag set if and only if: (a)
neither neighboring flag of `l` is set; (b) `|fullUpdateTime - syncTime| >
ε`; (c) cluster `l-1`, if there is one, has `predictionTime >
predictionTime l - ε`; (d) `|predictionTime - fullUpdateTime| > ε`; (e)
cluster `l+1`, if there is one, has `predictionTime > predictionTime l - ε`. -/
theorem fullUpdate_enqueued_iff (s : TimeManager) (l : Nat)
    (hmax : fl ((s.m_clusters l).m_predictionTime - Ieee.getTimeTolerance s) < DBL_MAX) :
    ((Ieee.evaluateCluster l s).m_neighboringInteriorQueue
          = s.m_neighboringInteriorQueue ++ [l]
        ∧ ((Ieee.evaluateCluster l s).m_clusters l).m_updatable.neighboringInterior = true)
      ↔ ((s.m_clusters l).m_updatable.neighboringCopy = false
        ∧ (s.m_clusters l).m_updatable.neighboringInterior = false
        ∧ |fl ((s.m_clusters l).m_fullUpdateTime - s.m_timeStepping.synchronizationTime)|
            > Ieee.getTimeTolerance s
        ∧ (0 < l → (s.m_clusters (l - 1)).m_predictionTime
            > fl ((s.m_clusters l).m_predictionTime - Ieee.getTimeTolerance s))
        ∧ |fl ((s.m_clusters l).m_predictionTime - (s.m_clusters l).m_fullUpdateTime)|
            > Ieee.getTimeTolerance s
        ∧ (l + 1 < s.m_timeStepping.numberOfLocalClusters →
            (s.m_clusters (l + 1)).m_predictionTime
              > fl ((s.m_clusters l).m_predictionTime - Ieee.getTimeTolerance s))) := by
  rw [← fullUpdateCondition_iff_ieee s l hmax, evaluateCluster_neighboringInteriorQueue_ieee,
    evaluateCluster_clusters_same_ieee, evaluatedCluster_neighboringInterior_ieee]
  by_cases h : Ieee.fullUpdateCondition s l = true
  · simp [h]
  · simp [h]

/-- C2 (witness): in `nearSyncState` cluster 1 passes the five conditions and
is pushed on the neighboring interior queue. -/
theorem fullUpdate_enqueued_iff_witness :
    fl ((nearSyncState.m_clusters 1).m_predictionTime - Ieee.getTimeTolerance nearSyncState)
        < DBL_MAX
      ∧ (Ieee.evaluateCluster 1 nearSyncState).m_neighboringInteriorQueue
          = nearSyncState.m_neighboringInteriorQueue ++ [1]
      ∧ ((Ieee.evaluateCluster 1 nearSyncState).m_clusters 1).m_updatable.neighboringInterior
          = true :=
  ⟨by decide!, (fullUpdate_enqueued_iff nearSyncState 1 (by decide!)).mpr (by decide!)⟩

/-- C3 (counterexample), in double arithmetic.  In `startState` both clusters
stand at time 0: the full update time of cluster 0 is not ahead of the
prediction time of cluster 1, so condition (c) of the claim fails; all the
same `updateClusterDependencies` flags cluster 1 and pushes it on the local
interior queue.  In `halfStepState` the tolerance is 1, cluster 0 meets (a),
(b) and (d), has no coarser neighbour, and the next full update of cluster 1,
due at time 1/2, is strictly ahead of its prediction time 0, so condition (e)
of the claim holds; all the same cluster 0 is not pushed on the local
interior queue. -/
theorem prediction_enqueued_level_with_coarser :
    (¬ ((startState.m_clusters 0).m_fullUpdateTime
          > (startState.m_clusters 1).m_predictionTime)
      ∧ startState.m_localInteriorQueue = []
      ∧ (Ieee.updateClusterDependencies 1 startState).m_localInteriorQueue = [1]
      ∧ ((Ieee.updateClusterDependencies 1 startState).m_clusters 1).m_updatable.localInterior
          = true)
    ∧ (Ieee.getTimeTolerance halfStepState = 1
      ∧ (halfStepState.m_clusters 0).m_updatable.localCopy = false
      ∧ (halfStepState.m_clusters 0).m_updatable.localInterior = false
      ∧ |(halfStepState.m_clusters 0).m_fullUpdateTime
          - halfStepState.m_timeStepping.synchronizationTime| > 1
      ∧ |(halfStepState.m_clusters 0).m_fullUpdateTime
          - (halfStepState.m_clusters 0).m_predictionTime| < 1
      ∧ (halfStepState.m_clusters 1).m_fullUpdateTime
          + (halfStepState.m_clusters 1).m_timeStepWidth
          > (halfStepState.m_clusters 0).m_predictionTime
      ∧ (Ieee.evaluateCluster 0 halfStepState).m_localInteriorQueue = []
      ∧ ((Ieee.evaluateCluster 0 halfStepState).m_clusters 0).m_updatable.localInterior
          = false) := by
  decide!

/-- C3 (amended), in double arithmetic: every sum and difference is rounded
to double, and the tolerance `ε` is the double product of the literal `1E-5`
and the first CFL width.  For every scheduler state and every cluster `l`
for which the rounded `predictionTime - ε` and `predictionTime + ε` are
below the largest double, one pass of the loop body of
`updateClusterDependencies` pushes `l` on the local interior queue with its
local flag set if and only if: (a) neither local flag of `l` is set; (b)
`|fullUpdateTime - syncTime| > ε`; (c) cluster `l-1`, if there is one, has
`fullUpdateTime > predictionTime l - ε`; (d) `|fullUpdateTime -
predictionTime| < ε`; (e) cluster `l+1`, if there is one, has
`fullUpdateTime + timeStepWidth > predictionTime l + ε`. -/
theorem prediction_enqueued_iff (s : TimeManager) (l : Nat)
    (hlo : fl ((s.m_clusters l).m_predictionTime - Ieee.getTimeTolerance s) < DBL_MAX)
    (hhi : fl ((s.m_clusters l).m_predictionTime + Ieee.getTimeTolerance s) < DBL_MAX) :
    ((Ieee.evaluateCluster l s).m_localInteriorQueue = s.m_localInteriorQueue ++ [l]
        ∧ ((Ieee.evaluateCluster l s).m_clusters l).m_updatable.localInterior = true)
      ↔ ((s.m_clusters l).m_updatable.localCopy = false
        ∧ (s.m_clusters l).m_updatable.localInterior = false
        ∧ |fl ((s.m_clusters l).m_fullUpdateTime - s.m_timeStepping.synchronizationTime)|
            > Ieee.getTimeTolerance s
        ∧ (0 < l → (s.m_clusters (l - 1)).m_fullUpdateTime
            > fl ((s.m_clusters l).m_predictionTime - Ieee.getTimeTolerance s))
        ∧ |fl ((s.m_clusters l).m_fullUpdateTime - (s.m_clusters l).m_predictionTime)|
            < Ieee.getTimeTolerance s
        ∧ (l + 1 < s.m_timeStepping.numberOfLocalClusters →
            fl ((s.m_clusters (l + 1)).m_fullUpdateTime
                + (s.m_clusters (l + 1)).m_timeStepWidth)
              > fl ((s.m_clusters l).m_predictionTime + Ieee.getTimeTolerance s))) := by
  rw [← predictionCondition_iff_ieee s l hlo hhi, evaluateCluster_localInteriorQueue_ieee,
    evaluateCluster_clusters_same_ieee, evaluatedCluster_localInterior_ieee]
  by_cases h : Ieee.predictionCondition s l = true
  · simp [h]
  · simp [h]

/-- C3 (witness): in `startState` cluster 1 passes the five conditions and is
pushed on the local interior queue. -/
theorem prediction_enqueued_iff_witness :
    (fl ((startState.m_clusters 1).m_predictionTime - Ieee.getTimeTolerance startState)
          < DBL_MAX
        ∧ fl ((startState.m_clusters 1).m_predictionTime + Ieee.getTimeTolerance startState)
          < DBL_MAX)
      ∧ (Ieee.evaluateCluster 1 startState).m_localInteriorQueue
          = startState.m_localInteriorQueue ++ [1]
      ∧ ((Ieee.evaluateCluster 1 startState).m_clusters 1).m_updatable.localInterior = true :=
  ⟨by decide!, (prediction_enqueued_iff startState 1 (by decide!) (by decide!)).mpr
    (by decide!)⟩

/-- C7 (counterexample), in double arithmetic.  The cluster of
`roundedClipState` stands at the double `0.3` and is eligible for a
prediction up to the synchronization time, the double `0.9`.  It gets the
time step width `0.9 - 0.3`, which is rounded up to `0.6000000000000001`, and
`fullUpdateTime + timeStepWidth` is beyond the synchronization time, as the
exact sum and as the sum of doubles, `0.9000000000000001`. -/
theorem timeStepWidth_beyond_synchronizationTime :
    Ieee.predictionCondition roundedClipState 0 = true
      ∧ ((Ieee.evaluateCluster 0 roundedClipState).m_clusters 0).m_timeStepWidth
          = 5404319552844596 / 9007199254740992
      ∧ ((Ieee.evaluateCluster 0 roundedClipState).m_clusters 0).m_fullUpdateTime
            + ((Ieee.evaluateCluster 0 roundedClipState).m_clusters 0).m_timeStepWidth
          > roundedClipState.m_timeStepping.synchronizationTime
      ∧ fl (((Ieee.evaluateCluster 0 roundedClipState).m_clusters 0).m_fullUpdateTime
            + ((Ieee.evaluateCluster 0 roundedClipState).m_clusters 0).m_timeStepWidth)
          > roundedClipState.m_timeStepping.synchronizationTime := by
  decide!

/-- C7 (amended), in double arithmetic.  Whenever a pass of the loop body of
`updateClusterDependencies` finds cluster `l` eligible for a prediction, it
sets the time step width of `l` to the smaller of
`globalCflTimeStepWidths[g]`, `g` the global id of `l`, and the double
difference `syncTime - fullUpdateTime`, and leaves the full update time as
it is.  When that difference is computed without rounding error,
`fullUpdateTime + timeStepWidth` does not exceed the synchronization time,
and neither does the sum of doubles when the synchronization time is a
double. -/
theorem prediction_timeStepWidth_clipped (s : TimeManager) (l : Nat)
    (h : Ieee.predictionCondition s l = true) :
    ((Ieee.evaluateCluster l s).m_clusters l).m_timeStepWidth
        = min (s.m_timeStepping.globalCflTimeStepWidths (s.m_timeStepping.clusterIds l))
            (fl (s.m_timeStepping.synchronizationTime - (s.m_clusters l).m_fullUpdateTime))
      ∧ ((Ieee.evaluateCluster l s).m_clusters l).m_fullUpdateTime
          = (s.m_clusters l).m_fullUpdateTime
      ∧ (fl (s.m_timeStepping.synchronizationTime - (s.m_clusters l).m_fullUpdateTime)
            = s.m_timeStepping.synchronizationTime - (s.m_clusters l).m_fullUpdateTime →
          ((Ieee.evaluateCluster l s).m_clusters l).m_fullUpdateTime
              + ((Ieee.evaluateCluster l s).m_clusters l).m_timeStepWidth
            ≤ s.m_timeStepping.synchronizationTime
          ∧ (Representable s.m_timeStepping.synchronizationTime →
            fl (((Ieee.evaluateCluster l s).m_clusters l).m_fullUpdateTime
                + ((Ieee.evaluateCluster l s).m_clusters l).m_timeStepWidth)
              ≤ s.m_timeStepping.synchronizationTime)) := by
  rw [evaluateCluster_clusters_same_ieee, evaluatedCluster_timeStepWidth_ieee,
    evaluatedCluster_fullUpdateTime_ieee]
  simp only [h, if_true, true_and]
  intro hex
  have hle : (s.m_clusters l).m_fullUpdateTime
      + min (s.m_timeStepping.globalCflTimeStepWidths (s.m_timeStepping.clusterIds l))
          (fl (s.m_timeStepping.synchronizationTime - (s.m_clusters l).m_fullUpdateTime))
      ≤ s.m_timeStepping.synchronizationTime := by
    rw [hex]
    have := min_le_right
      (s.m_timeStepping.globalCflTimeStepWidths (s.m_timeStepping.clusterIds l))
      (s.m_timeStepping.synchronizationTime - (s.m_clusters l).m_fullUpdateTime)
    linarith
  refine ⟨hle, fun hrep => ?_⟩
  have := fl_mono hle
  rwa [fl_of_representable hrep] at this

/-- C7 (witness): the cluster of `clippedState`, at time 1 with width 1 and
synchronization time 7/4, gets the clipped width 3/4. -/
theorem prediction_timeStepWidth_clipped_witness :
    Ieee.predictionCondition clippedState 0 = true
      ∧ ((Ieee.evaluateCluster 0 clippedState).m_clusters 0).m_timeStepWidth = 3 / 4 := by
  refine ⟨by decide!, ?_⟩
  rw [(prediction_timeStepWidth_clipped clippedState 0 (by decide!)).1]
  decide!

/-- C9 (counterexample), in double arithmetic.  The cluster of
`absorbedStepState` has rate 2 and no full update, stands at time `2^44` and
is eligible for a prediction with the time step width `2^-8 - 2^-20`.  The
step ends `2^-20` before the synchronization time, which is more than the
tolerance, and the coming update does not precede a reset; all the same
`sendLtsBuffers` becomes true, since the sum of doubles `fullUpdateTime +
timeStepWidth` is the synchronization time. -/
theorem sendLtsBuffers_before_synchronizationTime :
    Ieee.predictionCondition absorbedStepState 0 = true
      ∧ ¬ (absorbedStepState.m_timeStepping.globalTimeStepRates
              (absorbedStepState.m_timeStepping.clusterIds 0)
            ∣ (absorbedStepState.m_clusters 0).m_numberOfFullUpdates + 1)
      ∧ ¬ (|absorbedStepState.m_timeStepping.synchronizationTime
            - (((Ieee.evaluateCluster 0 absorbedStepState).m_clusters 0).m_fullUpdateTime
                + ((Ieee.evaluateCluster 0 absorbedStepState).m_clusters 0).m_timeStepWidth)|
          < Ieee.getTimeTolerance absorbedStepState)
      ∧ ((Ieee.evaluateCluster 0 absorbedStepState).m_clusters 0).m_sendLtsBuffers = true := by
  decide!

/-- C9 (amended), in double arithmetic.  Whenever a pass of the loop body of
`updateClusterDependencies` finds cluster `l` eligible for a prediction and
the rate of `l` is at least 1, `sendLtsBuffers` becomes true if and only if
`numberOfFullUpdates + 1` is a multiple of the rate or the clipped step
reaches the synchronization time in double arithmetic: `|syncTime -
(fullUpdateTime + timeStepWidth)| < ε` with the new time step width, the sum
and the difference rounded to double; in every other case it becomes
false. -/
theorem prediction_sendLtsBuffers (s : TimeManager) (l : Nat)
    (h : Ieee.predictionCondition s l = true)
    (hrate : 1 ≤ s.m_timeStepping.globalTimeStepRates (s.m_timeStepping.clusterIds l)) :
    ((Ieee.evaluateCluster l s).m_clusters l).m_sendLtsBuffers = true
      ↔ (s.m_timeStepping.globalTimeStepRates (s.m_timeStepping.clusterIds l)
            ∣ (s.m_clusters l).m_numberOfFullUpdates + 1
          ∨ |fl (s.m_timeStepping.synchronizationTime
              - fl (((Ieee.evaluateCluster l s).m_clusters l).m_fullUpdateTime
                  + ((Ieee.evaluateCluster l s).m_clusters l).m_timeStepWidth))|
              < Ieee.getTimeTolerance s) := by
  have hr := hrate
  rw [evaluateCluster_clusters_same_ieee, evaluatedCluster_timeStepWidth_ieee,
    evaluatedCluster_fullUpdateTime_ieee, evaluatedCluster_of_prediction_ieee s l h,
    predictionSetup_sendLtsBuffers_ieee]
  have e1 : (if Ieee.fullUpdateCondition s l then markFullUpdate (s.m_clusters l)
      else s.m_clusters l).m_numberOfFullUpdates = (s.m_clusters l).m_numberOfFullUpdates := by
    split_ifs <;> rfl
  have e2 : (if Ieee.fullUpdateCondition s l then markFullUpdate (s.m_clusters l)
      else s.m_clusters l).m_fullUpdateTime = (s.m_clusters l).m_fullUpdateTime := by
    split_ifs <;> rfl
  rw [e1, e2]
  simp only [h, if_true, Bool.or_eq_true, decide_eq_true_eq, Nat.dvd_iff_mod_eq_zero]

/-- C9 (witness): the cluster of `clippedState` has rate 2 and one full update,
so the coming update precedes a reset and the buffers are sent. -/
theorem prediction_sendLtsBuffers_witness :
    (Ieee.predictionCondition clippedState 0 = true
      ∧ 1 ≤ clippedState.m_timeStepping.globalTimeStepRates
              (clippedState.m_timeStepping.clusterIds 0))
      ∧ ((Ieee.evaluateCluster 0 clippedState).m_clusters 0).m_sendLtsBuffers = true :=
  ⟨by decide!, (prediction_sendLtsBuffers clippedState 0 (by decide!) (by decide!)).mpr
    (Or.inl (by decide!))⟩

/-! ## C26: the initialisation of the queues at a common time -/

/-- One pass of the loop body for a cluster that passes neither guard
changes nothing. -/
theorem evaluateCluster_of_guards_false_ieee (s : TimeManager) (l : Nat)
    (h1 : Ieee.fullUpdateCondition s l = false) (h2 : Ieee.predictionCondition s l = false) :
    Ieee.evaluateCluster l s = s := by
  rw [evaluateCluster_eq_ieee, h1, h2]
  simp

theorem foldl_updateClusterDependencies_induction_ieee (P : TimeManager → Prop)
    (ts : TimeStepping) (ls : List Nat) (s : TimeManager) (hts : s.m_timeStepping = ts)
    (hstep : ∀ t k, t.m_timeStepping = ts → k ∈ ls → P t →
      P (Ieee.updateClusterDependencies k t))
    (h0 : P s) :
    P (ls.foldl (fun t l => Ieee.updateClusterDependencies l t) s)
      ∧ (ls.foldl (fun t l => Ieee.updateClusterDependencies l t) s).m_timeStepping = ts := by
  induction ls generalizing s with
  | nil => exact ⟨h0, hts⟩
  | cons x xs ih =>
    simp only [List.foldl_cons]
    apply ih
    · rw [updateClusterDependencies_timeStepping_ieee, hts]
    · intro t j ht hj hp
      exact hstep t j ht (List.mem_cons_of_mem _ hj) hp
    · exact hstep s x hts (List.mem_cons_self _ _) h0

/-- No cluster at the common time passes the guard for a full update. -/
theorem Ieee.PredictionsQueued.fullUpdateCondition {t0 : ℚ} {q : Nat} {t : TimeManager}
    (h : Ieee.PredictionsQueued t0 q t) (j : Nat)
    (hj : j < t.m_timeStepping.numberOfLocalClusters) :
    Ieee.fullUpdateCondition t j = false := by
  have hd : decide (|fl ((t.m_clusters j).m_predictionTime - (t.m_clusters j).m_fullUpdateTime)|
      > Ieee.getTimeTolerance t) = false := by
    rw [decide_eq_false_iff_not, h.predictionTime j hj, h.fullUpdateTime j hj, sub_self,
      fl_zero, abs_zero]
    exact not_lt.mpr (le_of_lt h.tolerance)
  unfold SeisSol.Ieee.fullUpdateCondition
  simp only [hd, Bool.and_false, Bool.false_and]

/-- A cluster at the common time passes the guard for a prediction exactly
when it is the last cluster not yet set up. -/
theorem Ieee.PredictionsQueued.predictionCondition {t0 : ℚ} {q : Nat} {t : TimeManager}
    (h : Ieee.PredictionsQueued t0 q t) (j : Nat)
    (hj : j < t.m_timeStepping.numberOfLocalClusters) :
    Ieee.predictionCondition t j = true ↔ j + 1 = q := by
  have htol := h.tolerance
  have hsync := h.sync
  have hp := h.predictionTime j hj
  have hf := h.fullUpdateTime j hj
  rw [predictionCondition_iff_ieee t j (by rw [hp]; exact lt_of_lt_of_le h.below h.top)
    (by rw [hp]; exact h.above)]
  rw [hp, hf, sub_self, fl_zero, abs_zero]
  constructor
  · rintro ⟨-, h2, -, -, -, h6⟩
    have hq : ¬ q ≤ j := by
      intro hle
      have := (h.localInterior j hj).2 hle
      rw [h2] at this
      exact absurd this (by decide)
    by_contra hne
    have hlt : j + 1 < q := by omega
    have hN : j + 1 < t.m_timeStepping.numberOfLocalClusters := lt_of_lt_of_le hlt h.le
    have := h6 hN
    rw [h.fullUpdateTime (j + 1) hN, h.widthZero (j + 1) hlt] at this
    have hm : fl (t0 + 0) ≤ fl (t0 + Ieee.getTimeTolerance t) :=
      fl_mono (by linarith)
    exact absurd this (not_lt.mpr hm)
  · intro hq
    refine ⟨h.localCopy j hj, ?_, hsync, ?_, htol, ?_⟩
    · cases hb : (t.m_clusters j).m_updatable.localInterior with
      | false => rfl
      | true =>
        have := (h.localInterior j hj).1 hb
        omega
    · intro h0
      rw [h.fullUpdateTime (j - 1) (by omega)]
      exact h.below
    · intro hN
      rw [h.fullUpdateTime (j + 1) hN]
      exact h.widthSet (j + 1) (by omega) hN

/-- One pass of the loop body in a state of `PredictionsQueued`: the last
cluster not yet set up is set up and enqueued, every other cluster is left
as it is. -/
theorem Ieee.PredictionsQueued.step {t0 : ℚ} {q : Nat} {t : TimeManager}
    (h : Ieee.PredictionsQueued t0 q t) (j : Nat)
    (hj : j < t.m_timeStepping.numberOfLocalClusters) :
    (j + 1 ≠ q → Ieee.evaluateCluster j t = t)
    ∧ (j + 1 = q → Ieee.PredictionsQueued t0 j (Ieee.evaluateCluster j t)) := by
  have hfu := h.fullUpdateCondition j hj
  constructor
  · intro hne
    apply evaluateCluster_of_guards_false_ieee t j hfu
    cases hb : SeisSol.Ieee.predictionCondition t j with
    | false => rfl
    | true => exact absurd ((h.predictionCondition j hj).1 hb) hne
  · intro hq
    have hpc : SeisSol.Ieee.predictionCondition t j = true :=
      (h.predictionCondition j hj).2 hq
    have hts : (Ieee.evaluateCluster j t).m_timeStepping = t.m_timeStepping :=
      evaluateCluster_timeStepping_ieee t j
    have htol : Ieee.getTimeTolerance (Ieee.evaluateCluster j t) = Ieee.getTimeTolerance t :=
      getTimeTolerance_evaluateCluster_ieee t j
    have hcl : ∀ l, l ≠ j → (Ieee.evaluateCluster j t).m_clusters l = t.m_clusters l :=
      fun l hl => evaluateCluster_clusters_ne_ieee t j l hl
    have hsame : (Ieee.evaluateCluster j t).m_clusters j = Ieee.evaluatedCluster t j :=
      evaluateCluster_clusters_same_ieee t j
    refine ⟨?_, ?_, ?_, ?_, h.top, ?_, ?_, ?_, ?_, ?_, ?_, ?_, ?_, ?_, ?_, ?_⟩
    · rw [htol]; exact h.tolerance
    · rw [htol, hts]; exact h.sync
    · rw [htol]; exact h.below
    · rw [htol]; exact h.above
    · rw [htol, hts]; exact h.widths
    · rw [hts]; exact le_of_lt hj
    · intro l hl
      rw [hts] at hl
      by_cases e : l = j
      · subst e
        rw [hsame, evaluatedCluster_predictionTime_ieee]
        exact h.predictionTime l hl
      · rw [hcl l e]
        exact h.predictionTime l hl
    · intro l hl
      rw [hts] at hl
      by_cases e : l = j
      · subst e
        rw [hsame, evaluatedCluster_fullUpdateTime_ieee]
        exact h.fullUpdateTime l hl
      · rw [hcl l e]
        exact h.fullUpdateTime l hl
    · intro l hl
      rw [hts] at hl
      by_cases e : l = j
      · subst e
        rw [hsame, evaluatedCluster_localCopy_ieee]
        exact h.localCopy l hl
      · rw [hcl l e]
        exact h.localCopy l hl
    · intro l hl
      rw [hts] at hl
      by_cases e : l = j
      · subst e
        rw [hsame, evaluatedCluster_neighboringInterior_ieee, hfu, Bool.false_or]
        exact h.neighboringInterior l hl
      · rw [hcl l e]
        exact h.neighboringInterior l hl
    · intro l hl
      rw [hts] at hl
      by_cases e : l = j
      · subst e
        rw [hsame, evaluatedCluster_localInterior_ieee, hpc, Bool.true_or]
        exact ⟨fun _ => le_refl l, fun _ => rfl⟩
      · rw [hcl l e, h.localInterior l hl]
        omega
    · intro l hl
      rw [hcl l (by omega)]
      exact h.widthZero l (by omega)
    · intro l hle hl
      rw [hts] at hl
      rw [htol]
      by_cases e : l = j
      · subst e
        rw [hsame, evaluatedCluster_timeStepWidth_ieee, if_pos hpc, h.fullUpdateTime l hl]
        exact h.widths l hl
      · rw [hcl l e]
        exact h.widthSet l (by omega) hl
    · rw [evaluateCluster_localInteriorQueue_ieee, if_pos hpc, h.localInteriorQueue, hts, ← hq]
      have e : t.m_timeStepping.numberOfLocalClusters - j
          = (t.m_timeStepping.numberOfLocalClusters - (j + 1)) + 1 := by omega
      rw [e, List.range'_succ, List.reverse_cons]
    · rw [evaluateCluster_neighboringInteriorQueue_ieee, hfu]
      exact h.neighboringInteriorQueue

theorem updateClusterDependencies_middle_ieee (s : TimeManager) (k : Nat) (h0 : 0 < k)
    (h1 : k + 1 < s.m_timeStepping.numberOfLocalClusters) :
    Ieee.updateClusterDependencies k s
      = Ieee.evaluateCluster (k + 1) (Ieee.evaluateCluster k (Ieee.evaluateCluster (k - 1) s)) := by
  unfold Ieee.updateClusterDependencies
  have e0 : k ≠ 0 := by omega
  have e1 : k < s.m_timeStepping.numberOfLocalClusters - 1 := by omega
  simp only [e0, e1, ne_eq, not_false_eq_true, if_true]
  have e2 : k + 1 + 1 - (k - 1) = 3 := by omega
  have e3 : k - 1 + 1 = k := by omega
  rw [e2]
  simp [List.range', e3]

theorem updateClusterDependencies_last_ieee (s : TimeManager) (k : Nat) (h0 : 0 < k)
    (h1 : k + 1 = s.m_timeStepping.numberOfLocalClusters) :
    Ieee.updateClusterDependencies k s
      = Ieee.evaluateCluster k (Ieee.evaluateCluster (k - 1) s) := by
  unfold Ieee.updateClusterDependencies
  have e0 : k ≠ 0 := by omega
  have e1 : ¬ k < s.m_timeStepping.numberOfLocalClusters - 1 := by omega
  simp only [e0, e1, ne_eq, not_false_eq_true, if_true, if_false]
  have e2 : k + 1 - (k - 1) = 2 := by omega
  have e3 : k - 1 + 1 = k := by omega
  rw [e2]
  simp [List.range', e3]

/-- The state with the default values of a manager between two calls whose
clusters are at the common time `t0`: no cluster is set up. -/
theorem resetState_predictionsQueued (T t0 : ℚ) (s : TimeManager) (hi : Idle s)
    (ht : ∀ l, l < s.m_timeStepping.numberOfLocalClusters →
      (s.m_clusters l).m_predictionTime = t0 ∧ (s.m_clusters l).m_fullUpdateTime = t0)
    (htol : 0 < Ieee.getTimeTolerance s)
    (hsync : |fl (t0 - T)| > Ieee.getTimeTolerance s)
    (hbelow : fl (t0 - Ieee.getTimeTolerance s) < t0)
    (habove : fl (t0 + Ieee.getTimeTolerance s) < DBL_MAX)
    (htop : t0 ≤ DBL_MAX)
    (hw : ∀ l, l < s.m_timeStepping.numberOfLocalClusters →
      fl (t0 + min (s.m_timeStepping.globalCflTimeStepWidths (s.m_timeStepping.clusterIds l))
          (fl (T - t0)))
        > fl (t0 + Ieee.getTimeTolerance s)) :
    Ieee.PredictionsQueued t0 s.m_timeStepping.numberOfLocalClusters (resetState T s) := by
  have htol' : Ieee.getTimeTolerance (resetState T s) = Ieee.getTimeTolerance s := rfl
  have hc : ∀ l, l < s.m_timeStepping.numberOfLocalClusters →
      (resetState T s).m_clusters l = resetCluster (s.m_clusters l) :=
    fun l hl => resetState_clusters T s l hl
  have hN : (resetState T s).m_timeStepping.numberOfLocalClusters
      = s.m_timeStepping.numberOfLocalClusters := rfl
  refine ⟨?_, ?_, ?_, ?_, htop, ?_, le_of_eq hN.symm, ?_, ?_, ?_, ?_, ?_, ?_, ?_, ?_, ?_⟩
  · rw [htol']; exact htol
  · rw [htol']; exact hsync
  · rw [htol']; exact hbelow
  · rw [htol']; exact habove
  · intro l hl
    rw [htol']
    exact hw l hl
  · intro l hl
    rw [hc l hl]
    exact (ht l hl).1
  · intro l hl
    rw [hc l hl]
    exact (ht l hl).2
  · intro l hl
    rw [hc l hl]
    exact hi.localCopy l hl
  · intro l hl
    rw [hc l hl]
    rfl
  · intro l hl
    rw [hc l hl]
    have hl' : l < s.m_timeStepping.numberOfLocalClusters := hl
    constructor
    · intro hb
      exact absurd hb (by simp [resetCluster])
    · intro hle
      omega
  · intro l hl
    rw [hc l hl]
    rfl
  · intro l hle hl
    have hl' : l < s.m_timeStepping.numberOfLocalClusters := hl
    omega
  · show s.m_localInteriorQueue = _
    rw [hi.localInteriorQueue, hN, Nat.sub_self]
    rfl
  · exact hi.neighboringInteriorQueue

/-- The calls of `updateClusterDependencies` for the clusters before the
last two leave a state in which no cluster is set up as it is. -/
theorem Ieee.PredictionsQueued.foldl_unchanged {t0 : ℚ} {t : TimeManager}
    (h : Ieee.PredictionsQueued t0 t.m_timeStepping.numberOfLocalClusters t) (M : Nat)
    (hM : M + 2 ≤ t.m_timeStepping.numberOfLocalClusters) :
    (List.range M).foldl (fun u l => Ieee.updateClusterDependencies l u) t = t := by
  refine (foldl_updateClusterDependencies_induction_ieee (fun u => u = t) t.m_timeStepping
    (List.range M) t rfl ?_ rfl).1
  intro u k _ hk hu
  subst hu
  rw [List.mem_range] at hk
  apply updateClusterDependencies_induction_ieee (fun v => v = u) u k (by omega) _ rfl
  intro v j _ hj _ hjk hv
  subst hv
  exact (h.step j hj).1 (by omega)

/-- C26 (counterexample), in double arithmetic.  The three clusters of
`absorbedClusters` have the width `2^-9` and stand at the common time
`t0 = 2^44`; the call is `advanceInTime(T)` with `T = 2^44 + 2^-8`.  Then
`T - t0` and every CFL width are above the tolerance, but the double
`t0 - ε` is `t0`, so no cluster has its coarser neighbour ahead of
`predictionTime - ε`, and the initialisation enqueues nothing. -/
theorem advanceInTimeSetup_enqueues_nothing :
    (∀ l, l < 3 → (absorbedClusters.m_clusters l).m_predictionTime = 17592186044416
        ∧ (absorbedClusters.m_clusters l).m_fullUpdateTime = 17592186044416)
      ∧ (17592186044416 + 1 / 256 : ℚ) - 17592186044416
          > Ieee.getTimeTolerance absorbedClusters
      ∧ (17592186044416 + 1 / 256 : ℚ) - 17592186044416
          > (1 / 100000) * absorbedClusters.m_timeStepping.globalCflTimeStepWidths 0
      ∧ (∀ l, l < 3 → absorbedClusters.m_timeStepping.globalCflTimeStepWidths
            (absorbedClusters.m_timeStepping.clusterIds l)
          > Ieee.getTimeTolerance absorbedClusters)
      ∧ fl (17592186044416 - Ieee.getTimeTolerance absorbedClusters) = 17592186044416
      ∧ (Ieee.advanceInTimeSetup (17592186044416 + 1 / 256) absorbedClusters).m_localInteriorQueue
          = []
      ∧ (Ieee.advanceInTimeSetup (17592186044416 + 1 / 256)
            absorbedClusters).m_neighboringInteriorQueue = [] := by
  decide!

/-- C26 (amended), in double arithmetic: every sum and difference is rounded
to double, and the tolerance `ε` is the double product of the literal `1E-5`
and the first CFL width.  Let the manager be between two calls with `N ≥ 3`
clusters that all have prediction time and full update time `t0`, a double.
Let `ε` be positive and not absorbed at `t0`, that is `t0 - ε < t0`, let
`t0 + ε` be below the largest double, `|t0 - T| > ε`, and let the width of
every cluster clipped at the synchronization time, `min(width, T - t0)`,
carry `t0` beyond `t0 + ε`.  The initialisation of `advanceInTime(T)`
(default values, then `updateClusterDependencies` for the clusters 0 to
`N - 1`) enqueues for a prediction exactly the clusters `N - 1` and `N - 2`,
in this order, and no cluster for a full update: the local interior queue
is `[N - 1, N - 2]`, the neighboring interior queue is empty, and a cluster
is flagged for a prediction exactly when it is one of the last two. -/
theorem advanceInTimeSetup_enqueues_last_two (T t0 : ℚ) (s : TimeManager) (hi : Idle s)
    (hN : 3 ≤ s.m_timeStepping.numberOfLocalClusters)
    (ht : ∀ l, l < s.m_timeStepping.numberOfLocalClusters →
      (s.m_clusters l).m_predictionTime = t0 ∧ (s.m_clusters l).m_fullUpdateTime = t0)
    (htol : 0 < Ieee.getTimeTolerance s)
    (hsync : |fl (t0 - T)| > Ieee.getTimeTolerance s)
    (hbelow : fl (t0 - Ieee.getTimeTolerance s) < t0)
    (habove : fl (t0 + Ieee.getTimeTolerance s) < DBL_MAX)
    (htop : t0 ≤ DBL_MAX)
    (hw : ∀ l, l < s.m_timeStepping.numberOfLocalClusters →
      fl (t0 + min (s.m_timeStepping.globalCflTimeStepWidths (s.m_timeStepping.clusterIds l))
          (fl (T - t0)))
        > fl (t0 + Ieee.getTimeTolerance s)) :
    (Ieee.advanceInTimeSetup T s).m_localInteriorQueue
        = [s.m_timeStepping.numberOfLocalClusters - 1,
            s.m_timeStepping.numberOfLocalClusters - 2]
    ∧ (Ieee.advanceInTimeSetup T s).m_neighboringInteriorQueue = []
    ∧ (∀ l, l < s.m_timeStepping.numberOfLocalClusters →
        (((Ieee.advanceInTimeSetup T s).m_clusters l).m_updatable.localInterior = true
          ↔ s.m_timeStepping.numberOfLocalClusters - 2 ≤ l))
    ∧ ∀ l, l < s.m_timeStepping.numberOfLocalClusters →
        ((Ieee.advanceInTimeSetup T s).m_clusters l).m_updatable.neighboringInterior
          = false := by
  obtain ⟨M, hM⟩ : ∃ M, s.m_timeStepping.numberOfLocalClusters = M + 2 :=
    ⟨s.m_timeStepping.numberOfLocalClusters - 2, by omega⟩
  have hM1 : 1 ≤ M := by omega
  have h0 := resetState_predictionsQueued T t0 s hi ht htol hsync hbelow habove htop hw
  have hNr : (resetState T s).m_timeStepping.numberOfLocalClusters = M + 2 := hM
  have h0' : Ieee.PredictionsQueued t0 (resetState T s).m_timeStepping.numberOfLocalClusters
      (resetState T s) := h0
  -- the calls for the clusters 0 to N - 3
  have e1 := h0'.foldl_unchanged M (by omega)
  -- the call for cluster N - 2
  have a1 := (h0'.step (M - 1) (by omega)).1 (by omega)
  have a2 := (h0'.step M (by omega)).1 (by omega)
  have a3 := (h0'.step (M + 1) (by omega)).2 (by omega)
  have e2 : Ieee.updateClusterDependencies M (resetState T s)
      = Ieee.evaluateCluster (M + 1) (resetState T s) := by
    rw [updateClusterDependencies_middle_ieee _ M (by omega) (by omega), a1, a2]
  -- the call for cluster N - 1
  have hts : (Ieee.evaluateCluster (M + 1)
      (resetState T s)).m_timeStepping.numberOfLocalClusters = M + 2 := by
    rw [evaluateCluster_timeStepping_ieee]
    exact hNr
  have b1 := (a3.step M (by omega)).2 rfl
  have hts2 : (Ieee.evaluateCluster M (Ieee.evaluateCluster (M + 1)
      (resetState T s))).m_timeStepping.numberOfLocalClusters = M + 2 := by
    rw [evaluateCluster_timeStepping_ieee]
    exact hts
  have b2 := (b1.step (M + 1) (by omega)).1 (by omega)
  have e3 : Ieee.updateClusterDependencies (M + 1)
        (Ieee.evaluateCluster (M + 1) (resetState T s))
      = Ieee.evaluateCluster M (Ieee.evaluateCluster (M + 1) (resetState T s)) := by
    rw [updateClusterDependencies_last_ieee _ (M + 1) (by omega) (by omega)]
    exact b2
  have hfinal : Ieee.advanceInTimeSetup T s
      = Ieee.evaluateCluster M (Ieee.evaluateCluster (M + 1) (resetState T s)) := by
    unfold Ieee.advanceInTimeSetup
    rw [hM, List.range_succ, List.range_succ, List.foldl_append, List.foldl_append, e1]
    simp only [List.foldl_cons, List.foldl_nil]
    rw [e2, e3]
  rw [hfinal, hM]
  refine ⟨?_, b1.neighboringInteriorQueue, ?_, ?_⟩
  · rw [b1.localInteriorQueue, hts2]
    have e : M + 2 - M = 2 := by omega
    rw [e]
    simp [List.range']
  · intro l hl
    have := b1.localInterior l (by rw [hts2]; exact hl)
    rw [this]
    omega
  · intro l hl
    exact b1.neighboringInterior l (by rw [hts2]; exact hl)

/-- C26 (witness): the three clusters of `threeClusters` at time 0 and the
call `advanceInTime(1)`: clusters 2 and 1 are enqueued for a prediction. -/
theorem advanceInTimeSetup_enqueues_last_two_witness :
    (Ieee.advanceInTimeSetup 1 threeClusters).m_localInteriorQueue = [2, 1]
    ∧ (Ieee.advanceInTimeSetup 1 threeClusters).m_neighboringInteriorQueue = [] := by
  have h := advanceInTimeSetup_enqueues_last_two 1 0 threeClusters
    ⟨fun _ _ => rfl, fun _ _ => rfl, fun _ _ => rfl, rfl, rfl, rfl, rfl⟩ (le_refl 3)
    (fun l _ => ⟨rfl, rfl⟩) (by decide!) (by decide!) (by decide!) (by decide!) (by decide!)
    (fun l hl => by
      have hl' : l < 3 := hl
      interval_cases l <;> decide!)
  exact ⟨h.1, h.2.1⟩

/-! ## A step that is absorbed -/

theorem advanceInTimeSetup_induction_ieee (P : TimeManager → Prop) (T : ℚ) (s : TimeManager)
    (hstep : ∀ t k, t.m_timeStepping = (resetState T s).m_timeStepping →
      k < s.m_timeStepping.numberOfLocalClusters → P t →
      P (Ieee.updateClusterDependencies k t))
    (h0 : P (resetState T s)) :
    P (Ieee.advanceInTimeSetup T s) := by
  unfold Ieee.advanceInTimeSetup
  refine (foldl_updateClusterDependencies_induction_ieee P (resetState T s).m_timeStepping _ _
    rfl ?_ h0).1
  intro t k ht hk hp
  exact hstep t k ht (List.mem_range.1 hk) hp

theorem advanceInTimeSetup_timeStepping_ieee (T : ℚ) (s : TimeManager) :
    (Ieee.advanceInTimeSetup T s).m_timeStepping = (resetState T s).m_timeStepping := by
  unfold Ieee.advanceInTimeSetup
  exact (foldl_updateClusterDependencies_induction_ieee (fun _ => True)
    (resetState T s).m_timeStepping _ _ rfl (fun _ _ _ _ _ => trivial) trivial).2

theorem Stalled.queues {s : TimeManager} (h : Stalled s) : allQueuesEmpty s = false := by
  unfold allQueuesEmpty
  rw [h.localQueue]
  simp

theorem updateClusterDependencies_single_ieee (s : TimeManager)
    (h : s.m_timeStepping.numberOfLocalClusters = 1) :
    Ieee.updateClusterDependencies 0 s = Ieee.evaluateCluster 0 s := by
  unfold Ieee.updateClusterDependencies
  simp [h, List.range']

/-- A cluster at time `2^44` whose step of width `0.001` is absorbed passes
the guard for a prediction again, with the same record. -/
theorem evaluateCluster_stalled (s : TimeManager)
    (hN : s.m_timeStepping.numberOfLocalClusters = 1)
    (hw : s.m_timeStepping.globalCflTimeStepWidths 0 = fl (1 / 1000))
    (hid : s.m_timeStepping.clusterIds 0 = 0)
    (hrate : s.m_timeStepping.globalTimeStepRates 0 = 1)
    (hsync : s.m_timeStepping.synchronizationTime = 17592186044417)
    (c : TimeCluster) (hc : s.m_clusters 0 = c)
    (hpred : c.m_predictionTime = 17592186044416)
    (hfut : c.m_fullUpdateTime = 17592186044416)
    (hflags : c.m_updatable = ⟨false, false, false, false⟩) :
    Ieee.fullUpdateCondition s 0 = false ∧ Ieee.predictionCondition s 0 = true
      ∧ Ieee.predictionSetup s.m_timeStepping (Ieee.getTimeTolerance s) 0 c
        = { c with m_updatable := ⟨false, true, false, false⟩,
                   m_timeStepWidth := fl (1 / 1000),
                   m_resetLtsBuffers := decide (c.m_numberOfFullUpdates % 1 = 0),
                   m_subTimeStart := if c.m_numberOfFullUpdates % 1 = 0 then 0 else c.m_subTimeStart,
                   m_sendLtsBuffers := true } := by
  have htol : Ieee.getTimeTolerance s = fl (fl (1 / 100000) * fl (1 / 1000)) := by
    unfold Ieee.getTimeTolerance
    rw [hw]
  refine ⟨?_, ?_, ?_⟩
  · unfold Ieee.fullUpdateCondition
    simp only [htol, hN, hc, hpred, hfut, hflags, hsync, Nat.sub_self, Nat.lt_irrefl, if_false]
    decide!
  · unfold Ieee.predictionCondition
    simp only [htol, hN, hc, hpred, hfut, hflags, hsync, Nat.sub_self, Nat.lt_irrefl, if_false]
    decide!
  · unfold Ieee.predictionSetup
    simp only [htol, hid, hw, hrate, hsync, hfut, Nat.mod_one]
    have e1 : min (fl (1 / 1000)) (fl ((17592186044417 : ℚ) - 17592186044416)) = fl (1 / 1000) := by
      decide!
    have e2 : |fl ((17592186044417 : ℚ) - fl (17592186044416 + fl (1 / 1000)))|
        < fl (fl (1 / 100000) * fl (1 / 1000)) ↔ False := by
      decide!
    simp only [e1, e2, if_true, if_false, decide_True]
    simp [hflags]


theorem localInteriorStep_stalled {s : TimeManager} (h : Stalled s) :
    Stalled (Ieee.localInteriorStep s) := by
  have hrec := h.record
  have hcomp : Ieee.computeLocalInterior stalledRecord = stalledIdle := by
    decide!
  -- the state after the prediction step and the `pop()`
  have hstep : Ieee.localInteriorStep s
      = Ieee.evaluateCluster 0
          { s with
            m_clusters := Function.update s.m_clusters 0
              (Ieee.computeLocalInterior (s.m_clusters 0))
            m_localInteriorQueue := [] } := by
    unfold Ieee.localInteriorStep
    rw [h.localQueue]
    simp only [pqTop, pqPop, List.erase_cons_head, Function.update_same]
    rw [hrec, hcomp]
    exact updateClusterDependencies_single_ieee _ h.clusters
  rw [hstep, hrec, hcomp]
  obtain ⟨g1, g2, g3⟩ := evaluateCluster_stalled
    { s with
      m_clusters := Function.update s.m_clusters 0 stalledIdle
      m_localInteriorQueue := [] }
    h.clusters h.width h.clusterIds h.rate h.sync stalledIdle
    (by simp) rfl rfl rfl
  rw [evaluateCluster_eq_ieee, g1, g2]
  simp only [Bool.false_eq_true, if_false, if_true]
  refine ⟨h.clusters, h.width, h.clusterIds, h.rate, h.sync, ?_, rfl, h.neighboringQueue⟩
  unfold Ieee.enqueuePrediction
  simp only [Function.update_same]
  rw [g3]
  rfl

theorem neighboringInteriorStep_of_empty_ieee (s : TimeManager)
    (h : s.m_neighboringInteriorQueue = []) : Ieee.neighboringInteriorStep s = s := by
  unfold Ieee.neighboringInteriorStep
  rw [h]
  rfl

theorem Stalled.persists {s : TimeManager} (h : Stalled s) :
    Stalled (Ieee.advanceInTimeIteration s) := by
  unfold Ieee.advanceInTimeIteration
  have h1 := localInteriorStep_stalled h
  rw [neighboringInteriorStep_of_empty_ieee _ h1.neighboringQueue]
  unfold logProgress
  simp only []
  split_ifs
  · exact ⟨h1.clusters, h1.width, h1.clusterIds, h1.rate, h1.sync, h1.record, h1.localQueue,
      h1.neighboringQueue⟩
  · exact h1

theorem Stalled.loop {s : TimeManager} (h : Stalled s) (fuel : Nat) :
    Ieee.advanceInTimeLoop fuel s = none := by
  induction fuel generalizing s with
  | zero =>
    unfold Ieee.advanceInTimeLoop
    rw [h.queues]
    rfl
  | succ n ih =>
    unfold Ieee.advanceInTimeLoop
    rw [h.queues]
    exact ih h.persists

/-- The state of `thinCluster` after `setInitialTimes(2^44)`. -/
theorem advanceInTimeSetup_stalled (s : TimeManager)
    (hs : setInitialTimes 17592186044416 thinCluster = some s) :
    Stalled (Ieee.advanceInTimeSetup 17592186044417 s) := by
  unfold setInitialTimes at hs
  rw [if_pos (by norm_num)] at hs
  simp only [Option.some.injEq] at hs
  subst hs
  refine ⟨?_, ?_, ?_, ?_, ?_, ?_, ?_, ?_⟩
  · rw [advanceInTimeSetup_timeStepping_ieee]; rfl
  · rw [advanceInTimeSetup_timeStepping_ieee]; rfl
  · rw [advanceInTimeSetup_timeStepping_ieee]; rfl
  · rw [advanceInTimeSetup_timeStepping_ieee]; rfl
  · rw [advanceInTimeSetup_timeStepping_ieee]; rfl
  · decide!
  · decide!
  · decide!

/-- C6 (counterexample).  In double arithmetic.  One cluster of rate 1 with
the CFL width `0.001` is set to the time `2^44` by `setInitialTimes`, and
`advanceInTime(2^44 + 1)` meets its precondition.  The doubles at `2^44` are
`2^-8` apart, so the prediction step leaves the prediction time at `2^44`,
the cluster is set up for the same prediction again, and the loop never
finds its queues empty: for no number of iterations does the call return. -/
theorem advanceInTime_never_returns :
    ∃ s, setInitialTimes 17592186044416 thinCluster = some s
      ∧ s.m_timeStepping.synchronizationTime ≤ 17592186044417
      ∧ ∀ fuel, Ieee.advanceInTime fuel 17592186044417 s = none := by
  refine ⟨_, if_pos (by norm_num), by show (0 : ℚ) ≤ _; norm_num, ?_⟩
  intro fuel
  unfold Ieee.advanceInTime
  rw [if_pos (by show (0 : ℚ) ≤ _; norm_num)]
  exact (advanceInTimeSetup_stalled _ (if_pos (by norm_num))).loop fuel

/-! ## Double arithmetic on a dyadic grid

On times that are multiples of a power of two, small enough in magnitude
for every sum and difference to be a double, and with a tolerance below half
the grid unit that is not absorbed, the scheduler in double arithmetic takes
the steps of the scheduler in exact arithmetic. -/

theorem dyadic_zero (p : Int) : Dyadic p 0 := ⟨0, by simp⟩

theorem Dyadic.add {p : Int} {a b : ℚ} (ha : Dyadic p a) (hb : Dyadic p b) :
    Dyadic p (a + b) := by
  obtain ⟨n, rfl⟩ := ha
  obtain ⟨m, rfl⟩ := hb
  exact ⟨n + m, by push_cast; ring⟩

theorem Dyadic.sub {p : Int} {a b : ℚ} (ha : Dyadic p a) (hb : Dyadic p b) :
    Dyadic p (a - b) := by
  obtain ⟨n, rfl⟩ := ha
  obtain ⟨m, rfl⟩ := hb
  exact ⟨n - m, by push_cast; ring⟩

theorem Dyadic.min {p : Int} {a b : ℚ} (ha : Dyadic p a) (hb : Dyadic p b) :
    Dyadic p (min a b) := by
  rcases min_choice a b with h | h <;> rw [h] <;> assumption

/-- A multiple of `2^p` is a multiple of every smaller power of two. -/
theorem Dyadic.finer {p q : Int} {a : ℚ} (ha : Dyadic p a) (h : q ≤ p) : Dyadic q a := by
  obtain ⟨n, rfl⟩ := ha
  refine ⟨n * (2 : Int) ^ (p - q).toNat, ?_⟩
  have e : pow2 p = pow2 ((p - q).toNat : Int) * pow2 q := by
    rw [← pow2_add, Int.toNat_of_nonneg (by omega)]
    congr 1
    ring
  rw [e, pow2_intCast]
  push_cast
  ring

/-- Two different multiples of `2^p` are at least `2^p` apart. -/
theorem Dyadic.spacing {p : Int} {d : ℚ} (hd : Dyadic p d) (h : 0 < d) : pow2 p ≤ d := by
  obtain ⟨n, rfl⟩ := hd
  have hp := pow2_pos p
  have hn : (0 : ℚ) < n := by
    by_contra hc
    have : (n : ℚ) * pow2 p ≤ 0 := mul_nonpos_of_nonpos_of_nonneg (not_lt.mp hc) (le_of_lt hp)
    linarith
  have hn1 : (1 : ℚ) ≤ n := by
    have : (0 : Int) < n := by exact_mod_cast hn
    exact_mod_cast this
  nlinarith

theorem fl_of_dyadic {p : Int} (hp : -1074 ≤ p) {x : ℚ} (hx : Dyadic p x)
    (hb : |x| < 2 ^ 53 * pow2 p) : fl x = x := by
  obtain ⟨n, rfl⟩ := hx
  apply fl_of_mantissa n p hp
  rw [abs_mul, abs_of_pos (pow2_pos p)] at hb
  have := lt_of_mul_lt_mul_right hb (le_of_lt (pow2_pos p))
  rw [← Int.cast_abs] at this
  exact_mod_cast this


theorem pow2_half (p : Int) : pow2 (p - 1) = pow2 p / 2 := by
  rw [pow2_eq, pow2_eq, zpow_sub_one₀ (by norm_num)]
  ring

theorem dyadic_pow2 (p : Int) : Dyadic p (pow2 p) := ⟨1, by simp⟩

namespace ExactWindow

variable {p' p : Int} {B tolF tolE : ℚ}

theorem fine_le (h : ExactWindow p' p B tolF tolE) : pow2 p' ≤ pow2 (p - 1) :=
  pow2_le_pow2 (by have := h.coarse; omega)

theorem tol_pos (h : ExactWindow p' p B tolF tolE) : 0 < tolF :=
  lt_of_lt_of_le (pow2_pos p') h.tolLow

theorem tol_lt (h : ExactWindow p' p B tolF tolE) : tolF < pow2 p := by
  have := h.tolHigh
  rw [pow2_half] at this
  have := pow2_pos p
  linarith

/-- A multiple of the fine unit of magnitude up to `2 B + 2^p` is not changed
by rounding. -/
theorem fl_exact (h : ExactWindow p' p B tolF tolE) {x : ℚ} (hx : Dyadic p' x)
    (hb : |x| ≤ 2 * B + pow2 p) : fl x = x :=
  fl_of_dyadic h.fine hx (lt_of_le_of_lt hb h.bound)

theorem fl_grid (h : ExactWindow p' p B tolF tolE) {x : ℚ} (hx : Dyadic p x)
    (hb : |x| ≤ 2 * B + pow2 p) : fl x = x :=
  h.fl_exact (hx.finer (le_of_lt h.coarse)) hb

theorem B_nonneg (_ : ExactWindow p' p B tolF tolE) {a : ℚ} (ha : |a| ≤ B) : 0 ≤ B :=
  le_trans (abs_nonneg a) ha

/-- The guard `a > b - ε` on the grid, in double arithmetic: `a` is not
behind `b`. -/
theorem gt_sub_tol (h : ExactWindow p' p B tolF tolE) {a b : ℚ} (ha : Dyadic p a)
    (hb : Dyadic p b) (hbb : |b| ≤ B) : a > fl (b - tolF) ↔ b ≤ a := by
  have hu := pow2_pos p
  have hu' := pow2_pos p'
  have hB := h.B_nonneg hbb
  have hfine := h.fine_le
  rw [pow2_half] at hfine
  obtain ⟨hb1, hb2⟩ := abs_le.mp hbb
  constructor
  · intro hgt
    by_contra hc
    have hlt : a < b := not_le.mp hc
    have hgap := (hb.sub ha).spacing (by linarith)
    have e : fl (b - pow2 p) = b - pow2 p :=
      h.fl_grid (hb.sub (dyadic_pow2 p)) (by rw [abs_le]; constructor <;> linarith)
    have hm : fl (b - pow2 p) ≤ fl (b - tolF) := fl_mono (by linarith [h.tol_lt])
    rw [e] at hm
    linarith
  · intro hle
    have e : fl (b - pow2 p') = b - pow2 p' :=
      h.fl_exact ((hb.finer (le_of_lt h.coarse)).sub (dyadic_pow2 p'))
        (by rw [abs_le]; constructor <;> linarith)
    have hm : fl (b - tolF) ≤ fl (b - pow2 p') := fl_mono (by linarith [h.tolLow])
    rw [e] at hm
    linarith

theorem gt_sub_tol_exact (h : ExactWindow p' p B tolF tolE) {a b : ℚ} (ha : Dyadic p a)
    (hb : Dyadic p b) : a > b - tolE ↔ b ≤ a := by
  have := h.exactPos
  have := h.exactHigh
  constructor
  · intro hgt
    by_contra hc
    have hlt : a < b := not_le.mp hc
    have hgap := (hb.sub ha).spacing (by linarith)
    linarith
  · intro hle
    linarith

/-- The guard `a > b + ε` on the grid, in double arithmetic: `a` is ahead of
`b`. -/
theorem gt_add_tol (h : ExactWindow p' p B tolF tolE) {a b : ℚ} (ha : Dyadic p a)
    (hb : Dyadic p b) (hbb : |b| ≤ B) : a > fl (b + tolF) ↔ b < a := by
  have hu := pow2_pos p
  have hB := h.B_nonneg hbb
  obtain ⟨hb1, hb2⟩ := abs_le.mp hbb
  constructor
  · intro hgt
    by_contra hc
    have hle : a ≤ b := not_lt.mp hc
    have e : fl b = b := h.fl_grid hb (by rw [abs_le]; constructor <;> linarith)
    have hm : fl b ≤ fl (b + tolF) := fl_mono (by linarith [h.tol_pos])
    rw [e] at hm
    linarith
  · intro hlt
    have hgap := (ha.sub hb).spacing (by linarith)
    have hd : Dyadic p' (b + pow2 (p - 1)) :=
      (hb.finer (le_of_lt h.coarse)).add
        ((dyadic_pow2 (p - 1)).finer (by have := h.coarse; omega))
    have hh := pow2_half p
    have e : fl (b + pow2 (p - 1)) = b + pow2 (p - 1) :=
      h.fl_exact hd (by rw [abs_le, hh]; constructor <;> linarith)
    have hm : fl (b + tolF) ≤ fl (b + pow2 (p - 1)) := fl_mono (by linarith [h.tolHigh])
    rw [e, hh] at hm
    linarith

theorem gt_add_tol_exact (h : ExactWindow p' p B tolF tolE) {a b : ℚ} (ha : Dyadic p a)
    (hb : Dyadic p b) : a > b + tolE ↔ b < a := by
  have := h.exactPos
  have := h.exactHigh
  constructor
  · intro hgt
    linarith
  · intro hlt
    have hgap := (ha.sub hb).spacing (by linarith)
    linarith

/-- The difference of two times on the grid is exact. -/
theorem fl_sub (h : ExactWindow p' p B tolF tolE) {a b : ℚ} (ha : Dyadic p a)
    (hb : Dyadic p b) (hab : |a| ≤ B) (hbb : |b| ≤ B) : fl (a - b) = a - b := by
  obtain ⟨a1, a2⟩ := abs_le.mp hab
  obtain ⟨b1, b2⟩ := abs_le.mp hbb
  have hu := pow2_pos p
  exact h.fl_grid (ha.sub hb) (by rw [abs_le]; constructor <;> linarith)

theorem abs_gt_tol (h : ExactWindow p' p B tolF tolE) {d : ℚ} (hd : Dyadic p d) :
    |d| > tolF ↔ d ≠ 0 := by
  constructor
  · intro hgt h0
    rw [h0, abs_zero] at hgt
    linarith [h.tol_pos]
  · intro hne
    have hpos : 0 < |d| := abs_pos.mpr hne
    have hdy : Dyadic p |d| := by
      rcases abs_choice d with e | e
      · rw [e]; exact hd
      · rw [e]
        have := (dyadic_zero p).sub hd
        simpa using this
    have := hdy.spacing hpos
    linarith [h.tol_lt]

theorem abs_gt_tol_exact (h : ExactWindow p' p B tolF tolE) {d : ℚ} (hd : Dyadic p d) :
    |d| > tolE ↔ d ≠ 0 := by
  constructor
  · intro hgt h0
    rw [h0, abs_zero] at hgt
    linarith [h.exactPos]
  · intro hne
    have hpos : 0 < |d| := abs_pos.mpr hne
    have hdy : Dyadic p |d| := by
      rcases abs_choice d with e | e
      · rw [e]; exact hd
      · rw [e]
        have := (dyadic_zero p).sub hd
        simpa using this
    have := hdy.spacing hpos
    linarith [h.exactHigh]

theorem abs_lt_tol (h : ExactWindow p' p B tolF tolE) {d : ℚ} (hd : Dyadic p d) :
    |d| < tolF ↔ d = 0 := by
  constructor
  · intro hlt
    by_contra hne
    have := (h.abs_gt_tol hd).2 hne
    linarith
  · intro h0
    rw [h0, abs_zero]
    exact h.tol_pos

theorem abs_lt_tol_exact (h : ExactWindow p' p B tolF tolE) {d : ℚ} (hd : Dyadic p d) :
    |d| < tolE ↔ d = 0 := by
  constructor
  · intro hlt
    by_contra hne
    have := (h.abs_gt_tol_exact hd).2 hne
    linarith
  · intro h0
    rw [h0, abs_zero]
    exact h.exactPos

/-- The largest double is above `b - ε` and `b + ε`, exact and rounded. -/
theorem sentinel (h : ExactWindow p' p B tolF tolE) {b : ℚ} (hb : Dyadic p b)
    (hbb : |b| ≤ B) :
    DBL_MAX > fl (b - tolF) ∧ DBL_MAX > fl (b + tolF) ∧ DBL_MAX > b - tolE
      ∧ DBL_MAX > b + tolE := by
  have hu := pow2_pos p
  have hB := h.B_nonneg hbb
  obtain ⟨hb1, hb2⟩ := abs_le.mp hbb
  have e : fl b = b := h.fl_grid hb (by rw [abs_le]; constructor <;> linarith)
  have e2 : fl (b + pow2 p) = b + pow2 p :=
    h.fl_grid (hb.add (dyadic_pow2 p)) (by rw [abs_le]; constructor <;> linarith)
  have m1 : fl (b - tolF) ≤ fl b := fl_mono (by linarith [h.tol_pos])
  have m2 : fl (b + tolF) ≤ fl (b + pow2 p) := fl_mono (by linarith [h.tol_lt])
  rw [e] at m1
  rw [e2] at m2
  have := h.bound
  have := h.top
  have := h.exactPos
  have := h.exactHigh
  refine ⟨?_, ?_, ?_, ?_⟩ <;> linarith

end ExactWindow


theorem GridState.fullUpdateCondition_exact {p' p : Int} {B : ℚ} {s : TimeManager}
    (h : GridState p' p B s) (l : Nat) (hl : l < s.m_timeStepping.numberOfLocalClusters) :
    Ieee.fullUpdateCondition s l = fullUpdateCondition s l := by
  obtain ⟨dp, df, dw, bp, bf, w0, wB⟩ := h.records l hl
  have hw := h.window
  obtain ⟨s1, s2, s3, s4⟩ := hw.sentinel dp bp
  have hb : |fl ((s.m_clusters l).m_fullUpdateTime - s.m_timeStepping.synchronizationTime)|
        > Ieee.getTimeTolerance s
      ↔ |(s.m_clusters l).m_fullUpdateTime - s.m_timeStepping.synchronizationTime|
        > getTimeTolerance s := by
    rw [hw.fl_sub df h.sync bf h.syncBound, hw.abs_gt_tol (df.sub h.sync),
      hw.abs_gt_tol_exact (df.sub h.sync)]
  have hd : |fl ((s.m_clusters l).m_predictionTime - (s.m_clusters l).m_fullUpdateTime)|
        > Ieee.getTimeTolerance s
      ↔ |(s.m_clusters l).m_predictionTime - (s.m_clusters l).m_fullUpdateTime|
        > getTimeTolerance s := by
    rw [hw.fl_sub dp df bp bf, hw.abs_gt_tol (dp.sub df), hw.abs_gt_tol_exact (dp.sub df)]
  have hc : (if l > 0 then (s.m_clusters (l - 1)).m_predictionTime else DBL_MAX)
        > fl ((s.m_clusters l).m_predictionTime - Ieee.getTimeTolerance s)
      ↔ (if l > 0 then (s.m_clusters (l - 1)).m_predictionTime else DBL_MAX)
        > (s.m_clusters l).m_predictionTime - getTimeTolerance s := by
    split_ifs with h0
    · obtain ⟨dp', -⟩ := h.records (l - 1) (by omega)
      rw [hw.gt_sub_tol dp' dp bp, hw.gt_sub_tol_exact dp' dp]
    · exact ⟨fun _ => s3, fun _ => s1⟩
  have he : (if l < s.m_timeStepping.numberOfLocalClusters - 1
          then (s.m_clusters (l + 1)).m_predictionTime else DBL_MAX)
        > fl ((s.m_clusters l).m_predictionTime - Ieee.getTimeTolerance s)
      ↔ (if l < s.m_timeStepping.numberOfLocalClusters - 1
          then (s.m_clusters (l + 1)).m_predictionTime else DBL_MAX)
        > (s.m_clusters l).m_predictionTime - getTimeTolerance s := by
    split_ifs with h0
    · obtain ⟨dp', -⟩ := h.records (l + 1) (by omega)
      rw [hw.gt_sub_tol dp' dp bp, hw.gt_sub_tol_exact dp' dp]
    · exact ⟨fun _ => s3, fun _ => s1⟩
  unfold Ieee.fullUpdateCondition SeisSol.fullUpdateCondition
  simp only [hb, hc, hd, he]


theorem GridState.predictionCondition_exact {p' p : Int} {B : ℚ} {s : TimeManager}
    (h : GridState p' p B s) (l : Nat) (hl : l < s.m_timeStepping.numberOfLocalClusters) :
    Ieee.predictionCondition s l = predictionCondition s l := by
  obtain ⟨dp, df, dw, bp, bf, w0, wB⟩ := h.records l hl
  have hw := h.window
  obtain ⟨s1, s2, s3, s4⟩ := hw.sentinel dp bp
  have hb : |fl ((s.m_clusters l).m_fullUpdateTime - s.m_timeStepping.synchronizationTime)|
        > Ieee.getTimeTolerance s
      ↔ |(s.m_clusters l).m_fullUpdateTime - s.m_timeStepping.synchronizationTime|
        > getTimeTolerance s := by
    rw [hw.fl_sub df h.sync bf h.syncBound, hw.abs_gt_tol (df.sub h.sync),
      hw.abs_gt_tol_exact (df.sub h.sync)]
  have hd : |fl ((s.m_clusters l).m_fullUpdateTime - (s.m_clusters l).m_predictionTime)|
        < Ieee.getTimeTolerance s
      ↔ |(s.m_clusters l).m_fullUpdateTime - (s.m_clusters l).m_predictionTime|
        < getTimeTolerance s := by
    rw [hw.fl_sub df dp bf bp, hw.abs_lt_tol (df.sub dp), hw.abs_lt_tol_exact (df.sub dp)]
  have hc : (if l > 0 then (s.m_clusters (l - 1)).m_fullUpdateTime else DBL_MAX)
        > fl ((s.m_clusters l).m_predictionTime - Ieee.getTimeTolerance s)
      ↔ (if l > 0 then (s.m_clusters (l - 1)).m_fullUpdateTime else DBL_MAX)
        > (s.m_clusters l).m_predictionTime - getTimeTolerance s := by
    split_ifs with h0
    · obtain ⟨-, df', -⟩ := h.records (l - 1) (by omega)
      rw [hw.gt_sub_tol df' dp bp, hw.gt_sub_tol_exact df' dp]
    · exact ⟨fun _ => s3, fun _ => s1⟩
  have he : (if l < s.m_timeStepping.numberOfLocalClusters - 1
          then fl ((s.m_clusters (l + 1)).m_fullUpdateTime
            + (s.m_clusters (l + 1)).m_timeStepWidth) else DBL_MAX)
        > fl ((s.m_clusters l).m_predictionTime + Ieee.getTimeTolerance s)
      ↔ (if l < s.m_timeStepping.numberOfLocalClusters - 1
          then (s.m_clusters (l + 1)).m_fullUpdateTime
            + (s.m_clusters (l + 1)).m_timeStepWidth else DBL_MAX)
        > (s.m_clusters l).m_predictionTime + getTimeTolerance s := by
    split_ifs with h0
    · obtain ⟨-, df', dw', -, bf', w0', wB'⟩ := h.records (l + 1) (by omega)
      have hu := pow2_pos p
      obtain ⟨b1, b2⟩ := abs_le.mp bf'
      have e : fl ((s.m_clusters (l + 1)).m_fullUpdateTime
            + (s.m_clusters (l + 1)).m_timeStepWidth)
          = (s.m_clusters (l + 1)).m_fullUpdateTime
            + (s.m_clusters (l + 1)).m_timeStepWidth :=
        hw.fl_grid (df'.add dw') (by rw [abs_le]; constructor <;> linarith)
      rw [e, hw.gt_add_tol (df'.add dw') dp bp, hw.gt_add_tol_exact (df'.add dw') dp]
    · exact ⟨fun _ => s4, fun _ => s2⟩
  unfold Ieee.predictionCondition SeisSol.predictionCondition
  simp only [hb, hc, hd, he]

theorem TimeCluster.ext_fields (a b : TimeCluster)
    (h1 : a.m_clusterId = b.m_clusterId) (h2 : a.m_globalClusterId = b.m_globalClusterId)
    (h3 : a.m_updatable = b.m_updatable) (h4 : a.m_predictionTime = b.m_predictionTime)
    (h5 : a.m_fullUpdateTime = b.m_fullUpdateTime) (h6 : a.m_receiverTime = b.m_receiverTime)
    (h7 : a.m_subTimeStart = b.m_subTimeStart) (h8 : a.m_timeStepWidth = b.m_timeStepWidth)
    (h9 : a.m_numberOfFullUpdates = b.m_numberOfFullUpdates)
    (h10 : a.m_resetLtsBuffers = b.m_resetLtsBuffers)
    (h11 : a.m_sendLtsBuffers = b.m_sendLtsBuffers) : a = b := by
  cases a
  cases b
  simp_all

theorem predictionSetup_receiverTime (ts : TimeStepping) (e : ℚ) (l : Nat) (c : TimeCluster) :
    (predictionSetup ts e l c).m_receiverTime = c.m_receiverTime := by
  unfold predictionSetup
  simp only []
  split_ifs <;> rfl

theorem predictionSetup_receiverTime_ieee (ts : TimeStepping) (e : ℚ) (l : Nat)
    (c : TimeCluster) :
    (Ieee.predictionSetup ts e l c).m_receiverTime = c.m_receiverTime := by
  unfold Ieee.predictionSetup
  simp only []
  split_ifs <;> rfl

/-- On the grid the record set up for a prediction is the same in double and
in exact arithmetic. -/
theorem GridState.predictionSetup_exact {p' p : Int} {B : ℚ} {s : TimeManager}
    (h : GridState p' p B s) (l : Nat) (hl : l < s.m_timeStepping.numberOfLocalClusters)
    (c : TimeCluster) (hc : GridRecord p B c)
    (hfut : c.m_fullUpdateTime ≤ s.m_timeStepping.synchronizationTime) :
    Ieee.predictionSetup s.m_timeStepping (Ieee.getTimeTolerance s) l c
      = predictionSetup s.m_timeStepping (getTimeTolerance s) l c := by
  obtain ⟨dp, df, dw, bp, bf, w0, wB⟩ := hc
  obtain ⟨dwl, wl0, wlB⟩ := h.widths l hl
  unfold clusterWidth at dwl wl0 wlB
  have hw := h.window
  have e1 : fl (s.m_timeStepping.synchronizationTime - c.m_fullUpdateTime)
      = s.m_timeStepping.synchronizationTime - c.m_fullUpdateTime :=
    hw.fl_sub h.sync df h.syncBound bf
  have dm : Dyadic p (min (s.m_timeStepping.globalCflTimeStepWidths
      (s.m_timeStepping.clusterIds l))
      (s.m_timeStepping.synchronizationTime - c.m_fullUpdateTime)) := dwl.min (h.sync.sub df)
  have m0 : 0 ≤ min (s.m_timeStepping.globalCflTimeStepWidths
      (s.m_timeStepping.clusterIds l))
      (s.m_timeStepping.synchronizationTime - c.m_fullUpdateTime) := le_min wl0 (by linarith)
  have m1 := min_le_right (s.m_timeStepping.globalCflTimeStepWidths
      (s.m_timeStepping.clusterIds l))
      (s.m_timeStepping.synchronizationTime - c.m_fullUpdateTime)
  obtain ⟨f1, f2⟩ := abs_le.mp bf
  obtain ⟨t1, t2⟩ := abs_le.mp h.syncBound
  have hu := pow2_pos p
  have bsum : |c.m_fullUpdateTime + min (s.m_timeStepping.globalCflTimeStepWidths
      (s.m_timeStepping.clusterIds l))
      (s.m_timeStepping.synchronizationTime - c.m_fullUpdateTime)| ≤ B := by
    rw [abs_le]; constructor <;> linarith
  have e2 : fl (c.m_fullUpdateTime + min (s.m_timeStepping.globalCflTimeStepWidths
      (s.m_timeStepping.clusterIds l))
      (s.m_timeStepping.synchronizationTime - c.m_fullUpdateTime))
      = c.m_fullUpdateTime + min (s.m_timeStepping.globalCflTimeStepWidths
      (s.m_timeStepping.clusterIds l))
      (s.m_timeStepping.synchronizationTime - c.m_fullUpdateTime) :=
    hw.fl_grid (df.add dm) (by linarith [abs_nonneg c.m_fullUpdateTime])
  apply TimeCluster.ext_fields
  · rw [predictionSetup_clusterId_ieee, predictionSetup_clusterId]
  · rw [predictionSetup_globalClusterId_ieee, predictionSetup_globalClusterId]
  · rw [predictionSetup_updatable_ieee, predictionSetup_updatable]
  · rw [predictionSetup_predictionTime_ieee, predictionSetup_predictionTime]
  · rw [predictionSetup_fullUpdateTime_ieee, predictionSetup_fullUpdateTime]
  · rw [predictionSetup_receiverTime_ieee, predictionSetup_receiverTime]
  · rw [predictionSetup_subTimeStart_ieee, predictionSetup_subTimeStart]
  · rw [predictionSetup_timeStepWidth_ieee, predictionSetup_timeStepWidth, e1]
  · rw [predictionSetup_numberOfFullUpdates_ieee, predictionSetup_numberOfFullUpdates]
  · rw [predictionSetup_resetLtsBuffers_ieee, predictionSetup_resetLtsBuffers]
  · rw [predictionSetup_sendLtsBuffers_ieee, predictionSetup_sendLtsBuffers, e1, e2,
      hw.fl_sub h.sync (df.add dm) h.syncBound bsum,
      decide_eq_decide.mpr ((hw.abs_lt_tol (h.sync.sub (df.add dm))).trans
        (hw.abs_lt_tol_exact (h.sync.sub (df.add dm))).symm)]


theorem GridRecord.markFullUpdate {p : Int} {B : ℚ} {c : TimeCluster} (h : GridRecord p B c) :
    GridRecord p B (markFullUpdate c) := h

theorem GridState.enqueuePrediction_exact {p' p : Int} {B : ℚ} {s : TimeManager}
    (h : GridState p' p B s) (l : Nat) (hl : l < s.m_timeStepping.numberOfLocalClusters) :
    Ieee.enqueuePrediction s l = enqueuePrediction s l
      ∧ Ieee.enqueuePrediction (enqueueFullUpdate s l) l
          = enqueuePrediction (enqueueFullUpdate s l) l := by
  have hfut := (h.bounded l hl).1
  constructor
  · unfold Ieee.enqueuePrediction enqueuePrediction
    rw [h.predictionSetup_exact l hl _ (h.records l hl) hfut]
  · unfold Ieee.enqueuePrediction enqueuePrediction
    have e : (enqueueFullUpdate s l).m_clusters l = SeisSol.markFullUpdate (s.m_clusters l) := by
      simp [enqueueFullUpdate]
    have := h.predictionSetup_exact l hl (SeisSol.markFullUpdate (s.m_clusters l))
      (h.records l hl).markFullUpdate hfut
    rw [e]
    show _ = { enqueueFullUpdate s l with
      m_clusters := Function.update (enqueueFullUpdate s l).m_clusters l
        (predictionSetup s.m_timeStepping (getTimeTolerance s) l
          (SeisSol.markFullUpdate (s.m_clusters l)))
      m_localInteriorQueue := (enqueueFullUpdate s l).m_localInteriorQueue ++ [l] }
    rw [← this]
    rfl

/-- On the grid one pass of the loop body is the same in double and in exact
arithmetic. -/
theorem GridState.evaluateCluster_exact {p' p : Int} {B : ℚ} {s : TimeManager}
    (h : GridState p' p B s) (l : Nat) (hl : l < s.m_timeStepping.numberOfLocalClusters) :
    Ieee.evaluateCluster l s = evaluateCluster l s := by
  rw [evaluateCluster_eq_ieee, SeisSol.evaluateCluster_eq, h.fullUpdateCondition_exact l hl,
    h.predictionCondition_exact l hl, (h.enqueuePrediction_exact l hl).1,
    (h.enqueuePrediction_exact l hl).2]

/-- The moves of a cluster record keep it on the grid. -/
theorem gridRecord_step {p' p : Int} {B tolF : ℚ} (ts : TimeStepping) (e : ℚ) (l : Nat)
    (c c' : TimeCluster) (hw : ExactWindow p' p B tolF e)
    (hsync : Dyadic p ts.synchronizationTime) (hsb : |ts.synchronizationTime| ≤ B)
    (hwl : Dyadic p (clusterWidth ts l) ∧ 0 ≤ clusterWidth ts l ∧ clusterWidth ts l ≤ B)
    (hs : LocalStep ts e l c c') (hg : GridRecord p B c)
    (hb : SyncBounded ts.synchronizationTime e c) : GridRecord p B c' := by
  obtain ⟨dp, df, dw, bp, bf, w0, wB⟩ := hg
  obtain ⟨dwl, wl0, wlB⟩ := hwl
  unfold clusterWidth at dwl wl0 wlB
  have hb' := syncBounded_step ts e l c c' hs hb
  obtain ⟨t1, t2⟩ := abs_le.mp hsb
  obtain ⟨f1, f2⟩ := abs_le.mp bf
  obtain ⟨q1, q2⟩ := abs_le.mp bp
  cases hs with
  | markFull _ _ _ => exact ⟨dp, df, dw, bp, bf, w0, wB⟩
  | setupPrediction _ _ _ =>
    refine ⟨?_, ?_, ?_, ?_, ?_, ?_, ?_⟩
    · rw [predictionSetup_predictionTime]; exact dp
    · rw [predictionSetup_fullUpdateTime]; exact df
    · rw [predictionSetup_timeStepWidth]; exact dwl.min (hsync.sub df)
    · rw [predictionSetup_predictionTime]; exact bp
    · rw [predictionSetup_fullUpdateTime]; exact bf
    · rw [predictionSetup_timeStepWidth]
      exact le_min wl0 (by linarith [hb.1])
    · rw [predictionSetup_timeStepWidth]
      exact le_trans (min_le_left _ _) wlB
  | predict hf =>
    obtain ⟨hd, hle⟩ := hb.2.1 hf
    have heq : c.m_predictionTime - c.m_fullUpdateTime = 0 :=
      (hw.abs_lt_tol_exact (dp.sub df)).1 hd
    have hpf : c.m_predictionTime = c.m_fullUpdateTime := by linarith
    refine ⟨dp.add dw, df, dw, ?_, bf, w0, wB⟩
    show |c.m_predictionTime + c.m_timeStepWidth| ≤ B
    rw [abs_le]
    constructor <;> linarith
  | correct hf =>
    have hle : c.m_fullUpdateTime + c.m_timeStepWidth ≤ ts.synchronizationTime := hb'.1
    refine ⟨dp, df.add dw, dw, bp, ?_, w0, wB⟩
    show |c.m_fullUpdateTime + c.m_timeStepWidth| ≤ B
    rw [abs_le]
    constructor <;> linarith

theorem getTimeTolerance_of_timeStepping_ieee (s t : TimeManager)
    (h : t.m_timeStepping = s.m_timeStepping) :
    Ieee.getTimeTolerance t = Ieee.getTimeTolerance s := by
  unfold Ieee.getTimeTolerance
  rw [h]

/-- The exact moves of the scheduler keep a state on the grid. -/
theorem GridState.along {p' p : Int} {B : ℚ} {s t : TimeManager}
    (h : GridState p' p B s) (hev : Evolves s t) : GridState p' p B t := by
  have hts := hev.1
  have e1 := getTimeTolerance_of_timeStepping s t hts
  have e2 := getTimeTolerance_of_timeStepping_ieee s t hts
  have key : ∀ l, l < s.m_timeStepping.numberOfLocalClusters →
      GridRecord p B (t.m_clusters l)
        ∧ SyncBounded s.m_timeStepping.synchronizationTime (getTimeTolerance s)
            (t.m_clusters l) := by
    intro l hl
    exact hev.preserves
      (fun j c => j < s.m_timeStepping.numberOfLocalClusters → GridRecord p B c
        ∧ SyncBounded s.m_timeStepping.synchronizationTime (getTimeTolerance s) c)
      (fun j c c' hs hc hj =>
        ⟨gridRecord_step _ _ j c c' h.window h.sync h.syncBound (h.widths j hj) hs (hc hj).1
            (hc hj).2, syncBounded_step _ _ j c c' hs (hc hj).2⟩)
      l (fun _ => ⟨h.records l hl, h.bounded l hl⟩) hl
  refine ⟨?_, ?_, ?_, ?_, ?_, ?_⟩
  · rw [e1, e2]; exact h.window
  · rw [hts]; exact h.sync
  · rw [hts]; exact h.syncBound
  · rw [hts]; exact h.widths
  · intro l hl
    rw [hts] at hl
    exact (key l hl).1
  · intro l hl
    rw [hts] at hl
    rw [hts, e1]
    exact (key l hl).2


theorem GridState.foldl_evaluateCluster_exact {p' p : Int} {B : ℚ} (ls : List Nat)
    (s : TimeManager) (h : GridState p' p B s)
    (hls : ∀ j, j ∈ ls → j < s.m_timeStepping.numberOfLocalClusters) :
    ls.foldl (fun t l => Ieee.evaluateCluster l t) s
      = ls.foldl (fun t l => evaluateCluster l t) s := by
  induction ls generalizing s with
  | nil => rfl
  | cons x xs ih =>
    simp only [List.foldl_cons]
    rw [h.evaluateCluster_exact x (hls x (List.mem_cons_self _ _))]
    apply ih _ (h.along (evaluateCluster_evolves s x))
    intro j hj
    rw [evaluateCluster_timeStepping]
    exact hls j (List.mem_cons_of_mem _ hj)

/-- On the grid `updateClusterDependencies` is the same in double and in
exact arithmetic. -/
theorem GridState.updateClusterDependencies_exact {p' p : Int} {B : ℚ} {s : TimeManager}
    (h : GridState p' p B s) (k : Nat) (hk : k < s.m_timeStepping.numberOfLocalClusters) :
    Ieee.updateClusterDependencies k s = updateClusterDependencies k s := by
  unfold Ieee.updateClusterDependencies updateClusterDependencies
  apply h.foldl_evaluateCluster_exact
  intro j hj
  rw [List.mem_range'_1] at hj
  split_ifs at hj <;> omega

theorem GridRecord.computeLocalInterior_exact {p' p : Int} {B tolF tolE : ℚ} {c : TimeCluster}
    (hw : ExactWindow p' p B tolF tolE) (h : GridRecord p B c) :
    Ieee.computeLocalInterior c = computeLocalInterior c := by
  obtain ⟨dp, df, dw, bp, bf, w0, wB⟩ := h
  obtain ⟨q1, q2⟩ := abs_le.mp bp
  have hu := pow2_pos p
  unfold Ieee.computeLocalInterior computeLocalInterior
  rw [hw.fl_grid (dp.add dw) (by rw [abs_le]; constructor <;> linarith)]

theorem GridRecord.computeNeighboringInterior_exact {p' p : Int} {B tolF tolE : ℚ}
    {c : TimeCluster} (hw : ExactWindow p' p B tolF tolE) (h : GridRecord p B c) :
    Ieee.computeNeighboringInterior c = computeNeighboringInterior c := by
  obtain ⟨dp, df, dw, bp, bf, w0, wB⟩ := h
  obtain ⟨q1, q2⟩ := abs_le.mp bf
  have hu := pow2_pos p
  unfold Ieee.computeNeighboringInterior computeNeighboringInterior
  rw [hw.fl_grid (df.add dw) (by rw [abs_le]; constructor <;> linarith)]

/-- On the grid the local interior update is the same in double and in exact
arithmetic. -/
theorem GridState.localInteriorStep_exact {p' p : Int} {B : ℚ} {s : TimeManager}
    (h : GridState p' p B s) (hw : WellFormed s) :
    Ieee.localInteriorStep s = localInteriorStep s := by
  cases htop : pqTop (queueKey s) s.m_localInteriorQueue with
  | none =>
    unfold Ieee.localInteriorStep localInteriorStep
    rw [htop]
  | some l =>
    have hmem := pqTop_mem _ _ _ htop
    have hl := hw.localBound l hmem
    have hflag := (hw.localFlag l hl).1 hmem
    rw [localInteriorStep_of_top s l hw htop]
    have hg : GridState p' p B (afterPrediction s l) :=
      h.along (afterPrediction_evolves s l hflag)
    rw [← hg.updateClusterDependencies_exact l hl]
    unfold Ieee.localInteriorStep
    rw [htop]
    simp only [pqPop_of_top _ _ _ htop, Function.update_same]
    rw [(h.records l hl).computeLocalInterior_exact h.window]
    have : (computeLocalInterior (s.m_clusters l)).m_clusterId = l := hw.ids l hl
    rw [this]
    rfl

/-- On the grid the neighboring interior update is the same in double and in
exact arithmetic. -/
theorem GridState.neighboringInteriorStep_exact {p' p : Int} {B : ℚ} {s : TimeManager}
    (h : GridState p' p B s) (hw : WellFormed s) :
    Ieee.neighboringInteriorStep s = neighboringInteriorStep s := by
  cases htop : pqTop (queueKey s) s.m_neighboringInteriorQueue with
  | none =>
    unfold Ieee.neighboringInteriorStep neighboringInteriorStep
    rw [htop]
  | some l =>
    have hmem := pqTop_mem _ _ _ htop
    have hl := hw.neighboringBound l hmem
    have hflag := (hw.neighboringFlag l hl).1 hmem
    rw [neighboringInteriorStep_of_top s l hw htop]
    have hg : GridState p' p B (afterCorrection s l) :=
      h.along (afterCorrection_evolves s l hflag)
    rw [← hg.updateClusterDependencies_exact l hl]
    unfold Ieee.neighboringInteriorStep
    rw [htop]
    simp only [pqPop_of_top _ _ _ htop, Function.update_same]
    rw [(h.records l hl).computeNeighboringInterior_exact h.window]
    have : (computeNeighboringInterior (s.m_clusters l)).m_clusterId = l := hw.ids l hl
    rw [this]
    rfl

/-- On the grid one iteration of the loop is the same in double and in exact
arithmetic. -/
theorem GridState.advanceInTimeIteration_exact {p' p : Int} {B : ℚ} {s : TimeManager}
    (h : GridState p' p B s) (hw : WellFormed s) :
    Ieee.advanceInTimeIteration s = advanceInTimeIteration s := by
  unfold Ieee.advanceInTimeIteration advanceInTimeIteration
  rw [h.localInteriorStep_exact hw,
    (h.along (localInteriorStep_evolves s hw)).neighboringInteriorStep_exact
      (localInteriorStep_wellFormed s hw)]

theorem GridState.foldl_updateClusterDependencies_exact {p' p : Int} {B : ℚ} (ls : List Nat)
    (s : TimeManager) (h : GridState p' p B s)
    (hls : ∀ j, j ∈ ls → j < s.m_timeStepping.numberOfLocalClusters) :
    ls.foldl (fun t l => Ieee.updateClusterDependencies l t) s
      = ls.foldl (fun t l => updateClusterDependencies l t) s := by
  induction ls generalizing s with
  | nil => rfl
  | cons x xs ih =>
    simp only [List.foldl_cons]
    have hx := hls x (List.mem_cons_self _ _)
    rw [h.updateClusterDependencies_exact x hx]
    apply ih _ (h.along (updateClusterDependencies_evolves s x hx))
    intro j hj
    rw [updateClusterDependencies_timeStepping]
    exact hls j (List.mem_cons_of_mem _ hj)

/-- On the grid the initialisation of the queues is the same in double and
in exact arithmetic. -/
theorem GridState.advanceInTimeSetup_exact {p' p : Int} {B : ℚ} (T : ℚ) (s : TimeManager)
    (h : GridState p' p B (resetState T s)) :
    Ieee.advanceInTimeSetup T s = advanceInTimeSetup T s := by
  unfold Ieee.advanceInTimeSetup advanceInTimeSetup
  apply h.foldl_updateClusterDependencies_exact
  intro j hj
  exact List.mem_range.1 hj

/-! ## Simulation on the grid

On a dyadic grid every operation of the scheduler in double arithmetic is
exact, so a run in double arithmetic is the run in exact arithmetic. -/

theorem tolerance_factor : fl (1 / 100000) = 5902958103587057 / 590295810358705651712 := by
  decide!

/-- The exact tolerance is positive and below the grid unit when the double
tolerance lies between the fine unit and half the grid unit. -/
theorem GridConfig.window {p' p : Int} {B : ℚ} {s : TimeManager}
    (h : GridConfig p' p B s) :
    ExactWindow p' p B (Ieee.getTimeTolerance s) (getTimeTolerance s) := by
  have hlow := h.tolLow
  have hhigh := h.tolHigh
  unfold Ieee.getTimeTolerance at hlow hhigh
  rw [tolerance_factor] at hlow hhigh
  have hu' := pow2_pos p'
  have hw0 : 0 < s.m_timeStepping.globalCflTimeStepWidths 0 := by
    by_contra hc
    have hle : (5902958103587057 / 590295810358705651712 : ℚ)
        * s.m_timeStepping.globalCflTimeStepWidths 0 ≤ 0 :=
      mul_nonpos_of_nonneg_of_nonpos (by norm_num) (not_lt.mp hc)
    have := fl_mono hle
    rw [fl_zero] at this
    linarith
  have hlt : (5902958103587057 / 590295810358705651712 : ℚ)
      * s.m_timeStepping.globalCflTimeStepWidths 0 < pow2 p := by
    by_contra hc
    have := fl_mono (not_lt.mp hc)
    have e : fl (pow2 p) = pow2 p := by
      have := fl_of_mantissa 1 p (by have := h.fine; have := h.coarse; omega) (by norm_num)
      simpa using this
    rw [e] at this
    have hh := pow2_half p
    have := pow2_pos p
    linarith
  refine ⟨h.fine, h.coarse, h.bound, h.top, h.tolLow, h.tolHigh, ?_, ?_⟩
  · unfold getTimeTolerance
    linarith
  · unfold getTimeTolerance
    linarith

theorem GridEntry.resetState {p' p : Int} {B T : ℚ} {s : TimeManager}
    (h : GridEntry p' p B T s) : GridState p' p B (resetState T s) := by
  refine ⟨h.config.window, h.sync, h.syncBound, h.config.widths, ?_, ?_⟩
  · intro l hl
    have hl' : l < s.m_timeStepping.numberOfLocalClusters := hl
    rw [resetState_clusters T s l hl']
    obtain ⟨a, b, c, d⟩ := h.times l hl'
    exact ⟨a, b, dyadic_zero p, c, d, le_refl _, le_trans (abs_nonneg _) h.syncBound⟩
  · intro l hl
    have hl' : l < s.m_timeStepping.numberOfLocalClusters := hl
    rw [resetState_clusters T s l hl']
    exact syncBounded_reset T _ _ (h.entry l hl')

/-- On the grid the states of a call in double arithmetic are the states of
the call in exact arithmetic. -/
theorem reached_exact {p' p : Int} {B T : ℚ} {s0 : TimeManager} (hi : Idle s0)
    (hg : GridEntry p' p B T s0) (s : TimeManager) (hr : Ieee.Reached T s0 s) :
    Reached T s0 s ∧ GridState p' p B s := by
  induction hr with
  | setup =>
    rw [hg.resetState.advanceInTimeSetup_exact]
    exact ⟨Reached.setup, hg.resetState.along (advanceInTimeSetup_evolves T s0)⟩
  | @localInterior t _ ih =>
    obtain ⟨h1, h2⟩ := ih
    have hw := reached_wellFormed T s0 t hi h1
    rw [h2.localInteriorStep_exact hw]
    exact ⟨Reached.localInterior h1, h2.along (localInteriorStep_evolves t hw)⟩
  | @neighboringInterior t _ ih =>
    obtain ⟨h1, h2⟩ := ih
    have hw := reached_wellFormed T s0 t hi h1
    rw [h2.neighboringInteriorStep_exact hw]
    exact ⟨Reached.neighboringInterior h1, h2.along (neighboringInteriorStep_evolves t hw)⟩
  | @log t _ ih =>
    obtain ⟨h1, h2⟩ := ih
    exact ⟨Reached.log h1, h2.along (logProgress_evolves t)⟩

theorem advanceInTimeLoop_exact {p' p : Int} {B T : ℚ} {s0 : TimeManager} (hi : Idle s0)
    (fuel : Nat) (s : TimeManager) (hr : Reached T s0 s) (hg : GridState p' p B s) :
    Ieee.advanceInTimeLoop fuel s = advanceInTimeLoop fuel s := by
  induction fuel generalizing s with
  | zero => rfl
  | succ n ih =>
    unfold Ieee.advanceInTimeLoop advanceInTimeLoop
    have hw := reached_wellFormed T s0 s hi hr
    rw [hg.advanceInTimeIteration_exact hw]
    split_ifs
    · rfl
    · apply ih _ (advanceInTimeIteration_reached T s0 s hr)
      unfold advanceInTimeIteration
      exact ((hg.along (localInteriorStep_evolves s hw)).along
        (neighboringInteriorStep_evolves _ (localInteriorStep_wellFormed s hw))).along
        (logProgress_evolves _)

/-- On the grid `advanceInTime` in double arithmetic returns what it returns
in exact arithmetic. -/
theorem advanceInTime_exact {p' p : Int} {B T : ℚ} {s0 : TimeManager} (hi : Idle s0)
    (hg : GridEntry p' p B T s0) (fuel : Nat) :
    Ieee.advanceInTime fuel T s0 = advanceInTime fuel T s0 := by
  unfold Ieee.advanceInTime advanceInTime
  split_ifs
  · rw [hg.resetState.advanceInTimeSetup_exact]
    exact advanceInTimeLoop_exact hi fuel _ Reached.setup
      (hg.resetState.along (advanceInTimeSetup_evolves T s0))
  · rfl


theorem GridConfig.transfer {p' p : Int} {B : ℚ} {s0 s : TimeManager}
    (h : GridConfig p' p B s0)
    (c1 : s.m_timeStepping.numberOfLocalClusters = s0.m_timeStepping.numberOfLocalClusters)
    (c2 : s.m_timeStepping.globalCflTimeStepWidths
      = s0.m_timeStepping.globalCflTimeStepWidths)
    (c3 : s.m_timeStepping.clusterIds = s0.m_timeStepping.clusterIds) :
    GridConfig p' p B s := by
  have e : Ieee.getTimeTolerance s = Ieee.getTimeTolerance s0 := by
    unfold Ieee.getTimeTolerance
    rw [c2]
  refine ⟨h.fine, h.coarse, h.bound, h.top, by rw [e]; exact h.tolLow,
    by rw [e]; exact h.tolHigh, ?_⟩
  intro l hl
  unfold clusterWidth
  rw [c2, c3]
  exact h.widths l (by rw [← c1]; exact hl)

/-- On the grid the states reachable over several calls in double arithmetic
are reachable in exact arithmetic. -/
theorem reachable_exact {p' p : Int} {B : ℚ} {s0 : TimeManager} (hi : Idle s0)
    (hc : GridConfig p' p B s0) (b : Bool) (s : TimeManager)
    (hr : Ieee.Reachable p B s0 b s) :
    Reachable s0 b s
      ∧ (b = true → GridState p' p B s)
      ∧ (b = false → ∀ l, l < s.m_timeStepping.numberOfLocalClusters →
          Dyadic p (s.m_clusters l).m_predictionTime
            ∧ Dyadic p (s.m_clusters l).m_fullUpdateTime
            ∧ |(s.m_clusters l).m_predictionTime| ≤ B
            ∧ |(s.m_clusters l).m_fullUpdateTime| ≤ B) := by
  have hw : ∀ l, l < s0.m_timeStepping.numberOfLocalClusters →
      0 ≤ s0.m_timeStepping.globalCflTimeStepWidths (s0.m_timeStepping.clusterIds l) :=
    fun l hl => (hc.widths l hl).2.1
  induction hr with
  | initial t0 s h hd hb =>
    obtain ⟨_, h2, h3⟩ := setInitialTimes_idle t0 s0 s hi h
    refine ⟨Reachable.initial t0 s h, fun hb' => by simp at hb', fun _ l hl => ?_⟩
    rw [h2] at hl
    rw [(h3 l hl).1, (h3 l hl).2]
    exact ⟨hd, hd, hb, hb⟩
  | @enter T s _ hpre hent hd hb ih =>
    obtain ⟨ih1, _, ih3⟩ := ih
    obtain ⟨⟨c1, c2, c3⟩, _, _⟩ := reachable_invariant s0 hi hw false s ih1
    have hg : GridEntry p' p B T s := ⟨hc.transfer c1 c2 c3, hd, hb, ih3 rfl, hent⟩
    rw [hg.resetState.advanceInTimeSetup_exact]
    exact ⟨Reachable.enter T ih1 hpre hent,
      fun _ => hg.resetState.along (advanceInTimeSetup_evolves T s),
      fun hb' => by simp at hb'⟩
  | @localInterior s _ ih =>
    obtain ⟨ih1, ih2, _⟩ := ih
    obtain ⟨_, _, hinv⟩ := reachable_invariant s0 hi hw true s ih1
    have hwf := (hinv rfl).1
    rw [(ih2 rfl).localInteriorStep_exact hwf]
    exact ⟨Reachable.localInterior ih1,
      fun _ => (ih2 rfl).along (localInteriorStep_evolves s hwf), fun hb' => by simp at hb'⟩
  | @neighboringInterior s _ ih =>
    obtain ⟨ih1, ih2, _⟩ := ih
    obtain ⟨_, _, hinv⟩ := reachable_invariant s0 hi hw true s ih1
    have hwf := (hinv rfl).1
    rw [(ih2 rfl).neighboringInteriorStep_exact hwf]
    exact ⟨Reachable.neighboringInterior ih1,
      fun _ => (ih2 rfl).along (neighboringInteriorStep_evolves s hwf),
      fun hb' => by simp at hb'⟩
  | @log s _ ih =>
    obtain ⟨ih1, ih2, _⟩ := ih
    exact ⟨Reachable.log ih1, fun _ => (ih2 rfl).along (logProgress_evolves s),
      fun hb' => by simp at hb'⟩
  | @leave s _ hq ih =>
    obtain ⟨ih1, ih2, _⟩ := ih
    refine ⟨Reachable.leave ih1 hq, fun hb' => by simp at hb', fun _ l hl => ?_⟩
    obtain ⟨a, b, _, c, d, _, _⟩ := (ih2 rfl).records l hl
    exact ⟨a, b, c, d⟩

/-! ## Runs in double arithmetic on the grid -/

theorem advanceInTimeIteration_reached_ieee (T : ℚ) (s0 s : TimeManager)
    (h : Ieee.Reached T s0 s) : Ieee.Reached T s0 (Ieee.advanceInTimeIteration s) :=
  Ieee.Reached.log (Ieee.Reached.neighboringInterior (Ieee.Reached.localInterior h))

theorem advanceInTimeIterate_reached_ieee (T : ℚ) (s0 : TimeManager) (k : Nat) :
    Ieee.Reached T s0 ((Ieee.advanceInTimeIteration^[k]) (Ieee.advanceInTimeSetup T s0)) := by
  induction k with
  | zero => exact Ieee.Reached.setup
  | succ n ih =>
    rw [Function.iterate_succ_apply']
    exact advanceInTimeIteration_reached_ieee T s0 _ ih

theorem updateClusterDependencies_times_ieee (s : TimeManager) (k l : Nat)
    (hk : k < s.m_timeStepping.numberOfLocalClusters) :
    ((Ieee.updateClusterDependencies k s).m_clusters l).m_predictionTime
        = (s.m_clusters l).m_predictionTime
      ∧ ((Ieee.updateClusterDependencies k s).m_clusters l).m_fullUpdateTime
        = (s.m_clusters l).m_fullUpdateTime := by
  refine updateClusterDependencies_induction_ieee
    (fun t => (t.m_clusters l).m_predictionTime = (s.m_clusters l).m_predictionTime
      ∧ (t.m_clusters l).m_fullUpdateTime = (s.m_clusters l).m_fullUpdateTime) s k hk ?_
    ⟨rfl, rfl⟩
  intro t j _ _ _ _ hp
  rw [evaluateCluster_clusters_ieee]
  by_cases h : l = j
  · subst h
    rw [Function.update_same, evaluatedCluster_predictionTime_ieee,
      evaluatedCluster_fullUpdateTime_ieee]
    exact hp
  · rw [Function.update_noteq h]
    exact hp

/-- The initialisation of the queues changes neither time of any cluster. -/
theorem advanceInTimeSetup_times_ieee (T : ℚ) (s : TimeManager) (l : Nat) :
    ((Ieee.advanceInTimeSetup T s).m_clusters l).m_predictionTime
        = (s.m_clusters l).m_predictionTime
      ∧ ((Ieee.advanceInTimeSetup T s).m_clusters l).m_fullUpdateTime
        = (s.m_clusters l).m_fullUpdateTime := by
  have h0 : ((resetState T s).m_clusters l).m_predictionTime
        = (s.m_clusters l).m_predictionTime
      ∧ ((resetState T s).m_clusters l).m_fullUpdateTime
        = (s.m_clusters l).m_fullUpdateTime := by
    simp only [resetState]
    split_ifs <;> exact ⟨rfl, rfl⟩
  refine advanceInTimeSetup_induction_ieee
    (fun t => (t.m_clusters l).m_predictionTime = (s.m_clusters l).m_predictionTime
      ∧ (t.m_clusters l).m_fullUpdateTime = (s.m_clusters l).m_fullUpdateTime) T s ?_ h0
  intro t k ht hk hp
  have hk' : k < t.m_timeStepping.numberOfLocalClusters := by rw [ht]; exact hk
  rw [(updateClusterDependencies_times_ieee t k l hk').1,
    (updateClusterDependencies_times_ieee t k l hk').2]
  exact hp

theorem Dyadic.natMul {p : Int} {a : ℚ} (ha : Dyadic p a) (j : Nat) :
    Dyadic p ((j : ℚ) * a) := by
  obtain ⟨n, rfl⟩ := ha
  exact ⟨j * n, by push_cast; ring⟩

/-- The entry state of a call on the grid when all clusters stand at a
common time `t0 ≤ T`. -/
theorem gridEntry_of_start {p' p : Int} {B : ℚ} (t0 : ℚ) {T : ℚ} {s0 : TimeManager}
    (hc : GridConfig p' p B s0) (hd0 : Dyadic p t0) (hb0 : |t0| ≤ B) (hdT : Dyadic p T)
    (hbT : |T| ≤ B) (ht0 : t0 ≤ T)
    (hstart : ∀ l, l < s0.m_timeStepping.numberOfLocalClusters →
      (s0.m_clusters l).m_predictionTime = t0 ∧ (s0.m_clusters l).m_fullUpdateTime = t0) :
    GridEntry p' p B T s0 := by
  refine ⟨hc, hdT, hbT, fun l hl => ?_, fun l hl => ?_⟩
  · rw [(hstart l hl).1, (hstart l hl).2]
    exact ⟨hd0, hd0, hb0, hb0⟩
  · rw [(hstart l hl).2]
    exact ht0

theorem threeClusters_gridConfig : GridConfig (-20) (-2) 4 threeClusters := by
  refine ⟨by decide, by decide, by decide!, by decide!, by decide!, by decide!, ?_⟩
  intro l hl
  have hl' : l < 3 := hl
  interval_cases l
  · exact ⟨⟨1, by decide!⟩, by decide!, by decide!⟩
  · exact ⟨⟨2, by decide!⟩, by decide!, by decide!⟩
  · exact ⟨⟨4, by decide!⟩, by decide!, by decide!⟩

theorem threeClusters_gridEntry : GridEntry (-20) (-2) 4 1 threeClusters :=
  gridEntry_of_start 0 threeClusters_gridConfig (dyadic_zero _) (by decide!)
    ⟨4, by decide!⟩ (by decide!) (by decide!) (fun _ _ => ⟨rfl, rfl⟩)

/-- C4 (counterexample).  In double arithmetic.  After `setInitialTimes(5)`
the call `advanceInTime(3)` meets its precondition (the synchronization time
is 0) and starts with the full update time 5, beyond the synchronization time
3.  And for one cluster of width 10 set to the time `0.3`, the call
`advanceInTime(0.9)` clips the time step to the rounded difference
`0.6000000000000001`, and after one iteration of the loop the full update
time is the rounded sum `0.9000000000000001`, beyond the synchronization time
`0.9`. -/
theorem fullUpdateTime_beyond_synchronizationTime :
    ((setInitialTimes 5 singleCluster).map fun s =>
        (decide (s.m_timeStepping.synchronizationTime ≤ 3),
          ((Ieee.advanceInTimeSetup 3 s).m_clusters 0).m_fullUpdateTime,
          (Ieee.advanceInTimeSetup 3 s).m_timeStepping.synchronizationTime))
      = some (true, 5, 3)
    ∧ ((setInitialTimes (fl (3 / 10)) wideCluster).map fun s =>
        (decide (s.m_timeStepping.synchronizationTime ≤ fl (9 / 10)),
          decide ((s.m_clusters 0).m_fullUpdateTime ≤ fl (9 / 10)),
          ((Ieee.advanceInTimeIteration (Ieee.advanceInTimeSetup (fl (9 / 10)) s)).m_clusters
            0).m_fullUpdateTime,
          (Ieee.advanceInTimeIteration
            (Ieee.advanceInTimeSetup (fl (9 / 10)) s)).m_timeStepping.synchronizationTime))
      = some (true, true, 8106479329266894 / 9007199254740992,
          8106479329266893 / 9007199254740992) := by
  constructor <;> decide!

/-- C4 (amended).  In double arithmetic, for a call `advanceInTime(T)` on the
grid: the CFL widths of the clusters, `T` and the times of all clusters at
entry are multiples of `2^p` of magnitude at most `B`, where multiples of
the fine unit `2^p'` up to `2 B + 2^p` are doubles and the tolerance lies
between `2^p'` and `2^(p-1)`.  If the precondition holds and at entry every
cluster has `fullUpdateTime ≤ T` (the manager being between two calls), then
every cluster `c` satisfies `fullUpdateTime[c] ≤ T` in every state reached
during the call. -/
theorem fullUpdateTime_le_synchronizationTime (p' p : Int) (B T : ℚ) (s0 : TimeManager)
    (hi : Idle s0) (hpre : s0.m_timeStepping.synchronizationTime ≤ T)
    (hg : GridEntry p' p B T s0) (s : TimeManager) (hr : Ieee.Reached T s0 s) :
    s.m_timeStepping.synchronizationTime = T
      ∧ ∀ l, l < s.m_timeStepping.numberOfLocalClusters →
          (s.m_clusters l).m_fullUpdateTime ≤ T := by
  have _ := hpre
  obtain ⟨hx, hgs⟩ := reached_exact hi hg s hr
  have hT : s.m_timeStepping.synchronizationTime = T := by
    rw [(reached_evolves T s0 s hi hx).1]
    rfl
  refine ⟨hT, fun l hl => ?_⟩
  have := (hgs.bounded l hl).1
  rw [hT] at this
  exact this

/-- C4 (witness): of three clusters of widths 1/4, 1/2, 1 at time 0, cluster
0 is at or below the synchronization time 1 after the first iteration of the
loop of `advanceInTime(1)`. -/
theorem fullUpdateTime_le_synchronizationTime_witness :
    ((Ieee.advanceInTimeIteration (Ieee.advanceInTimeSetup 1 threeClusters)).m_clusters
        0).m_fullUpdateTime ≤ 1 :=
  (fullUpdateTime_le_synchronizationTime (-20) (-2) 4 1 threeClusters threeClusters_idle
    (by decide!) threeClusters_gridEntry _
    (advanceInTimeIteration_reached_ieee _ _ _ Ieee.Reached.setup)).2 0 (by decide!)

/-- C5 (counterexample).  In double arithmetic.  After `setInitialTimes(5)`
the call `advanceInTime(3)` meets its precondition; its first local interior
update works with the time step width `-2` and takes the prediction time of
the cluster from 5 down to 3, below its full update time 5.  And for one
local cluster of global id 1 and width 10 (the width `1e-12` of the global
cluster 0 sets the tolerance to about `1e-17`) set to the time `0.3`, the
call `advanceInTime(0.9)` is entered with the cluster behind `0.9`; its first
iteration ends with both times at `0.9000000000000001` and the time step
width `-2^-53`, and the next local interior update takes the prediction time
down to `0.9`, below the full update time. -/
theorem predictionTime_decreases_below_fullUpdateTime :
    ((setInitialTimes 5 singleCluster).map fun s =>
        (decide (s.m_timeStepping.synchronizationTime ≤ 3),
          ((Ieee.advanceInTimeSetup 3 s).m_clusters 0).m_predictionTime,
          ((Ieee.localInteriorStep (Ieee.advanceInTimeSetup 3 s)).m_clusters 0).m_predictionTime,
          ((Ieee.localInteriorStep (Ieee.advanceInTimeSetup 3 s)).m_clusters 0).m_fullUpdateTime,
          ((Ieee.localInteriorStep (Ieee.advanceInTimeSetup 3 s)).m_clusters 0).m_timeStepWidth))
      = some (true, 5, 3, 5, -2)
    ∧ ((setInitialTimes (fl (3 / 10)) coarseLocalCluster).map fun s =>
        (decide (s.m_timeStepping.synchronizationTime ≤ fl (9 / 10)),
          decide ((s.m_clusters 0).m_fullUpdateTime ≤ fl (9 / 10)),
          ((Ieee.advanceInTimeIteration
            (Ieee.advanceInTimeSetup (fl (9 / 10)) s)).m_clusters 0).m_predictionTime,
          ((Ieee.advanceInTimeIteration
            (Ieee.advanceInTimeSetup (fl (9 / 10)) s)).m_clusters 0).m_timeStepWidth,
          ((Ieee.localInteriorStep (Ieee.advanceInTimeIteration
            (Ieee.advanceInTimeSetup (fl (9 / 10)) s))).m_clusters 0).m_predictionTime,
          ((Ieee.localInteriorStep (Ieee.advanceInTimeIteration
            (Ieee.advanceInTimeSetup (fl (9 / 10)) s))).m_clusters 0).m_fullUpdateTime))
      = some (true, true, 8106479329266894 / 9007199254740992, -1 / 9007199254740992,
          8106479329266893 / 9007199254740992, 8106479329266894 / 9007199254740992) := by
  constructor <;> decide!

/-- C5 (amended).  In double arithmetic on the grid: the manager is as built
by `addClusters` with empty queues, the CFL widths of its clusters are
non-negative multiples of `2^p` of at most `B`, multiples of the fine unit
`2^p'` up to `2 B + 2^p` are doubles and the tolerance lies between `2^p'`
and `2^(p-1)`.  In every state reachable by `setInitialTimes` followed by any
number of calls of `advanceInTime`, the initial time and the synchronization
times being multiples of `2^p` of magnitude at most `B`, each call meeting
its precondition and entered with no cluster's `fullUpdateTime` beyond the
new synchronization time, every cluster has
`fullUpdateTime ≤ predictionTime`; during a call the time step width is never
negative and neither time of a cluster decreases from a state to the next
(over the local interior update, the neighboring interior update and the
progress log), and entering a call changes neither time. -/
theorem times_ordered_and_monotone (p' p : Int) (B : ℚ) (s0 : TimeManager) (hi : Idle s0)
    (hc : GridConfig p' p B s0) :
    (∀ b s, Ieee.Reachable p B s0 b s → ∀ l, l < s.m_timeStepping.numberOfLocalClusters →
        (s.m_clusters l).m_fullUpdateTime ≤ (s.m_clusters l).m_predictionTime)
    ∧ (∀ s, Ieee.Reachable p B s0 true s → ∀ l, l < s.m_timeStepping.numberOfLocalClusters →
        0 ≤ (s.m_clusters l).m_timeStepWidth
        ∧ (s.m_clusters l).m_predictionTime
            ≤ ((Ieee.localInteriorStep s).m_clusters l).m_predictionTime
        ∧ (s.m_clusters l).m_fullUpdateTime
            ≤ ((Ieee.localInteriorStep s).m_clusters l).m_fullUpdateTime
        ∧ (s.m_clusters l).m_predictionTime
            ≤ ((Ieee.neighboringInteriorStep s).m_clusters l).m_predictionTime
        ∧ (s.m_clusters l).m_fullUpdateTime
            ≤ ((Ieee.neighboringInteriorStep s).m_clusters l).m_fullUpdateTime
        ∧ ((logProgress s).m_clusters l).m_predictionTime = (s.m_clusters l).m_predictionTime
        ∧ ((logProgress s).m_clusters l).m_fullUpdateTime = (s.m_clusters l).m_fullUpdateTime)
    ∧ (∀ T s, Ieee.Reachable p B s0 false s → ∀ l,
        ((Ieee.advanceInTimeSetup T s).m_clusters l).m_predictionTime
            = (s.m_clusters l).m_predictionTime
        ∧ ((Ieee.advanceInTimeSetup T s).m_clusters l).m_fullUpdateTime
            = (s.m_clusters l).m_fullUpdateTime) := by
  have hw : ∀ l, l < s0.m_timeStepping.numberOfLocalClusters →
      0 ≤ s0.m_timeStepping.globalCflTimeStepWidths (s0.m_timeStepping.clusterIds l) :=
    fun l hl => (hc.widths l hl).2.1
  refine ⟨?_, ?_, ?_⟩
  · intro b s hr l hl
    obtain ⟨hx, _, _⟩ := reachable_exact hi hc b s hr
    obtain ⟨_, h1, h2⟩ := reachable_invariant s0 hi hw b s hx
    cases b
    · exact (h1 rfl).2 l hl
    · exact ordered_fullUpdateTime_le _ _ _ ((h2 rfl).2 l hl)
  · intro s hr l hl
    obtain ⟨hx, hg, _⟩ := reachable_exact hi hc true s hr
    obtain ⟨⟨c1, c2, c3⟩, _, h2⟩ := reachable_invariant s0 hi hw true s hx
    obtain ⟨hwf, hord⟩ := h2 rfl
    have hwl : 0 ≤ s.m_timeStepping.globalCflTimeStepWidths (s.m_timeStepping.clusterIds l) := by
      rw [c2, c3]
      exact hw l (by rw [← c1]; exact hl)
    rw [(hg rfl).localInteriorStep_exact hwf, (hg rfl).neighboringInteriorStep_exact hwf]
    have e1 := (localInteriorStep_evolves s hwf).ordered l hwl (hord l hl)
    have e2 := (neighboringInteriorStep_evolves s hwf).ordered l hwl (hord l hl)
    refine ⟨(hord l hl).1, e1.2.1, e1.2.2, e2.2.1, e2.2.2, ?_, ?_⟩
    · rw [logProgress_clusters]
    · rw [logProgress_clusters]
  · intro T s _ l
    exact advanceInTimeSetup_times_ieee T s l

/-- C5 (witness): of three clusters of widths 1/4, 1/2, 1 set to the time 0,
cluster 0 has `fullUpdateTime ≤ predictionTime` after the queues of
`advanceInTime(1)` are initialised. -/
theorem times_ordered_and_monotone_witness :
    ∃ s, setInitialTimes 0 threeClusters = some s
      ∧ ((Ieee.advanceInTimeSetup 1 s).m_clusters 0).m_fullUpdateTime
          ≤ ((Ieee.advanceInTimeSetup 1 s).m_clusters 0).m_predictionTime :=
  ⟨_, if_pos (le_refl (0 : ℚ)),
    (times_ordered_and_monotone (-20) (-2) 4 threeClusters threeClusters_idle
      threeClusters_gridConfig).1 true _
      (Ieee.Reachable.enter 1
        (Ieee.Reachable.initial 0 _ (if_pos (le_refl (0 : ℚ))) (dyadic_zero _) (by decide!))
        (by decide!) (fun l hl => by
          have hl' : l < 3 := hl
          interval_cases l <;> exact (zero_le_one : (0 : ℚ) ≤ 1)) ⟨4, by decide!⟩ (by decide!)) 0 (by decide!)⟩

/-- C10 (counterexample).  In double arithmetic.  Two clusters of widths 1
and 2 start at time 0 and `advanceInTime(1 + 2^-18)` runs; the tolerance is
about `1e-5`.  After two iterations of its loop the local interior queue is
empty and cluster 1 is the top of the neighboring interior queue, so the
third iteration starts the correction of cluster 1; at that moment the
prediction time 1 of cluster 0 is behind the prediction time `1 + 2^-18` of
cluster 1. -/
theorem correction_starts_behind_coarser :
    ((Ieee.advanceInTimeIteration^[2])
        (Ieee.advanceInTimeSetup (1 + 1 / 262144) twoClusters)).m_localInteriorQueue = []
      ∧ pqTop
          (queueKey ((Ieee.advanceInTimeIteration^[2])
            (Ieee.advanceInTimeSetup (1 + 1 / 262144) twoClusters)))
          ((Ieee.advanceInTimeIteration^[2])
            (Ieee.advanceInTimeSetup (1 + 1 / 262144) twoClusters)).m_neighboringInteriorQueue
          = some 1
      ∧ (((Ieee.advanceInTimeIteration^[2])
            (Ieee.advanceInTimeSetup (1 + 1 / 262144) twoClusters)).m_clusters
              0).m_predictionTime = 1
      ∧ (((Ieee.advanceInTimeIteration^[2])
            (Ieee.advanceInTimeSetup (1 + 1 / 262144) twoClusters)).m_clusters
              1).m_predictionTime = 1 + 1 / 262144
      ∧ ((Ieee.advanceInTime 3 (1 + 1 / 262144) twoClusters).map fun s =>
          (s.m_clusters 1).m_numberOfFullUpdates) = some 1 := by
  decide!

/-- C10 (amended).  In double arithmetic, for a call `advanceInTime(T)` on
the grid: the CFL widths of the clusters, `T` and the times of all clusters
at entry are multiples of `2^p` of magnitude at most `B`, multiples of the
fine unit `2^p'` up to `2 B + 2^p` are doubles and the tolerance lies between
`2^p'` and `2^(p-1)`.  Let the call be entered between two calls with every
cluster at `fullUpdateTime ≤ T` and `fullUpdateTime ≤ predictionTime`.  In
every state reached during the call in which cluster `l` is the top of the
neighboring interior queue, so that its correction is started, the
prediction time of the neighbour `l-1` (if there is one) is not behind the
prediction time of `l`, and neither is that of the neighbour `l+1`. -/
theorem correction_waits_for_neighbours (p' p : Int) (B T : ℚ) (s0 : TimeManager)
    (hi : Idle s0) (hg : GridEntry p' p B T s0)
    (hentry : ∀ l, l < s0.m_timeStepping.numberOfLocalClusters →
      (s0.m_clusters l).m_fullUpdateTime ≤ (s0.m_clusters l).m_predictionTime)
    (s : TimeManager) (hr : Ieee.Reached T s0 s) (l : Nat)
    (htop : pqTop (queueKey s) s.m_neighboringInteriorQueue = some l) :
    (0 < l → (s.m_clusters l).m_predictionTime ≤ (s.m_clusters (l - 1)).m_predictionTime)
    ∧ (l + 1 < s.m_timeStepping.numberOfLocalClusters →
        (s.m_clusters l).m_predictionTime ≤ (s.m_clusters (l + 1)).m_predictionTime) := by
  obtain ⟨hx, hgs⟩ := reached_exact hi hg s hr
  have hwf := reached_wellFormed T s0 s hi hx
  have hmem := pqTop_mem _ _ _ htop
  have hb := hwf.neighboringBound l hmem
  have hready := (reached_correctionReady T s0 hi (fun j hj => (hg.config.widths j hj).2.1)
    (fun j hj => ⟨hg.entry j hj, hentry j hj⟩) s hx).2 l hb ((hwf.neighboringFlag l hb).1 hmem)
  refine ⟨fun h0 => ?_, fun h1 => ?_⟩
  · exact (hgs.window.gt_sub_tol_exact (hgs.records (l - 1) (by omega)).1
      (hgs.records l hb).1).1 (hready.1 h0)
  · exact (hgs.window.gt_sub_tol_exact (hgs.records (l + 1) h1).1
      (hgs.records l hb).1).1 (hready.2 h1)

/-- C10 (witness): three clusters of widths 1/4, 1/2, 1 run from time 0 to
time 1.  After seven iterations cluster 1 is the top of the neighboring
interior queue, and the prediction time of cluster 0 is not behind that of
cluster 1. -/
theorem correction_waits_for_neighbours_witness :
    (((Ieee.advanceInTimeIteration^[7])
        (Ieee.advanceInTimeSetup 1 threeClusters)).m_clusters 1).m_predictionTime
      ≤ (((Ieee.advanceInTimeIteration^[7])
        (Ieee.advanceInTimeSetup 1 threeClusters)).m_clusters 0).m_predictionTime :=
  (correction_waits_for_neighbours (-20) (-2) 4 1 threeClusters threeClusters_idle
    threeClusters_gridEntry (fun _ _ => le_refl _) _
    (advanceInTimeIterate_reached_ieee 1 threeClusters 7) 1 (by decide!)).1 Nat.one_pos

/-- C6 (amended).  In double arithmetic and in the build without `USE_MPI`,
on the grid: the manager is between two calls with at least one cluster,
rates at least 1 and positive CFL widths; the CFL widths of its clusters,
`T` and the times of the clusters at entry are multiples of `2^p` of
magnitude at most `B`, multiples of the fine unit `2^p'` up to `2 B + 2^p`
are doubles and the tolerance lies between `2^p'` and `2^(p-1)`.  For every
call `advanceInTime(T)` that meets its precondition and is entered with every
cluster at `predictionTime = fullUpdateTime ≤ T`, the scheduling loop
terminates: there is a number `n` of loop iterations after which all four
queues are empty. -/
theorem advanceInTime_terminates (p' p : Int) (B T : ℚ) (s0 : TimeManager) (hi : Idle s0)
    (hn : 1 ≤ s0.m_timeStepping.numberOfLocalClusters)
    (hpre : s0.m_timeStepping.synchronizationTime ≤ T)
    (hrates : ∀ g, 1 ≤ s0.m_timeStepping.globalTimeStepRates g)
    (hpos : ∀ g, 0 < s0.m_timeStepping.globalCflTimeStepWidths g)
    (hg : GridEntry p' p B T s0)
    (hentry : ∀ l, l < s0.m_timeStepping.numberOfLocalClusters →
      (s0.m_clusters l).m_predictionTime = (s0.m_clusters l).m_fullUpdateTime) :
    ∃ n t, Ieee.advanceInTime n T s0 = some t ∧ allQueuesEmpty t = true := by
  obtain ⟨n, t, ht, hq⟩ := advanceInTime_terminates_exact T s0 hi hn hpre hrates hpos
    (fun l hl => ⟨hentry l hl, hg.entry l hl⟩)
  exact ⟨n, t, by rw [advanceInTime_exact hi hg n]; exact ht, hq⟩

/-- C6 (witness): the loop terminates for three clusters with rates 1, 2, 4
that start at time 0 and advance to the synchronization time 1. -/
theorem advanceInTime_terminates_witness :
    ∃ n t, Ieee.advanceInTime n 1 threeClusters = some t ∧ allQueuesEmpty t = true :=
  advanceInTime_terminates (-20) (-2) 4 1 threeClusters threeClusters_idle (by decide)
    (by decide!) threeClusters_rates threeClusters_widths threeClusters_gridEntry
    (fun _ _ => rfl)

/-- On the grid a configuration ordered finest first, each width a multiple
of the preceding one, is the configuration `FinestFirst` of the scheduler in
exact arithmetic: the tolerance is below the grid unit, so no grid point lies
before `T` by the tolerance or less. -/
theorem finestFirst_of_grid {p' p : Int} {B : ℚ} (t0 : ℚ) {T : ℚ} {s0 : TimeManager}
    (hc : GridConfig p' p B s0) (hn : 1 ≤ s0.m_timeStepping.numberOfLocalClusters)
    (hpos : 0 < clusterWidth s0.m_timeStepping 0)
    (hnest : ∀ l, l + 1 < s0.m_timeStepping.numberOfLocalClusters →
      ∃ r : Nat, 1 ≤ r
        ∧ clusterWidth s0.m_timeStepping (l + 1) = r * clusterWidth s0.m_timeStepping l)
    (hd0 : Dyadic p t0) (hdT : Dyadic p T) (hbT : |T| ≤ B) :
    FinestFirst s0.m_timeStepping t0 T := by
  have hwin := hc.window
  have hx : 0 < getTimeTolerance s0 := hwin.exactPos
  have hy : getTimeTolerance s0 < pow2 p := hwin.exactHigh
  unfold getTimeTolerance at hx hy
  have hw0 := (hc.widths 0 (by omega)).1
  have hp := pow2_pos p
  refine ⟨hx, lt_of_lt_of_le hy (hw0.spacing hpos), hnest, ?_, ?_⟩
  · intro j hj
    have hd : Dyadic p (T - (t0 + j * clusterWidth s0.m_timeStepping 0)) :=
      hdT.sub (hd0.add (hw0.natMul j))
    have := hd.spacing (by linarith)
    linarith
  · have hB := hwin.bound
    have htop := hwin.top
    have : T ≤ B := le_trans (le_abs_self T) hbT
    have : 0 ≤ B := le_trans (abs_nonneg T) hbT
    linarith

/-- C1 (counterexample).  In double arithmetic, three runs from a common time
with positive widths that are the rate multiples of the finest width 1
return with all queues empty and a cluster left behind.  Coarsest first
(widths 2, 1), from time 0 to `T = 2`: cluster 0 stays at full update time
0, cluster 1 at 1.  Finest first (widths 1, 2), from time 0 to the double
next to `1 + 1e-5`: cluster 0 stops at 1 and cluster 1 stays at 0.  Finest
first (widths 1, 2), from time `2^37 - 1` to `T = 2^37 + 1`, where the
tolerance `1e-5` is less than half the distance `2^-15` of the doubles:
cluster 0 stops at `2^37`, cluster 1 stays at `2^37 - 1`. -/
theorem advanceInTime_leaves_cluster_behind :
    ((Ieee.advanceInTime 2 2 coarseFirst).map fun s =>
        (allQueuesEmpty s, (s.m_clusters 0).m_fullUpdateTime,
          (s.m_clusters 1).m_fullUpdateTime)) = some (true, 0, 1)
      ∧ ((Ieee.advanceInTime 2 (fl (1 + 1 / 100000)) fineFirst).map fun s =>
        (allQueuesEmpty s, (s.m_clusters 0).m_fullUpdateTime,
          (s.m_clusters 1).m_fullUpdateTime)) = some (true, 1, 0)
      ∧ ((setInitialTimes 137438953471 fineFirst).bind fun s =>
          (Ieee.advanceInTime 3 137438953473 s).map fun t =>
            (allQueuesEmpty t, (t.m_clusters 0).m_fullUpdateTime,
              (t.m_clusters 1).m_fullUpdateTime))
        = some (true, 137438953472, 137438953471) := by
  refine ⟨?_, ?_, ?_⟩ <;> decide!

/-- C1 (amended).  In double arithmetic and in the build without `USE_MPI`,
on the grid: the manager is between two calls with at least one cluster, the
CFL widths of its clusters are multiples of `2^p` of at most `B`, ordered
finest first, the first positive and each an integer multiple of the
preceding one; multiples of the fine unit `2^p'` up to `2 B + 2^p` are
doubles and the tolerance lies between `2^p'` and `2^(p-1)`; all clusters
stand at a common time `t0 ≤ T`, and `t0` and `T` are multiples of `2^p` of
magnitude at most `B`, `T` not before the stored synchronization time.  Then
`advanceInTime(T)` returns, after some number `n` of loop iterations, with
all four queues empty and the full update time of every cluster equal to `T`
up to the tolerance. -/
theorem advanceInTime_reaches_synchronizationTime (p' p : Int) (B t0 T : ℚ)
    (s0 : TimeManager) (hi : Idle s0) (hn : 1 ≤ s0.m_timeStepping.numberOfLocalClusters)
    (hpre : s0.m_timeStepping.synchronizationTime ≤ T) (hc : GridConfig p' p B s0)
    (hpos : 0 < clusterWidth s0.m_timeStepping 0)
    (hnest : ∀ l, l + 1 < s0.m_timeStepping.numberOfLocalClusters →
      ∃ r : Nat, 1 ≤ r
        ∧ clusterWidth s0.m_timeStepping (l + 1) = r * clusterWidth s0.m_timeStepping l)
    (hd0 : Dyadic p t0) (hb0 : |t0| ≤ B) (hdT : Dyadic p T) (hbT : |T| ≤ B) (ht0 : t0 ≤ T)
    (hstart : ∀ l, l < s0.m_timeStepping.numberOfLocalClusters →
      (s0.m_clusters l).m_predictionTime = t0 ∧ (s0.m_clusters l).m_fullUpdateTime = t0) :
    ∃ n t, Ieee.advanceInTime n T s0 = some t ∧ allQueuesEmpty t = true
      ∧ ∀ l, l < s0.m_timeStepping.numberOfLocalClusters →
          |(t.m_clusters l).m_fullUpdateTime - T| < Ieee.getTimeTolerance s0 := by
  have hcfg := finestFirst_of_grid t0 hc hn hpos hnest hd0 hdT hbT
  have hg := gridEntry_of_start t0 hc hd0 hb0 hdT hbT ht0 hstart
  obtain ⟨n, t, ht, _, hq, hfin⟩ := advanceInTime_run t0 T s0 hi hn hpre hcfg ht0 hstart
  refine ⟨n, t, ?_, hq, fun l hl => ?_⟩
  · rw [advanceInTime_exact hi hg n]
    exact ht
  · rw [hfin l hl, sub_self, abs_zero]
    exact lt_of_lt_of_le (pow2_pos p') hc.tolLow

theorem threeClusters_nested (l : Nat)
    (hl : l + 1 < threeClusters.m_timeStepping.numberOfLocalClusters) :
    ∃ r : Nat, 1 ≤ r ∧ clusterWidth threeClusters.m_timeStepping (l + 1)
      = r * clusterWidth threeClusters.m_timeStepping l :=
  threeClusters_finestFirst.nested l hl

/-- C1 (witness): three clusters of widths 1/4, 1/2, 1 that start at time 0
all reach the synchronization time 1. -/
theorem advanceInTime_reaches_synchronizationTime_witness :
    ∃ n t, Ieee.advanceInTime n 1 threeClusters = some t ∧ allQueuesEmpty t = true
      ∧ ∀ l, l < 3 → |(t.m_clusters l).m_fullUpdateTime - 1|
          < Ieee.getTimeTolerance threeClusters :=
  advanceInTime_reaches_synchronizationTime (-20) (-2) 4 0 1 threeClusters threeClusters_idle
    (by decide) (by decide!) threeClusters_gridConfig (by decide!) threeClusters_nested
    (dyadic_zero _) (by decide!) ⟨4, by decide!⟩ (by decide!) (by decide!)
    (fun _ _ => ⟨rfl, rfl⟩)

/-- C13 (counterexample).  In double arithmetic, two runs of two adjacent
clusters of widths with ratio 2 that cover one full time step of the coarser
cluster.  Coarsest first (widths 2 and 1), from time 0, `advanceInTime(2)`
returns with the finer cluster at 1 full update and the coarser cluster at
none.  Finest first (widths 1 and 2), from time `2^37 - 1`,
`advanceInTime(2^37 + 1)` returns with the finer cluster at 1 full update and
the coarser cluster at none: the tolerance `1e-5` is less than half the
distance `2^-15` of the doubles at `2^37`.  In both runs 1 is not 2 times
0. -/
theorem fullUpdates_inconsistent :
    (clusterWidth coarseFirst.m_timeStepping 0 = 2 * clusterWidth coarseFirst.m_timeStepping 1
      ∧ ((Ieee.advanceInTime 2 2 coarseFirst).map fun s =>
          ((s.m_clusters 0).m_numberOfFullUpdates, (s.m_clusters 1).m_numberOfFullUpdates))
        = some (0, 1))
    ∧ (clusterWidth fineFirst.m_timeStepping 1 = 2 * clusterWidth fineFirst.m_timeStepping 0
      ∧ ((setInitialTimes 137438953471 fineFirst).bind fun s =>
          (Ieee.advanceInTime 3 (137438953471 + clusterWidth fineFirst.m_timeStepping 1) s).map
            fun t => ((t.m_clusters 0).m_numberOfFullUpdates,
              (t.m_clusters 1).m_numberOfFullUpdates))
        = some (1, 0)) := by
  refine ⟨⟨?_, ?_⟩, ?_, ?_⟩ <;> decide!

/-- C13 (amended).  In double arithmetic and in the build without `USE_MPI`,
on the grid: the CFL widths of the clusters are multiples of `2^p` of at most
`B`, ordered finest first, the first positive and each an integer multiple
of the preceding one; multiples of the fine unit `2^p'` up to `2 B + 2^p`
are doubles and the tolerance lies between `2^p'` and `2^(p-1)`; all clusters
stand at a common time `t0`, a multiple of `2^p`, and `t0` and `T` are at
most `B` in magnitude.  Let the clusters `l` and `l + 1` be adjacent with
width ratio `r` (the coarser cluster `l + 1` has `r` times the width of `l`),
and let the call `advanceInTime(T)` cover `m` full time steps of the coarser
cluster (`T = t0 + m w(l+1)`; one step for `m = 1`).  The call returns; the
counters, set to 0 at the start of the call, end at `m` full updates for the
coarser cluster and `r` times as many for the finer one. -/
theorem fullUpdates_rate_consistent (p' p : Int) (B t0 T : ℚ) (s0 : TimeManager)
    (hi : Idle s0) (hpre : s0.m_timeStepping.synchronizationTime ≤ T)
    (hc : GridConfig p' p B s0) (hpos : 0 < clusterWidth s0.m_timeStepping 0)
    (hnest : ∀ l, l + 1 < s0.m_timeStepping.numberOfLocalClusters →
      ∃ r : Nat, 1 ≤ r
        ∧ clusterWidth s0.m_timeStepping (l + 1) = r * clusterWidth s0.m_timeStepping l)
    (hd0 : Dyadic p t0) (hb0 : |t0| ≤ B) (hbT : |T| ≤ B)
    (hstart : ∀ l, l < s0.m_timeStepping.numberOfLocalClusters →
      (s0.m_clusters l).m_predictionTime = t0 ∧ (s0.m_clusters l).m_fullUpdateTime = t0)
    (l r m : Nat) (hl : l + 1 < s0.m_timeStepping.numberOfLocalClusters)
    (hr : clusterWidth s0.m_timeStepping (l + 1) = r * clusterWidth s0.m_timeStepping l)
    (hT : T = t0 + m * clusterWidth s0.m_timeStepping (l + 1)) :
    ∃ n t, Ieee.advanceInTime n T s0 = some t
      ∧ (t.m_clusters (l + 1)).m_numberOfFullUpdates = m
      ∧ (t.m_clusters l).m_numberOfFullUpdates
          = r * (t.m_clusters (l + 1)).m_numberOfFullUpdates := by
  have hl0 : l < s0.m_timeStepping.numberOfLocalClusters := by omega
  have hdT : Dyadic p T := by
    rw [hT]
    exact hd0.add ((hc.widths (l + 1) hl).1.natMul m)
  have hcfg := finestFirst_of_grid t0 hc (by omega) hpos hnest hd0 hdT hbT
  have hw1 := hcfg.width_pos (l + 1) hl
  have ht0 : t0 ≤ T := by
    rw [hT]
    have : (0 : ℚ) ≤ m := Nat.cast_nonneg m
    nlinarith
  have hg := gridEntry_of_start t0 hc hd0 hb0 hdT hbT ht0 hstart
  obtain ⟨n, t, ht, hreach, _, hfin⟩ :=
    advanceInTime_run t0 T s0 hi (by omega) hpre hcfg ht0 hstart
  have hc1 := counted_finished t0 T _ _ m hw1
    (reached_counted t0 T s0 t hi hcfg ht0 hstart hreach (l + 1) hl) (hfin (l + 1) hl) hT
  have hc0 := counted_finished t0 T _ _ (m * r) (hcfg.width_pos l hl0)
    (reached_counted t0 T s0 t hi hcfg ht0 hstart hreach l hl0) (hfin l hl0) (by
      rw [hT, hr]
      push_cast
      ring)
  exact ⟨n, t, by rw [advanceInTime_exact hi hg n]; exact ht, hc1,
    by rw [hc0, hc1, Nat.mul_comm]⟩

/-- C13 (witness): of three clusters of widths 1/4, 1/2, 1 run from time 0 to
time 1, one full step of cluster 2, cluster 2 makes 1 full update and
cluster 1 makes 2. -/
theorem fullUpdates_rate_consistent_witness :
    ∃ n t, Ieee.advanceInTime n 1 threeClusters = some t
      ∧ (t.m_clusters 2).m_numberOfFullUpdates = 1
      ∧ (t.m_clusters 1).m_numberOfFullUpdates = 2 * (t.m_clusters 2).m_numberOfFullUpdates :=
  fullUpdates_rate_consistent (-20) (-2) 4 0 1 threeClusters threeClusters_idle
    (by decide!) threeClusters_gridConfig (by decide!) threeClusters_nested
    (dyadic_zero _) (by decide!) (by decide!) (fun _ _ => ⟨rfl, rfl⟩)
    1 2 1 (by decide)
    (by show (1 : ℚ) = (2 : Nat) * (1 / 2); norm_num)
    (by show (1 : ℚ) = 0 + (1 : Nat) * 1; norm_num)

end SeisSol
